import Mathlib

/-!
# Pound `http.c`: the per-connection HTTP worker

A shallow embedding of the request-handling core of the Pound reverse proxy
(`src/http.c`) together with theorems about it.

Conventions of the embedding.

* A C string is a `List Char` without the terminating NUL; a buffer that was
  filled by `BIO_gets` may still hold NUL octets, and the string functions stop
  at the first one (`cstr`).
* A `BIO` is split in its read half (`Source`) and its write half (`Sink`).
  The environment is deterministic and explicit: a source carries the octets
  the peer will deliver and a plan of the outcomes of the successive
  `BIO_read` calls (short reads, errors); a sink carries what was written so
  far and plans of the outcomes of the successive writes and flushes.
* A `BIO *` that may be `NULL` is an `Option`.
* `long` is `Int`; where the C code adds to a `long` the sum is wrapped to
  64 bits (`wrapLong`).
* Loops without a syntactic bound run on fuel and return `none` when the fuel
  is used up; the top-level functions supply a fuel that is proved sufficient
  in the theorems that need a result.
* Constants, types and functions declared in `pound.h` or defined in other
  translation units (`MAXBUF`, `MAXHEADERS`, the compiled regular expressions,
  `check_header`, ...) are parameters.
-/

namespace Pound

/-! ## Machine integers -/

/-- The largest `long` (LP64). -/
def LONG_MAX : Int := 2 ^ 63 - 1

/-- The smallest `long` (LP64). -/
def LONG_MIN : Int := -(2 ^ 63)

/-- Two's complement wrap-around of a 64 bit signed sum. -/
def wrapLong (x : Int) : Int := (x + 2 ^ 63) % 2 ^ 64 - 2 ^ 63

/-! ## Channels -/

/-- Read half of a `BIO`: `inp` are the octets still to be delivered, `rplan`
the outcomes of the coming `BIO_read` calls: `none` is a read error, `some k`
a read that delivers at most `k` octets.  Once the plan is used up every read
delivers all that was asked for (as far as there is input).  `pend` and
`polls` are the answers of the coming `BIO_pending` calls and of the coming
`poll` calls on the descriptor (nothing pending, poll timed out, once they are
used up). -/
structure Source where
  inp : List Char
  rplan : List (Option Nat) := []
  pend : List Nat := []
  polls : List Int := []
  gets_err : Bool := false
  deriving DecidableEq, Repr

/-- Write half of a `BIO`: `out` are the octets accepted so far, `wplan` and
`fplan` say whether the coming writes and flushes succeed (`true`) or fail.
Once a plan is used up every further call succeeds. -/
structure Sink where
  out : List Char
  wplan : List Bool
  fplan : List Bool
  deriving DecidableEq, Repr

/-- The C string held in a buffer: everything before the first NUL. -/
def cstr (buf : List Char) : List Char :=
  buf.takeWhile (fun c => c != '\x00')

/-- The call `BIO_read(b, buf, len)`: result, the octets stored in `buf`, and the
source afterwards. -/
def BIO_read (b : Source) (len : Int) : Int × List Char × Source :=
  match b.rplan with
  | [] =>
    let data := b.inp.take len.toNat
    ((data.length : Int), data, { b with inp := b.inp.drop len.toNat })
  | none :: plan => (-1, [], { b with rplan := plan })
  | some k :: plan =>
    let n := min k len.toNat
    let data := b.inp.take n
    ((data.length : Int), data, { b with inp := b.inp.drop n, rplan := plan })

/-- The line `BIO_gets` cuts off an input: at most `n` octets, ending after the
first newline. Returns the line and the rest of the input. -/
def getsLine : Nat → List Char → List Char × List Char
  | 0, s => ([], s)
  | _ + 1, [] => ([], [])
  | n + 1, c :: s =>
    if c = '\n' then ([c], s)
    else ((c :: (getsLine n s).1), (getsLine n s).2)

/-- The call `BIO_gets(b, buf, size)` on a buffering `BIO`: at most `size - 1`
octets up to and including the first newline; the result is their number. When
no input is left the result is `0` at the end of the stream and `-1` when the
stream ends in a read error (`gets_err`). -/
def BIO_gets (b : Source) (size : Nat) : Int × List Char × Source :=
  let r := getsLine (size - 1) b.inp
  (if b.inp = [] ∧ b.gets_err = true then -1 else (r.1.length : Int), r.1, { b with inp := r.2 })

/-- A write of `data` to a sink that is not `NULL`. -/
def Sink.write (s : Sink) (data : List Char) : Int × Sink :=
  match s.wplan with
  | [] => ((data.length : Int), { s with out := s.out ++ data })
  | true :: plan => ((data.length : Int), { s with out := s.out ++ data, wplan := plan })
  | false :: plan => (-1, { s with wplan := plan })

/-- A flush of a sink that is not `NULL`: `1` on success. -/
def Sink.flush (s : Sink) : Int × Sink :=
  match s.fplan with
  | [] => (1, s)
  | true :: plan => (1, { s with fplan := plan })
  | false :: plan => (-1, { s with fplan := plan })

/-- The call `BIO_write(b, buf, len)`; on a `NULL` `BIO` OpenSSL returns `0`. -/
def BIO_write (b : Option Sink) (data : List Char) : Int × Option Sink :=
  match b with
  | none => (0, none)
  | some s => ((s.write data).1, some (s.write data).2)

/-- The call `BIO_flush(b)`; on a `NULL` `BIO` OpenSSL does not return `1` (the
`BIO_ctrl` behind it returns `0`). -/
def BIO_flush (b : Option Sink) : Int × Option Sink :=
  match b with
  | none => (0, none)
  | some s => (s.flush.1, some s.flush.2)

/-- The call `BIO_puts(b, buf)`: writes the C string in `buf`. -/
def BIO_puts (b : Option Sink) (buf : List Char) : Int × Option Sink :=
  BIO_write b (cstr buf)

/-- The call `BIO_printf(b, "%s\r\n", buf)`. -/
def BIO_printf_line (b : Option Sink) (buf : List Char) : Int × Option Sink :=
  BIO_write b (cstr buf ++ ['\r', '\n'])

/-- A source whose planned reads are all short reads of at least one octet
(no read error, no read of nothing). -/
def Source.readsPositive (s : Source) : Prop :=
  ∀ e ∈ s.rplan, 0 < Option.getD e 0

instance (s : Source) : Decidable s.readsPositive := by
  unfold Source.readsPositive; infer_instance

/-- A sink on which every planned write and flush succeeds. -/
def Sink.accepts (s : Sink) : Prop :=
  (∀ e ∈ s.wplan, e = true) ∧ (∀ e ∈ s.fplan, e = true)

instance (s : Sink) : Decidable s.accepts := by
  unfold Sink.accepts; infer_instance

/-! ## `copy_bin` -/

/-- What `copy_bin` and `copy_chunks` leave behind: the return value, both
channels and the counter behind `res_bytes` (`none` for a `NULL` pointer). -/
structure CopyResult where
  ret : Int
  cl : Source
  be : Option Sink
  res_bytes : Option Int
  deriving DecidableEq, Repr

/-- The `while(cont > 0L)` loop of `copy_bin`, one iteration per unit of fuel. -/
def copy_bin_loop (MAXBUF : Nat) :
    Nat → Source → Option Sink → Int → Option Int → Bool → Option CopyResult
  | 0, _, _, _, _, _ => none
  | fuel + 1, cl, be, cont, res_bytes, no_write =>
    if cont > 0 then
      let rd := BIO_read cl (if cont > (MAXBUF : Int) then (MAXBUF : Int) else cont)
      let res := rd.1
      let buf := rd.2.1
      let cl := rd.2.2
      if res < 0 then some ⟨-1, cl, be, res_bytes⟩
      else if res = 0 then some ⟨-2, cl, be, res_bytes⟩
      else
        let wr := if no_write then (res, be) else BIO_write be buf
        if wr.1 ≠ res then some ⟨-3, cl, wr.2, res_bytes⟩
        else
          let fl := BIO_flush wr.2
          if fl.1 ≠ 1 then some ⟨-4, cl, fl.2, res_bytes⟩
          else
            copy_bin_loop MAXBUF fuel cl fl.2 (cont - res)
              (res_bytes.map (fun r => wrapLong (r + res))) no_write
    else some ⟨0, cl, be, res_bytes⟩

/-- The function `copy_bin(cl, be, cont, res_bytes, no_write)`.  Every iteration
of the loop that goes on lowers `cont` by at least one, so `cont + 1` units of
fuel are never used up. -/
def copy_bin (MAXBUF : Nat) (cl : Source) (be : Option Sink) (cont : Int)
    (res_bytes : Option Int) (no_write : Bool) : Option CopyResult :=
  copy_bin_loop MAXBUF (cont.toNat + 1) cl be cont res_bytes no_write

/-! ## C library -/

/-- The predicate `isspace` in the C locale. -/
def isspace (c : Char) : Bool :=
  c = ' ' || c = '\t' || c = '\n' || c = '\x0b' || c = '\x0c' || c = '\r'

/-- Value of a character as a digit, as `strtol` reads it: `0`-`9`, then the
letters of either case from 10 on. -/
def digitVal (c : Char) : Option Nat :=
  if '0' ≤ c ∧ c ≤ '9' then some (c.toNat - '0'.toNat)
  else if 'a' ≤ c ∧ c ≤ 'z' then some (c.toNat - 'a'.toNat + 10)
  else if 'A' ≤ c ∧ c ≤ 'Z' then some (c.toNat - 'A'.toNat + 10)
  else none

/-- Whether `c` is a digit in `base`. -/
def isDigitIn (base : Nat) (c : Char) : Bool :=
  match digitVal c with
  | some d => decide (d < base)
  | none => false

/-- The number spelled by the leading digits (in `base`) of `s`, on top of `acc`. -/
def digitsValue (base : Nat) : Nat → List Char → Nat
  | acc, [] => acc
  | acc, c :: s =>
    match digitVal c with
    | some d => if d < base then digitsValue base (base * acc + d) s else acc
    | none => acc

/-- The call `strtol(s, NULL, base)` for `base` 10 or 16: leading white space, an
optional sign, for base 16 an optional `0x`, then the longest run of digits;
out of range values are clamped to `LONG_MIN` / `LONG_MAX`. -/
def strtol (s : List Char) (base : Nat) : Int :=
  let s1 := s.dropWhile isspace
  let neg := s1.head? = some '-'
  let s2 := if s1.head? = some '-' ∨ s1.head? = some '+' then s1.tail else s1
  let s3 :=
    match s2 with
    | z :: x :: d :: t =>
      if base = 16 ∧ z = '0' ∧ (x = 'x' ∨ x = 'X') ∧ isDigitIn 16 d then d :: t else s2
    | _ => s2
  let v : Int := digitsValue base 0 s3
  if neg then max (-v) LONG_MIN else min v LONG_MAX

/-- The call `atol(s)`, which is `strtol(s, NULL, 10)`. -/
def atol (s : List Char) : Int := strtol s 10

/-! ## `strip_eol` -/

/-- The function `strip_eol(lin)`: the C string in `lin` is cut at the first
`\n` or `\r\n`. -/
def strip_eol : List Char → List Char
  | [] => []
  | c :: rest =>
    if c = '\x00' then []
    else if c = '\n' ∨ (c = '\r' ∧ rest.head? = some '\n') then []
    else c :: strip_eol rest

/-! ## `copy_chunks` -/

/-- The second loop of `copy_chunks` ("possibly trailing headers"), one line per
unit of fuel. -/
def copy_chunks_trailers (MAXBUF : Nat) :
    Nat → Source → Option Sink → Option Int → Bool → Option CopyResult
  | 0, _, _, _, _ => none
  | fuel + 1, cl, be, res_bytes, no_write =>
    let g := BIO_gets cl MAXBUF
    if g.1 ≤ 0 then some ⟨-7, g.2.2, be, res_bytes⟩
    else
      let w := if no_write then (1, be) else BIO_puts be g.2.1
      if w.1 ≤ 0 then some ⟨-8, g.2.2, w.2, res_bytes⟩
      else
        let f := if no_write then (1, w.2) else BIO_flush w.2
        if f.1 ≠ 1 then some ⟨-4, g.2.2, f.2, res_bytes⟩
        else if strip_eol g.2.1 = [] then some ⟨0, g.2.2, f.2, res_bytes⟩
        else copy_chunks_trailers MAXBUF fuel g.2.2 f.2 res_bytes no_write

/-- The first loop of `copy_chunks`, one chunk per unit of fuel; on the chunk of
size zero it goes on to the trailers.  `CHUNK_HEAD` says whether the regular
expression of that name matches a line. -/
def copy_chunks_loop (MAXBUF : Nat) (CHUNK_HEAD : List Char → Bool) (max_size : Int) (no_write : Bool) :
    Nat → Source → Option Sink → Option Int → Int → Option CopyResult
  | 0, _, _, _, _ => none
  | fuel + 1, cl, be, res_bytes, tot_size =>
    let g := BIO_gets cl MAXBUF
    if g.1 ≤ 0 then some ⟨-1, g.2.2, be, res_bytes⟩
    else
      let buf := strip_eol g.2.1
      if CHUNK_HEAD buf = false then some ⟨-2, g.2.2, be, res_bytes⟩
      else
        let cont := strtol buf 16
        let w := if no_write then (1, be) else BIO_printf_line be buf
        if w.1 ≤ 0 then some ⟨-3, g.2.2, w.2, res_bytes⟩
        else
          let tot_size := wrapLong (tot_size + cont)
          if max_size > 0 ∧ tot_size > max_size then some ⟨-4, g.2.2, w.2, res_bytes⟩
          else if cont > 0 then
            match copy_bin MAXBUF g.2.2 w.2 cont res_bytes no_write with
            | none => none
            | some r =>
              if r.ret ≠ 0 then some ⟨-4, r.cl, r.be, r.res_bytes⟩
              else
                let g2 := BIO_gets r.cl MAXBUF
                if g2.1 ≤ 0 then some ⟨-5, g2.2.2, r.be, r.res_bytes⟩
                else
                  let w2 := if no_write then (1, r.be) else BIO_printf_line r.be (strip_eol g2.2.1)
                  if w2.1 ≤ 0 then some ⟨-6, g2.2.2, w2.2, r.res_bytes⟩
                  else copy_chunks_loop MAXBUF CHUNK_HEAD max_size no_write fuel g2.2.2 w2.2
                    r.res_bytes tot_size
          else
            copy_chunks_trailers MAXBUF (g.2.2.inp.length + 1) g.2.2 w.2 res_bytes no_write

/-- The function `copy_chunks(cl, be, res_bytes, no_write, max_size)`.  Every line
read takes at least one octet of the input, so the fuel given to the loops is
never used up. -/
def copy_chunks (MAXBUF : Nat) (CHUNK_HEAD : List Char → Bool) (cl : Source) (be : Option Sink)
    (res_bytes : Option Int) (no_write : Bool) (max_size : Int) : Option CopyResult :=
  copy_chunks_loop MAXBUF CHUNK_HEAD max_size no_write (cl.inp.length + 1) cl be res_bytes 0

/-! ### Well-formed chunked bodies -/

/-- The two octets CR LF. -/
def crlf : List Char := ['\r', '\n']

/-- Hexadecimal digits. -/
def isHexDigit (c : Char) : Bool :=
  ('0' ≤ c && c ≤ '9') || ('a' ≤ c && c ≤ 'f') || ('A' ≤ c && c ≤ 'F')

/-- The value of one hexadecimal digit. -/
def hexDigitValue (c : Char) : Nat :=
  if '0' ≤ c ∧ c ≤ '9' then c.toNat - 48
  else if 'a' ≤ c ∧ c ≤ 'f' then c.toNat - 87
  else c.toNat - 55

/-- The number a string of hexadecimal digits spells. -/
def hexValue (ds : List Char) : Nat :=
  ds.foldl (fun acc c => 16 * acc + hexDigitValue c) 0

/-- One chunk on the wire: the digits of its size line and its octets. -/
structure Chunk where
  size : List Char
  data : List Char
  deriving DecidableEq, Repr

/-- A chunk as it is sent: size line, CRLF, the octets, CRLF. -/
def Chunk.wire (c : Chunk) : List Char :=
  c.size ++ crlf ++ c.data ++ crlf

/-- A chunk is well formed when its size line is a hexadecimal number that
fits the line buffer together with its CRLF, and the chunk holds exactly that
many octets, at least one and no more than a `long` can count. -/
def Chunk.wellFormed (MAXBUF : Nat) (c : Chunk) : Prop :=
  c.size ≠ [] ∧ (∀ ch ∈ c.size, isHexDigit ch = true) ∧ c.size.length + 2 < MAXBUF ∧
    hexValue c.size = c.data.length ∧ 0 < c.data.length ∧ (c.data.length : Int) ≤ LONG_MAX

/-- A chunked body: the chunks, the digits of the closing size line of value
zero, and the trailer lines (without their CRLF). -/
structure ChunkedBody where
  chunks : List Chunk
  last : List Char
  trailers : List (List Char)
  deriving DecidableEq, Repr

/-- A chunked body as it is sent. -/
def ChunkedBody.wire (b : ChunkedBody) : List Char :=
  (b.chunks.map Chunk.wire).flatten ++ (b.last ++ crlf)
    ++ (b.trailers.map (fun t => t ++ crlf)).flatten ++ crlf

/-- A line of text that fits the line buffer with its CRLF: not empty, without
newline and without NUL. -/
def textLine (MAXBUF : Nat) (t : List Char) : Prop :=
  t ≠ [] ∧ (∀ ch ∈ t, ch ≠ '\n' ∧ ch ≠ '\x00') ∧ t.length + 2 < MAXBUF

instance (MAXBUF : Nat) (t : List Char) : Decidable (textLine MAXBUF t) := by
  unfold textLine; infer_instance

/-- Well-formed chunked body: well-formed chunks, a closing size line of zeros
and trailer lines that each fit the line buffer. -/
def ChunkedBody.wellFormed (MAXBUF : Nat) (b : ChunkedBody) : Prop :=
  (∀ c ∈ b.chunks, c.wellFormed MAXBUF) ∧
    b.last ≠ [] ∧ (∀ ch ∈ b.last, ch = '0') ∧ b.last.length + 2 < MAXBUF ∧
    (∀ t ∈ b.trailers, textLine MAXBUF t)

/-- The chunk-header expression accepts (at least) every hexadecimal number. -/
def acceptsHexLines (CHUNK_HEAD : List Char → Bool) : Prop :=
  ∀ l : List Char, l ≠ [] → (∀ ch ∈ l, isHexDigit ch = true) → CHUNK_HEAD l = true

/-- A chunk-header matcher for examples: a hexadecimal number, then anything. -/
def chunkHeadSample (l : List Char) : Bool :=
  match l with
  | [] => false
  | c :: _ => isHexDigit c

/-- The body `5\r\nhello\r\n0\r\n\r\n`: one chunk of five octets, no trailer. -/
def helloBody : ChunkedBody :=
  { chunks := [{ size := ['5'], data := ['h', 'e', 'l', 'l', 'o'] }], last := ['0'], trailers := [] }

/-! ## Error replies and `get_headers` -/

/-- A `BIO` as `thr_http` holds it: both halves. -/
structure BIO where
  src : Source
  snk : Sink
  deriving DecidableEq, Repr

/-- Status text of the reply of that number. -/
def h500 : List Char := "500 Internal Server Error".toList

/-- Status text of the reply of that number. -/
def h501 : List Char := "501 Not Implemented".toList

/-- Status text of the reply of that number. -/
def h503 : List Char := "503 Service Unavailable".toList

/-- Status text of the reply of that number. -/
def h414 : List Char := "414 Request URI too long".toList

/-- The text `err_response` formats for a status line `head` and a body `txt`. -/
def err_response (head txt : List Char) : List Char :=
  "HTTP/1.0 ".toList ++ cstr head ++ "\r\nContent-Type: text/html\r\nContent-Length: ".toList
    ++ (Nat.repr (cstr txt).length).toList ++ "\r\n\r\n".toList ++ cstr txt

/-- The function `err_reply(c, head, txt)`: one formatted write and a flush, the
results of both ignored. -/
def err_reply (c : Sink) (head txt : List Char) : Sink :=
  ((c.write (err_response head txt)).2.flush).2

/-- The part of a `LISTENER` (declared in `pound.h`) that `http.c` reads.  A
compiled regular expression is the function that says whether (and where) it
matches: `verb` gives the texts of its groups 1 and 2, the method and the URL.
The field `to` is spelled `to_`. -/
structure LISTENER where
  to_ : Int
  ctx : Bool
  clnt_check : Int
  noHTTPS11 : Int
  ssl_head : Option (List Char)
  verb : List Char → Option (List Char × List Char)
  url_pat : List Char → Bool
  err414 : List Char
  err500 : List Char
  err501 : List Char
  err503 : List Char
  max_req : Int
  head_off : List (List Char → Bool)
  rewr_loc : Int
  rewr_dest : Int

/-- The first loop of `get_headers` ("HTTP/1.1 allows leading CRLF"): reads lines
until one is not empty or a read gives nothing.  The result is `res`, the
stripped `buf` and the source; one line per unit of fuel. -/
def get_headers_start (MAXBUF : Nat) : Nat → Source → Option (Int × List Char × Source)
  | 0, _ => none
  | fuel + 1, inp =>
    let g := BIO_gets inp MAXBUF
    if g.1 > 0 then
      if strip_eol g.2.1 ≠ [] then some (g.1, strip_eol g.2.1, g.2.2)
      else get_headers_start MAXBUF fuel g.2.2
    else some (g.1, [], g.2.2)

/-- The `for(n = 0; n < MAXHEADERS; n++)` loop of `get_headers` with `left`
rounds to go: stores `buf` as the next header, reads the next line, and
returns the headers at the empty line.  `none` stands for both failures that
are answered by a 500: a line that cannot be read and a header too many. -/
def get_headers_lines (MAXBUF : Nat) :
    Nat → List Char → List (List Char) → Source → Option (List (List Char)) × Source
  | 0, _, _, inp => (none, inp)
  | left + 1, buf, headers, inp =>
    let headers := headers ++ [buf.take (MAXBUF - 1)]
    let g := BIO_gets inp MAXBUF
    if g.1 ≤ 0 then (none, g.2.2)
    else if strip_eol g.2.1 = [] then (some headers, g.2.2)
    else get_headers_lines MAXBUF left (strip_eol g.2.1) headers g.2.2

/-- What `get_headers` leaves behind: the header lines (`none` for `NULL`), the
source it read and the client sink it may have written a reply to. -/
structure HeadersResult where
  headers : Option (List (List Char))
  inp : Source
  cl : Sink
  deriving DecidableEq, Repr

/-- The function `get_headers(in, cl, lstn)`.  Allocation is taken to succeed. -/
def get_headers (MAXBUF MAXHEADERS : Nat) (lstn : LISTENER) (inp : Source) (cl : Sink) :
    Option HeadersResult :=
  match get_headers_start MAXBUF (inp.inp.length + 1) inp with
  | none => none
  | some (res, buf, inp1) =>
    if res ≤ 0 then some ⟨none, inp1, cl⟩
    else if res ≥ (MAXBUF : Int) - 1 then some ⟨none, inp1, err_reply cl h414 lstn.err414⟩
    else
      match get_headers_lines MAXBUF MAXHEADERS buf [] inp1 with
      | (some headers, inp2) => some ⟨some headers, inp2, cl⟩
      | (none, inp2) => some ⟨none, inp2, err_reply cl h500 lstn.err500⟩

/-! ## The environment of `thr_http` -/

/-- The values `check_header` (defined in `svc.c`) returns. -/
inductive HeaderKind where
  | HEADER_ILLEGAL
  | HEADER_OTHER
  | HEADER_TRANSFER_ENCODING
  | HEADER_CONTENT_LENGTH
  | HEADER_CONNECTION
  | HEADER_LOCATION
  | HEADER_CONTLOCATION
  | HEADER_HOST
  | HEADER_REFERER
  | HEADER_USER_AGENT
  | HEADER_DESTINATION
  deriving DecidableEq, Repr

open HeaderKind

/-- The two kinds of back-end (`be_type`). -/
inductive BE_TYPE where
  | BACK_END
  | REDIRECTOR
  deriving DecidableEq, Repr

/-- The part of a `BACKEND` (declared in `pound.h`) that `http.c` reads; `addr` is
the text `str_be` prints for it.  Two back-ends are the same when their records
are equal.  The field `to` is spelled `to_`. -/
structure BACKEND where
  be_type : BE_TYPE
  addr : List Char
  to_ : Int
  url : List Char
  redir_req : Bool
  deriving DecidableEq, Repr

/-- The certificate of the peer as `thr_http` prints it: one text per header,
the PEM form as its first line and the lines after it. -/
structure X509 where
  subject : List Char
  issuer : List Char
  notBefore : List Char
  notAfter : List Char
  serial : Int
  pem_first : List Char
  pem_rest : List (List Char)
  deriving DecidableEq, Repr

/-- The SSL session of the connection: the peer certificate, if any, and the
description of the cipher, if any. -/
structure SSL where
  x509 : Option X509
  cipher : Option (List Char)
  deriving DecidableEq, Repr

/-- What is defined outside `http.c` and stays the same for a connection: the
constants of `pound.h`, `check_header`, the compiled expressions (`LOCATION`
gives the text from the start of its group 3 on), `need_rewrite` (which gives
the path it stored in `loc_path` when it returns non-zero), and the text of
the client address. -/
structure Env where
  MAXBUF : Nat
  MAXHEADERS : Nat
  check_header : List Char → HeaderKind × List Char
  CHUNK_HEAD : List Char → Bool
  RESP_SKIP : List Char → Bool
  RESP_IGN : List Char → Bool
  LOCATION : List Char → Option (List Char)
  need_rewrite : Int → List Char → BACKEND → Option (List Char)
  caddr : List Char

/-- What connecting to a back-end gives: `socket` fails, `connect_nb` fails,
`BIO_new_socket` fails, the `BIO_new` of the buffer fails, or a channel. -/
inductive Connect where
  | sock_fail
  | conn_fail
  | bio_fail
  | buf_fail
  | ok (b : BIO)
  deriving DecidableEq, Repr

/-- What the outside answers while one request is handled: whether
`get_service` finds a service, and the back-ends `get_backend` returns call
after call, each with the outcome of connecting to it (`NULL` once the list
is used up). -/
structure ReqEnv where
  svc : Bool
  picks : List (BACKEND × Connect)
  deriving DecidableEq, Repr

/-! ## C library, continued -/

/-- Whether `strcasecmp(a, b)` is 0. -/
def strcasecmp_eq (a b : List Char) : Bool :=
  (cstr a).map Char.toLower == (cstr b).map Char.toLower

/-- Whether `strncasecmp(a, b, n)` is 0. -/
def strncasecmp_eq (a b : List Char) (n : Nat) : Bool :=
  ((cstr a).take n).map Char.toLower == ((cstr b).take n).map Char.toLower

/-- Whether `strstr(hay, needle)` is not `NULL`. -/
def strstr_found : List Char → List Char → Bool
  | [], needle => needle.isEmpty
  | c :: hay, needle => needle.isPrefixOf (c :: hay) || strstr_found hay needle

/-- The decimal text of a `long`, as `%ld` prints it. -/
def fmt_ld (n : Int) : List Char :=
  if n < 0 then '-' :: (Nat.repr n.natAbs).toList else (Nat.repr n.natAbs).toList

/-- The call `snprintf(buf, size, ...)` that formats `text`: at most `size - 1`
octets are stored. -/
def snprintf (size : Nat) (text : List Char) : List Char :=
  text.take (size - 1)

/-! ## `is_readable` and `redirect_reply` -/

/-- The call `BIO_pending(b)`. -/
def BIO_pending (b : Source) : Nat × Source :=
  match b.pend with
  | [] => (0, b)
  | k :: rest => (k, { b with pend := rest })

/-- The call `poll(&p, 1, timeout)` for reading on the descriptor under `b`. -/
def poll_in (b : Source) : Int × Source :=
  match b.polls with
  | [] => (0, b)
  | k :: rest => (k, { b with polls := rest })

/-- The function `is_readable(bio, to_wait)`. -/
def is_readable (bio : Source) : Bool × Source :=
  if (BIO_pending bio).1 > 0 then (true, (BIO_pending bio).2)
  else (decide ((poll_in (BIO_pending bio).2).1 > 0), (poll_in (BIO_pending bio).2).2)

/-- The body `redirect_reply` formats for `url`. -/
def redirect_cont (MAXBUF : Nat) (url : List Char) : List Char :=
  snprintf MAXBUF
    ("<html><head><title>Redirect</title></head><body><h1>Redirect</h1><p>You should go to <a href=\"".toList
      ++ cstr url ++ "\">".toList ++ cstr url ++ "</a></p></body></html>".toList)

/-- The head `redirect_reply` formats for `url`. -/
def redirect_rep (MAXBUF : Nat) (url : List Char) : List Char :=
  snprintf MAXBUF
    ("HTTP/1.0 302 Found\r\nLocation: ".toList ++ cstr url
      ++ "\r\nContent-Type: text/html\r\nContent-Length: ".toList
      ++ (Nat.repr (redirect_cont MAXBUF url).length).toList ++ "\r\n\r\n".toList)

/-- The function `redirect_reply(c, url)`: two writes and a flush, the results
ignored. -/
def redirect_reply (MAXBUF : Nat) (c : Sink) (url : List Char) : Sink :=
  (((c.write (redirect_rep MAXBUF url)).2.write (redirect_cont MAXBUF url)).2.flush).2

/-! ## `thr_http`: before the loop -/

/-- How a round of the `for(cl_11 = be_11 = 0;;)` loop of `thr_http` ends: with
`clean_all(); pthread_exit(NULL)` inside the loop, with `break`, or by going
on to the next round. -/
inductive Next where
  | exit
  | stop
  | again
  deriving DecidableEq, Repr

/-- The local variables of `thr_http` that the loop reads and writes.  The
array `headers` is the list of its entries that are not `NULL`, and
`headers_ok` is kept for those entries. -/
structure Locals where
  cl : BIO
  be : Option BIO := none
  cur_backend : Option BACKEND := none
  cl_11 : Bool := false
  be_11 : Bool := false
  headers : List (List Char) := []
  headers_ok : List Bool := []
  request : List Char := []
  response : List Char := []
  url : List Char := []
  v_host : List Char := []
  referer : List Char := []
  u_agent : List Char := []
  chunked : Bool := false
  cont : Int := 0
  no_cont : Bool := false
  skip : Bool := false
  conn_closed : Bool := false
  force_10 : Bool := false
  res_bytes : Int := 0
  deriving DecidableEq, Repr

/-- A stretch of the loop body either falls through to the next stretch or
ends the round. -/
inductive Step where
  | go (l : Locals)
  | fin (n : Next) (l : Locals)
  deriving DecidableEq, Repr

/-- The statement `err_reply(cl, head, txt)` on the locals. -/
def Locals.reply (l : Locals) (head txt : List Char) : Locals :=
  { l with cl := { l.cl with snk := err_reply l.cl.snk head txt } }

/-- The write half of `be`, `NULL` when `be` is. -/
def Locals.beSink (l : Locals) : Option Sink :=
  l.be.map (fun b => b.snk)

/-- Stores the write half of `be` back after calls that wrote to it. -/
def Locals.setBeSink (l : Locals) (s : Option Sink) : Locals :=
  { l with be := l.be.map (fun b => { b with snk := s.getD b.snk }) }

/-- Lines 507-549: the per-request resets, `get_headers(cl, cl, lstn)` and the
checks of the request line. -/
def thr_http_read_request (env : Env) (lstn : LISTENER) (l : Locals) : Option Step :=
  let l := { l with res_bytes := 0, v_host := [], referer := [], u_agent := [],
                    conn_closed := false }
  match get_headers env.MAXBUF env.MAXHEADERS lstn l.cl.src l.cl.snk with
  | none => none
  | some r =>
    let l := { l with cl := { src := r.inp, snk := r.cl } }
    match r.headers with
    | none => some (.fin .exit l)
    | some headers =>
      let l := { l with headers := headers, headers_ok := headers.map (fun _ => true),
                        request := headers.headD [] }
      match lstn.verb l.request with
      | none => some (.fin .exit (l.reply h501 lstn.err501))
      | some (method, url) =>
        let l := { l with no_cont := strncasecmp_eq method "HEAD".toList method.length,
                          cl_11 := decide (l.request.getLast? = some '1'),
                          url := url }
        if lstn.url_pat url = false then some (.fin .exit (l.reply h501 lstn.err501))
        else some (.go l)

/-- One round of the `check other headers` loop (lines 552-597) for the header
`h`: the locals afterwards and `headers_ok[n]`.  Lines 598-626, which only
compute the user name for the log, are left out. -/
def request_header (env : Env) (lstn : LISTENER) (l : Locals) (h : List Char) : Locals × Bool :=
  let buf := (env.check_header h).2
  let r : Locals × Bool :=
    match (env.check_header h).1 with
    | HEADER_HOST => ({ l with v_host := cstr buf }, true)
    | HEADER_REFERER => ({ l with referer := cstr buf }, true)
    | HEADER_USER_AGENT => ({ l with u_agent := cstr buf }, true)
    | HEADER_CONNECTION =>
      (if strcasecmp_eq "close".toList buf then { l with conn_closed := true } else l, true)
    | HEADER_TRANSFER_ENCODING =>
      if l.cont ≠ 0 then (l, false)
      else if strcasecmp_eq "chunked".toList buf then
        if l.chunked then (l, false) else ({ l with chunked := true }, true)
      else (l, true)
    | HEADER_CONTENT_LENGTH =>
      if l.chunked then (l, false) else ({ l with cont := atol buf }, true)
    | HEADER_ILLEGAL => (l, false)
    | _ => (l, true)
  (r.1, if r.2 then lstn.head_off.foldl (fun _ m => !(m h)) r.2 else r.2)

/-- The `check other headers` loop over the headers after the request line: the
locals afterwards and the entries of `headers_ok` for these headers. -/
def request_headers (env : Env) (lstn : LISTENER) : Locals → List (List Char) → Locals × List Bool
  | l, [] => (l, [])
  | l, h :: hs =>
    ((request_headers env lstn (request_header env lstn l h).1 hs).1,
      (request_header env lstn l h).2 :: (request_headers env lstn (request_header env lstn l h).1 hs).2)

/-- Lines 551-637: the classification of the request headers and the limit on
the request size. -/
def thr_http_classify (env : Env) (lstn : LISTENER) (l : Locals) : Step :=
  let r := request_headers env lstn { l with chunked := false, cont := 0 } l.headers.tail
  let l : Locals := { r.1 with headers_ok := true :: r.2 }
  if lstn.max_req > 0 ∧ l.cont > 0 ∧ l.cont > lstn.max_req then
    .fin .exit (l.reply h501 lstn.err501)
  else .go l

/-- The `while(be == NULL && backend->be_type == BACK_END)` loop (lines 671-750)
for the back-end `backend`, what connecting to it gives, and the further
answers of `get_backend`: the back-end and channel it ends with, or `none`
when it ends in a 503. -/
def connect_loop : BACKEND → Connect → List (BACKEND × Connect) → Option (BACKEND × Option BIO)
  | backend, c, picks =>
    if backend.be_type ≠ BE_TYPE.BACK_END then some (backend, none)
    else
      match c with
      | .ok b => some (backend, some b)
      | .conn_fail =>
        match picks with
        | [] => none
        | p :: rest => connect_loop p.1 p.2 rest
      | _ => none

/-- Lines 639-758: the check of the old channel, the choice of the service and
the back-end, and the connection.  The result is the back-end the request goes
to (`cur_backend` from here on), or `none` when the round ends here with a 503
and `pthread_exit`. -/
def thr_http_backend (lstn : LISTENER) (renv : ReqEnv) (l : Locals) : Option BACKEND × Locals :=
  let l : Locals :=
    match l.be with
    | none => l
    | some b =>
      if (is_readable b.src).1 then { l with be := none }
      else { l with be := some { b with src := (is_readable b.src).2 } }
  if renv.svc = false then (none, l.reply h503 lstn.err503)
  else
    match renv.picks with
    | [] => (none, l.reply h503 lstn.err503)
    | (backend, c) :: picks =>
      let l : Locals :=
        if l.be.isSome ∧ some backend ≠ l.cur_backend then { l with be := none } else l
      match l.be with
      | some _ =>
        let l := { l with cur_backend := some backend }
        (some backend, if backend.be_type ≠ BE_TYPE.BACK_END then { l with be := none } else l)
      | none =>
        match connect_loop backend c picks with
        | none => (none, l.reply h503 lstn.err503)
        | some (backend, be) =>
          let l := { l with be := be, cur_backend := some backend }
          (some backend,
            if l.be.isSome ∧ backend.be_type ≠ BE_TYPE.BACK_END then { l with be := none } else l)

/-- The `send the request` loop (lines 762-790) over the headers with their
`headers_ok`: whether every write went through, and the channel afterwards.
A `Destination` that `LOCATION` does not match ends the loop (`break`). -/
def send_request_headers (env : Env) (lstn : LISTENER) (backend : BACKEND) :
    List (List Char × Bool) → Option Sink → Bool × Option Sink
  | [], be => (true, be)
  | (h, ok) :: rest, be =>
    if ok = false then send_request_headers env lstn backend rest be
    else if lstn.rewr_dest ≠ 0 ∧ (env.check_header h).1 = HEADER_DESTINATION then
      match env.LOCATION (env.check_header h).2 with
      | none => (true, be)
      | some loc_path =>
        let h := snprintf env.MAXBUF
          ("Destination: http://".toList ++ cstr backend.addr ++ ['/'] ++ cstr loc_path)
        if (BIO_printf_line be h).1 ≤ 0 then (false, (BIO_printf_line be h).2)
        else send_request_headers env lstn backend rest (BIO_printf_line be h).2
    else
      if (BIO_printf_line be h).1 ≤ 0 then (false, (BIO_printf_line be h).2)
      else send_request_headers env lstn backend rest (BIO_printf_line be h).2

/-- The texts lines 797-889 print to the back-end for an SSL connection. -/
def ssl_lines (lstn : LISTENER) (ssl : SSL) : List (List Char) :=
  (match lstn.ssl_head with
    | some h => [cstr h ++ crlf]
    | none => [])
  ++
  (match ssl.x509 with
    | some x =>
      if lstn.clnt_check > 0 then
        ["X-SSL-Subject: ".toList ++ cstr x.subject ++ crlf,
         "X-SSL-Issuer: ".toList ++ cstr x.issuer ++ crlf,
         "X-SSL-notBefore: ".toList ++ cstr x.notBefore ++ crlf,
         "X-SSL-notAfter: ".toList ++ cstr x.notAfter ++ crlf,
         "X-SSL-serial: ".toList ++ fmt_ld x.serial ++ crlf,
         "X-SSL-certificate: ".toList ++ strip_eol x.pem_first ++ crlf]
        ++ x.pem_rest.map (fun t => '\t' :: strip_eol t ++ crlf)
        ++ (match ssl.cipher with
            | some d => ["X-SSL-cipher: ".toList ++ strip_eol d ++ crlf]
            | none => [])
      else []
    | none => [])

/-- Writes the texts one `BIO_printf` each and stops at the first that returns
0 or less: whether all went through, and the channel afterwards. -/
def write_lines : List (List Char) → Option Sink → Bool × Option Sink
  | [], be => (true, be)
  | t :: ts, be =>
    if (BIO_write be t).1 ≤ 0 then (false, (BIO_write be t).2)
    else write_lines ts (BIO_write be t).2

/-- Lines 760-900: the request head as it is sent to a back-end of type
`BACK_END`: the headers, the SSL headers, `X-Forwarded-For` and the empty
line. -/
def thr_http_send_head (env : Env) (lstn : LISTENER) (ssl : Option SSL) (backend : BACKEND)
    (l : Locals) : Step :=
  if backend.be_type ≠ BE_TYPE.BACK_END then .go l
  else
    let s := send_request_headers env lstn backend (l.headers.zip l.headers_ok) l.beSink
    if s.1 = false then .fin .exit ((l.setBeSink s.2).reply h500 lstn.err500)
    else
      let t := match ssl with
        | some sl => write_lines (ssl_lines lstn sl) s.2
        | none => (true, s.2)
      if t.1 = false then .fin .exit ((l.setBeSink t.2).reply h500 lstn.err500)
      else
        let x := BIO_write t.2 ("X-Forwarded-For: ".toList ++ cstr env.caddr ++ crlf)
        .go (l.setBeSink (BIO_puts x.2 crlf).2)

/-- Lines 902-926: the request body and the flush to the back-end. -/
def thr_http_send_body (env : Env) (lstn : LISTENER) (backend : BACKEND) (l : Locals) :
    Option Step :=
  let no_write := decide (backend.be_type ≠ BE_TYPE.BACK_END)
  let r : Option CopyResult :=
    if l.cl_11 ∧ l.chunked then
      copy_chunks env.MAXBUF env.CHUNK_HEAD l.cl.src l.beSink none no_write lstn.max_req
    else if l.cont > 0 then
      copy_bin env.MAXBUF l.cl.src l.beSink l.cont none no_write
    else some ⟨0, l.cl.src, l.beSink, none⟩
  match r with
  | none => none
  | some r =>
    let l := ({ l with cl := { l.cl with src := r.cl } }).setBeSink r.be
    if r.ret ≠ 0 then some (.fin .exit (l.reply h500 lstn.err500))
    else if backend.be_type = BE_TYPE.BACK_END ∧ (BIO_flush l.beSink).1 ≠ 1 then
      some (.fin .exit ((l.setBeSink (BIO_flush l.beSink).2).reply h500 lstn.err500))
    else if backend.be_type = BE_TYPE.BACK_END then
      some (.go (l.setBeSink (BIO_flush l.beSink).2))
    else some (.go l)

/-- Lines 934-944: the value of `force_10`. -/
def force_10_of (lstn : LISTENER) (ssl : Option SSL) (u_agent : List Char) : Bool :=
  if lstn.noHTTPS11 = 1 then ssl.isSome
  else if lstn.noHTTPS11 = 2 then ssl.isSome && strstr_found u_agent "MSIE".toList
  else false

/-- Lines 1197-1206, and 977-979 for a redirector: the round ends with `break`
when `!cl_11 || conn_closed || force_10`, and goes on otherwise. -/
def keep_alive (l : Locals) : Next :=
  if !l.cl_11 || l.conn_closed || l.force_10 then .stop else .again

/-- Lines 946-980: the reply for a redirector. -/
def thr_http_redirect (env : Env) (backend : BACKEND) (l : Locals) : Step :=
  if backend.be_type = BE_TYPE.REDIRECTOR then
    let buf :=
      if backend.redir_req then snprintf (env.MAXBUF - 1) (cstr backend.url ++ cstr l.url)
      else (cstr backend.url).take (env.MAXBUF - 1)
    let l := { l with cl := { l.cl with snk := redirect_reply env.MAXBUF l.cl.snk buf } }
    .fin (keep_alive l) l
  else .go l

/-- One round of the loop over the response headers (lines 1002-1044) for the
header `h`: the locals afterwards and the header as it is sent on. -/
def response_header (env : Env) (lstn : LISTENER) (ssl : Option SSL) (backend : BACKEND)
    (l : Locals) (h : List Char) : Locals × List Char :=
  let buf := (env.check_header h).2
  let scheme := if ssl.isSome then "https".toList else "http".toList
  match (env.check_header h).1 with
  | HEADER_CONNECTION =>
    (if strcasecmp_eq "close".toList buf then { l with conn_closed := true } else l, h)
  | HEADER_TRANSFER_ENCODING =>
    (if strcasecmp_eq "chunked".toList buf then { l with chunked := true, no_cont := false }
     else l, h)
  | HEADER_CONTENT_LENGTH => ({ l with cont := atol buf }, h)
  | HEADER_LOCATION =>
    if l.v_host ≠ [] then
      match env.need_rewrite lstn.rewr_loc buf backend with
      | some loc_path =>
        (l, snprintf env.MAXBUF ("Location: ".toList ++ scheme ++ "://".toList ++ l.v_host
          ++ ['/'] ++ cstr loc_path))
      | none => (l, h)
    else (l, h)
  | HEADER_CONTLOCATION =>
    if l.v_host ≠ [] then
      match env.need_rewrite lstn.rewr_loc buf backend with
      | some loc_path =>
        (l, snprintf env.MAXBUF ("Content-location: ".toList ++ scheme ++ "://".toList
          ++ l.v_host ++ ['/'] ++ cstr loc_path))
      | none => (l, h)
    else (l, h)
  | _ => (l, h)

/-- The loop over the response headers after the status line. -/
def response_headers (env : Env) (lstn : LISTENER) (ssl : Option SSL) (backend : BACKEND) :
    Locals → List (List Char) → Locals × List (List Char)
  | l, [] => (l, [])
  | l, h :: hs =>
    ((response_headers env lstn ssl backend (response_header env lstn ssl backend l h).1 hs).1,
      (response_header env lstn ssl backend l h).2
        :: (response_headers env lstn ssl backend (response_header env lstn ssl backend l h).1 hs).2)

/-- What a piece of the relay of a response body leaves behind: whether it
went through, both channels and `res_bytes`. -/
structure Relay where
  ok : Bool
  be : Source
  cl : Sink
  res_bytes : Int
  deriving DecidableEq, Repr

/-- The `while(BIO_pending(be))` loop (lines 1106-1119), one octet per unit of
fuel. -/
def legacy_pending : Nat → Source → Sink → Int → Option Relay
  | 0, _, _, _ => none
  | fuel + 1, be, cl, res_bytes =>
    if (BIO_pending be).1 = 0 then some ⟨true, (BIO_pending be).2, cl, res_bytes⟩
    else
      let r := BIO_read (BIO_pending be).2 1
      if r.1 ≠ 1 then some ⟨false, r.2.2, cl, res_bytes⟩
      else if (cl.write r.2.1).1 ≠ 1 then some ⟨false, r.2.2, (cl.write r.2.1).2, res_bytes⟩
      else legacy_pending fuel r.2.2 (cl.write r.2.1).2 (wrapLong (res_bytes + 1))

/-- The `copy till EOF` loop (lines 1134-1144), one read per unit of fuel. -/
def legacy_copy (MAXBUF : Nat) : Nat → Source → Sink → Int → Option Relay
  | 0, _, _, _ => none
  | fuel + 1, be, cl, res_bytes =>
    let r := BIO_read be MAXBUF
    if r.1 > 0 then
      if (cl.write r.2.1).1 ≠ r.1 then some ⟨false, r.2.2, (cl.write r.2.1).2, res_bytes⟩
      else legacy_copy MAXBUF fuel r.2.2 (cl.write r.2.1).2.flush.2 (wrapLong (res_bytes + r.1))
    else some ⟨true, r.2.2, cl, res_bytes⟩

/-- Lines 1076-1155: the relay of the response body, entered when `no_cont` is
0.  The result says whether the round goes on; an old-style response clears
`cl_11` and `be_11`.  The socket `BIO` under the buffer is taken to be found. -/
def thr_http_response_body (env : Env) (be : BIO) (l : Locals) : Option (Bool × Locals) :=
  let store (l : Locals) (r : Relay) : Locals :=
    { l with be := some { be with src := r.be }, cl := { l.cl with snk := r.cl },
             res_bytes := r.res_bytes }
  let flush (l : Locals) : Bool × Locals :=
    (decide (l.cl.snk.flush.1 = 1), { l with cl := { l.cl with snk := l.cl.snk.flush.2 } })
  if l.be_11 ∧ l.chunked then
    match copy_chunks env.MAXBUF env.CHUNK_HEAD be.src (some l.cl.snk) (some l.res_bytes) l.skip 0 with
    | none => none
    | some r =>
      let l := store l ⟨decide (r.ret = 0), r.cl, r.be.getD l.cl.snk, r.res_bytes.getD l.res_bytes⟩
      if r.ret ≠ 0 then some (false, l) else some (flush l)
  else if l.cont ≥ 0 then
    match copy_bin env.MAXBUF be.src (some l.cl.snk) l.cont (some l.res_bytes) l.skip with
    | none => none
    | some r =>
      let l := store l ⟨decide (r.ret = 0), r.cl, r.be.getD l.cl.snk, r.res_bytes.getD l.res_bytes⟩
      if r.ret ≠ 0 then some (false, l) else some (flush l)
  else if l.skip = false then
    if (is_readable be.src).1 then
      let l := { l with cl_11 := false, be_11 := false }
      let src := (is_readable be.src).2
      match legacy_pending (src.pend.length + 1) src l.cl.snk l.res_bytes with
      | none => none
      | some p =>
        if p.ok = false then some (false, store l p)
        else
          match legacy_copy env.MAXBUF (p.be.inp.length + 1) p.be p.cl.flush.2 p.res_bytes with
          | none => none
          | some c => if c.ok = false then some (false, store l c) else some (flush (store l c))
    else some (flush { l with be := some { be with src := (is_readable be.src).2 } })
  else some (flush l)

/-- Lines 992-1047: what the status line and the headers of a response set:
`response`, `be_11`, `skip`, `no_cont`, `chunked`, `cont`, `conn_closed`, and
the headers as they are sent on. -/
def response_head (env : Env) (lstn : LISTENER) (ssl : Option SSL) (backend : BACKEND)
    (l : Locals) (headers : List (List Char)) : Locals :=
  let response := headers.headD []
  let l : Locals :=
    { l with response := response,
             be_11 := decide (response.get? 7 = some '1'),
             skip := env.RESP_SKIP response,
             no_cont := if l.no_cont = false ∧ env.RESP_IGN response then true else l.no_cont,
             chunked := false, cont := -1 }
  let s := response_headers env lstn ssl backend l headers.tail
  { s.1 with headers := response :: s.2 }

/-- Lines 1049-1074: unless `skip` is set the headers and the empty line are
written to the client; then the client channel is flushed.  The result says
whether the round goes on. -/
def send_response_head (l : Locals) : Bool × Locals :=
  let w := if l.skip then (true, some l.cl.snk)
           else write_lines (l.headers.map (fun h => cstr h ++ crlf)) (some l.cl.snk)
  let l1 : Locals := { l with cl := { l.cl with snk := w.2.getD l.cl.snk } }
  if w.1 = false then (false, l1)
  else
    let l2 : Locals :=
      if l1.skip then l1 else { l1 with cl := { l1.cl with snk := (l1.cl.snk.write crlf).2 } }
    (decide (l2.cl.snk.flush.1 = 1), { l2 with cl := { l2.cl with snk := l2.cl.snk.flush.2 } })

/-- One pass of the body of the `for(skip = 1; skip;)` loop (lines 984-1155):
`none` when a loop inside ran out of fuel; otherwise the locals afterwards
together with `none` when the pass ended in `pthread_exit`, and with the value
of `skip` when it went through. -/
def response_pass (env : Env) (lstn : LISTENER) (ssl : Option SSL) (backend : BACKEND)
    (l : Locals) : Option (Option Bool × Locals) :=
  match l.be with
  | none => some (none, l.reply h500 lstn.err500)
  | some be =>
    match get_headers env.MAXBUF env.MAXHEADERS lstn be.src l.cl.snk with
    | none => none
    | some r =>
      let be : BIO := { be with src := r.inp }
      let l : Locals := { l with be := some be, cl := { l.cl with snk := r.cl } }
      match r.headers with
      | none => some (none, l.reply h500 lstn.err500)
      | some headers =>
        let s := send_response_head (response_head env lstn ssl backend l headers)
        if s.1 = false then some (none, s.2)
        else if s.2.no_cont then some (some s.2.skip, s.2)
        else
          match thr_http_response_body env be s.2 with
          | none => none
          | some b => if b.1 = false then some (none, b.2) else some (some b.2.skip, b.2)

/-- The `for(skip = 1; skip;)` loop (lines 982-1156), one response head per unit
of fuel. -/
def thr_http_response (env : Env) (lstn : LISTENER) (ssl : Option SSL) (backend : BACKEND) :
    Nat → Locals → Option Step
  | 0, _ => none
  | fuel + 1, l =>
    match response_pass env lstn ssl backend l with
    | none => none
    | some (none, l) => some (.fin .exit l)
    | some (some true, l) => thr_http_response env lstn ssl backend fuel l
    | some (some false, l) => some (.go l)

/-- Lines 1157-1206: after the response the channel to a back-end that is not
HTTP/1.1 is closed, and the round ends with the keep-alive decision. -/
def thr_http_finish (l : Locals) : Next × Locals :=
  let l := if l.be_11 = false then { l with be := none } else l
  (keep_alive l, l)

/-- One round of the loop of `thr_http` (lines 507-1206) from the locals `l`. -/
def thr_http_round (env : Env) (lstn : LISTENER) (ssl : Option SSL) (renv : ReqEnv)
    (l : Locals) : Option (Next × Locals) :=
  match thr_http_read_request env lstn l with
  | none => none
  | some (.fin n l) => some (n, l)
  | some (.go l) =>
    match thr_http_classify env lstn l with
    | .fin n l => some (n, l)
    | .go l =>
      match thr_http_backend lstn renv l with
      | (none, l) => some (.exit, l)
      | (some backend, l) =>
        match thr_http_send_head env lstn ssl backend l with
        | .fin n l => some (n, l)
        | .go l =>
          match thr_http_send_body env lstn backend l with
          | none => none
          | some (.fin n l) => some (n, l)
          | some (.go l) =>
            let l := { l with force_10 := force_10_of lstn ssl l.u_agent }
            match thr_http_redirect env backend l with
            | .fin n l => some (n, l)
            | .go l =>
              match thr_http_response env lstn ssl backend
                  ((match l.be with
                    | some b => b.src.inp.length
                    | none => 0) + 1) l with
              | none => none
              | some (.fin n l) => some (n, l)
              | some (.go l) => some (thr_http_finish l)

/-- The loop of `thr_http`: rounds as long as they end in `again`, one per unit
of fuel, each with the answers of the outside for that request.  The result
is how the last round ended and the locals at that point. -/
def thr_http_loop (env : Env) (lstn : LISTENER) (ssl : Option SSL) :
    Nat → List ReqEnv → Locals → Option (Next × Locals)
  | 0, _, _ => none
  | fuel + 1, renvs, l =>
    match thr_http_round env lstn ssl (renvs.headD ⟨false, []⟩) l with
    | none => none
    | some (.again, l) => thr_http_loop env lstn ssl fuel renvs.tail l
    | some (n, l) => some (n, l)

/-! ## A concrete environment for examples -/

/-- A header classifier for examples: a line `name: value` is classified by
its name without regard to case, its content is the value without leading
blanks; a line without a colon, with an empty name or with a blank in the
name is illegal. -/
def sample_check_header (h : List Char) : HeaderKind × List Char :=
  let name := h.takeWhile (fun c => c != ':')
  let value := (h.drop (name.length + 1)).dropWhile (fun c => c == ' ' || c == '\t')
  let lname := name.map Char.toLower
  if name.length = h.length ∨ name = [] ∨ name.any (fun c => c == ' ' || c == '\t') then
    (HEADER_ILLEGAL, [])
  else if lname = "transfer-encoding".toList then (HEADER_TRANSFER_ENCODING, value)
  else if lname = "content-length".toList then (HEADER_CONTENT_LENGTH, value)
  else if lname = "connection".toList then (HEADER_CONNECTION, value)
  else if lname = "location".toList then (HEADER_LOCATION, value)
  else if lname = "content-location".toList then (HEADER_CONTLOCATION, value)
  else if lname = "host".toList then (HEADER_HOST, value)
  else if lname = "referer".toList then (HEADER_REFERER, value)
  else if lname = "user-agent".toList then (HEADER_USER_AGENT, value)
  else if lname = "destination".toList then (HEADER_DESTINATION, value)
  else (HEADER_OTHER, [])

/-- A request line matcher for examples: `GET`, `POST` or `HEAD`, a URL without
blanks and `HTTP/1.0` or `HTTP/1.1`, separated by single blanks. -/
def sample_verb (request : List Char) : Option (List Char × List Char) :=
  let method := request.takeWhile (fun c => c != ' ')
  let rest := request.drop (method.length + 1)
  let url := rest.takeWhile (fun c => c != ' ')
  let version := rest.drop (url.length + 1)
  if (method = "GET".toList ∨ method = "POST".toList ∨ method = "HEAD".toList) ∧ url ≠ []
      ∧ (version = "HTTP/1.0".toList ∨ version = "HTTP/1.1".toList) then
    some (method, url)
  else none

/-- An environment for examples: buffers of 4096 octets, 128 headers, status
100 skipped, status 1xx, 204 and 304 without content, no rewriting. -/
def sample_env : Env where
  MAXBUF := 4096
  MAXHEADERS := 128
  check_header := sample_check_header
  CHUNK_HEAD := chunkHeadSample
  RESP_SKIP := fun r => "HTTP/1.1 100".toList.isPrefixOf r
  RESP_IGN := fun r =>
    "HTTP/1.".toList.isPrefixOf r ∧
      ((r.drop 9).take 1 = ['1'] ∨ (r.drop 9).take 3 = "204".toList ∨ (r.drop 9).take 3 = "304".toList)
  LOCATION := fun _ => none
  need_rewrite := fun _ _ _ => none
  caddr := "192.0.2.7".toList

/-- A plain listener for examples: no SSL, no limits, no header removal. -/
def sample_lstn : LISTENER where
  to_ := 0
  ctx := false
  clnt_check := 0
  noHTTPS11 := 0
  ssl_head := none
  verb := sample_verb
  url_pat := fun _ => true
  err414 := "Request URI is too long".toList
  err500 := "An internal server error occurred".toList
  err501 := "This method may not be used".toList
  err503 := "The service is not available".toList
  max_req := 0
  head_off := []
  rewr_loc := 0
  rewr_dest := 0

/-- A back-end for examples. -/
def sample_backend : BACKEND where
  be_type := BE_TYPE.BACK_END
  addr := "10.0.0.1:80".toList
  to_ := 15
  url := []
  redir_req := false

/-- A client channel that will deliver `text`, and the locals `thr_http` starts
its loop with on that channel. -/
def start_locals (text : String) : Locals :=
  { cl := { src := { inp := text.toList }, snk := ⟨[], [], []⟩ } }

/-- The answers of the outside for a request that goes to `sample_backend` over
a new connection on which the back-end will deliver `text`. -/
def sample_renv (text : String) : ReqEnv :=
  { svc := true,
    picks := [(sample_backend, Connect.ok { src := { inp := text.toList }, snk := ⟨[], [], []⟩ })] }

/-- A listener for examples that removes headers: `sample_lstn` with the two
`head_off` patterns `^X-Secret` and `^X-Other`, in the order given by
`secret_first`. -/
def head_off_lstn (secret_first : Bool) : LISTENER :=
  { sample_lstn with
    head_off :=
      if secret_first then
        [fun h => "X-Secret".toList.isPrefixOf h, fun h => "X-Other".toList.isPrefixOf h]
      else
        [fun h => "X-Other".toList.isPrefixOf h, fun h => "X-Secret".toList.isPrefixOf h] }

/-! ## Predicates used in the theorems -/

/-- What the stretches of a round after the classification leave alone:
`force_10`, `u_agent` and `cur_backend` keep their values, and `conn_closed`
is not cleared. -/
def Frame (l l' : Locals) : Prop :=
  l'.force_10 = l.force_10 ∧ l'.u_agent = l.u_agent ∧ l'.cur_backend = l.cur_backend ∧
    (l.conn_closed = true → l'.conn_closed = true)

/-- Whether `h` is a `Connection` header with the value `close`. -/
def is_connection_close (env : Env) (h : List Char) : Bool :=
  decide ((env.check_header h).1 = HEADER_CONNECTION) &&
    strcasecmp_eq "close".toList (env.check_header h).2

/-- The locals after the request line and the headers of
`POST / HTTP/1.1`, `Host: x`, `Content-Length: 3`, `Transfer-Encoding: chunked`
were read: the body `abc` is still to come from the client. -/
def ambiguous_locals : Locals :=
  { start_locals "abc" with
    headers := ["POST / HTTP/1.1".toList, "Host: x".toList, "Content-Length: 3".toList,
      "Transfer-Encoding: chunked".toList],
    headers_ok := [true, true, true, true],
    request := "POST / HTTP/1.1".toList,
    url := ['/'],
    cl_11 := true }

/-- The locals at the end of the round for `GET /a HTTP/1.1`, `Host: x`,
answered by `sample_backend` with `HTTP/1.0 200 OK`, `Content-Length: 2` and
the body `hi`. -/
def http10_round_locals : Locals :=
  { cl := { src := { inp := [] },
            snk := ⟨"HTTP/1.0 200 OK\r\nContent-Length: 2\r\n\r\nhi".toList, [], []⟩ },
    be := none,
    cur_backend := some sample_backend,
    cl_11 := true,
    be_11 := false,
    headers := ["HTTP/1.0 200 OK".toList, "Content-Length: 2".toList],
    headers_ok := [true, true],
    request := "GET /a HTTP/1.1".toList,
    response := "HTTP/1.0 200 OK".toList,
    url := "/a".toList,
    v_host := "x".toList,
    cont := 2,
    res_bytes := 2 }

/-! ## Header blocks on the wire -/

/-- The bare line feed that ends a line as well as CR LF does. -/
def lf : List Char := ['\n']

/-- A line as it is sent: its text and its terminator. -/
structure WireLine where
  text : List Char
  eol : List Char
  deriving DecidableEq, Repr

/-- The octets of a line on the wire. -/
def WireLine.wire (w : WireLine) : List Char := w.text ++ w.eol

/-- An end of line, which is also what an empty line consists of: CR LF or a
bare LF. -/
def isEol (e : List Char) : Prop := e = crlf ∨ e = lf

instance (e : List Char) : Decidable (isEol e) := by
  unfold isEol; infer_instance

/-- A header line that is read whole and is shorter than the line buffer: a text
that is not empty and has neither newline nor NUL, ended by CR LF or by a bare
LF (then the text does not end in CR), at most `MAXBUF - 2` octets with the
terminator. -/
def WireLine.wellFormed (MAXBUF : Nat) (w : WireLine) : Prop :=
  w.text ≠ [] ∧ (∀ ch ∈ w.text, ch ≠ '\n' ∧ ch ≠ '\x00') ∧
    (w.eol = crlf ∨ (w.eol = lf ∧ w.text.getLast? ≠ some '\r')) ∧
    w.text.length + w.eol.length + 1 < MAXBUF

instance (MAXBUF : Nat) (w : WireLine) : Decidable (w.wellFormed MAXBUF) := by
  unfold WireLine.wellFormed; infer_instance

/-- The array of `MAXHEADERS` slots that `get_headers` hands out (lines 310-323):
`calloc` leaves every slot `NULL`, the loop fills slot `n` with the `n`-th line
it stores. -/
def headers_slots (MAXHEADERS : Nat) (headers : List (List Char)) : List (Option (List Char)) :=
  headers.map some ++ List.replicate (MAXHEADERS - headers.length) none

/-- A request whose second header line is longer than a line buffer of 24
octets. -/
def long_header_request : List Char :=
  "GET / HTTP/1.1\r\nX-Long: aaaaaaaaaaaaaaaaaaaaaaaaaaaaaaaa\r\nHost: x\r\n\r\n".toList

/-! ## `bio_callback` -/

/-- Two's complement wrap-around of a 32 bit `int`. -/
def wrapInt (x : Int) : Int := (x + 2 ^ 31) % 2 ^ 32 - 2 ^ 31

/-- The command a `BIO` callback is called with: before a read, before a write,
or any of the others. -/
inductive BioCmd where
  | BIO_CB_READ
  | BIO_CB_WRITE
  | BIO_CB_OTHER (code : Nat)
  deriving DecidableEq, Repr

/-- The values of `errno` that `bio_callback` sets or tests. -/
inductive Errno where
  | ETIMEDOUT
  | EIO
  | ECONNRESET
  | EINTR
  | EOTHER (code : Nat)
  deriving DecidableEq, Repr

open Errno

/-- What the callback argument of a channel points to: the time-out of its
listener or backend (`&lstn->to`, `&backend->to`), or the static `err_to`. -/
inductive CbArg where
  | timeout (seconds : Int)
  | err_to
  deriving DecidableEq, Repr

/-- The `int` the callback argument points to; `err_to` is `-1` (line 202). -/
def CbArg.deref : CbArg → Int
  | .timeout seconds => seconds
  | .err_to => -1

/-- The answer of one `poll` call on the descriptor of a channel: the result,
the bits of `revents` that the callback looks at, and the `errno` it sets, if
any. -/
structure PollAnswer where
  ret : Int
  pollin : Bool := false
  pollpri : Bool := false
  pollout : Bool := false
  err : Option Errno := none
  deriving DecidableEq, Repr

/-- A channel as `bio_callback` sees it: its callback argument, the answers of
the coming `poll` calls on its descriptor, and `errno`. -/
structure Channel where
  arg : CbArg
  polls : List PollAnswer
  errno : Errno
  deriving DecidableEq, Repr

/-- The loop of `bio_callback` (lines 223-255), one `poll` per turn; `none` when
the answers run out while `poll` keeps being interrupted. -/
def bio_callback_poll (cmd : BioCmd) (ret : Int) : List PollAnswer → Channel → Option (Int × Channel)
  | [], _ => none
  | p :: ps, ch =>
    let ch := { ch with polls := ps, errno := p.err.getD ch.errno }
    if p.ret = 1 then
      if cmd = .BIO_CB_READ then
        if p.pollin ∨ p.pollpri then some (ret, ch)
        else some (-1, { ch with errno := EIO })
      else
        if p.pollout then some (ret, ch)
        else some (-1, { ch with errno := .ECONNRESET })
    else if p.ret = 0 then some (0, { ch with arg := .err_to, errno := .ETIMEDOUT })
    else if ch.errno ≠ .EINTR then some (-2, ch)
    else bio_callback_poll cmd ret ps ch

/-- The function `bio_callback(bio, cmd, argp, argi, argl, ret)` (lines 208-256):
the result and the channel afterwards.  The product `to * 1000` is an `int`. -/
def bio_callback (ch : Channel) (cmd : BioCmd) (ret : Int) : Option (Int × Channel) :=
  if cmd ≠ .BIO_CB_READ ∧ cmd ≠ .BIO_CB_WRITE then some (ret, ch)
  else if wrapInt (ch.arg.deref * 1000) < 0 then some (-1, { ch with errno := .ETIMEDOUT })
  else bio_callback_poll cmd ret ch.polls ch

/-- A run of callbacks on one channel, one after the other: their results and
the channel afterwards. -/
def bio_callbacks : Channel → List (BioCmd × Int) → Option (List Int × Channel)
  | ch, [] => some ([], ch)
  | ch, (cmd, ret) :: calls =>
    match bio_callback ch cmd ret with
    | none => none
    | some (r, ch1) =>
      match bio_callbacks ch1 calls with
      | none => none
      | some (rs, ch2) => some (r :: rs, ch2)

/-- A `poll` that was interrupted by a signal. -/
def PollAnswer.interrupted (p : PollAnswer) : Prop :=
  p.ret ≠ 1 ∧ p.ret ≠ 0 ∧ p.err = some .EINTR

instance (p : PollAnswer) : Decidable p.interrupted := by
  unfold PollAnswer.interrupted; infer_instance

/-- What every read or write callback answers on a channel that timed out, and
what the other callbacks hand back. -/
def timed_out_results (calls : List (BioCmd × Int)) : List Int :=
  calls.map (fun c => if c.1 = .BIO_CB_READ ∨ c.1 = .BIO_CB_WRITE then -1 else c.2)

/-- The listener `sample_lstn` with a limit of 3 octets on the request size. -/
def max_req_lstn : LISTENER := { sample_lstn with max_req := 3 }

/-- The request `POST /a HTTP/1.1` with the one header `Content-Length: n` and
the octets `body` behind the head. -/
def post_request (n body : String) : String :=
  "POST /a HTTP/1.1\r\nContent-Length: " ++ n ++ "\r\n\r\n" ++ body

/-- The locals once the head of `post_request n body` is read and its request
line accepted. -/
def post_locals (n body : String) : Locals :=
  { cl := { src := { inp := body.toList }, snk := ⟨[], [], []⟩ },
    cl_11 := true,
    headers := ["POST /a HTTP/1.1".toList, ("Content-Length: " ++ n).toList],
    headers_ok := [true, true],
    request := "POST /a HTTP/1.1".toList,
    url := "/a".toList }

/-- A request with two `Content-Length` headers, 3 and then 5, and five octets
behind the head. -/
def two_lengths_request : String :=
  "POST /a HTTP/1.1\r\nContent-Length: 3\r\nContent-Length: 5\r\n\r\nhello"

/-- A redirector for examples. -/
def sample_redirector : BACKEND where
  be_type := BE_TYPE.REDIRECTOR
  addr := []
  to_ := 0
  url := "http://example.org".toList
  redir_req := false

/-- The answers of the outside for a request that goes to `sample_redirector`. -/
def redirector_renv : ReqEnv :=
  { svc := true, picks := [(sample_redirector, Connect.sock_fail)] }

/-- The sum of the sizes of a list of chunks. -/
def chunksTotal (chunks : List Chunk) : Int :=
  (chunks.map (fun c => (c.data.length : Int))).sum

/-- One chunk of three octets. -/
def abcChunk : Chunk := { size := ['3'], data := ['a', 'b', 'c'] }

/-! ## The two halves of a round -/

/-- Lines 507-980, the request side of a round: from `get_headers(cl, cl, lstn)`
to the point where the response is awaited, with the back-end the request
went to.  The round goes on (`go`) with the response loop. -/
def thr_http_request (env : Env) (lstn : LISTENER) (ssl : Option SSL) (renv : ReqEnv)
    (l : Locals) : Option (Step × Option BACKEND) :=
  match thr_http_read_request env lstn l with
  | none => none
  | some (.fin n l) => some (.fin n l, none)
  | some (.go l) =>
    match thr_http_classify env lstn l with
    | .fin n l => some (.fin n l, none)
    | .go l =>
      match thr_http_backend lstn renv l with
      | (none, l) => some (.fin .exit l, none)
      | (some backend, l) =>
        match thr_http_send_head env lstn ssl backend l with
        | .fin n l => some (.fin n l, some backend)
        | .go l =>
          match thr_http_send_body env lstn backend l with
          | none => none
          | some (.fin n l) => some (.fin n l, some backend)
          | some (.go l) =>
            match thr_http_redirect env backend
                { l with force_10 := force_10_of lstn ssl l.u_agent } with
            | .fin n l => some (.fin n l, some backend)
            | .go l => some (.go l, some backend)

/-- Lines 982-1207, the response side of a round that got as far as awaiting
the response from `backend`: the response loop and the end of the round. -/
def thr_http_answer (env : Env) (lstn : LISTENER) (ssl : Option SSL) (backend : BACKEND)
    (l : Locals) : Option (Next × Locals) :=
  match thr_http_response env lstn ssl backend
      ((match l.be with
        | some b => b.src.inp.length
        | none => 0) + 1) l with
  | none => none
  | some (.fin n l) => some (n, l)
  | some (.go l) => some (thr_http_finish l)

/-- Whether `h` is a `Transfer-Encoding` header with the value `chunked`. -/
def is_chunked_encoding (env : Env) (h : List Char) : Bool :=
  decide ((env.check_header h).1 = HEADER_TRANSFER_ENCODING) &&
    strcasecmp_eq "chunked".toList (env.check_header h).2

/-- The head of a response as `send_response_head` writes it: every header with
its CR LF, then the empty line. -/
def head_text (headers : List (List Char)) : List Char :=
  (headers.map (fun h => cstr h ++ crlf)).flatten ++ crlf

/-- The locals once the request `GET /a HTTP/1.1` with `Host: x` is sent to
`sample_backend` over a new connection on which the back-end will deliver
`text`. -/
def get_sent_locals (text : String) : Locals :=
  { cl := { src := { inp := [] }, snk := ⟨[], [], []⟩ },
    be := some { src := { inp := text.toList },
                 snk := ⟨"GET /a HTTP/1.1\r\nHost: x\r\nX-Forwarded-For: 192.0.2.7\r\n\r\n".toList,
                         [], []⟩ },
    cur_backend := some sample_backend,
    cl_11 := true,
    headers := ["GET /a HTTP/1.1".toList, "Host: x".toList],
    headers_ok := [true, true],
    request := "GET /a HTTP/1.1".toList,
    url := "/a".toList,
    v_host := "x".toList }

/-- The write half of the channel to `sample_backend` once the request
`GET /a HTTP/1.1` with `Host: x` is sent. -/
def get_sent_sink : Sink :=
  ⟨"GET /a HTTP/1.1\r\nHost: x\r\nX-Forwarded-For: 192.0.2.7\r\n\r\n".toList, [], []⟩

/-! ## Examples for the `Destination` header and the redirector -/

/-- A matcher in the place of `LOCATION` for examples: `http://` or `https://`,
a host that is not empty, a slash, and the path, which is the result. -/
def sample_LOCATION (v : List Char) : Option (List Char) :=
  let rest : Option (List Char) :=
    if "http://".toList.isPrefixOf v then some (v.drop 7)
    else if "https://".toList.isPrefixOf v then some (v.drop 8)
    else none
  match rest with
  | none => none
  | some r =>
    let host := r.takeWhile (fun c => c != '/')
    if host = [] ∨ host.length = r.length then none else some (r.drop (host.length + 1))

/-- The environment `sample_env` with `sample_LOCATION`. -/
def dest_env : Env := { sample_env with LOCATION := sample_LOCATION }

/-- The listener `sample_lstn` with `RewriteDestination` set. -/
def rewr_dest_lstn : LISTENER := { sample_lstn with rewr_dest := 1 }

/-- A request with a `Destination` header of the value `dest`, followed by a
`Content-Length` header and three octets of body. -/
def dest_request (dest : String) : String :=
  "POST /a HTTP/1.1\r\nDestination: " ++ dest ++ "\r\nContent-Length: 3\r\n\r\nabc"

/-- The environment `sample_env` with buffers of 128 octets. -/
def small_env : Env := { sample_env with MAXBUF := 128 }

/-- The redirector `sample_redirector` with the request URL appended to its
URL. -/
def sample_redirector_req : BACKEND := { sample_redirector with redir_req := true }

/-- The locals of an HTTP/1.1 request for `url` when the redirector is
reached. -/
def redirect_locals (url : String) : Locals :=
  { cl := { src := { inp := [] }, snk := ⟨[], [], []⟩ }, cl_11 := true, url := url.toList }

/-- The head `redirect_reply` formats (lines 69-71) for a target and a body
length, before it is cut to the buffer. -/
def redirect_head (url : List Char) (n : Nat) : List Char :=
  "HTTP/1.0 302 Found\r\nLocation: ".toList ++ url
    ++ "\r\nContent-Type: text/html\r\nContent-Length: ".toList
    ++ (Nat.repr n).toList ++ "\r\n\r\n".toList

/-- The locals `get_sent_locals text` when the back-end has closed the kept
channel in the meantime: the `poll` of the probe reports the descriptor as
readable. -/
def stale_locals (text : String) : Locals :=
  { get_sent_locals text with
    be := some { src := { inp := text.toList, polls := [1] }, snk := get_sent_sink } }

/-- The locals after `thr_http_backend` has replaced the channel of
`stale_locals` by a new one on which the back-end will deliver `text`. -/
def fresh_locals (text : String) : Locals :=
  { get_sent_locals text with
    be := some { src := { inp := text.toList }, snk := ⟨[], [], []⟩ } }

/-! ## The heads the response loop reads -/

/-- The head that a pass of the response loop gets from `get_headers(be, cl,
lstn)`, if it gets one. -/
def pass_head (env : Env) (lstn : LISTENER) (l : Locals) : Option (List (List Char)) :=
  match l.be with
  | none => none
  | some be =>
    match get_headers env.MAXBUF env.MAXHEADERS lstn be.src l.cl.snk with
    | none => none
    | some r => r.headers

/-- The heads the response loop reads from the locals `l` on, pass after pass,
as long as the passes go through with `skip` set. -/
def loop_heads (env : Env) (lstn : LISTENER) (ssl : Option SSL) (backend : BACKEND) :
    Nat → Locals → List (List (List Char))
  | 0, _ => []
  | fuel + 1, l =>
    (pass_head env lstn l).toList ++
      (match response_pass env lstn ssl backend l with
        | some (some true, l1) => loop_heads env lstn ssl backend fuel l1
        | _ => [])

/-- What a back-end sends that answers with an interim `100 Continue` and then
with a `200` that declares two octets of body. -/
def interim_then_ok : String :=
  "HTTP/1.1 100 Continue\r\n\r\nHTTP/1.1 200 OK\r\nContent-Length: 2\r\n\r\nhi"


/-! ## Examples for skipped responses -/

/-- What a back-end sends that answers with an interim `100 Continue` carrying
a `Server` header and then with a `200` that declares two octets of body. -/
def interim_server_then_ok : String :=
  "HTTP/1.1 100 Continue\r\nServer: x\r\n\r\nHTTP/1.1 200 OK\r\nContent-Length: 2\r\n\r\nhi"

/-- What a back-end sends that answers with a `100 Continue` that declares and
carries three octets of body, and then with a `200` that declares two. -/
def interim_body_then_ok : String :=
  "HTTP/1.1 100 Continue\r\nContent-Length: 3\r\n\r\nabcHTTP/1.1 200 OK\r\nContent-Length: 2\r\n\r\nhi"

/-- The environment `sample_env` with a `RESP_IGN` that matches no status line,
so that the body of every response is read. -/
def body_env : Env :=
  { sample_env with RESP_IGN := fun _ => false }


/-! ## Old-style responses -/

/-- Whether the relay of the response body (lines 1076-1155) takes the
old-style path of lines 1094-1146, on which `cl_11` and `be_11` are cleared:
the response is not a chunked HTTP/1.1 one, `cont` is negative (no
`Content-Length`), `skip` is clear and `is_readable(be, to)` holds. -/
def old_style (be : BIO) (l : Locals) : Bool :=
  !(l.be_11 && l.chunked) && decide (l.cont < 0) && !l.skip && (is_readable be.src).1

/-- Whether the pass of the response loop from `l` reads a head, sends it on,
has a body to relay (`no_cont` clear) and relays it on the old-style path. -/
def pass_old_style (env : Env) (lstn : LISTENER) (ssl : Option SSL) (backend : BACKEND)
    (l : Locals) : Bool :=
  match l.be with
  | none => false
  | some be =>
    match get_headers env.MAXBUF env.MAXHEADERS lstn be.src l.cl.snk with
    | none => false
    | some r =>
      match r.headers with
      | none => false
      | some headers =>
        let s := send_response_head (response_head env lstn ssl backend
          { l with be := some { be with src := r.inp }, cl := { l.cl with snk := r.cl } } headers)
        s.1 && !s.2.no_cont && old_style { be with src := r.inp } s.2

/-- Whether one of the passes of the response loop from `l` on relays a body on
the old-style path. -/
def loop_old_style (env : Env) (lstn : LISTENER) (ssl : Option SSL) (backend : BACKEND) :
    Nat → Locals → Bool
  | 0, _ => false
  | fuel + 1, l =>
    pass_old_style env lstn ssl backend l ||
      (match response_pass env lstn ssl backend l with
        | some (some true, l1) => loop_old_style env lstn ssl backend fuel l1
        | _ => false)

/-- The answers of the outside for a request that goes to `sample_backend` over
a new connection on which the back-end will deliver `text` and which `poll`
reports as readable once. -/
def readable_renv (text : String) : ReqEnv :=
  { svc := true,
    picks := [(sample_backend,
      Connect.ok { src := { inp := text.toList, polls := [1] }, snk := ⟨[], [], []⟩ })] }

/-- The locals at the end of the round for `GET /a HTTP/1.1`, `Host: x`,
answered by `sample_backend` over a readable channel with `HTTP/1.1 200 OK`,
no framing header, and `hello` until the end of the input. -/
def old_style_round_locals : Locals :=
  { cl := { src := { inp := [] }, snk := ⟨"HTTP/1.1 200 OK\r\n\r\nhello".toList, [], []⟩ },
    be := none,
    cur_backend := some sample_backend,
    cl_11 := false,
    be_11 := false,
    headers := ["HTTP/1.1 200 OK".toList],
    headers_ok := [true, true],
    request := "GET /a HTTP/1.1".toList,
    response := "HTTP/1.1 200 OK".toList,
    url := "/a".toList,
    v_host := "x".toList,
    cont := -1,
    res_bytes := 5 }

/-- The locals at the end of the round for `GET /a HTTP/1.0`, `Host: x`,
answered by `sample_backend` with `HTTP/1.0 200 OK`, `Content-Length: 2` and
the body `hi`. -/
def http10_client_round_locals : Locals :=
  { http10_round_locals with cl_11 := false, request := "GET /a HTTP/1.0".toList }

/-! ## Theorems -/

set_option maxRecDepth 100000

theorem wrapLong_eq (x : Int) (h1 : LONG_MIN ≤ x) (h2 : x ≤ LONG_MAX) : wrapLong x = x := by
  unfold wrapLong
  unfold LONG_MIN at h1
  unfold LONG_MAX at h2
  have h3 : (x + 2 ^ 63) % 2 ^ 64 = x + 2 ^ 63 := by
    apply Int.emod_eq_of_lt <;> omega
  omega

theorem take_min_length {α : Type} (l : List α) (n : Nat) :
    l.take (min n l.length) = l.take n := by
  rcases le_total n l.length with h | h
  · rw [min_eq_left h]
  · rw [min_eq_right h, List.take_of_length_le h, List.take_of_length_le (le_refl _)]

theorem drop_min_length {α : Type} (l : List α) (n : Nat) :
    l.drop (min n l.length) = l.drop n := by
  rcases le_total n l.length with h | h
  · rw [min_eq_left h]
  · rw [min_eq_right h, List.drop_of_length_le h, List.drop_of_length_le (le_refl _)]

theorem BIO_read_spec (b : Source) (len : Int) (hlen : 0 < len) (hin : 0 < b.inp.length)
    (hr : b.readsPositive) :
    ∃ n : Nat, 0 < n ∧ (n : Int) ≤ len ∧ n ≤ b.inp.length ∧ (BIO_read b len).1 = n ∧
      (BIO_read b len).2.1 = b.inp.take n ∧ (BIO_read b len).2.2.inp = b.inp.drop n ∧
      (BIO_read b len).2.2.readsPositive := by
  obtain ⟨inp, plan, pend, polls, gerr⟩ := b
  simp only at hin
  cases plan with
  | nil =>
    refine ⟨min len.toNat inp.length, ?_, ?_, ?_, ?_, ?_, ?_, ?_⟩
    · simp only [lt_min_iff]; omega
    · have := min_le_left len.toNat inp.length; omega
    · exact min_le_right _ _
    · simp [BIO_read, List.length_take]
    · simp only [BIO_read, take_min_length]
    · simp only [BIO_read, drop_min_length]
    · simpa [BIO_read] using hr
  | cons e plan =>
    have he := hr e (by simp)
    have hr' : ∀ e ∈ plan, 0 < Option.getD e 0 := fun e h => hr e (by simp [h])
    cases e with
    | none => simp at he
    | some k =>
    have hk : 0 < k := by simpa using he
    refine ⟨min (min k len.toNat) inp.length, ?_, ?_, ?_, ?_, ?_, ?_, ?_⟩
    · simp only [lt_min_iff]; omega
    · have := min_le_left (min k len.toNat) inp.length
      have := min_le_right k len.toNat
      omega
    · exact min_le_right _ _
    · simp [BIO_read, List.length_take]
    · simp only [BIO_read, take_min_length]
    · simp only [BIO_read, drop_min_length]
    · simpa [BIO_read, Source.readsPositive] using hr'

theorem Sink.write_accepts (s : Sink) (data : List Char) (h : s.accepts) :
    (s.write data).1 = data.length ∧ (s.write data).2.out = s.out ++ data ∧
      (s.write data).2.accepts := by
  obtain ⟨out, wplan, fplan⟩ := s
  obtain ⟨hw, hf⟩ := h
  cases wplan with
  | nil => exact ⟨rfl, rfl, hw, hf⟩
  | cons e plan =>
    have he : e = true := hw e (by simp)
    subst he
    exact ⟨rfl, rfl, fun e h => hw e (List.mem_cons_of_mem _ h), hf⟩

theorem Sink.flush_accepts (s : Sink) (h : s.accepts) :
    s.flush.1 = 1 ∧ s.flush.2.out = s.out ∧ s.flush.2.accepts := by
  obtain ⟨out, wplan, fplan⟩ := s
  obtain ⟨hw, hf⟩ := h
  cases fplan with
  | nil => exact ⟨rfl, rfl, hw, hf⟩
  | cons e plan =>
    have he : e = true := hf e (by simp)
    subst he
    exact ⟨rfl, rfl, hw, fun e h => hf e (List.mem_cons_of_mem _ h)⟩

/-- The loop of `copy_bin` on a source that delivers and a sink that accepts. -/
theorem copy_bin_loop_forwards (MAXBUF : Nat) (hbuf : 0 < MAXBUF) :
    ∀ (fuel : Nat) (cl : Source) (be : Sink) (cont : Int) (res_bytes : Option Int),
      0 ≤ cont → cont < fuel → cont ≤ cl.inp.length → cl.readsPositive → be.accepts →
      ∃ cl' be' rb', copy_bin_loop MAXBUF fuel cl (some be) cont res_bytes false
          = some ⟨0, cl', some be', rb'⟩
        ∧ be'.out = be.out ++ cl.inp.take cont.toNat
        ∧ cl'.inp = cl.inp.drop cont.toNat
        ∧ cl'.readsPositive ∧ be'.accepts
        ∧ ((∀ r, res_bytes = some r → LONG_MIN ≤ r ∧ r + cont ≤ LONG_MAX) →
            rb' = res_bytes.map (fun r => r + cont)) := by
  intro fuel
  induction fuel with
  | zero => intro cl be cont rb h0 hf; omega
  | succ fuel ih =>
    intro cl be cont rb h0 hf hin hr hacc
    by_cases hc : cont > 0
    · have hlen : 0 < (if cont > (MAXBUF : Int) then (MAXBUF : Int) else cont) := by
        split <;> omega
      obtain ⟨n, hn0, hnle, hnin, h1, h2, h3, h4⟩ :=
        BIO_read_spec cl _ hlen (by omega) hr
      have hncont : (n : Int) ≤ cont := by
        split at hnle <;> omega
      obtain ⟨w1, w2, w3⟩ := Sink.write_accepts be (cl.inp.take n) hacc
      obtain ⟨f1, f2, f3⟩ := Sink.flush_accepts _ w3
      have hlt : List.length (List.take n cl.inp) = n := by
        rw [List.length_take]; omega
      obtain ⟨cl', be', rb', e1, e2, e3, e4, e5, e6⟩ :=
        ih (BIO_read cl (if cont > (MAXBUF : Int) then (MAXBUF : Int) else cont)).2.2
          (be.write (cl.inp.take n)).2.flush.2 (cont - n)
          (rb.map (fun r => wrapLong (r + n))) (by omega) (by omega)
          (by rw [h3, List.length_drop]; omega) h4 f3
      refine ⟨cl', be', rb', ?_, ?_, ?_, e4, e5, ?_⟩
      · rw [copy_bin_loop]
        have hn1 : ¬ ((n : Int) < 0) := by omega
        have hn2 : ¬ ((n : Int) = 0) := by omega
        simp only [hc, if_true, h1, h2, BIO_write, BIO_flush, w1, hlt, hn1, hn2, if_false,
          Bool.false_eq_true, ne_eq, not_true_eq_false, f1]
        rw [e1]
      · rw [e2, f2, w2, h3, List.append_assoc]
        congr 1
        have : cont.toNat = n + (cont - n).toNat := by omega
        rw [this, List.take_add]
      · rw [e3, h3, List.drop_drop]
        congr 1
        omega
      · intro hrb
        rw [e6]
        · cases rb with
          | none => rfl
          | some r0 =>
            obtain ⟨a, b⟩ := hrb r0 rfl
            simp only [Option.map_some', Option.some.injEq]
            rw [wrapLong_eq (r0 + n) (by omega) (by omega)]
            omega
        · intro r hr'
          cases rb with
          | none => simp at hr'
          | some r0 =>
            simp only [Option.map_some', Option.some.injEq] at hr'
            obtain ⟨a, b⟩ := hrb r0 rfl
            rw [wrapLong_eq (r0 + n) (by omega) (by omega)] at hr'
            omega
    · have hz : cont = 0 := by omega
      subst hz
      refine ⟨cl, be, rb, ?_, by simp, by simp, hr, hacc, ?_⟩
      · rw [copy_bin_loop]
        simp
      · intro _
        cases rb <;> simp

/-- C1: for a count `cont > 0`, a source that still has `cont` octets and whose
reads each deliver at least one octet, discard off and a sink on which every
write and flush succeeds, `copy_bin` returns 0, the sink received exactly the
first `cont` octets of the source in order, the source was read up to there
and no further, and the counter grew by `cont` (the counter being a `long`
that the sum does not overflow). -/
theorem copy_bin_forwards_exactly (MAXBUF : Nat) (cl : Source) (be : Sink) (cont : Int)
    (res_bytes : Option Int) (hbuf : 0 < MAXBUF) (hcont : 0 < cont)
    (hin : cont ≤ cl.inp.length) (hr : cl.readsPositive) (hacc : be.accepts)
    (hrb : ∀ r, res_bytes = some r → LONG_MIN ≤ r ∧ r + cont ≤ LONG_MAX) :
    ∃ cl' be', copy_bin MAXBUF cl (some be) cont res_bytes false
        = some ⟨0, cl', some be', res_bytes.map (fun r => r + cont)⟩
      ∧ be'.out = be.out ++ cl.inp.take cont.toNat
      ∧ cl'.inp = cl.inp.drop cont.toNat := by
  obtain ⟨cl', be', rb', h1, h2, h3, _, _, h6⟩ :=
    copy_bin_loop_forwards MAXBUF hbuf (cont.toNat + 1) cl be cont res_bytes
      (by omega) (by omega) hin hr hacc
  rw [h6 hrb] at h1
  exact ⟨cl', be', h1, h2, h3⟩

theorem copy_bin_forwards_exactly_witness :
    ∃ cl' be', copy_bin 4 { inp := "hello world".toList, rplan := [some 2, some 9] }
          (some ⟨"> ".toList, [true], []⟩) 5 (some 10) false
        = some ⟨0, cl', some be', some 15⟩
      ∧ be'.out = "> hello".toList
      ∧ cl'.inp = " world".toList :=
  copy_bin_forwards_exactly 4 { inp := "hello world".toList, rplan := [some 2, some 9] }
    ⟨"> ".toList, [true], []⟩ 5 (some 10) (by decide) (by decide) (by decide) (by decide)
    (by decide) (by
      intro r hr
      cases hr
      constructor <;> decide)

/-! ### Lines -/

theorem char_le_iff (a b : Char) : a ≤ b ↔ a.toNat ≤ b.toNat := by
  rw [Char.le_def]
  exact Iff.rfl

theorem getsLine_line (l rest : List Char) (hl : ∀ c ∈ l, c ≠ '\n') :
    ∀ n, l.length + 2 ≤ n → getsLine n (l ++ crlf ++ rest) = (l ++ crlf, rest) := by
  induction l with
  | nil =>
    intro n hn
    obtain ⟨m, rfl⟩ : ∃ m, n = m + 2 := ⟨n - 2, by simp at hn; omega⟩
    simp [getsLine, crlf]
  | cons c t ih =>
    intro n hn
    obtain ⟨m, rfl⟩ : ∃ m, n = m + 1 := ⟨n - 1, by simp at hn; omega⟩
    have hc : c ≠ '\n' := hl c (by simp)
    have ht := ih (fun d hd => hl d (by simp [hd])) m (by simp at hn; omega)
    have e : c :: t ++ crlf ++ rest = c :: (t ++ crlf ++ rest) := rfl
    rw [e, getsLine, if_neg hc, ht]
    rfl

theorem strip_eol_line (l : List Char) (hl : ∀ c ∈ l, c ≠ '\n' ∧ c ≠ '\x00') :
    strip_eol (l ++ crlf) = l := by
  induction l with
  | nil => simp [strip_eol, crlf]
  | cons c t ih =>
    have hc := hl c (by simp)
    have ht := ih (fun d hd => hl d (by simp [hd]))
    have hhead : (t ++ crlf).head? ≠ some '\n' := by
      cases t with
      | nil => simp [crlf]
      | cons d t' =>
        have hd := hl d (by simp)
        simp only [List.cons_append, List.head?_cons, ne_eq, Option.some.injEq]
        exact hd.1
    have e : c :: t ++ crlf = c :: (t ++ crlf) := rfl
    have hno : ¬ (c = '\n' ∨ (c = '\r' ∧ (t ++ crlf).head? = some '\n')) := by
      rintro (h1 | ⟨-, h2⟩)
      · exact hc.1 h1
      · exact hhead h2
    rw [e, strip_eol, if_neg hc.2, if_neg hno, ht]

theorem cstr_of_no_nul (l : List Char) (hl : ∀ c ∈ l, c ≠ '\x00') : cstr l = l := by
  unfold cstr
  rw [List.takeWhile_eq_self_iff]
  intro c hc
  simpa using hl c hc

theorem BIO_gets_line (MAXBUF : Nat) (cl : Source) (l rest : List Char)
    (hin : cl.inp = l ++ crlf ++ rest) (hl : ∀ c ∈ l, c ≠ '\n') (hfit : l.length + 2 < MAXBUF) :
    BIO_gets cl MAXBUF = (((l.length + 2 : Nat) : Int), l ++ crlf, { cl with inp := rest }) := by
  unfold BIO_gets
  rw [hin, getsLine_line l rest hl (MAXBUF - 1) (by omega)]
  simp [crlf]

/-! ### Hexadecimal numbers -/

theorem hexDigit_facts (c : Char) (h : isHexDigit c = true) :
    c ≠ '\n' ∧ c ≠ '\x00' ∧ isspace c = false ∧ c ≠ '-' ∧ c ≠ '+' ∧ c ≠ 'x' ∧ c ≠ 'X' := by
  refine ⟨?_, ?_, ?_, ?_, ?_, ?_, ?_⟩
  · rintro rfl; exact absurd h (by decide)
  · rintro rfl; exact absurd h (by decide)
  · cases hs : isspace c with
    | false => rfl
    | true =>
      simp only [isspace, Bool.or_eq_true, decide_eq_true_eq] at hs
      rcases hs with ((((rfl | rfl) | rfl) | rfl) | rfl) | rfl <;> exact absurd h (by decide)
  · rintro rfl; exact absurd h (by decide)
  · rintro rfl; exact absurd h (by decide)
  · rintro rfl; exact absurd h (by decide)
  · rintro rfl; exact absurd h (by decide)

theorem hexDigit_digitVal (c : Char) (h : isHexDigit c = true) :
    digitVal c = some (hexDigitValue c) ∧ hexDigitValue c < 16 := by
  have e0 : '0'.toNat = 48 := rfl
  have e9 : '9'.toNat = 57 := rfl
  have ea : 'a'.toNat = 97 := rfl
  have ef : 'f'.toNat = 102 := rfl
  have ez : 'z'.toNat = 122 := rfl
  have eA : 'A'.toNat = 65 := rfl
  have eF : 'F'.toNat = 70 := rfl
  have eZ : 'Z'.toNat = 90 := rfl
  simp only [isHexDigit, Bool.or_eq_true, Bool.and_eq_true, decide_eq_true_eq, char_le_iff,
    e0, e9, ea, ef, eA, eF] at h
  unfold digitVal hexDigitValue
  simp only [char_le_iff, e0, e9, ea, ez, eA, eZ, ef]
  by_cases h1 : 48 ≤ c.toNat ∧ c.toNat ≤ 57
  · simp only [h1, and_self, if_true, Option.some.injEq, true_and]
    omega
  · by_cases h2 : 97 ≤ c.toNat ∧ c.toNat ≤ 102
    · have h2' : 97 ≤ c.toNat ∧ c.toNat ≤ 122 := ⟨h2.1, by omega⟩
      simp only [h1, h2, h2', and_self, if_true, if_false, Option.some.injEq]
      omega
    · have h3 : 65 ≤ c.toNat ∧ c.toNat ≤ 70 := by omega
      have h2' : ¬ (97 ≤ c.toNat ∧ c.toNat ≤ 122) := by omega
      have h3' : 65 ≤ c.toNat ∧ c.toNat ≤ 90 := ⟨h3.1, by omega⟩
      simp only [h1, h2, h2', h3', and_self, if_true, if_false, Option.some.injEq]
      omega

theorem digitsValue_hex (ds : List Char) (h : ∀ c ∈ ds, isHexDigit c = true) :
    ∀ acc, digitsValue 16 acc ds = ds.foldl (fun a c => 16 * a + hexDigitValue c) acc := by
  induction ds with
  | nil => intro acc; rfl
  | cons c t ih =>
    intro acc
    obtain ⟨h1, h2⟩ := hexDigit_digitVal c (h c (by simp))
    simp only [digitsValue, h1, h2, if_true, List.foldl_cons]
    exact ih (fun d hd => h d (by simp [hd])) _

theorem strtol_hex (ds : List Char) (hne : ds ≠ []) (h : ∀ c ∈ ds, isHexDigit c = true) :
    strtol ds 16 = min (hexValue ds : Int) LONG_MAX := by
  obtain ⟨c, t, rfl⟩ := List.exists_cons_of_ne_nil hne
  obtain ⟨-, -, hsp, hm, hp, -, -⟩ := hexDigit_facts c (h c (by simp))
  have hdrop : List.dropWhile isspace (c :: t) = c :: t := by
    simp [List.dropWhile, hsp]
  unfold strtol
  simp only [hdrop, List.head?_cons, Option.some.injEq, hm, hp, or_self, if_false, List.tail_cons]
  have hval : ((digitsValue 16 0 (c :: t) : Nat) : Int) = (hexValue (c :: t) : Int) := by
    rw [digitsValue_hex _ h]; rfl
  match t, h, hval with
  | [], _, hval => exact congrArg (fun v => min v LONG_MAX) hval
  | [_], _, hval => exact congrArg (fun v => min v LONG_MAX) hval
  | x :: d :: t', h, hval =>
    obtain ⟨-, -, -, -, -, hx, hX⟩ := hexDigit_facts x (h x (by simp))
    simp only [hx, hX, or_self, false_and, and_false, if_false]
    exact congrArg (fun v => min v LONG_MAX) hval

/-! ### `copy_chunks` on a well-formed body -/

theorem BIO_puts_accepts (be : Sink) (l : List Char) (hl : ∀ c ∈ l, c ≠ '\x00') (h : be.accepts) :
    BIO_puts (some be) l = ((l.length : Int), some (be.write l).2) := by
  unfold BIO_puts BIO_write
  simp only [cstr_of_no_nul l hl, (Sink.write_accepts be l h).1]

theorem BIO_printf_line_accepts (be : Sink) (l : List Char) (hl : ∀ c ∈ l, c ≠ '\x00')
    (h : be.accepts) :
    BIO_printf_line (some be) l = (((l.length + 2 : Nat) : Int), some (be.write (l ++ crlf)).2) := by
  unfold BIO_printf_line BIO_write
  rw [cstr_of_no_nul l hl]
  have := (Sink.write_accepts be (l ++ crlf) h).1
  simp only [crlf, List.length_append, List.length_cons, List.length_nil] at this ⊢
  rw [this]

theorem length_le_flatten_lines (ts : List (List Char)) :
    ts.length ≤ (ts.map (fun t => t ++ crlf)).flatten.length := by
  induction ts with
  | nil => simp
  | cons t ts ih =>
    simp only [List.map_cons, List.flatten_cons, List.length_append, List.length_cons, crlf,
      List.length_nil] at ih ⊢
    omega

theorem copy_chunks_trailers_forwards (MAXBUF : Nat) (hbuf : 2 < MAXBUF) (rest : List Char)
    (rb : Option Int) :
    ∀ (ts : List (List Char)) (fuel : Nat) (cl : Source) (be : Sink),
      ts.length < fuel →
      cl.inp = (ts.map (fun t => t ++ crlf)).flatten ++ crlf ++ rest →
      (∀ t ∈ ts, textLine MAXBUF t) → be.accepts →
      ∃ be', copy_chunks_trailers MAXBUF fuel cl (some be) rb false
          = some ⟨0, { cl with inp := rest }, some be', rb⟩
        ∧ be'.out = be.out ++ ((ts.map (fun t => t ++ crlf)).flatten ++ crlf)
        ∧ be'.accepts := by
  intro ts
  induction ts with
  | nil =>
    intro fuel cl be hfuel hin _ hacc
    obtain ⟨fuel, rfl⟩ : ∃ m, fuel = m + 1 := ⟨fuel - 1, by simp at hfuel; omega⟩
    have hg := BIO_gets_line MAXBUF cl [] rest (by simpa using hin) (by simp) (by simpa using hbuf)
    have hp := BIO_puts_accepts be crlf (by decide) hacc
    obtain ⟨w1, w2, w3⟩ := Sink.write_accepts be crlf hacc
    obtain ⟨f1, f2, f3⟩ := Sink.flush_accepts _ w3
    refine ⟨(be.write crlf).2.flush.2, ?_, ?_, f3⟩
    · rw [copy_chunks_trailers]
      simp only [hg, List.nil_append, hp, Bool.false_eq_true, if_false, BIO_flush, f1]
      simp [crlf, strip_eol]
    · rw [f2, w2]; simp
  | cons t ts ih =>
    intro fuel cl be hfuel hin hts hacc
    obtain ⟨fuel, rfl⟩ : ∃ m, fuel = m + 1 := ⟨fuel - 1, by simp at hfuel; omega⟩
    obtain ⟨htne, htc, htfit⟩ := hts t (by simp)
    have hin' : cl.inp = t ++ crlf ++ ((ts.map (fun t => t ++ crlf)).flatten ++ crlf ++ rest) := by
      rw [hin]; simp
    have hg := BIO_gets_line MAXBUF cl t _ hin' (fun c hc => (htc c hc).1) htfit
    have hnul : ∀ c ∈ t ++ crlf, c ≠ '\x00' := by
      intro c hc
      rcases List.mem_append.mp hc with h | h
      · exact (htc c h).2
      · have hc2 : ∀ d ∈ crlf, d ≠ '\x00' := by decide
        exact hc2 c h
    have hp := BIO_puts_accepts be (t ++ crlf) hnul hacc
    obtain ⟨w1, w2, w3⟩ := Sink.write_accepts be (t ++ crlf) hacc
    obtain ⟨f1, f2, f3⟩ := Sink.flush_accepts _ w3
    obtain ⟨be', e1, e2, e3⟩ := ih fuel
      { cl with inp := (ts.map (fun t => t ++ crlf)).flatten ++ crlf ++ rest }
      (be.write (t ++ crlf)).2.flush.2 (by simp at hfuel; omega) rfl
      (fun u hu => hts u (by simp [hu])) f3
    refine ⟨be', ?_, ?_, e3⟩
    · rw [copy_chunks_trailers]
      have hpos : ¬ (((t.length + 2 : Nat) : Int) ≤ 0) := by omega
      have hpos' : ¬ (((t ++ crlf).length : Int) ≤ 0) := by
        simp only [List.length_append, crlf, List.length_cons, List.length_nil]; omega
      simp only [hg, hp, Bool.false_eq_true, if_false, BIO_flush, f1, hpos, hpos',
        strip_eol_line t htc, htne, ne_eq, not_true_eq_false]
      exact e1
    · rw [e2, f2, w2]; simp

theorem hexValue_zeros (l : List Char) (h : ∀ ch ∈ l, ch = '0') : hexValue l = 0 := by
  unfold hexValue
  induction l with
  | nil => rfl
  | cons c t ih =>
    have hc : c = '0' := h c (by simp)
    subst hc
    exact ih (fun d hd => h d (by simp [hd]))

theorem length_le_flatten_chunks (cs : List Chunk) :
    cs.length ≤ (cs.map Chunk.wire).flatten.length := by
  induction cs with
  | nil => simp
  | cons c cs ih =>
    simp only [List.map_cons, List.flatten_cons, List.length_append, List.length_cons, crlf,
      Chunk.wire, List.length_nil] at ih ⊢
    omega

theorem copy_chunks_loop_forwards (MAXBUF : Nat) (CHUNK_HEAD : List Char → Bool)
    (hCH : acceptsHexLines CHUNK_HEAD) (max_size : Int) (hmax : max_size ≤ 0)
    (last : List Char) (trailers : List (List Char)) (rest : List Char)
    (hlast : last ≠ [] ∧ (∀ ch ∈ last, ch = '0') ∧ last.length + 2 < MAXBUF)
    (htr : ∀ t ∈ trailers, textLine MAXBUF t) :
    ∀ (chunks : List Chunk) (fuel : Nat) (cl : Source) (be : Sink) (rb : Option Int) (tot : Int),
      chunks.length < fuel →
      cl.inp = (chunks.map Chunk.wire).flatten
        ++ ((last ++ crlf) ++ (trailers.map (fun t => t ++ crlf)).flatten ++ crlf ++ rest) →
      (∀ c ∈ chunks, c.wellFormed MAXBUF) → cl.readsPositive → be.accepts →
      ∃ cl' be' rb', copy_chunks_loop MAXBUF CHUNK_HEAD max_size false fuel cl (some be) rb tot
          = some ⟨0, cl', some be', rb'⟩
        ∧ cl'.inp = rest
        ∧ be'.out = be.out ++ ((chunks.map Chunk.wire).flatten
            ++ ((last ++ crlf) ++ (trailers.map (fun t => t ++ crlf)).flatten ++ crlf)) := by
  obtain ⟨hlne, hlz, hlfit⟩ := hlast
  have hlhex : ∀ ch ∈ last, isHexDigit ch = true := by
    intro ch hch; rw [hlz ch hch]; decide
  have hmax' : ¬ (max_size > 0) := by omega
  intro chunks
  induction chunks with
  | nil =>
    intro fuel cl be rb tot hfuel hin _ hr hacc
    obtain ⟨fuel, rfl⟩ : ∃ m, fuel = m + 1 := ⟨fuel - 1, by simp at hfuel; omega⟩
    have hin' : cl.inp = last ++ crlf
        ++ ((trailers.map (fun t => t ++ crlf)).flatten ++ crlf ++ rest) := by
      rw [hin]; simp
    have hg := BIO_gets_line MAXBUF cl last _ hin'
      (fun c hc => (hexDigit_facts c (hlhex c hc)).1) hlfit
    have hstrip := strip_eol_line last
      (fun c hc => ⟨(hexDigit_facts c (hlhex c hc)).1, (hexDigit_facts c (hlhex c hc)).2.1⟩)
    have hcont : strtol last 16 = 0 := by
      rw [strtol_hex last hlne hlhex, hexValue_zeros last hlz]; decide
    have hp := BIO_printf_line_accepts be last
      (fun c hc => (hexDigit_facts c (hlhex c hc)).2.1) hacc
    obtain ⟨w1, w2, w3⟩ := Sink.write_accepts be (last ++ crlf) hacc
    obtain ⟨be', e1, e2, e3⟩ := copy_chunks_trailers_forwards MAXBUF (by omega) rest rb trailers
      (((trailers.map (fun t => t ++ crlf)).flatten ++ crlf ++ rest).length + 1)
      { cl with inp := (trailers.map (fun t => t ++ crlf)).flatten ++ crlf ++ rest }
      (be.write (last ++ crlf)).2
      (by
        have := length_le_flatten_lines trailers
        simp only [List.length_append]
        omega) rfl htr w3
    refine ⟨{ cl with inp := rest }, be', rb, ?_, rfl, ?_⟩
    · rw [copy_chunks_loop]
      have hpos : ¬ (((last.length + 2 : Nat) : Int) ≤ 0) := by omega
      simp only [hg, hpos, if_false, hstrip, hCH last hlne hlhex, Bool.true_eq_false, hcont, hp,
        Bool.false_eq_true, hmax', false_and, lt_self_iff_false, gt_iff_lt]
      exact e1
    · rw [e2, w2]; simp
  | cons c cs ih =>
    intro fuel cl be rb tot hfuel hin hwf hr hacc
    obtain ⟨fuel, rfl⟩ : ∃ m, fuel = m + 1 := ⟨fuel - 1, by simp at hfuel; omega⟩
    obtain ⟨hsne, hshex, hsfit, hval, hdpos, hdmax⟩ := hwf c (by simp)
    let tail : List Char := (cs.map Chunk.wire).flatten
        ++ ((last ++ crlf) ++ (trailers.map (fun t => t ++ crlf)).flatten ++ crlf ++ rest)
    have hin' : cl.inp = c.size ++ crlf ++ (c.data ++ (crlf ++ tail)) := by
      rw [hin]; simp [Chunk.wire, tail]
    have hg := BIO_gets_line MAXBUF cl c.size _ hin'
      (fun d hd => (hexDigit_facts d (hshex d hd)).1) hsfit
    have hstrip := strip_eol_line c.size
      (fun d hd => ⟨(hexDigit_facts d (hshex d hd)).1, (hexDigit_facts d (hshex d hd)).2.1⟩)
    have hcont : strtol c.size 16 = (c.data.length : Int) := by
      rw [strtol_hex c.size hsne hshex, hval]
      exact min_eq_left hdmax
    have hp := BIO_printf_line_accepts be c.size
      (fun d hd => (hexDigit_facts d (hshex d hd)).2.1) hacc
    obtain ⟨w1, w2, w3⟩ := Sink.write_accepts be (c.size ++ crlf) hacc
    -- the body of the chunk
    obtain ⟨cl1, be1, rb1, b1, b2, b3, b4, b5, -⟩ :=
      copy_bin_loop_forwards MAXBUF (by omega) ((c.data.length : Int).toNat + 1)
        { cl with inp := c.data ++ (crlf ++ tail) } (be.write (c.size ++ crlf)).2
        (c.data.length : Int) rb (by omega) (by omega)
        (by simp only [List.length_append]; push_cast; omega) hr w3
    simp only [Int.toNat_ofNat, List.take_left', List.drop_left'] at b2 b3
    -- the CRLF after the chunk
    have hg2 := BIO_gets_line MAXBUF cl1 [] tail (by simpa using b3) (by simp) (by simp; omega)
    have hp2 := BIO_printf_line_accepts be1 [] (by simp) b5
    obtain ⟨v1, v2, v3⟩ := Sink.write_accepts be1 ([] ++ crlf) b5
    obtain ⟨cl', be', rb', e1, e2, e3⟩ := ih fuel { cl1 with inp := tail }
      (be1.write ([] ++ crlf)).2 rb1 (wrapLong (tot + (c.data.length : Int)))
      (by simp at hfuel; omega) rfl (fun d hd => hwf d (by simp [hd])) b4 v3
    refine ⟨cl', be', rb', ?_, e2, ?_⟩
    · rw [copy_chunks_loop]
      have hpos : ¬ (((c.size.length + 2 : Nat) : Int) ≤ 0) := by omega
      have hpos2 : ¬ (((0 + 2 : Nat) : Int) ≤ 0) := by omega
      have hdpos' : (0 : Int) < (c.data.length : Int) := by omega
      have hs2 : strip_eol ([] ++ crlf) = [] := strip_eol_line [] (by simp)
      simp only [hg, hpos, if_false, hstrip, hCH c.size hsne hshex, Bool.true_eq_false, hcont, hp,
        Bool.false_eq_true, hmax', false_and, gt_iff_lt, hdpos', if_true, copy_bin, b1,
        ne_eq, not_true_eq_false, hg2, List.length_nil, hpos2, hs2, hp2]
      exact e1
    · rw [e3, v2, b2, w2]; simp [Chunk.wire]

/-- C2: for a well-formed chunked body whose lines fit the line buffer, read
from a source that delivers it, with discard off, no size cap and a sink that
accepts every write and flush, `copy_chunks` returns 0, consumes exactly the
body from the source and writes to the sink exactly the octets it consumed. -/
theorem copy_chunks_forwards_verbatim (MAXBUF : Nat) (CHUNK_HEAD : List Char → Bool)
    (body : ChunkedBody) (rest : List Char) (cl : Source) (be : Sink)
    (res_bytes : Option Int) (max_size : Int)
    (hCH : acceptsHexLines CHUNK_HEAD) (hwf : body.wellFormed MAXBUF)
    (hin : cl.inp = body.wire ++ rest) (hr : cl.readsPositive) (hacc : be.accepts)
    (hmax : max_size ≤ 0) :
    ∃ cl' be' rb', copy_chunks MAXBUF CHUNK_HEAD cl (some be) res_bytes false max_size
        = some ⟨0, cl', some be', rb'⟩
      ∧ cl'.inp = rest
      ∧ be'.out = be.out ++ body.wire := by
  obtain ⟨hchunks, hlne, hlz, hlfit, htr⟩ := hwf
  have hin' : cl.inp = (body.chunks.map Chunk.wire).flatten
      ++ ((body.last ++ crlf) ++ (body.trailers.map (fun t => t ++ crlf)).flatten ++ crlf
        ++ rest) := by
    rw [hin]; simp [ChunkedBody.wire]
  obtain ⟨cl', be', rb', h1, h2, h3⟩ :=
    copy_chunks_loop_forwards MAXBUF CHUNK_HEAD hCH max_size hmax body.last body.trailers rest
      ⟨hlne, hlz, hlfit⟩ htr body.chunks (cl.inp.length + 1) cl be res_bytes 0
      (by
        have := length_le_flatten_chunks body.chunks
        rw [hin']
        simp only [List.length_append]
        omega) hin' hchunks hr hacc
  refine ⟨cl', be', rb', h1, h2, ?_⟩
  rw [h3]; simp [ChunkedBody.wire]

theorem copy_chunks_forwards_verbatim_witness :
    helloBody.wire = "5\r\nhello\r\n0\r\n\r\n".toList ∧
    ∃ cl' be' rb', copy_chunks 4096 chunkHeadSample { inp := helloBody.wire ++ ['G', 'E', 'T'], rplan := [some 3] }
          (some ⟨[], [], []⟩) (some 0) false 0
        = some ⟨0, cl', some be', rb'⟩
      ∧ cl'.inp = ['G', 'E', 'T']
      ∧ be'.out = [] ++ helloBody.wire :=
  ⟨by decide,
   copy_chunks_forwards_verbatim 4096 chunkHeadSample helloBody ['G', 'E', 'T']
    { inp := helloBody.wire ++ ['G', 'E', 'T'], rplan := [some 3] } ⟨[], [], []⟩ (some 0) 0
    (by
      intro l hne hl
      cases l with
      | nil => exact absurd rfl hne
      | cons c t => exact hl c (by simp))
    (by
      refine ⟨?_, by decide, by decide, by decide, fun t ht => by simp [helloBody] at ht⟩
      intro c hc
      have hc' : c = ⟨['5'], ['h', 'e', 'l', 'l', 'o']⟩ := by simpa [helloBody] using hc
      subst hc'
      exact ⟨by decide, by decide, by decide, by decide, by decide, by decide⟩)
    rfl (by decide) (by decide) (by decide)⟩

/-! ### `get_headers` -/

theorem get_headers_start_line (MAXBUF : Nat) (inp : Source) (t rest : List Char) (fuel : Nat)
    (ht : textLine MAXBUF t) (hin : inp.inp = t ++ crlf ++ rest) :
    get_headers_start MAXBUF (fuel + 1) inp
      = some (((t.length + 2 : Nat) : Int), t, { inp with inp := rest }) := by
  obtain ⟨hne, hc, hfit⟩ := ht
  have hg := BIO_gets_line MAXBUF inp t rest hin (fun c h => (hc c h).1) hfit
  have hpos : ((t.length + 2 : Nat) : Int) > 0 := by omega
  rw [get_headers_start]
  simp only [hg, hpos, if_true, strip_eol_line t hc, ne_eq, hne, not_false_eq_true]

theorem get_headers_lines_accept (MAXBUF : Nat) (hbuf : 2 < MAXBUF) (rest : List Char) :
    ∀ (lines : List (List Char)) (left : Nat) (buf : List Char) (acc : List (List Char))
      (inp : Source),
      inp.inp = (lines.map (fun t => t ++ crlf)).flatten ++ crlf ++ rest →
      (∀ t ∈ lines, textLine MAXBUF t) → buf.length ≤ MAXBUF - 1 → lines.length < left →
      get_headers_lines MAXBUF left buf acc inp
        = (some (acc ++ buf :: lines), { inp with inp := rest }) := by
  intro lines
  induction lines with
  | nil =>
    intro left buf acc inp hin _ hb hleft
    obtain ⟨left, rfl⟩ : ∃ m, left = m + 1 := ⟨left - 1, by simp at hleft; omega⟩
    have hg := BIO_gets_line MAXBUF inp [] rest (by simpa using hin) (by simp) (by simpa using hbuf)
    have hs : strip_eol ([] ++ crlf) = [] := strip_eol_line [] (by simp)
    have hpos : ¬ (((0 + 2 : Nat) : Int) ≤ 0) := by omega
    rw [get_headers_lines]
    simp only [hg, List.length_nil, hpos, if_false, hs, if_true, List.take_of_length_le hb]
  | cons t ts ih =>
    intro left buf acc inp hin hts hb hleft
    obtain ⟨left, rfl⟩ : ∃ m, left = m + 1 := ⟨left - 1, by simp at hleft; omega⟩
    obtain ⟨hne, hc, hfit⟩ := hts t (by simp)
    have hin' : inp.inp = t ++ crlf ++ ((ts.map (fun t => t ++ crlf)).flatten ++ crlf ++ rest) := by
      rw [hin]; simp
    have hg := BIO_gets_line MAXBUF inp t _ hin' (fun c h => (hc c h).1) hfit
    have hpos : ¬ (((t.length + 2 : Nat) : Int) ≤ 0) := by omega
    have hrec := ih left t (acc ++ [buf])
      { inp with inp := (ts.map (fun t => t ++ crlf)).flatten ++ crlf ++ rest } rfl
      (fun u hu => hts u (by simp [hu])) (by omega) (by simp at hleft; omega)
    rw [get_headers_lines]
    simp only [hg, hpos, if_false, strip_eol_line t hc, hne, List.take_of_length_le hb]
    rw [hrec]
    simp

theorem get_headers_lines_reject (MAXBUF : Nat) (rest : List Char) :
    ∀ (lines : List (List Char)) (left : Nat) (buf : List Char) (acc : List (List Char))
      (inp : Source),
      inp.inp = (lines.map (fun t => t ++ crlf)).flatten ++ rest →
      (∀ t ∈ lines, textLine MAXBUF t) → left ≤ lines.length →
      (get_headers_lines MAXBUF left buf acc inp).1 = none := by
  intro lines
  induction lines with
  | nil =>
    intro left buf acc inp _ _ hleft
    obtain rfl : left = 0 := by simpa using hleft
    rfl
  | cons t ts ih =>
    intro left buf acc inp hin hts hleft
    cases left with
    | zero => rfl
    | succ left =>
      obtain ⟨hne, hc, hfit⟩ := hts t (by simp)
      have hin' : inp.inp = t ++ crlf ++ ((ts.map (fun t => t ++ crlf)).flatten ++ rest) := by
        rw [hin]; simp
      have hg := BIO_gets_line MAXBUF inp t _ hin' (fun c h => (hc c h).1) hfit
      have hpos : ¬ (((t.length + 2 : Nat) : Int) ≤ 0) := by omega
      have hrec := ih left t (acc ++ [buf.take (MAXBUF - 1)])
        { inp with inp := (ts.map (fun t => t ++ crlf)).flatten ++ rest } rfl
        (fun u hu => hts u (by simp [hu])) (by simp at hleft; omega)
      rw [get_headers_lines]
      simp only [hg, hpos, if_false, strip_eol_line t hc, hne]
      exact hrec

/-- C9: `get_headers` returns all lines of a block of up to `MAXHEADERS` lines
(the request line included; in particular of exactly `MAXHEADERS` lines) that
is closed by an empty line, reading up to that empty line; for a block of
`MAXHEADERS + 1` or more lines it returns `NULL` after `err_reply` with the
500 status, which puts the 500 reply on a client channel that accepts
writes.  The lines are texts without NUL that fit the line buffer, the first
one short of filling it. -/
theorem get_headers_count_limit (MAXBUF MAXHEADERS : Nat) (lstn : LISTENER) (inp : Source)
    (cl : Sink) (first : List Char) (more : List (List Char)) (rest : List Char)
    (hfirst : textLine MAXBUF first) (hshort : first.length + 3 < MAXBUF)
    (hmore : ∀ t ∈ more, textLine MAXBUF t) :
    (more.length + 1 ≤ MAXHEADERS →
      inp.inp = ((first :: more).map (fun t => t ++ crlf)).flatten ++ crlf ++ rest →
      get_headers MAXBUF MAXHEADERS lstn inp cl
        = some ⟨some (first :: more), { inp with inp := rest }, cl⟩) ∧
    (MAXHEADERS + 1 ≤ more.length + 1 →
      inp.inp = ((first :: more).map (fun t => t ++ crlf)).flatten ++ rest →
      ∃ inp', get_headers MAXBUF MAXHEADERS lstn inp cl
          = some ⟨none, inp', err_reply cl h500 lstn.err500⟩ ∧
        (cl.accepts → (err_reply cl h500 lstn.err500).out
          = cl.out ++ err_response h500 lstn.err500)) := by
  have hres1 : ¬ (((first.length + 2 : Nat) : Int) ≤ 0) := by omega
  have hres2 : ¬ (((first.length + 2 : Nat) : Int) ≥ (MAXBUF : Int) - 1) := by omega
  constructor
  · intro hcount hin
    have hin' : inp.inp = first ++ crlf
        ++ ((more.map (fun t => t ++ crlf)).flatten ++ crlf ++ rest) := by
      rw [hin]; simp
    have hstart := get_headers_start_line MAXBUF inp first _ inp.inp.length hfirst hin'
    have hlines := get_headers_lines_accept MAXBUF (by omega) rest more MAXHEADERS first []
      { inp with inp := (more.map (fun t => t ++ crlf)).flatten ++ crlf ++ rest } rfl hmore
      (by omega) (by omega)
    unfold get_headers
    rw [hstart]
    simp only [hres1, hres2, if_false, hlines, List.nil_append]
  · intro hcount hin
    have hin' : inp.inp = first ++ crlf ++ ((more.map (fun t => t ++ crlf)).flatten ++ rest) := by
      rw [hin]; simp
    have hstart := get_headers_start_line MAXBUF inp first _ inp.inp.length hfirst hin'
    have hlines := get_headers_lines_reject MAXBUF rest more MAXHEADERS first []
      { inp with inp := (more.map (fun t => t ++ crlf)).flatten ++ rest } rfl hmore (by omega)
    refine ⟨(get_headers_lines MAXBUF MAXHEADERS first []
      { inp with inp := (more.map (fun t => t ++ crlf)).flatten ++ rest }).2, ?_, ?_⟩
    · unfold get_headers
      rw [hstart]
      simp only [hres1, hres2, if_false]
      split
      · next hs inp2 heq => rw [heq] at hlines; simp at hlines
      · next inp2 heq => rw [heq]
    · intro hacc
      obtain ⟨w1, w2, w3⟩ := Sink.write_accepts cl (err_response h500 lstn.err500) hacc
      obtain ⟨f1, f2, f3⟩ := Sink.flush_accepts _ w3
      unfold err_reply
      rw [f2, w2]

theorem get_headers_count_limit_witness :
    get_headers 64 2 sample_lstn { inp := "GET / HTTP/1.1\r\nHost: x\r\n\r\nabc".toList } ⟨[], [], []⟩
      = some ⟨some ["GET / HTTP/1.1".toList, "Host: x".toList], { inp := "abc".toList },
          ⟨[], [], []⟩⟩ ∧
    ∃ inp', get_headers 64 2 sample_lstn
        { inp := "GET / HTTP/1.1\r\nHost: x\r\nAccept: y\r\n\r\nabc".toList } ⟨[], [], []⟩
          = some ⟨none, inp', err_reply ⟨[], [], []⟩ h500 sample_lstn.err500⟩ ∧
        ((⟨[], [], []⟩ : Sink).accepts → (err_reply ⟨[], [], []⟩ h500 sample_lstn.err500).out
          = [] ++ err_response h500 sample_lstn.err500) :=
  ⟨(get_headers_count_limit 64 2 sample_lstn
      { inp := "GET / HTTP/1.1\r\nHost: x\r\n\r\nabc".toList } ⟨[], [], []⟩
      "GET / HTTP/1.1".toList ["Host: x".toList] "abc".toList
      (by decide) (by decide) (by decide)).1 (by decide) (by decide),
   (get_headers_count_limit 64 2 sample_lstn
      { inp := "GET / HTTP/1.1\r\nHost: x\r\nAccept: y\r\n\r\nabc".toList } ⟨[], [], []⟩
      "GET / HTTP/1.1".toList ["Host: x".toList, "Accept: y".toList] "\r\nabc".toList
      (by decide) (by decide) (by decide)).2 (by decide) (by decide)⟩

theorem getsLine_append : ∀ (n : Nat) (s : List Char), (getsLine n s).1 ++ (getsLine n s).2 = s
  | 0, s => rfl
  | _ + 1, [] => rfl
  | n + 1, c :: s => by
    rw [getsLine]
    split
    · rfl
    · simp [getsLine_append n s]

theorem BIO_gets_length (inp : Source) (size : Nat) (hpos : 0 < (BIO_gets inp size).1) :
    (BIO_gets inp size).1 + (BIO_gets inp size).2.2.inp.length = inp.inp.length := by
  unfold BIO_gets at hpos ⊢
  have h := congrArg List.length (getsLine_append (size - 1) inp.inp)
  simp only [List.length_append] at h
  simp only at hpos ⊢
  split_ifs at hpos ⊢ with he
  · omega
  · omega

theorem getsLine_length_le : ∀ (n : Nat) (s : List Char), (getsLine n s).1.length ≤ n
  | 0, s => by simp [getsLine]
  | _ + 1, [] => by simp [getsLine]
  | n + 1, c :: s => by
    rw [getsLine]
    split
    · simp
    · have := getsLine_length_le n s
      simp only [List.length_cons]
      omega

theorem get_headers_start_total (MAXBUF : Nat) :
    ∀ (fuel : Nat) (inp : Source), inp.inp.length < fuel →
      ∃ res buf inp1, get_headers_start MAXBUF fuel inp = some (res, buf, inp1) ∧
        (0 < res → buf ≠ [] ∧ res ≤ (MAXBUF : Int) - 1) := by
  intro fuel
  induction fuel with
  | zero => intro inp h; omega
  | succ fuel ih =>
    intro inp h
    rw [get_headers_start]
    have hlen := BIO_gets_length inp MAXBUF
    have hle : (BIO_gets inp MAXBUF).1 ≤ ((MAXBUF - 1 : Nat) : Int) := by
      unfold BIO_gets
      have := getsLine_length_le (MAXBUF - 1) inp.inp
      simp only
      omega
    split_ifs with hpos hne
    · refine ⟨_, _, _, rfl, fun _ => ⟨hne, ?_⟩⟩
      omega
    · exact ih _ (by omega)
    · exact ⟨_, _, _, rfl, fun hp => absurd hp hpos⟩

theorem Sink.flush_out (s : Sink) : s.flush.2.out = s.out := by
  obtain ⟨out, wplan, fplan⟩ := s
  match fplan with
  | [] => rfl
  | true :: _ => rfl
  | false :: _ => rfl

theorem Sink.write_out (s : Sink) (d : List Char) :
    (s.write d).2.out = s.out ∨ (s.write d).2.out = s.out ++ d := by
  obtain ⟨out, wplan, fplan⟩ := s
  match wplan with
  | [] => exact Or.inr rfl
  | true :: _ => exact Or.inr rfl
  | false :: _ => exact Or.inl rfl

theorem err_response_500_ne_414 (a b : List Char) : err_response h500 a ≠ err_response h414 b := by
  intro h
  have h' := congrArg (fun l => l.get? 9) h
  revert h'
  simp only [err_response]
  have e5 : cstr h500 = h500 := by decide
  have e4 : cstr h414 = h414 := by decide
  rw [e5, e4]
  simp [h500, h414]

theorem err_response_ne_nil (head txt : List Char) : err_response head txt ≠ [] := by
  simp [err_response]

/-! ### Rounds of `thr_http` on concrete requests -/

/-- C3: the request `POST / HTTP/1.1`, `Host: x`, `Content-Length: 0`,
`Transfer-Encoding: chunked` with a chunked body: the classifier keeps all
four lines (`headers_ok` is 1 for each), the back-end receives both framing
headers, and the body is relayed chunked. -/
theorem content_length_zero_then_chunked_both_forwarded :
    (thr_http_round sample_env sample_lstn none (sample_renv "HTTP/1.1 204 No Content\r\n\r\n")
        (start_locals ("POST / HTTP/1.1\r\nHost: x\r\nContent-Length: 0\r\n"
          ++ "Transfer-Encoding: chunked\r\n\r\n3\r\nabc\r\n0\r\n\r\n"))).map
      (fun r => (r.1, r.2.headers_ok, r.2.be.map (fun b => b.snk.out)))
    = some (Next.again, [true, true, true, true],
        some ("POST / HTTP/1.1\r\nHost: x\r\nContent-Length: 0\r\nTransfer-Encoding: chunked\r\n"
          ++ "X-Forwarded-For: 192.0.2.7\r\n\r\n3\r\nabc\r\n0\r\n\r\n").toList) := by
  decide

/-- C5, counterexample: an HTTP/1.1 client, a back-end that answers with
`HTTP/1.0 200 OK` and a `Content-Length`, no `Connection: close`, no forced
1.0: the round ends with `be_11` 0, and `thr_http` goes on to the next request
all the same (only the channel to the back-end is closed): the loop reads and
answers the second request of the client as well, and ends when the client
has no more to send. -/
theorem keep_alive_after_http10_response :
    (thr_http_round sample_env sample_lstn none
        (sample_renv "HTTP/1.0 200 OK\r\nContent-Length: 2\r\n\r\nhi")
        (start_locals "GET /a HTTP/1.1\r\nHost: x\r\n\r\nGET /b HTTP/1.1\r\nHost: x\r\n\r\n")).map
      (fun r => (r.1, [r.2.cl_11, r.2.be_11, r.2.conn_closed, r.2.force_10, r.2.be.isSome],
        r.2.cl.snk.out, r.2.cl.src.inp))
    = some (Next.again, [true, false, false, false, false],
        "HTTP/1.0 200 OK\r\nContent-Length: 2\r\n\r\nhi".toList,
        "GET /b HTTP/1.1\r\nHost: x\r\n\r\n".toList) ∧
    (thr_http_loop sample_env sample_lstn none 3
        [sample_renv "HTTP/1.0 200 OK\r\nContent-Length: 2\r\n\r\nhi",
         sample_renv "HTTP/1.0 200 OK\r\nContent-Length: 2\r\n\r\nho"]
        (start_locals "GET /a HTTP/1.1\r\nHost: x\r\n\r\nGET /b HTTP/1.1\r\nHost: x\r\n\r\n")).map
      (fun r => (r.1, r.2.cl.snk.out, r.2.cl.src.inp))
    = some (Next.exit,
        ("HTTP/1.0 200 OK\r\nContent-Length: 2\r\n\r\nhi"
          ++ "HTTP/1.0 200 OK\r\nContent-Length: 2\r\n\r\nho").toList, []) := by
  decide

/-- C7: the request `GET /a HTTP/1.1`, `Host: x` to a back-end that sends
`HTTP/1.1 200 OK` and closes: `get_headers` answers the failed read with a 500
reply, `thr_http` adds a second one, and the client channel holds two replies
for the one request. -/
theorem two_replies_when_response_head_fails :
    (thr_http_round sample_env sample_lstn none (sample_renv "HTTP/1.1 200 OK\r\n")
        (start_locals "GET /a HTTP/1.1\r\nHost: x\r\n\r\n")).map
      (fun r => (r.1, r.2.cl.snk.out))
    = some (Next.exit,
        err_response h500 sample_lstn.err500 ++ err_response h500 sample_lstn.err500) := by
  decide

/-- C8: with the `head_off` list `^X-Secret`, `^X-Other` the header
`X-Secret: 1` matches the first pattern and is sent to the back-end all the
same, because the result of the last pattern is the one that stays in
`headers_ok`; with the same two patterns in the other order it is withheld. -/
theorem head_off_last_pattern_decides :
    (thr_http_round sample_env (head_off_lstn true) none
        (sample_renv "HTTP/1.1 204 No Content\r\n\r\n")
        (start_locals "GET / HTTP/1.1\r\nX-Secret: 1\r\n\r\n")).map
      (fun r => (r.2.headers_ok, r.2.be.map (fun b => b.snk.out)))
    = some ([true, true],
        some "GET / HTTP/1.1\r\nX-Secret: 1\r\nX-Forwarded-For: 192.0.2.7\r\n\r\n".toList) ∧
    (thr_http_round sample_env (head_off_lstn false) none
        (sample_renv "HTTP/1.1 204 No Content\r\n\r\n")
        (start_locals "GET / HTTP/1.1\r\nX-Secret: 1\r\n\r\n")).map
      (fun r => (r.2.headers_ok, r.2.be.map (fun b => b.snk.out)))
    = some ([true, false],
        some "GET / HTTP/1.1\r\nX-Forwarded-For: 192.0.2.7\r\n\r\n".toList) := by
  decide

/-! ### What the stretches of a round leave alone -/

theorem Frame.refl (l : Locals) : Frame l l := ⟨rfl, rfl, rfl, id⟩

theorem Frame.trans {a b c : Locals} (h1 : Frame a b) (h2 : Frame b c) : Frame a c :=
  ⟨h2.1.trans h1.1, h2.2.1.trans h1.2.1, h2.2.2.1.trans h1.2.2.1, fun h => h2.2.2.2 (h1.2.2.2 h)⟩

theorem frame_reply (l : Locals) (a b : List Char) : Frame l (l.reply a b) := ⟨rfl, rfl, rfl, id⟩

theorem frame_setBeSink (l : Locals) (s : Option Sink) : Frame l (l.setBeSink s) :=
  ⟨rfl, rfl, rfl, id⟩

theorem response_header_frame (env : Env) (lstn : LISTENER) (ssl : Option SSL) (backend : BACKEND)
    (l : Locals) (h : List Char) : Frame l (response_header env lstn ssl backend l h).1 := by
  unfold response_header
  simp only []
  split <;> (try split) <;> (try split) <;> simp [Frame]

theorem response_headers_frame (env : Env) (lstn : LISTENER) (ssl : Option SSL)
    (backend : BACKEND) :
    ∀ (hs : List (List Char)) (l : Locals), Frame l (response_headers env lstn ssl backend l hs).1
  | [], l => Frame.refl l
  | h :: hs, l => by
    rw [response_headers]
    exact (response_header_frame env lstn ssl backend l h).trans
      (response_headers_frame env lstn ssl backend hs _)

theorem thr_http_response_body_frame (env : Env) (be : BIO) (l : Locals) (b : Bool) (l' : Locals)
    (h : thr_http_response_body env be l = some (b, l')) : Frame l l' := by
  unfold thr_http_response_body at h
  simp only [] at h
  repeat' split at h
  all_goals (try (simp only [Option.some.injEq, Prod.mk.injEq, reduceCtorEq] at h))
  all_goals (try (obtain ⟨-, rfl⟩ := h))
  all_goals (try (simp [Frame]))

theorem response_headers_force_10 (env : Env) (lstn : LISTENER) (ssl : Option SSL)
    (backend : BACKEND) (hs : List (List Char)) (l : Locals) :
    (response_headers env lstn ssl backend l hs).1.force_10 = l.force_10 :=
  (response_headers_frame env lstn ssl backend hs l).1

theorem response_headers_u_agent (env : Env) (lstn : LISTENER) (ssl : Option SSL)
    (backend : BACKEND) (hs : List (List Char)) (l : Locals) :
    (response_headers env lstn ssl backend l hs).1.u_agent = l.u_agent :=
  (response_headers_frame env lstn ssl backend hs l).2.1

theorem response_headers_cur_backend (env : Env) (lstn : LISTENER) (ssl : Option SSL)
    (backend : BACKEND) (hs : List (List Char)) (l : Locals) :
    (response_headers env lstn ssl backend l hs).1.cur_backend = l.cur_backend :=
  (response_headers_frame env lstn ssl backend hs l).2.2.1

theorem response_headers_conn_closed (env : Env) (lstn : LISTENER) (ssl : Option SSL)
    (backend : BACKEND) (hs : List (List Char)) (l : Locals) (h : l.conn_closed = true) :
    (response_headers env lstn ssl backend l hs).1.conn_closed = true :=
  (response_headers_frame env lstn ssl backend hs l).2.2.2 h

theorem response_head_frame (env : Env) (lstn : LISTENER) (ssl : Option SSL) (backend : BACKEND)
    (l : Locals) (headers : List (List Char)) :
    Frame l (response_head env lstn ssl backend l headers) := by
  unfold response_head
  refine ⟨?_, ?_, ?_, ?_⟩
  · simp only [response_headers_force_10]
  · simp only [response_headers_u_agent]
  · simp only [response_headers_cur_backend]
  · intro h
    exact response_headers_conn_closed _ _ _ _ _ _ h

theorem send_response_head_frame (l : Locals) : Frame l (send_response_head l).2 := by
  unfold send_response_head
  simp only []
  split <;> (try split) <;> simp [Frame]

theorem response_pass_frame (env : Env) (lstn : LISTENER) (ssl : Option SSL) (backend : BACKEND)
    (l : Locals) (o : Option Bool) (l' : Locals)
    (h : response_pass env lstn ssl backend l = some (o, l')) : Frame l l' := by
  unfold response_pass at h
  split at h
  · simp only [Option.some.injEq, Prod.mk.injEq] at h
    obtain ⟨-, rfl⟩ := h
    exact frame_reply _ _ _
  · next be hbe =>
    split at h
    · exact absurd h (by simp)
    · next r hr =>
      simp only [] at h
      have hf1 : Frame l { l with be := some { be with src := r.inp }, cl := { l.cl with snk := r.cl } } :=
        ⟨rfl, rfl, rfl, id⟩
      split at h
      · simp only [Option.some.injEq, Prod.mk.injEq] at h
        obtain ⟨-, rfl⟩ := h
        exact hf1.trans (frame_reply _ _ _)
      · next headers hh =>
        have hf2 := hf1.trans ((response_head_frame env lstn ssl backend _ headers).trans
          (send_response_head_frame _))
        split at h
        · simp only [Option.some.injEq, Prod.mk.injEq] at h
          obtain ⟨-, rfl⟩ := h
          exact hf2
        · split at h
          · simp only [Option.some.injEq, Prod.mk.injEq] at h
            obtain ⟨-, rfl⟩ := h
            exact hf2
          · split at h
            · exact absurd h (by simp)
            · next b hb =>
              have hf3 := hf2.trans (thr_http_response_body_frame _ _ _ b.1 b.2 hb)
              split at h <;>
              · simp only [Option.some.injEq, Prod.mk.injEq] at h
                obtain ⟨-, rfl⟩ := h
                exact hf3

theorem thr_http_response_frame (env : Env) (lstn : LISTENER) (ssl : Option SSL)
    (backend : BACKEND) :
    ∀ (fuel : Nat) (l : Locals) (s : Step),
      thr_http_response env lstn ssl backend fuel l = some s →
      (∀ l', s = .go l' → Frame l l') ∧ (∀ n l', s = .fin n l' → n = .exit ∧ Frame l l') := by
  intro fuel
  induction fuel with
  | zero => intro l s h; simp [thr_http_response] at h
  | succ fuel ih =>
    intro l s h
    rw [thr_http_response] at h
    split at h
    · exact absurd h (by simp)
    · next l1 hp =>
      have hf := response_pass_frame _ _ _ _ _ _ _ hp
      simp only [Option.some.injEq] at h
      subst h
      exact ⟨fun l' h' => (by cases h'), fun n l' h' => (by cases h'; exact ⟨rfl, hf⟩)⟩
    · next l1 hp =>
      have hf := response_pass_frame _ _ _ _ _ _ _ hp
      obtain ⟨h1, h2⟩ := ih l1 s h
      exact ⟨fun l' h' => hf.trans (h1 l' h'), fun n l' h' => ⟨(h2 n l' h').1, hf.trans (h2 n l' h').2⟩⟩
    · next l1 hp =>
      have hf := response_pass_frame _ _ _ _ _ _ _ hp
      simp only [Option.some.injEq] at h
      subst h
      exact ⟨fun l' h' => (by cases h'; exact hf), fun n l' h' => (by cases h')⟩

theorem request_header_conn_closed (env : Env) (lstn : LISTENER) (l : Locals) (h : List Char) :
    (request_header env lstn l h).1.conn_closed = (l.conn_closed || is_connection_close env h) := by
  unfold request_header is_connection_close
  simp only []
  cases hk : (env.check_header h).1 <;> simp only [] <;> (try split) <;> (try split) <;>
    (try split) <;> simp_all

theorem request_headers_conn_closed (env : Env) (lstn : LISTENER) :
    ∀ (hs : List (List Char)) (l : Locals),
      (request_headers env lstn l hs).1.conn_closed
        = (l.conn_closed || hs.any (is_connection_close env))
  | [], l => by simp [request_headers]
  | h :: hs, l => by
    rw [request_headers]
    simp only [request_headers_conn_closed env lstn hs, request_header_conn_closed,
      List.any_cons, Bool.or_assoc]

theorem response_header_conn_closed (env : Env) (lstn : LISTENER) (ssl : Option SSL)
    (backend : BACKEND) (l : Locals) (h : List Char) :
    (response_header env lstn ssl backend l h).1.conn_closed
      = (l.conn_closed || is_connection_close env h) := by
  unfold response_header is_connection_close
  simp only []
  cases hk : (env.check_header h).1 <;> simp only [] <;> (try split) <;> (try split) <;>
    (try split) <;> simp_all

theorem response_headers_conn_closed_eq (env : Env) (lstn : LISTENER) (ssl : Option SSL)
    (backend : BACKEND) :
    ∀ (hs : List (List Char)) (l : Locals),
      (response_headers env lstn ssl backend l hs).1.conn_closed
        = (l.conn_closed || hs.any (is_connection_close env))
  | [], l => by simp [response_headers]
  | h :: hs, l => by
    rw [response_headers]
    simp only [response_headers_conn_closed_eq env lstn ssl backend hs,
      response_header_conn_closed, List.any_cons, Bool.or_assoc]

theorem request_header_u_agent_frame (env : Env) (lstn : LISTENER) (l : Locals) (h : List Char) :
    (request_header env lstn l h).1.force_10 = l.force_10 ∧
    (request_header env lstn l h).1.cur_backend = l.cur_backend ∧
    (request_header env lstn l h).1.cl = l.cl ∧
    (request_header env lstn l h).1.be = l.be ∧
    (request_header env lstn l h).1.cl_11 = l.cl_11 ∧
    (request_header env lstn l h).1.headers = l.headers := by
  unfold request_header
  simp only []
  cases hk : (env.check_header h).1 <;> simp only [] <;> (try split) <;> (try split) <;>
    (try split) <;> simp_all

/-! ### The framing headers of a request -/

theorem request_headers_append (env : Env) (lstn : LISTENER) :
    ∀ (a b : List (List Char)) (l : Locals),
      request_headers env lstn l (a ++ b)
        = ((request_headers env lstn (request_headers env lstn l a).1 b).1,
           (request_headers env lstn l a).2
             ++ (request_headers env lstn (request_headers env lstn l a).1 b).2)
  | [], b, l => by simp [request_headers]
  | h :: a, b, l => by
    have e : (h :: a) ++ b = h :: (a ++ b) := rfl
    simp only [e, request_headers, List.append_eq, request_headers_append env lstn a b,
      List.cons_append]

theorem request_headers_length (env : Env) (lstn : LISTENER) :
    ∀ (hs : List (List Char)) (l : Locals), (request_headers env lstn l hs).2.length = hs.length
  | [], l => by simp [request_headers]
  | h :: hs, l => by
    rw [request_headers]
    simp [request_headers_length env lstn hs]

theorem request_headers_same (env : Env) (lstn : LISTENER) :
    ∀ (hs : List (List Char)) (l : Locals),
      (request_headers env lstn l hs).1.cl = l.cl ∧
      (request_headers env lstn l hs).1.be = l.be ∧
      (request_headers env lstn l hs).1.headers = l.headers
  | [], l => by simp [request_headers]
  | h :: hs, l => by
    rw [request_headers]
    obtain ⟨-, -, h3, h4, -, h6⟩ := request_header_u_agent_frame env lstn l h
    obtain ⟨i1, i2, i3⟩ := request_headers_same env lstn hs (request_header env lstn l h).1
    exact ⟨i1.trans h3, i2.trans h4, i3.trans h6⟩

/-- A header that leaves the framing as it is while no framing was seen: not a
`Content-Length` and not a `Transfer-Encoding: chunked`. -/
theorem request_header_no_framing (env : Env) (lstn : LISTENER) (l : Locals) (h : List Char)
    (hc : l.cont = 0) (hch : l.chunked = false)
    (h1 : (env.check_header h).1 ≠ HEADER_CONTENT_LENGTH)
    (h2 : ¬ ((env.check_header h).1 = HEADER_TRANSFER_ENCODING ∧
      strcasecmp_eq "chunked".toList (env.check_header h).2 = true)) :
    (request_header env lstn l h).1.cont = 0 ∧ (request_header env lstn l h).1.chunked = false := by
  unfold request_header
  simp only []
  cases hk : (env.check_header h).1 <;> simp only [] <;> (try split) <;> (try split) <;>
    (try split) <;> simp_all

theorem request_headers_no_framing (env : Env) (lstn : LISTENER) :
    ∀ (hs : List (List Char)) (l : Locals), l.cont = 0 → l.chunked = false →
      (∀ h ∈ hs, (env.check_header h).1 ≠ HEADER_CONTENT_LENGTH ∧
        ¬ ((env.check_header h).1 = HEADER_TRANSFER_ENCODING ∧
          strcasecmp_eq "chunked".toList (env.check_header h).2 = true)) →
      (request_headers env lstn l hs).1.cont = 0 ∧
        (request_headers env lstn l hs).1.chunked = false
  | [], l, hc, hch, _ => by simp [request_headers, hc, hch]
  | h :: hs, l, hc, hch, hall => by
    rw [request_headers]
    obtain ⟨a, b⟩ := request_header_no_framing env lstn l h hc hch (hall h (by simp)).1
      (hall h (by simp)).2
    exact request_headers_no_framing env lstn hs _ a b (fun x hx => hall x (by simp [hx]))

/-- After a `Content-Length` that is not 0, a header that is not a
`Content-Length` leaves `cont` and `chunked` as they are. -/
theorem request_header_after_length (env : Env) (lstn : LISTENER) (l : Locals) (h : List Char)
    (hc : l.cont ≠ 0) (hch : l.chunked = false)
    (h1 : (env.check_header h).1 ≠ HEADER_CONTENT_LENGTH) :
    (request_header env lstn l h).1.cont = l.cont ∧
      (request_header env lstn l h).1.chunked = false := by
  unfold request_header
  simp only []
  cases hk : (env.check_header h).1 <;> simp only [] <;> (try split) <;> simp_all

theorem request_headers_after_length (env : Env) (lstn : LISTENER) :
    ∀ (hs : List (List Char)) (l : Locals), l.cont ≠ 0 → l.chunked = false →
      (∀ h ∈ hs, (env.check_header h).1 ≠ HEADER_CONTENT_LENGTH) →
      (request_headers env lstn l hs).1.cont = l.cont ∧
        (request_headers env lstn l hs).1.chunked = false
  | [], l, _, hch, _ => by simp [request_headers, hch]
  | h :: hs, l, hc, hch, hall => by
    rw [request_headers]
    obtain ⟨a, b⟩ := request_header_after_length env lstn l h hc hch (hall h (by simp))
    obtain ⟨c, d⟩ := request_headers_after_length env lstn hs _ (by rw [a]; exact hc) b
      (fun x hx => hall x (by simp [hx]))
    exact ⟨c.trans a, d⟩

theorem request_header_length_seen (env : Env) (lstn : LISTENER) (l : Locals) (h : List Char)
    (hch : l.chunked = false) (h1 : (env.check_header h).1 = HEADER_CONTENT_LENGTH) :
    (request_header env lstn l h).1.cont = atol (env.check_header h).2 ∧
      (request_header env lstn l h).1.chunked = false := by
  unfold request_header
  simp only [h1, hch]
  simp

theorem request_header_encoding_dropped (env : Env) (lstn : LISTENER) (l : Locals) (h : List Char)
    (hc : l.cont ≠ 0) (h1 : (env.check_header h).1 = HEADER_TRANSFER_ENCODING) :
    request_header env lstn l h = (l, false) := by
  unfold request_header
  simp [h1, hc]

theorem send_request_headers_skip (env : Env) (lstn : LISTENER) (backend : BACKEND)
    (h : List Char) (b : List (List Char × Bool)) :
    ∀ (a : List (List Char × Bool)) (be : Option Sink),
      send_request_headers env lstn backend (a ++ (h, false) :: b) be
        = send_request_headers env lstn backend (a ++ b) be
  | [], be => by simp [send_request_headers]
  | (x, ok) :: a, be => by
    have e : ((x, ok) :: a) ++ (h, false) :: b = (x, ok) :: (a ++ (h, false) :: b) := rfl
    have e' : ((x, ok) :: a) ++ b = (x, ok) :: (a ++ b) := rfl
    simp only [e, e', send_request_headers, List.append_eq,
      send_request_headers_skip env lstn backend h b a]

theorem thr_http_send_head_go (env : Env) (lstn : LISTENER) (ssl : Option SSL) (backend : BACKEND)
    (l l2 : Locals) (h : thr_http_send_head env lstn ssl backend l = .go l2) :
    ∃ s, l2 = l.setBeSink s ∨ l2 = l := by
  unfold thr_http_send_head at h
  simp only [] at h
  split at h
  · simp only [Step.go.injEq] at h
    exact ⟨none, Or.inr h.symm⟩
  · split at h
    · exact absurd h (by simp)
    · split at h
      · exact absurd h (by simp)
      · simp only [Step.go.injEq] at h
        exact ⟨_, Or.inl h.symm⟩

theorem thr_http_send_body_length (env : Env) (lstn : LISTENER) (backend : BACKEND) (l : Locals)
    (b : BIO) (hbe : backend.be_type = BE_TYPE.BACK_END) (hb : l.be = some b)
    (hacc : b.snk.accepts) (hch : l.chunked = false) (hpos : 0 < l.cont) (hbuf : 0 < env.MAXBUF)
    (hin : l.cont ≤ l.cl.src.inp.length) (hr : l.cl.src.readsPositive) :
    ∃ l3 b3, thr_http_send_body env lstn backend l = some (.go l3) ∧ l3.be = some b3 ∧
      b3.snk.out = b.snk.out ++ l.cl.src.inp.take l.cont.toNat ∧
      l3.cl.src.inp = l.cl.src.inp.drop l.cont.toNat := by
  obtain ⟨cl', be', rb', h1, h2, h3, -, h5, -⟩ :=
    copy_bin_loop_forwards env.MAXBUF hbuf (l.cont.toNat + 1) l.cl.src b.snk l.cont none
      (by omega) (by omega) hin hr hacc
  obtain ⟨f1, f2, f3⟩ := Sink.flush_accepts be' h5
  have hsink : l.beSink = some b.snk := by simp [Locals.beSink, hb]
  refine ⟨{ l with cl := { l.cl with src := cl' }, be := some { b with snk := be'.flush.2 } },
    { b with snk := be'.flush.2 }, ?_, rfl, ?_, h3⟩
  rotate_left
  · simp only [f2, h2]
  · unfold thr_http_send_body
    simp only [hch, hbe, hpos, hsink, copy_bin, h1, Bool.false_eq_true, and_false, if_false,
      if_true, ne_eq, not_true_eq_false, decide_False, true_and]
    simp [Locals.setBeSink, Locals.beSink, hb, BIO_flush, f1]

theorem thr_http_backend_same (lstn : LISTENER) (renv : ReqEnv) (l : Locals)
    (backend : BACKEND) (l3 : Locals) (h : thr_http_backend lstn renv l = (some backend, l3)) :
    l3.headers = l.headers ∧ l3.headers_ok = l.headers_ok ∧ l3.cl = l.cl ∧ l3.cont = l.cont ∧
      l3.chunked = l.chunked := by
  unfold thr_http_backend at h
  simp only [] at h
  repeat' split at h
  all_goals (try (simp only [Prod.mk.injEq, Option.some.injEq, reduceCtorEq, false_and] at h))
  all_goals (try (obtain ⟨rfl, rfl⟩ := h))
  all_goals (try (refine ⟨?_, ?_, ?_, ?_, ?_⟩ <;> simp_all))

theorem request_headers_framing (env : Env) (lstn : LISTENER) (l0 : Locals)
    (pre : List (List Char)) (clh : List Char) (mid : List (List Char)) (teh : List Char)
    (post : List (List Char)) (N : Int) (h0 : l0.cont = 0) (h0' : l0.chunked = false)
    (hcl : (env.check_header clh).1 = HEADER_CONTENT_LENGTH)
    (hN : atol (env.check_header clh).2 = N) (hN0 : N ≠ 0)
    (hte : (env.check_header teh).1 = HEADER_TRANSFER_ENCODING)
    (hpre : ∀ h ∈ pre, (env.check_header h).1 ≠ HEADER_CONTENT_LENGTH ∧
      ¬ ((env.check_header h).1 = HEADER_TRANSFER_ENCODING ∧
        strcasecmp_eq "chunked".toList (env.check_header h).2 = true))
    (hrest : ∀ h ∈ mid ++ post, (env.check_header h).1 ≠ HEADER_CONTENT_LENGTH) :
    ∃ (s : Locals) (oksA oksP : List Bool),
      request_headers env lstn l0 (pre ++ clh :: (mid ++ teh :: post))
        = (s, oksA ++ false :: oksP) ∧
      oksA.length = pre.length + 1 + mid.length ∧ oksP.length = post.length ∧
      s.cont = N ∧ s.chunked = false ∧ s.cl = l0.cl ∧ s.headers = l0.headers := by
  obtain ⟨c1, d1⟩ := request_headers_no_framing env lstn pre l0 h0 h0' hpre
  obtain ⟨c2, d2⟩ := request_header_length_seen env lstn (request_headers env lstn l0 pre).1 clh
    d1 hcl
  rw [hN] at c2
  obtain ⟨c3, d3⟩ := request_headers_after_length env lstn mid _ (by rw [c2]; exact hN0) d2
    (fun h hm => hrest h (by simp [hm]))
  have c3' := c3.trans c2
  have hdrop := request_header_encoding_dropped env lstn _ teh (by rw [c3']; exact hN0) hte
  obtain ⟨c4, d4⟩ := request_headers_after_length env lstn post _ (by rw [c3']; exact hN0) d3
    (fun h hm => hrest h (by simp [hm]))
  have c4' := c4.trans c3'
  have hsame := request_headers_same env lstn (pre ++ clh :: (mid ++ teh :: post)) l0
  refine ⟨_, (request_headers env lstn l0 pre).2
      ++ (request_header env lstn (request_headers env lstn l0 pre).1 clh).2
        :: (request_headers env lstn
            (request_header env lstn (request_headers env lstn l0 pre).1 clh).1 mid).2,
    (request_headers env lstn (request_headers env lstn
      (request_header env lstn (request_headers env lstn l0 pre).1 clh).1 mid).1 post).2,
    ?_, ?_, ?_, c4', d4, ?_, ?_⟩
  · rw [request_headers_append, request_headers, request_headers_append, request_headers, hdrop]
    simp
  · simp only [List.length_append, List.length_cons, request_headers_length]
    omega
  · exact request_headers_length env lstn post _
  · have := hsame.1
    rw [request_headers_append, request_headers, request_headers_append, request_headers,
      hdrop] at this
    exact this
  · have := hsame.2.2
    rw [request_headers_append, request_headers, request_headers_append, request_headers,
      hdrop] at this
    exact this

/-- C4, as amended: a request whose only `Content-Length` header has a value
`N > 0` (within `max_req`), stands before a `Transfer-Encoding` header and is
not preceded by a `Transfer-Encoding: chunked`.  The classifier goes on with `headers_ok` 0
for the `Transfer-Encoding` line, so that the head sent to the back-end is the
head of the same request without that line; the choice of the back-end leaves
the headers and `headers_ok` as they are; and once the head is out to a
back-end of type `BACK_END`, the body is relayed by `copy_bin`: exactly the
next `N` octets of the client are appended to what the back-end received and
the client is read no further. -/
theorem content_length_then_chunked (env : Env) (lstn : LISTENER) (ssl : Option SSL)
    (backend : BACKEND) (l : Locals) (request : List Char) (pre : List (List Char))
    (clh : List Char) (mid : List (List Char)) (teh : List Char) (post : List (List Char))
    (N : Int)
    (hh : l.headers = request :: (pre ++ clh :: (mid ++ teh :: post)))
    (hcl : (env.check_header clh).1 = HEADER_CONTENT_LENGTH)
    (hN : atol (env.check_header clh).2 = N) (hpos : 0 < N)
    (hmax : lstn.max_req ≤ 0 ∨ N ≤ lstn.max_req)
    (hte : (env.check_header teh).1 = HEADER_TRANSFER_ENCODING)
    (hpre : ∀ h ∈ pre, (env.check_header h).1 ≠ HEADER_CONTENT_LENGTH ∧
      ¬ ((env.check_header h).1 = HEADER_TRANSFER_ENCODING ∧
        strcasecmp_eq "chunked".toList (env.check_header h).2 = true))
    (hrest : ∀ h ∈ mid ++ post, (env.check_header h).1 ≠ HEADER_CONTENT_LENGTH)
    (hbe : backend.be_type = BE_TYPE.BACK_END) :
    ∃ l1 a b, thr_http_classify env lstn l = .go l1 ∧
      l1.headers.zip l1.headers_ok = a ++ (teh, false) :: b ∧
      a.length = pre.length + mid.length + 2 ∧
      (∀ be, send_request_headers env lstn backend (l1.headers.zip l1.headers_ok) be
        = send_request_headers env lstn backend (a ++ b) be) ∧
      ∀ renv l1b, thr_http_backend lstn renv l1 = (some backend, l1b) →
        l1b.headers.zip l1b.headers_ok = l1.headers.zip l1.headers_ok ∧
        ∀ l2 b2, thr_http_send_head env lstn ssl backend l1b = .go l2 → l2.be = some b2 →
          b2.snk.accepts → 0 < env.MAXBUF → N ≤ l.cl.src.inp.length → l.cl.src.readsPositive →
          ∃ l3 b3, thr_http_send_body env lstn backend l2 = some (.go l3) ∧ l3.be = some b3 ∧
            b3.snk.out = b2.snk.out ++ l.cl.src.inp.take N.toNat ∧
            l3.cl.src.inp = l.cl.src.inp.drop N.toNat := by
  have hN0 : N ≠ 0 := by omega
  obtain ⟨s, oksA, oksP, hscan, hlA, hlP, hcont, hch, hcl4, hhd4⟩ :=
    request_headers_framing env lstn { l with chunked := false, cont := 0 } pre clh mid teh post N
      rfl rfl hcl hN hN0 hte hpre hrest
  simp only at hcl4 hhd4
  have htail : l.headers.tail = pre ++ clh :: (mid ++ teh :: post) := by rw [hh]; rfl
  have hnomax : ¬ (lstn.max_req > 0 ∧ N > 0 ∧ N > lstn.max_req) := by omega
  have hlenA : (request :: (pre ++ clh :: mid)).length = (true :: oksA).length := by
    simp only [List.length_append, List.length_cons, hlA]
    omega
  have hzip : (request :: (pre ++ clh :: (mid ++ teh :: post))).zip
      (true :: (oksA ++ false :: oksP))
      = (request :: (pre ++ clh :: mid)).zip (true :: oksA) ++ (teh, false) :: post.zip oksP := by
    have e1 : request :: (pre ++ clh :: (mid ++ teh :: post))
        = (request :: (pre ++ clh :: mid)) ++ teh :: post := by simp
    have e2 : true :: (oksA ++ false :: oksP) = (true :: oksA) ++ false :: oksP := by simp
    rw [e1, e2, List.zip_append hlenA]
    rfl
  have hclass : thr_http_classify env lstn l
      = .go { s with headers_ok := true :: (oksA ++ false :: oksP) } := by
    unfold thr_http_classify
    rw [htail, hscan]
    simp only [hcont, hnomax, if_false]
  refine ⟨_, (request :: (pre ++ clh :: mid)).zip (true :: oksA), post.zip oksP, hclass,
    ?_, ?_, ?_, ?_⟩
  · simp only [hhd4, hh]
    exact hzip
  · simp only [List.length_zip, List.length_append, List.length_cons, hlA]
    omega
  · intro be
    simp only [hhd4, hh]
    rw [hzip]
    exact send_request_headers_skip env lstn backend teh _ _ be
  · intro renv l1b hback
    obtain ⟨g1, g2, g3, g4, g5⟩ := thr_http_backend_same lstn renv _ backend l1b hback
    simp only at g1 g2 g3 g4 g5
    refine ⟨by rw [g1, g2], ?_⟩
    intro l2 b2 hsend hb2 hacc hbuf hin hr
    have hcl2 : l2.cl = l.cl := by
      obtain ⟨x, hs | hs⟩ := thr_http_send_head_go env lstn ssl backend _ l2 hsend
      · rw [hs]; simp [Locals.setBeSink, g3, hcl4]
      · rw [hs]; simp [g3, hcl4]
    have hcont2 : l2.cont = N := by
      obtain ⟨x, hs | hs⟩ := thr_http_send_head_go env lstn ssl backend _ l2 hsend
      · rw [hs]; simp [Locals.setBeSink, g4, hcont]
      · rw [hs]; simp [g4, hcont]
    have hch2 : l2.chunked = false := by
      obtain ⟨x, hs | hs⟩ := thr_http_send_head_go env lstn ssl backend _ l2 hsend
      · rw [hs]; simp [Locals.setBeSink, g5, hch]
      · rw [hs]; simp [g5, hch]
    have := thr_http_send_body_length env lstn backend l2 b2 hbe hb2 hacc hch2
      (by rw [hcont2]; exact hpos) hbuf (by rw [hcont2, hcl2]; exact hin) (by rw [hcl2]; exact hr)
    rw [hcont2, hcl2] at this
    exact this

theorem content_length_then_chunked_witness :
    (thr_http_round sample_env sample_lstn none (sample_renv "HTTP/1.1 204 No Content\r\n\r\n")
        (start_locals ("POST / HTTP/1.1\r\nHost: x\r\nContent-Length: 3\r\n"
          ++ "Transfer-Encoding: chunked\r\n\r\nabc"))).map
      (fun r => (r.2.headers_ok, r.2.be.map (fun b => b.snk.out)))
    = some ([true, true, true, false],
        some ("POST / HTTP/1.1\r\nHost: x\r\nContent-Length: 3\r\n"
          ++ "X-Forwarded-For: 192.0.2.7\r\n\r\nabc").toList) ∧
    ∃ l1 a b, thr_http_classify sample_env sample_lstn ambiguous_locals = .go l1 ∧
      l1.headers.zip l1.headers_ok = a ++ ("Transfer-Encoding: chunked".toList, false) :: b ∧
      a.length = ["Host: x".toList].length + ([] : List (List Char)).length + 2 ∧
      (∀ be, send_request_headers sample_env sample_lstn sample_backend
          (l1.headers.zip l1.headers_ok) be
        = send_request_headers sample_env sample_lstn sample_backend (a ++ b) be) ∧
      ∀ renv l1b, thr_http_backend sample_lstn renv l1 = (some sample_backend, l1b) →
        l1b.headers.zip l1b.headers_ok = l1.headers.zip l1.headers_ok ∧
        ∀ l2 b2, thr_http_send_head sample_env sample_lstn none sample_backend l1b = .go l2 →
          l2.be = some b2 → b2.snk.accepts → 0 < sample_env.MAXBUF →
          (3 : Int) ≤ ambiguous_locals.cl.src.inp.length → ambiguous_locals.cl.src.readsPositive →
          ∃ l3 b3, thr_http_send_body sample_env sample_lstn sample_backend l2 = some (.go l3) ∧
            l3.be = some b3 ∧
            b3.snk.out = b2.snk.out ++ ambiguous_locals.cl.src.inp.take (3 : Int).toNat ∧
            l3.cl.src.inp = ambiguous_locals.cl.src.inp.drop (3 : Int).toNat :=
  ⟨by decide,
   content_length_then_chunked sample_env sample_lstn none sample_backend ambiguous_locals
    "POST / HTTP/1.1".toList ["Host: x".toList] "Content-Length: 3".toList []
    "Transfer-Encoding: chunked".toList [] 3 (by decide) (by decide) (by decide) (by decide)
    (Or.inl (by decide)) (by decide) (by decide) (by decide) (by decide)⟩

theorem response_head_conn_closed (env : Env) (lstn : LISTENER) (ssl : Option SSL)
    (backend : BACKEND) (l : Locals) (headers : List (List Char)) :
    (response_head env lstn ssl backend l headers).conn_closed
      = (l.conn_closed || headers.tail.any (is_connection_close env)) := by
  unfold response_head
  simp only [response_headers_conn_closed_eq]

theorem thr_http_read_request_spec (env : Env) (lstn : LISTENER) (l : Locals) (s : Step)
    (h : thr_http_read_request env lstn l = some s) :
    (∀ n l', s = .fin n l' → n = .exit) ∧
    (∀ l1, s = .go l1 → l1.conn_closed = false ∧
      ∃ r, get_headers env.MAXBUF env.MAXHEADERS lstn l.cl.src l.cl.snk = some r ∧
        r.headers = some l1.headers) := by
  unfold thr_http_read_request at h
  simp only [] at h
  split at h
  · exact absurd h (by simp)
  · next r hr =>
    split at h
    · simp only [Option.some.injEq] at h
      subst h
      exact ⟨fun n l' e => (by cases e; rfl), fun l1 e => (by cases e)⟩
    · next headers hh =>
      split at h
      · simp only [Option.some.injEq] at h
        subst h
        exact ⟨fun n l' e => (by cases e; rfl), fun l1 e => (by cases e)⟩
      · split at h
        · simp only [Option.some.injEq] at h
          subst h
          exact ⟨fun n l' e => (by cases e; rfl), fun l1 e => (by cases e)⟩
        · simp only [Option.some.injEq] at h
          subst h
          refine ⟨fun n l' e => (by cases e), fun l1 e => ?_⟩
          cases e
          exact ⟨rfl, r, hr, hh⟩

theorem request_headers_u_agent_etc (env : Env) (lstn : LISTENER) :
    ∀ (hs : List (List Char)) (l : Locals),
      (request_headers env lstn l hs).1.cur_backend = l.cur_backend ∧
      (request_headers env lstn l hs).1.cl_11 = l.cl_11
  | [], l => by simp [request_headers]
  | h :: hs, l => by
    rw [request_headers]
    obtain ⟨-, h2, -, -, h5, -⟩ := request_header_u_agent_frame env lstn l h
    obtain ⟨i1, i2⟩ := request_headers_u_agent_etc env lstn hs (request_header env lstn l h).1
    exact ⟨i1.trans h2, i2.trans h5⟩

theorem thr_http_classify_spec (env : Env) (lstn : LISTENER) (l : Locals) :
    (∀ n l', thr_http_classify env lstn l = .fin n l' → n = .exit) ∧
    (∀ l2, thr_http_classify env lstn l = .go l2 →
      l2.conn_closed = (l.conn_closed || l.headers.tail.any (is_connection_close env))) := by
  unfold thr_http_classify
  simp only []
  split
  · exact ⟨fun n l' e => (by cases e; rfl), fun l2 e => (by cases e)⟩
  · refine ⟨fun n l' e => (by cases e), fun l2 e => ?_⟩
    cases e
    simp only [request_headers_conn_closed]

theorem thr_http_backend_spec (lstn : LISTENER) (renv : ReqEnv) (l : Locals) (backend : BACKEND)
    (l3 : Locals) (h : thr_http_backend lstn renv l = (some backend, l3)) :
    l3.conn_closed = l.conn_closed ∧ l3.u_agent = l.u_agent ∧ l3.cur_backend = some backend := by
  unfold thr_http_backend at h
  simp only [] at h
  repeat' split at h
  all_goals (try (simp only [Prod.mk.injEq, Option.some.injEq, reduceCtorEq, false_and] at h))
  all_goals (try (obtain ⟨rfl, rfl⟩ := h))
  all_goals (try (refine ⟨?_, ?_, ?_⟩ <;> simp_all))

theorem thr_http_send_head_spec (env : Env) (lstn : LISTENER) (ssl : Option SSL)
    (backend : BACKEND) (l : Locals) :
    (∀ n l', thr_http_send_head env lstn ssl backend l = .fin n l' → n = .exit) ∧
    (∀ l', thr_http_send_head env lstn ssl backend l = .go l' → Frame l l') := by
  unfold thr_http_send_head
  simp only []
  repeat' split
  all_goals
    refine ⟨fun n l' e => ?_, fun l' e => ?_⟩
  all_goals (try (cases e))
  all_goals (try rfl)
  all_goals (try (exact Frame.refl _))

theorem thr_http_send_body_spec (env : Env) (lstn : LISTENER) (backend : BACKEND) (l : Locals)
    (s : Step) (h : thr_http_send_body env lstn backend l = some s) :
    (∀ n l', s = .fin n l' → n = .exit) ∧ (∀ l', s = .go l' → Frame l l') := by
  unfold thr_http_send_body at h
  simp only [] at h
  split at h
  · exact absurd h (by simp)
  · next r hr =>
    repeat' split at h
    all_goals (simp only [Option.some.injEq] at h; subst h)
    all_goals
      refine ⟨fun n l' e => ?_, fun l' e => ?_⟩
    all_goals (try (cases e))
    all_goals (try rfl)
    all_goals (try (simp [Frame, Locals.setBeSink]))

theorem keep_alive_cases (l : Locals) : keep_alive l ≠ .exit := by
  unfold keep_alive
  split <;> simp

theorem keep_alive_again (l : Locals) :
    keep_alive l = .again ↔ (l.cl_11 = true ∧ l.conn_closed = false ∧ l.force_10 = false) := by
  unfold keep_alive
  cases l.cl_11 <;> cases l.conn_closed <;> cases l.force_10 <;> simp

theorem thr_http_redirect_spec (env : Env) (backend : BACKEND) (l : Locals) :
    (∀ n l', thr_http_redirect env backend l = .fin n l' →
      n = keep_alive l' ∧ Frame l l' ∧ backend.be_type = BE_TYPE.REDIRECTOR) ∧
    (∀ l', thr_http_redirect env backend l = .go l' →
      l' = l ∧ backend.be_type = BE_TYPE.BACK_END) := by
  unfold thr_http_redirect
  simp only []
  split
  · next hb =>
    refine ⟨fun n l' e => ?_, fun l' e => (by cases e)⟩
    cases e
    exact ⟨rfl, ⟨rfl, rfl, rfl, id⟩, hb⟩
  · next hb =>
    refine ⟨fun n l' e => (by cases e), fun l' e => ?_⟩
    cases e
    refine ⟨rfl, ?_⟩
    cases hbt : backend.be_type
    · rfl
    · exact absurd hbt hb

theorem thr_http_finish_spec (l : Locals) :
    (thr_http_finish l).1 = keep_alive (thr_http_finish l).2 ∧ Frame l (thr_http_finish l).2 ∧
      ((thr_http_finish l).2.be_11 = false → (thr_http_finish l).2.be = none) := by
  by_cases hb : l.be_11 = false
  · simp [thr_http_finish, hb, Frame]
  · simp [thr_http_finish, hb, Frame]

/-- How a round that does not end in `pthread_exit` ends: with the keep-alive
decision on the locals it leaves, `force_10` being the value computed from the
listener, the SSL session and the `User-Agent` of the request; a
`Connection: close` among the request headers is still in `conn_closed`; and
after a response from a back-end that was not HTTP/1.1 the channel to the
back-end is closed. -/
theorem thr_http_round_spec (env : Env) (lstn : LISTENER) (ssl : Option SSL) (renv : ReqEnv)
    (l : Locals) (n : Next) (l' : Locals)
    (h : thr_http_round env lstn ssl renv l = some (n, l')) (hn : n ≠ .exit) :
    n = keep_alive l' ∧ l'.force_10 = force_10_of lstn ssl l'.u_agent ∧
    (∀ r hs, get_headers env.MAXBUF env.MAXHEADERS lstn l.cl.src l.cl.snk = some r →
      r.headers = some hs → hs.tail.any (is_connection_close env) = true →
      l'.conn_closed = true) ∧
    ∃ backend, l'.cur_backend = some backend ∧
      (backend.be_type = BE_TYPE.BACK_END → l'.be_11 = false → l'.be = none) := by
  unfold thr_http_round at h
  split at h
  · exact absurd h (by simp)
  · next n1 l1 h1 =>
    simp only [Option.some.injEq, Prod.mk.injEq] at h
    obtain ⟨rfl, rfl⟩ := h
    exact absurd ((thr_http_read_request_spec env lstn l _ h1).1 _ _ rfl) hn
  · next l1 h1 =>
    obtain ⟨hcc1, r1, hr1, hh1⟩ := (thr_http_read_request_spec env lstn l _ h1).2 l1 rfl
    split at h
    · next n2 l2 h2 =>
      simp only [Option.some.injEq, Prod.mk.injEq] at h
      obtain ⟨rfl, rfl⟩ := h
      exact absurd ((thr_http_classify_spec env lstn l1).1 _ _ h2) hn
    · next l2 h2 =>
      have hcc2 := (thr_http_classify_spec env lstn l1).2 l2 h2
      split at h
      · next l3 h3 =>
        simp only [Option.some.injEq, Prod.mk.injEq] at h
        exact absurd h.1.symm hn
      · next backend l3 h3 =>
        obtain ⟨hcc3, hua3, hcb3⟩ := thr_http_backend_spec lstn renv l2 backend l3 h3
        -- from here on the request is known to set `conn_closed`
        have hreq : ∀ r hs, get_headers env.MAXBUF env.MAXHEADERS lstn l.cl.src l.cl.snk = some r →
            r.headers = some hs → hs.tail.any (is_connection_close env) = true →
            l3.conn_closed = true := by
          intro r hs hr hhs hany
          rw [hr1] at hr
          cases hr
          rw [hh1] at hhs
          cases hhs
          rw [hcc3, hcc2, hany]
          simp
        split at h
        · next n4 l4 h4 =>
          simp only [Option.some.injEq, Prod.mk.injEq] at h
          obtain ⟨rfl, rfl⟩ := h
          exact absurd ((thr_http_send_head_spec env lstn ssl backend l3).1 _ _ h4) hn
        · next l4 h4 =>
          have hf4 := (thr_http_send_head_spec env lstn ssl backend l3).2 l4 h4
          split at h
          · exact absurd h (by simp)
          · next n5 l5 h5 =>
            simp only [Option.some.injEq, Prod.mk.injEq] at h
            obtain ⟨rfl, rfl⟩ := h
            exact absurd ((thr_http_send_body_spec env lstn backend l4 _ h5).1 _ _ rfl) hn
          · next l5 h5 =>
            have hf5 := hf4.trans ((thr_http_send_body_spec env lstn backend l4 _ h5).2 l5 rfl)
            simp only [] at h
            -- the locals once `force_10` is set
            have hprop : ∀ l6 : Locals,
                Frame { l5 with force_10 := force_10_of lstn ssl l5.u_agent } l6 →
                l6.force_10 = force_10_of lstn ssl l6.u_agent ∧
                (∀ r hs, get_headers env.MAXBUF env.MAXHEADERS lstn l.cl.src l.cl.snk = some r →
                  r.headers = some hs → hs.tail.any (is_connection_close env) = true →
                  l6.conn_closed = true) ∧
                l6.cur_backend = some backend := by
              intro l6 hf6
              obtain ⟨a1, a2, a3, a4⟩ := hf6
              simp only at a1 a2 a3 a4
              refine ⟨by rw [a1, a2], fun r hs hr hhs hany => ?_, ?_⟩
              · exact a4 (hf5.2.2.2 (hreq r hs hr hhs hany))
              · rw [a3, hf5.2.2.1, hcb3]
            split at h
            · next n6 l6 h6 =>
              simp only [Option.some.injEq, Prod.mk.injEq] at h
              obtain ⟨rfl, rfl⟩ := h
              obtain ⟨e1, e2, e3⟩ := (thr_http_redirect_spec env backend _).1 _ _ h6
              obtain ⟨p1, p2, p3⟩ := hprop _ e2
              refine ⟨e1, p1, p2, backend, p3, fun hb => ?_⟩
              rw [e3] at hb
              cases hb
            · next l6 h6 =>
              obtain ⟨e1, e2⟩ := (thr_http_redirect_spec env backend _).2 _ h6
              subst e1
              split at h
              · exact absurd h (by simp)
              · next n7 l7 h7 =>
                simp only [Option.some.injEq, Prod.mk.injEq] at h
                obtain ⟨rfl, rfl⟩ := h
                exact absurd ((thr_http_response_frame env lstn ssl backend _ _ _ h7).2 _ _ rfl).1 hn
              · next l7 h7 =>
                have hf7 := (thr_http_response_frame env lstn ssl backend _ _ _ h7).1 l7 rfl
                simp only [Option.some.injEq] at h
                obtain ⟨f1, f2, f3⟩ := thr_http_finish_spec l7
                rw [h] at f1 f2 f3
                simp only at f1 f2 f3
                obtain ⟨p1, p2, p3⟩ := hprop _ (hf7.trans f2)
                exact ⟨f1, p1, p2, backend, p3, fun _ => f3⟩

theorem getsLine_lf (l rest : List Char) (hl : ∀ c ∈ l, c ≠ '\n') :
    ∀ n, l.length + 1 ≤ n → getsLine n (l ++ lf ++ rest) = (l ++ lf, rest) := by
  induction l with
  | nil =>
    intro n hn
    obtain ⟨m, rfl⟩ : ∃ m, n = m + 1 := ⟨n - 1, by simp at hn; omega⟩
    simp [getsLine, lf]
  | cons c t ih =>
    intro n hn
    obtain ⟨m, rfl⟩ : ∃ m, n = m + 1 := ⟨n - 1, by simp at hn; omega⟩
    have hc : c ≠ '\n' := hl c (by simp)
    have ht := ih (fun d hd => hl d (by simp [hd])) m (by simp at hn; omega)
    have e : c :: t ++ lf ++ rest = c :: (t ++ lf ++ rest) := rfl
    rw [e, getsLine, if_neg hc, ht]
    rfl

theorem strip_eol_lf (l : List Char) (hl : ∀ c ∈ l, c ≠ '\n' ∧ c ≠ '\x00')
    (hlast : l.getLast? ≠ some '\r') : strip_eol (l ++ lf) = l := by
  induction l with
  | nil => simp [strip_eol, lf]
  | cons c t ih =>
    have hc := hl c (by simp)
    have e : c :: t ++ lf = c :: (t ++ lf) := rfl
    have hno : ¬ (c = '\n' ∨ (c = '\r' ∧ (t ++ lf).head? = some '\n')) := by
      rintro (h1 | ⟨h2, h3⟩)
      · exact hc.1 h1
      · cases t with
        | nil => exact hlast (by simp [h2])
        | cons d t' =>
          have hd := hl d (by simp)
          simp only [List.cons_append, List.head?_cons, Option.some.injEq] at h3
          exact hd.1 h3
    have hlast' : t.getLast? ≠ some '\r' := by
      cases t with
      | nil => simp
      | cons d t' => simpa [List.getLast?_cons_cons] using hlast
    rw [e, strip_eol, if_neg hc.2, if_neg hno, ih (fun d hd => hl d (by simp [hd])) hlast']

theorem BIO_gets_wire (MAXBUF : Nat) (cl : Source) (w : WireLine) (rest : List Char)
    (hw : w.wellFormed MAXBUF) (hin : cl.inp = w.wire ++ rest) :
    BIO_gets cl MAXBUF
        = (((w.text.length + w.eol.length : Nat) : Int), w.wire, { cl with inp := rest }) ∧
      strip_eol w.wire = w.text := by
  obtain ⟨text, eol⟩ := w
  obtain ⟨hne, hc, he, hfit⟩ := hw
  simp only [WireLine.wire] at hin ⊢
  simp only at hne hc he hfit
  rcases he with rfl | ⟨rfl, hlast⟩
  · have hfit' : text.length + 2 < MAXBUF := by simp [crlf] at hfit; omega
    refine ⟨?_, strip_eol_line text hc⟩
    rw [BIO_gets_line MAXBUF cl text rest hin (fun c h => (hc c h).1) hfit']
    simp [crlf]
  · refine ⟨?_, strip_eol_lf text hc hlast⟩
    have hfit' : text.length + 1 ≤ MAXBUF - 1 := by simp [lf] at hfit; omega
    unfold BIO_gets
    rw [hin, getsLine_lf text rest (fun c h => (hc c h).1) (MAXBUF - 1) hfit']
    simp [lf]

theorem BIO_gets_blank (MAXBUF : Nat) (hbuf : 2 < MAXBUF) (cl : Source) (e rest : List Char)
    (he : isEol e) (hin : cl.inp = e ++ rest) :
    BIO_gets cl MAXBUF = (((e.length : Nat) : Int), e, { cl with inp := rest }) ∧
      strip_eol e = [] ∧ 0 < e.length := by
  rcases he with rfl | rfl
  · have hg := BIO_gets_line MAXBUF cl [] rest (by simpa using hin) (by simp) (by simpa using hbuf)
    refine ⟨by simpa using hg, by decide, by decide⟩
  · refine ⟨?_, by decide, by decide⟩
    unfold BIO_gets
    have h := getsLine_lf [] rest (by simp) (MAXBUF - 1) (by simp; omega)
    simp only [List.nil_append] at h
    rw [hin, h]
    simp [lf]

theorem BIO_gets_end (MAXBUF : Nat) (cl : Source) (hin : cl.inp = []) :
    (BIO_gets cl MAXBUF).1 ≤ 0 ∧ (BIO_gets cl MAXBUF).2.2 = cl := by
  obtain ⟨inp, plan, pend, polls, gerr⟩ := cl
  simp only at hin
  subst hin
  unfold BIO_gets
  cases hm : MAXBUF - 1 <;> cases gerr <;> simp [getsLine]

theorem getsLine_all : ∀ (l : List Char) (n : Nat), (∀ c ∈ l, c ≠ '\n') → l.length ≤ n →
    getsLine n l = (l, [])
  | [], 0, _, _ => rfl
  | [], _ + 1, _, _ => rfl
  | c :: t, 0, _, h => by simp at h
  | c :: t, n + 1, hl, h => by
    have hc : c ≠ '\n' := hl c (by simp)
    rw [getsLine, if_neg hc,
      getsLine_all t n (fun d hd => hl d (by simp [hd])) (by simp at h; omega)]

theorem length_le_flatten_blanks :
    ∀ (blanks : List (List Char)), (∀ e ∈ blanks, isEol e) → blanks.length ≤ blanks.flatten.length
  | [], _ => by simp
  | e :: es, h => by
    have h1 : 0 < e.length := by
      rcases h e (by simp) with rfl | rfl <;> decide
    have h2 := length_le_flatten_blanks es (fun d hd => h d (by simp [hd]))
    simp only [List.length_cons, List.flatten_cons, List.length_append]
    omega

theorem get_headers_start_blanks (MAXBUF : Nat) (hbuf : 2 < MAXBUF) (tail : List Char) :
    ∀ (blanks : List (List Char)) (fuel : Nat) (inp : Source),
      (∀ e ∈ blanks, isEol e) → inp.inp = blanks.flatten ++ tail →
      get_headers_start MAXBUF (fuel + blanks.length) inp
        = get_headers_start MAXBUF fuel { inp with inp := tail } := by
  intro blanks
  induction blanks with
  | nil =>
    intro fuel inp _ hin
    obtain ⟨i, plan, pend, polls, gerr⟩ := inp
    simp only [List.flatten_nil, List.nil_append] at hin
    subst hin
    rfl
  | cons e es ih =>
    intro fuel inp he hin
    have hin' : inp.inp = e ++ (es.flatten ++ tail) := by rw [hin]; simp
    obtain ⟨hg, hs, hpos⟩ := BIO_gets_blank MAXBUF hbuf inp e _ (he e (by simp)) hin'
    have hp : ((e.length : Nat) : Int) > 0 := by omega
    have hrec := ih fuel { inp with inp := es.flatten ++ tail }
      (fun d hd => he d (by simp [hd])) rfl
    have hf : fuel + (e :: es).length = (fuel + es.length) + 1 := by simp; omega
    rw [hf, get_headers_start]
    simp only [hg, hp, if_true, hs, ne_eq, not_true_eq_false, if_false]
    exact hrec

theorem get_headers_start_wire (MAXBUF : Nat) (inp : Source) (w : WireLine) (rest : List Char)
    (fuel : Nat) (hw : w.wellFormed MAXBUF) (hin : inp.inp = w.wire ++ rest) :
    get_headers_start MAXBUF (fuel + 1) inp
      = some (((w.text.length + w.eol.length : Nat) : Int), w.text, { inp with inp := rest }) := by
  obtain ⟨hg, hs⟩ := BIO_gets_wire MAXBUF inp w rest hw hin
  have hne : w.text ≠ [] := hw.1
  have hel : 0 < w.eol.length := by
    rcases hw.2.2.1 with h | ⟨h, -⟩ <;> rw [h] <;> decide
  have hpos : ((w.text.length + w.eol.length : Nat) : Int) > 0 := by omega
  rw [get_headers_start]
  simp only [hg, hpos, if_true, hs, ne_eq, hne, not_false_eq_true]

theorem get_headers_start_end (MAXBUF : Nat) (inp : Source) (fuel : Nat) (hin : inp.inp = []) :
    ∃ res, res ≤ 0 ∧ get_headers_start MAXBUF (fuel + 1) inp = some (res, [], inp) := by
  obtain ⟨h1, h2⟩ := BIO_gets_end MAXBUF inp hin
  refine ⟨(BIO_gets inp MAXBUF).1, h1, ?_⟩
  rw [get_headers_start]
  have hp : ¬ ((BIO_gets inp MAXBUF).1 > 0) := by omega
  simp only [hp, if_false, h2]

theorem get_headers_lines_wire (MAXBUF : Nat) (hbuf : 2 < MAXBUF) (e rest : List Char)
    (he : isEol e) :
    ∀ (lines : List WireLine) (left : Nat) (buf : List Char) (acc : List (List Char))
      (inp : Source),
      inp.inp = (lines.map WireLine.wire).flatten ++ e ++ rest →
      (∀ w ∈ lines, w.wellFormed MAXBUF) → buf.length ≤ MAXBUF - 1 → lines.length < left →
      get_headers_lines MAXBUF left buf acc inp
        = (some (acc ++ buf :: lines.map WireLine.text), { inp with inp := rest }) := by
  intro lines
  induction lines with
  | nil =>
    intro left buf acc inp hin _ hb hleft
    obtain ⟨left, rfl⟩ : ∃ m, left = m + 1 := ⟨left - 1, by simp at hleft; omega⟩
    obtain ⟨hg, hs, hpos⟩ := BIO_gets_blank MAXBUF hbuf inp e rest he (by simpa using hin)
    have hp : ¬ (((e.length : Nat) : Int) ≤ 0) := by omega
    rw [get_headers_lines]
    simp only [hg, hp, if_false, hs, if_true, List.take_of_length_le hb, List.map_nil]
  | cons w ws ih =>
    intro left buf acc inp hin hws hb hleft
    obtain ⟨left, rfl⟩ : ∃ m, left = m + 1 := ⟨left - 1, by simp at hleft; omega⟩
    have hw := hws w (by simp)
    have hin' : inp.inp = w.wire ++ ((ws.map WireLine.wire).flatten ++ e ++ rest) := by
      rw [hin]; simp
    obtain ⟨hg, hs⟩ := BIO_gets_wire MAXBUF inp w _ hw hin'
    have hne : w.text ≠ [] := hw.1
    have hel : 0 < w.eol.length := by
      rcases hw.2.2.1 with h | ⟨h, -⟩ <;> rw [h] <;> decide
    have hp : ¬ (((w.text.length + w.eol.length : Nat) : Int) ≤ 0) := by omega
    have hfit := hw.2.2.2
    have hrec := ih left w.text (acc ++ [buf])
      { inp with inp := (ws.map WireLine.wire).flatten ++ e ++ rest } rfl
      (fun u hu => hws u (by simp [hu])) (by omega) (by simp at hleft; omega)
    rw [get_headers_lines]
    simp only [hg, hp, if_false, hs, hne, List.take_of_length_le hb]
    rw [hrec]
    simp

theorem get_headers_lines_end (MAXBUF : Nat) (left : Nat) (buf : List Char)
    (acc : List (List Char)) (inp : Source) (hin : inp.inp = []) :
    (get_headers_lines MAXBUF left buf acc inp).1 = none := by
  cases left with
  | zero => rfl
  | succ left =>
    obtain ⟨h1, -⟩ := BIO_gets_end MAXBUF inp hin
    rw [get_headers_lines]
    simp only [h1, if_true]

theorem get_headers_lines_cut (MAXBUF : Nat) (part : List Char)
    (hpart : ∀ c ∈ part, c ≠ '\n' ∧ c ≠ '\x00') (hfit : part.length < MAXBUF) :
    ∀ (lines : List WireLine) (left : Nat) (buf : List Char) (acc : List (List Char))
      (inp : Source),
      inp.inp = (lines.map WireLine.wire).flatten ++ part →
      (∀ w ∈ lines, w.wellFormed MAXBUF) →
      (get_headers_lines MAXBUF left buf acc inp).1 = none := by
  intro lines
  induction lines with
  | nil =>
    intro left buf acc inp hin _
    simp only [List.map_nil, List.flatten_nil, List.nil_append] at hin
    cases left with
    | zero => rfl
    | succ left =>
      cases part with
      | nil => exact get_headers_lines_end MAXBUF _ buf acc inp hin
      | cons c t =>
        have hc := hpart c (by simp)
        have hg : BIO_gets inp MAXBUF
            = ((((c :: t).length : Nat) : Int), c :: t, { inp with inp := [] }) := by
          unfold BIO_gets
          rw [hin, getsLine_all (c :: t) (MAXBUF - 1) (fun d hd => (hpart d hd).1) (by omega)]
          simp
        have hno : ¬ (c = '\n' ∨ (c = '\r' ∧ t.head? = some '\n')) := by
          rintro (h1 | ⟨-, h2⟩)
          · exact hc.1 h1
          · cases t with
            | nil => simp at h2
            | cons d t' =>
              simp only [List.head?_cons, Option.some.injEq] at h2
              exact (hpart d (by simp)).1 h2
        have hs : strip_eol (c :: t) ≠ [] := by
          rw [strip_eol, if_neg hc.2, if_neg hno]; simp
        have hp : ¬ ((((c :: t).length : Nat) : Int) ≤ 0) := by
          simp only [List.length_cons]; omega
        rw [get_headers_lines]
        simp only [hg, hp, if_false, hs]
        exact get_headers_lines_end MAXBUF left _ _ _ rfl
  | cons w ws ih =>
    intro left buf acc inp hin hws
    cases left with
    | zero => rfl
    | succ left =>
      have hw := hws w (by simp)
      have hin' : inp.inp = w.wire ++ ((ws.map WireLine.wire).flatten ++ part) := by
        rw [hin]; simp
      obtain ⟨hg, hs⟩ := BIO_gets_wire MAXBUF inp w _ hw hin'
      have hne : w.text ≠ [] := hw.1
      have hel : 0 < w.eol.length := by
        rcases hw.2.2.1 with h | ⟨h, -⟩ <;> rw [h] <;> decide
      have hp : ¬ (((w.text.length + w.eol.length : Nat) : Int) ≤ 0) := by omega
      rw [get_headers_lines]
      simp only [hg, hp, if_false, hs, hne]
      exact ih left w.text _ { inp with inp := (ws.map WireLine.wire).flatten ++ part } rfl
        (fun u hu => hws u (by simp [hu]))

theorem get_headers_canonical_start (MAXBUF : Nat) (hbuf : 2 < MAXBUF) (inp : Source)
    (blanks : List (List Char)) (tail : List Char) (hblanks : ∀ b ∈ blanks, isEol b)
    (hin : inp.inp = blanks.flatten ++ tail) :
    get_headers_start MAXBUF (inp.inp.length + 1) inp
      = get_headers_start MAXBUF (blanks.flatten.length - blanks.length + tail.length + 1)
          { inp with inp := tail } := by
  have hle := length_le_flatten_blanks blanks hblanks
  have hf : inp.inp.length + 1
      = (blanks.flatten.length - blanks.length + tail.length + 1) + blanks.length := by
    rw [hin, List.length_append]; omega
  rw [hf]
  exact get_headers_start_blanks MAXBUF hbuf tail blanks _ inp hblanks hin

theorem err_reply_accepts_out (cl : Sink) (head txt : List Char) (hacc : cl.accepts) :
    (err_reply cl head txt).out = cl.out ++ err_response head txt := by
  obtain ⟨w1, w2, w3⟩ := Sink.write_accepts cl (err_response head txt) hacc
  unfold err_reply
  rw [Sink.flush_out, w2]

theorem out_ne_414 (cl : Sink) (txt : List Char) : cl.out ≠ cl.out ++ err_response h414 txt := by
  intro h
  exact err_response_ne_nil _ _ (List.self_eq_append_right.mp h)

theorem err_reply_500_ne_414 (cl : Sink) (a b : List Char) :
    (err_reply cl h500 a).out ≠ cl.out ++ err_response h414 b := by
  unfold err_reply
  rw [Sink.flush_out]
  rcases Sink.write_out cl (err_response h500 a) with h | h
  · rw [h]; exact out_ne_414 cl b
  · rw [h]
    intro heq
    exact err_response_500_ne_414 _ _ (List.append_cancel_left heq)

theorem get_headers_lines_head (MAXBUF : Nat) :
    ∀ (left : Nat) (buf : List Char) (acc : List (List Char)) (inp : Source)
      (hs : List (List Char)) (inp2 : Source),
      get_headers_lines MAXBUF left buf acc inp = (some hs, inp2) →
      ∃ tail, hs = acc ++ buf.take (MAXBUF - 1) :: tail := by
  intro left
  induction left with
  | zero => intro buf acc inp hs inp2 h; simp [get_headers_lines] at h
  | succ left ih =>
    intro buf acc inp hs inp2 h
    rw [get_headers_lines] at h
    split_ifs at h with h1 h2
    · simp at h
    · simp only [Prod.mk.injEq, Option.some.injEq] at h
      exact ⟨[], by rw [← h.1]⟩
    · obtain ⟨tail, ht⟩ := ih _ _ _ _ _ h
      exact ⟨List.take (MAXBUF - 1) (strip_eol (BIO_gets inp MAXBUF).2.1) :: tail, by
        rw [ht]; simp⟩

/-- C11: with a line buffer of 24 octets the second line of
`long_header_request`, 40 octets before its CR LF, is longer than the buffer.
`get_headers` does not reject the block: it returns a header sequence in which
that one line is the two entries that two calls of `BIO_gets` cut it into, the
first of them `MAXBUF - 1` octets long, and writes nothing to the client
channel, no 414 reply either. -/
theorem get_headers_splits_long_header :
    get_headers 24 8 sample_lstn { inp := long_header_request } ⟨[], [], []⟩
      = some ⟨some ["GET / HTTP/1.1".toList, "X-Long: aaaaaaaaaaaaaaa".toList,
            "aaaaaaaaaaaaaaaaa".toList, "Host: x".toList],
          { inp := [] }, ⟨[], [], []⟩⟩ := by
  decide

/-- C12: for every header block of at most `MAXHEADERS` lines, each of them,
terminator included, shorter than the line buffer, ended by CR LF or by a bare
LF, preceded by any number of empty lines and closed by an empty line,
`get_headers` returns exactly the texts of those lines without their
terminators, in input order, the start line first; the slots of the array
after them stay `NULL`; the source is left right behind the closing empty
line and the client channel is not written to. -/
theorem get_headers_returns_block (MAXBUF MAXHEADERS : Nat) (lstn : LISTENER) (inp : Source)
    (cl : Sink) (blanks : List (List Char)) (first : WireLine) (more : List WireLine)
    (e rest : List Char) (hblanks : ∀ b ∈ blanks, isEol b) (hfirst : first.wellFormed MAXBUF)
    (hmore : ∀ w ∈ more, w.wellFormed MAXBUF) (he : isEol e)
    (hcount : more.length + 1 ≤ MAXHEADERS)
    (hin : inp.inp = blanks.flatten
      ++ (((first :: more).map WireLine.wire).flatten ++ e ++ rest)) :
    get_headers MAXBUF MAXHEADERS lstn inp cl
        = some ⟨some ((first :: more).map WireLine.text), { inp with inp := rest }, cl⟩ ∧
      headers_slots MAXHEADERS ((first :: more).map WireLine.text)
        = (first :: more).map (fun w => some w.text)
          ++ List.replicate (MAXHEADERS - (more.length + 1)) none := by
  have hfit := hfirst.2.2.2
  have hel : 0 < first.eol.length := by
    rcases hfirst.2.2.1 with h | ⟨h, -⟩ <;> rw [h] <;> decide
  have hin' : inp.inp = blanks.flatten
      ++ (first.wire ++ ((more.map WireLine.wire).flatten ++ e ++ rest)) := by
    rw [hin]; simp
  have hstart := get_headers_canonical_start MAXBUF (by omega) inp blanks _ hblanks hin'
  rw [get_headers_start_wire MAXBUF
    { inp with inp := first.wire ++ ((more.map WireLine.wire).flatten ++ e ++ rest) }
    first _ _ hfirst rfl] at hstart
  have hlines := get_headers_lines_wire MAXBUF (by omega) e rest he more MAXHEADERS first.text []
    { inp with inp := (more.map WireLine.wire).flatten ++ e ++ rest } rfl hmore
    (by omega) (by omega)
  have hres1 : ¬ (((first.text.length + first.eol.length : Nat) : Int) ≤ 0) := by omega
  have hres2 : ¬ (((first.text.length + first.eol.length : Nat) : Int) ≥ (MAXBUF : Int) - 1) := by
    omega
  constructor
  · unfold get_headers
    rw [hstart]
    simp only [hres1, hres2, if_false, hlines, List.nil_append, List.map_cons]
  · simp [headers_slots]

theorem get_headers_returns_block_witness :
    get_headers 64 8 sample_lstn
        { inp := "\r\n\nGET / HTTP/1.1\nHost: x\r\nAccept: y\n\nabc".toList } ⟨[], [], []⟩
      = some ⟨some ["GET / HTTP/1.1".toList, "Host: x".toList, "Accept: y".toList],
          { inp := "abc".toList }, ⟨[], [], []⟩⟩ ∧
      headers_slots 8 ["GET / HTTP/1.1".toList, "Host: x".toList, "Accept: y".toList]
        = [some "GET / HTTP/1.1".toList, some "Host: x".toList, some "Accept: y".toList]
          ++ List.replicate (8 - (2 + 1)) none :=
  get_headers_returns_block 64 8 sample_lstn
    { inp := "\r\n\nGET / HTTP/1.1\nHost: x\r\nAccept: y\n\nabc".toList } ⟨[], [], []⟩
    [crlf, lf] ⟨"GET / HTTP/1.1".toList, lf⟩
    [⟨"Host: x".toList, crlf⟩, ⟨"Accept: y".toList, lf⟩] lf "abc".toList
    (by decide) (by decide) (by decide) (by decide) (by decide) (by decide)

/-- C13: when the source ends, be it at the end of the stream or with a read
error, after nothing but empty lines, `get_headers` returns `NULL` and leaves
the client channel as it was.  When it ends after a start line shorter than
the line buffer and any number of further lines, the last of which may be cut
short, with no empty line to close the block, `get_headers` returns `NULL`
after one `err_reply` with the 500 status, which on a client channel that
accepts writes adds exactly the 500 reply. -/
theorem get_headers_source_ends (MAXBUF MAXHEADERS : Nat) (lstn : LISTENER) (inp : Source)
    (cl : Sink) (blanks : List (List Char)) (first : WireLine) (more : List WireLine)
    (part : List Char) (hbuf : 2 < MAXBUF) (hblanks : ∀ b ∈ blanks, isEol b)
    (hfirst : first.wellFormed MAXBUF) (hmore : ∀ w ∈ more, w.wellFormed MAXBUF)
    (hpart : ∀ c ∈ part, c ≠ '\n' ∧ c ≠ '\x00') (hfit : part.length < MAXBUF) :
    (inp.inp = blanks.flatten →
      get_headers MAXBUF MAXHEADERS lstn inp cl = some ⟨none, { inp with inp := [] }, cl⟩) ∧
    (inp.inp = blanks.flatten ++ (((first :: more).map WireLine.wire).flatten ++ part) →
      ∃ inp', get_headers MAXBUF MAXHEADERS lstn inp cl
          = some ⟨none, inp', err_reply cl h500 lstn.err500⟩ ∧
        (cl.accepts → (err_reply cl h500 lstn.err500).out
          = cl.out ++ err_response h500 lstn.err500)) := by
  constructor
  · intro hin
    have hstart := get_headers_canonical_start MAXBUF hbuf inp blanks [] hblanks (by simpa using hin)
    obtain ⟨res, hres, hend⟩ := get_headers_start_end MAXBUF { inp with inp := [] }
      (blanks.flatten.length - blanks.length + ([] : List Char).length) rfl
    rw [hend] at hstart
    unfold get_headers
    rw [hstart]
    simp only [hres, if_true]
  · intro hin
    have hfit1 := hfirst.2.2.2
    have hel : 0 < first.eol.length := by
      rcases hfirst.2.2.1 with h | ⟨h, -⟩ <;> rw [h] <;> decide
    have hin' : inp.inp = blanks.flatten
        ++ (first.wire ++ ((more.map WireLine.wire).flatten ++ part)) := by
      rw [hin]; simp
    have hstart := get_headers_canonical_start MAXBUF hbuf inp blanks _ hblanks hin'
    rw [get_headers_start_wire MAXBUF
      { inp with inp := first.wire ++ ((more.map WireLine.wire).flatten ++ part) }
      first _ _ hfirst rfl] at hstart
    have hlines := get_headers_lines_cut MAXBUF part hpart hfit more MAXHEADERS first.text []
      { inp with inp := (more.map WireLine.wire).flatten ++ part } rfl hmore
    have hres1 : ¬ (((first.text.length + first.eol.length : Nat) : Int) ≤ 0) := by omega
    have hres2 : ¬ (((first.text.length + first.eol.length : Nat) : Int) ≥ (MAXBUF : Int) - 1) := by
      omega
    refine ⟨(get_headers_lines MAXBUF MAXHEADERS first.text []
      { inp with inp := (more.map WireLine.wire).flatten ++ part }).2, ?_,
      err_reply_accepts_out cl _ _⟩
    unfold get_headers
    rw [hstart]
    simp only [hres1, hres2, if_false]
    split
    · next hs inp2 heq => rw [heq] at hlines; simp at hlines
    · next inp2 heq => rw [heq]

theorem get_headers_source_ends_witness :
    get_headers 64 8 sample_lstn { inp := "\r\n\n".toList, gets_err := true } ⟨[], [], []⟩
        = some ⟨none, { inp := [], gets_err := true }, ⟨[], [], []⟩⟩ ∧
    ∃ inp', get_headers 64 8 sample_lstn
        { inp := "\nGET / HTTP/1.1\r\nHost: x\nAcc".toList } ⟨[], [], []⟩
          = some ⟨none, inp', err_reply ⟨[], [], []⟩ h500 sample_lstn.err500⟩ ∧
      ((⟨[], [], []⟩ : Sink).accepts → (err_reply ⟨[], [], []⟩ h500 sample_lstn.err500).out
        = [] ++ err_response h500 sample_lstn.err500) :=
  ⟨(get_headers_source_ends 64 8 sample_lstn { inp := "\r\n\n".toList, gets_err := true }
      ⟨[], [], []⟩ [crlf, lf] ⟨"GET / HTTP/1.1".toList, crlf⟩ [] []
      (by decide) (by decide) (by decide) (by decide) (by decide) (by decide)).1 (by decide),
   (get_headers_source_ends 64 8 sample_lstn
      { inp := "\nGET / HTTP/1.1\r\nHost: x\nAcc".toList } ⟨[], [], []⟩
      [lf] ⟨"GET / HTTP/1.1".toList, crlf⟩ [⟨"Host: x".toList, lf⟩] "Acc".toList
      (by decide) (by decide) (by decide) (by decide) (by decide) (by decide)).2 (by decide)⟩

/-! ### `bio_callback` -/

theorem bio_callback_poll_timeout (cmd : BioCmd) (ret : Int) (p : PollAnswer)
    (rest : List PollAnswer) (hp : p.ret = 0) :
    ∀ (pre : List PollAnswer) (ch : Channel), (∀ q ∈ pre, q.interrupted) →
      bio_callback_poll cmd ret (pre ++ p :: rest) ch
        = some (0, { arg := .err_to, polls := rest, errno := .ETIMEDOUT }) := by
  intro pre
  induction pre with
  | nil =>
    intro ch _
    simp [bio_callback_poll, hp]
  | cons q qs ih =>
    intro ch hq
    obtain ⟨h1, h0, he⟩ := hq q (by simp)
    simp only [List.cons_append, bio_callback_poll, h1, h0, if_false, he, Option.getD_some,
      ne_eq, not_true_eq_false]
    exact ih _ (fun r hr => hq r (by simp [hr]))

theorem bio_callback_timed_out (ch : Channel) (cmd : BioCmd) (ret : Int)
    (harg : ch.arg = .err_to) :
    bio_callback ch cmd ret
      = some (if cmd = .BIO_CB_READ ∨ cmd = .BIO_CB_WRITE then
          ((-1 : Int), { ch with errno := .ETIMEDOUT }) else (ret, ch)) := by
  unfold bio_callback
  have hto : wrapInt (ch.arg.deref * 1000) < 0 := by rw [harg]; decide
  by_cases h : cmd = .BIO_CB_READ ∨ cmd = .BIO_CB_WRITE
  · have h' : ¬ (cmd ≠ .BIO_CB_READ ∧ cmd ≠ .BIO_CB_WRITE) := by tauto
    rw [if_neg h', if_pos hto, if_pos h]
  · have h' : cmd ≠ .BIO_CB_READ ∧ cmd ≠ .BIO_CB_WRITE := by tauto
    rw [if_pos h', if_neg h]

theorem bio_callbacks_timed_out :
    ∀ (calls : List (BioCmd × Int)) (ch : Channel), ch.arg = .err_to → ch.errno = .ETIMEDOUT →
      bio_callbacks ch calls = some (timed_out_results calls, ch) := by
  intro calls
  induction calls with
  | nil => intro ch _ _; rfl
  | cons c cs ih =>
    intro ch harg herr
    obtain ⟨cmd, ret⟩ := c
    have hch : { ch with errno := Errno.ETIMEDOUT } = ch := by
      obtain ⟨a, ps, e⟩ := ch
      simp only at herr
      rw [herr]
    by_cases h : cmd = .BIO_CB_READ ∨ cmd = .BIO_CB_WRITE
    · simp only [bio_callbacks, bio_callback_timed_out ch cmd ret harg, h, if_true, hch,
        ih ch harg herr, timed_out_results, List.map_cons]
    · simp only [bio_callbacks, bio_callback_timed_out ch cmd ret harg, h, if_false,
        ih ch harg herr, timed_out_results, List.map_cons]

/-- C14: take a channel whose callback argument is a time-out that, in
milliseconds as an `int`, is not negative (every positive time-out up to
`INT_MAX / 1000` seconds), and a read or write callback in which `poll`, after
any number of interrupted calls, times out.  That callback answers 0 with
`ETIMEDOUT` and points the callback argument to `err_to`.  From then on every
read or write callback answers `-1` with `ETIMEDOUT`, and the channel stays
exactly as it is whatever callbacks follow: the callback argument stays
`err_to` and none of the answers of `poll` is used, so the descriptor is
never polled again. -/
theorem bio_callback_timeout_sticks (ch : Channel) (cmd : BioCmd) (ret seconds : Int)
    (pre : List PollAnswer) (p : PollAnswer) (rest : List PollAnswer)
    (calls : List (BioCmd × Int))
    (hcmd : cmd = .BIO_CB_READ ∨ cmd = .BIO_CB_WRITE)
    (harg : ch.arg = .timeout seconds) (hto : 0 ≤ wrapInt (seconds * 1000))
    (hpolls : ch.polls = pre ++ p :: rest) (hpre : ∀ q ∈ pre, q.interrupted)
    (hp : p.ret = 0) :
    bio_callback ch cmd ret
        = some (0, { arg := .err_to, polls := rest, errno := .ETIMEDOUT }) ∧
      (∀ (cmd' : BioCmd) (ret' : Int) (e : Errno),
        cmd' = .BIO_CB_READ ∨ cmd' = .BIO_CB_WRITE →
        bio_callback { arg := .err_to, polls := rest, errno := e } cmd' ret'
          = some (-1, { arg := .err_to, polls := rest, errno := .ETIMEDOUT })) ∧
      bio_callbacks { arg := .err_to, polls := rest, errno := .ETIMEDOUT } calls
        = some (timed_out_results calls,
            { arg := .err_to, polls := rest, errno := .ETIMEDOUT }) := by
  refine ⟨?_, ?_, bio_callbacks_timed_out calls _ rfl rfl⟩
  · unfold bio_callback
    have h' : ¬ (cmd ≠ .BIO_CB_READ ∧ cmd ≠ .BIO_CB_WRITE) := by tauto
    have hto' : ¬ (wrapInt (ch.arg.deref * 1000) < 0) := by
      rw [harg]; simp only [CbArg.deref]; omega
    rw [if_neg h', if_neg hto', hpolls]
    exact bio_callback_poll_timeout cmd ret p rest hp pre ch hpre
  · intro cmd' ret' e hc
    rw [bio_callback_timed_out _ cmd' ret' rfl, if_pos hc]

theorem bio_callback_timeout_sticks_witness :
    bio_callback
        { arg := .timeout 15,
          polls := [{ ret := -1, err := some .EINTR }, { ret := 0 }, { ret := 1, pollin := true }],
          errno := .EOTHER 0 } .BIO_CB_READ 1
        = some (0, { arg := .err_to, polls := [{ ret := 1, pollin := true }],
                     errno := .ETIMEDOUT }) ∧
      (∀ (cmd' : BioCmd) (ret' : Int) (e : Errno),
        cmd' = .BIO_CB_READ ∨ cmd' = .BIO_CB_WRITE →
        bio_callback { arg := .err_to, polls := [{ ret := 1, pollin := true }], errno := e }
            cmd' ret'
          = some (-1, { arg := .err_to, polls := [{ ret := 1, pollin := true }],
                        errno := .ETIMEDOUT })) ∧
      bio_callbacks
          { arg := .err_to, polls := [{ ret := 1, pollin := true }], errno := .ETIMEDOUT }
          [(.BIO_CB_READ, 1), (.BIO_CB_OTHER 6, 7), (.BIO_CB_WRITE, 1)]
        = some (timed_out_results [(.BIO_CB_READ, 1), (.BIO_CB_OTHER 6, 7), (.BIO_CB_WRITE, 1)],
            { arg := .err_to, polls := [{ ret := 1, pollin := true }], errno := .ETIMEDOUT }) :=
  bio_callback_timeout_sticks
    { arg := .timeout 15,
      polls := [{ ret := -1, err := some .EINTR }, { ret := 0 }, { ret := 1, pollin := true }],
      errno := .EOTHER 0 } .BIO_CB_READ 1 15
    [{ ret := -1, err := some .EINTR }] { ret := 0 } [{ ret := 1, pollin := true }]
    [(.BIO_CB_READ, 1), (.BIO_CB_OTHER 6, 7), (.BIO_CB_WRITE, 1)]
    (by decide) rfl (by decide) rfl (by decide) rfl

/-! ### The limit on the request size -/

theorem request_header_cont_same (env : Env) (lstn : LISTENER) (l : Locals) (h : List Char)
    (h1 : (env.check_header h).1 ≠ HEADER_CONTENT_LENGTH) :
    (request_header env lstn l h).1.cont = l.cont := by
  unfold request_header
  simp only []
  cases hk : (env.check_header h).1 <;> simp only [] <;> (try split) <;> (try split) <;>
    (try split) <;> simp_all

theorem request_headers_cont_same (env : Env) (lstn : LISTENER) :
    ∀ (hs : List (List Char)) (l : Locals),
      (∀ h ∈ hs, (env.check_header h).1 ≠ HEADER_CONTENT_LENGTH) →
      (request_headers env lstn l hs).1.cont = l.cont
  | [], l, _ => by simp [request_headers]
  | h :: hs, l, hall => by
    rw [request_headers]
    rw [request_headers_cont_same env lstn hs _ (fun x hx => hall x (by simp [hx]))]
    exact request_header_cont_same env lstn l h (hall h (by simp))

theorem thr_http_read_request_be (env : Env) (lstn : LISTENER) (l l1 : Locals)
    (h : thr_http_read_request env lstn l = some (.go l1)) : l1.be = l.be := by
  unfold thr_http_read_request at h
  simp only [] at h
  split at h
  · exact absurd h (by simp)
  · split at h
    · simp at h
    · split at h
      · simp at h
      · split at h
        · simp at h
        · simp only [Option.some.injEq, Step.go.injEq] at h
          subst h
          rfl

/-- C17: once the request line is accepted, the headers are classified and the
request size is tested, and nothing else comes in between.  With `cont` the
length that the classification ends with, the request is refused at this
point exactly when `max_req > 0` and `cont > max_req`: then the round ends,
whatever the service, the back-ends and their connections would have been,
with `err_reply` of the 501 status on the client channel and with the back-end
channel as it was when the round began.  Otherwise, in particular when
`cont = max_req`, the request goes on to the choice of the back-end with that
length.  For a request whose `Content-Length` header comes before any
`Transfer-Encoding: chunked` and is the only one, `cont` is the value of that
header. -/
theorem max_req_limit (env : Env) (lstn : LISTENER) (ssl : Option SSL) (l l1 : Locals)
    (h1 : thr_http_read_request env lstn l = some (.go l1)) :
    ((∃ n l2, thr_http_classify env lstn l1 = .fin n l2) ↔
      (lstn.max_req > 0 ∧
        (request_headers env lstn { l1 with chunked := false, cont := 0 } l1.headers.tail).1.cont
          > lstn.max_req)) ∧
    ((lstn.max_req > 0 ∧
        (request_headers env lstn { l1 with chunked := false, cont := 0 } l1.headers.tail).1.cont
          > lstn.max_req) →
      ∃ l2, (∀ renv, thr_http_round env lstn ssl renv l = some (.exit, l2)) ∧
        l2.cl.snk = err_reply l1.cl.snk h501 lstn.err501 ∧ l2.cl.src = l1.cl.src ∧
        l2.be = l.be) ∧
    ((request_headers env lstn { l1 with chunked := false, cont := 0 } l1.headers.tail).1.cont
        = lstn.max_req →
      ∃ l2, thr_http_classify env lstn l1 = .go l2 ∧ l2.cont = lstn.max_req) ∧
    (∀ (pre : List (List Char)) (clh : List Char) (post : List (List Char)),
      l1.headers.tail = pre ++ clh :: post →
      (∀ h ∈ pre, (env.check_header h).1 ≠ HEADER_CONTENT_LENGTH ∧
        ¬ ((env.check_header h).1 = HEADER_TRANSFER_ENCODING ∧
          strcasecmp_eq "chunked".toList (env.check_header h).2 = true)) →
      (env.check_header clh).1 = HEADER_CONTENT_LENGTH →
      (∀ h ∈ post, (env.check_header h).1 ≠ HEADER_CONTENT_LENGTH) →
      (request_headers env lstn { l1 with chunked := false, cont := 0 } l1.headers.tail).1.cont
        = atol (env.check_header clh).2) := by
  have hsame := request_headers_same env lstn l1.headers.tail
    { l1 with chunked := false, cont := 0 }
  refine ⟨?_, ?_, ?_, ?_⟩
  · unfold thr_http_classify
    simp only []
    constructor
    · rintro ⟨n, l2, h⟩
      split_ifs at h with hc
      · exact ⟨hc.1, hc.2.2⟩
    · rintro ⟨a, b⟩
      rw [if_pos ⟨a, by omega, b⟩]
      exact ⟨_, _, rfl⟩
  · rintro ⟨a, b⟩
    have hc : thr_http_classify env lstn l1 = .fin .exit
        (({ (request_headers env lstn { l1 with chunked := false, cont := 0 }
              l1.headers.tail).1 with
            headers_ok := true :: (request_headers env lstn
              { l1 with chunked := false, cont := 0 } l1.headers.tail).2 } : Locals).reply
          h501 lstn.err501) := by
      unfold thr_http_classify
      simp only []
      rw [if_pos ⟨a, by omega, b⟩]
    have key : ∀ lx, thr_http_classify env lstn l1 = .fin .exit lx →
        ∀ renv, thr_http_round env lstn ssl renv l = some (.exit, lx) := by
      intro lx hx renv
      simp only [thr_http_round, h1, hx]
    refine ⟨_, key _ hc, ?_, ?_, ?_⟩
    · simp only [Locals.reply, hsame.1]
    · simp only [Locals.reply, hsame.1]
    · simp only [Locals.reply, hsame.2.1]
      exact thr_http_read_request_be env lstn l l1 h1
  · intro heq
    unfold thr_http_classify
    simp only []
    have hc : ¬ (lstn.max_req > 0 ∧
        (request_headers env lstn { l1 with chunked := false, cont := 0 }
          l1.headers.tail).1.cont > 0 ∧
        (request_headers env lstn { l1 with chunked := false, cont := 0 }
          l1.headers.tail).1.cont > lstn.max_req) := by
      rintro ⟨-, -, c⟩
      omega
    rw [if_neg hc]
    exact ⟨_, rfl, heq⟩
  · intro pre clh post hh hpre hcl hpost
    rw [hh, request_headers_append, request_headers]
    obtain ⟨-, d1⟩ := request_headers_no_framing env lstn pre
      { l1 with chunked := false, cont := 0 } rfl rfl hpre
    obtain ⟨c2, -⟩ := request_header_length_seen env lstn _ clh d1 hcl
    simp only []
    rw [request_headers_cont_same env lstn post _ hpost, c2]

theorem max_req_limit_witness :
    (∃ l2, (∀ renv, thr_http_round sample_env max_req_lstn none renv
          (start_locals (post_request "5" "hello")) = some (.exit, l2)) ∧
        l2.cl.snk = err_reply (post_locals "5" "hello").cl.snk h501 max_req_lstn.err501 ∧
        l2.cl.src = (post_locals "5" "hello").cl.src ∧
        l2.be = (start_locals (post_request "5" "hello")).be) ∧
    (∃ l2, thr_http_classify sample_env max_req_lstn (post_locals "3" "hello") = .go l2 ∧
      l2.cont = max_req_lstn.max_req) ∧
    (request_headers sample_env max_req_lstn
        { post_locals "5" "hello" with chunked := false, cont := 0 }
        (post_locals "5" "hello").headers.tail).1.cont
      = atol (sample_env.check_header "Content-Length: 5".toList).2 :=
  ⟨(max_req_limit sample_env max_req_lstn none (start_locals (post_request "5" "hello"))
      (post_locals "5" "hello") (by decide)).2.1 ⟨by decide, by decide⟩,
   (max_req_limit sample_env max_req_lstn none (start_locals (post_request "3" "hello"))
      (post_locals "3" "hello") (by decide)).2.2.1 (by decide),
   (max_req_limit sample_env max_req_lstn none (start_locals (post_request "5" "hello"))
      (post_locals "5" "hello") (by decide)).2.2.2 [] "Content-Length: 5".toList []
      (by decide) (by decide) (by decide) (by decide)⟩

/-! ### More than one `Content-Length` -/

/-- C18: the request `two_lengths_request` has the headers `Content-Length: 3`
and `Content-Length: 5`.  The classification keeps both valid and ends with
the length 5 of the second one; the round, answered by `sample_backend` with
a 204, sends both lines to the back-end and relays five octets of body, so
the extra `Content-Length` is forwarded and does change the length used. -/
theorem second_content_length_overrides :
    (match thr_http_classify sample_env sample_lstn
        { post_locals "3" "hello" with
          headers := (post_locals "3" "hello").headers ++ ["Content-Length: 5".toList],
          headers_ok := [true, true, true] } with
      | .go l => some (l.headers_ok, l.cont)
      | .fin _ _ => none) = some ([true, true, true], 5) ∧
    (thr_http_round sample_env sample_lstn none (sample_renv "HTTP/1.1 204 No Content\r\n\r\n")
        (start_locals two_lengths_request)).map
          (fun r => (r.1, r.2.cl.src.inp, r.2.be.map (fun b => b.snk.out)))
      = some (.again, [],
          some ("POST /a HTTP/1.1\r\nContent-Length: 3\r\nContent-Length: 5\r\n"
            ++ "X-Forwarded-For: 192.0.2.7\r\n\r\nhello").toList) := by
  constructor <;> decide

/-! ### `copy_bin` with the discard flag -/

/-- C20: with `no_write` set `copy_bin` still calls `BIO_flush(be)` after every
read and gives up with `-4` when the result is not 1.  With three octets to
drain and no sink (`be` is `NULL`) it returns `-4`, and so it does with a sink
whose flush fails; with a line buffer of two octets it even leaves the third
octet unread.  In `thr_http` the request `post_request "3" "abc"` for
`sample_redirector` therefore ends in the 500 reply and `pthread_exit`
instead of the redirect. -/
theorem copy_bin_discard_needs_flush :
    copy_bin 4096 { inp := "abc".toList } none 3 none true
        = some ⟨-4, { inp := [] }, none, none⟩ ∧
      copy_bin 4096 { inp := "abc".toList } (some ⟨[], [], [false]⟩) 3 none true
        = some ⟨-4, { inp := [] }, some ⟨[], [], []⟩, none⟩ ∧
      copy_bin 2 { inp := "abc".toList } none 3 none true
        = some ⟨-4, { inp := "c".toList }, none, none⟩ ∧
      (thr_http_round sample_env sample_lstn none redirector_renv
          (start_locals (post_request "3" "abc"))).map (fun r => (r.1, r.2.cl.snk.out))
        = some (.exit, err_response h500 sample_lstn.err500) := by
  refine ⟨?_, ?_, ?_, ?_⟩ <;> decide

/-! ### The cap on the chunked size -/

theorem copy_chunks_loop_under_cap (MAXBUF : Nat) (CHUNK_HEAD : List Char → Bool)
    (hCH : acceptsHexLines CHUNK_HEAD) (max_size : Int) (hmaxl : max_size ≤ LONG_MAX)
    (tail : List Char) :
    ∀ (chunks : List Chunk) (fuel : Nat) (cl : Source) (be : Sink) (rb : Option Int) (tot : Int),
      cl.inp = (chunks.map Chunk.wire).flatten ++ tail →
      (∀ c ∈ chunks, c.wellFormed MAXBUF) → cl.readsPositive → be.accepts →
      0 ≤ tot → tot + chunksTotal chunks ≤ max_size →
      ∃ cl' be' rb',
        copy_chunks_loop MAXBUF CHUNK_HEAD max_size false (fuel + chunks.length) cl (some be) rb tot
          = copy_chunks_loop MAXBUF CHUNK_HEAD max_size false fuel cl' (some be') rb'
              (tot + chunksTotal chunks)
        ∧ cl'.inp = tail ∧ cl'.readsPositive ∧ be'.accepts
        ∧ be'.out = be.out ++ (chunks.map Chunk.wire).flatten := by
  intro chunks
  induction chunks with
  | nil =>
    intro fuel cl be rb tot hin _ hr hacc _ _
    refine ⟨cl, be, rb, ?_, by simpa using hin, hr, hacc, by simp⟩
    simp [chunksTotal]
  | cons c cs ih =>
    intro fuel cl be rb tot hin hwf hr hacc htot hsum
    obtain ⟨hsne, hshex, hsfit, hval, hdpos, hdmax⟩ := hwf c (by simp)
    have hcs : 0 ≤ chunksTotal cs := by
      unfold chunksTotal
      apply List.sum_nonneg
      intro x hx
      simp only [List.mem_map] at hx
      obtain ⟨d, -, rfl⟩ := hx
      omega
    have hsum' : tot + (c.data.length : Int) + chunksTotal cs ≤ max_size := by
      simp only [chunksTotal, List.map_cons, List.sum_cons] at hsum ⊢
      omega
    let rest1 : List Char := (cs.map Chunk.wire).flatten ++ tail
    have hin' : cl.inp = c.size ++ crlf ++ (c.data ++ (crlf ++ rest1)) := by
      rw [hin]; simp [Chunk.wire, rest1]
    have hg := BIO_gets_line MAXBUF cl c.size _ hin'
      (fun d hd => (hexDigit_facts d (hshex d hd)).1) hsfit
    have hstrip := strip_eol_line c.size
      (fun d hd => ⟨(hexDigit_facts d (hshex d hd)).1, (hexDigit_facts d (hshex d hd)).2.1⟩)
    have hcont : strtol c.size 16 = (c.data.length : Int) := by
      rw [strtol_hex c.size hsne hshex, hval]
      exact min_eq_left hdmax
    have hp := BIO_printf_line_accepts be c.size
      (fun d hd => (hexDigit_facts d (hshex d hd)).2.1) hacc
    obtain ⟨w1, w2, w3⟩ := Sink.write_accepts be (c.size ++ crlf) hacc
    obtain ⟨cl1, be1, rb1, b1, b2, b3, b4, b5, -⟩ :=
      copy_bin_loop_forwards MAXBUF (by omega) ((c.data.length : Int).toNat + 1)
        { cl with inp := c.data ++ (crlf ++ rest1) } (be.write (c.size ++ crlf)).2
        (c.data.length : Int) rb (by omega) (by omega)
        (by simp only [List.length_append]; push_cast; omega) hr w3
    simp only [Int.toNat_ofNat, List.take_left', List.drop_left'] at b2 b3
    have hg2 := BIO_gets_line MAXBUF cl1 [] rest1 (by simpa using b3) (by simp) (by simp; omega)
    have hp2 := BIO_printf_line_accepts be1 [] (by simp) b5
    obtain ⟨v1, v2, v3⟩ := Sink.write_accepts be1 ([] ++ crlf) b5
    have hwrap : wrapLong (tot + (c.data.length : Int)) = tot + (c.data.length : Int) :=
      wrapLong_eq (tot + (c.data.length : Int)) (by unfold LONG_MIN; omega) (by omega)
    obtain ⟨cl', be', rb', e1, e2, e3, e4, e5⟩ := ih fuel { cl1 with inp := rest1 }
      (be1.write ([] ++ crlf)).2 rb1 (tot + (c.data.length : Int)) rfl
      (fun d hd => hwf d (by simp [hd])) b4 v3 (by omega) hsum'
    refine ⟨cl', be', rb', ?_, e2, e3, e4, ?_⟩
    · have hf : fuel + (c :: cs).length = (fuel + cs.length) + 1 := by simp; omega
      have htotal : tot + chunksTotal (c :: cs) = tot + (c.data.length : Int) + chunksTotal cs := by
        simp only [chunksTotal, List.map_cons, List.sum_cons]; omega
      rw [hf, htotal, copy_chunks_loop]
      have hpos : ¬ (((c.size.length + 2 : Nat) : Int) ≤ 0) := by omega
      have hpos2 : ¬ (((0 + 2 : Nat) : Int) ≤ 0) := by omega
      have hdpos' : (0 : Int) < (c.data.length : Int) := by omega
      have hs2 : strip_eol ([] ++ crlf) = [] := strip_eol_line [] (by simp)
      have hcap : ¬ (max_size > 0 ∧ tot + (c.data.length : Int) > max_size) := by
        rintro ⟨-, h⟩; omega
      simp only [hg, hpos, if_false, hstrip, hCH c.size hsne hshex, Bool.true_eq_false, hcont, hp,
        Bool.false_eq_true, hwrap, hcap, gt_iff_lt, hdpos', if_true, copy_bin, b1,
        ne_eq, not_true_eq_false, hg2, List.length_nil, hpos2, hs2, hp2]
      exact e1
    · rw [e5, v2, b2, w2]; simp [Chunk.wire]

theorem chunksTotal_nonneg (chunks : List Chunk) : 0 ≤ chunksTotal chunks := by
  unfold chunksTotal
  apply List.sum_nonneg
  intro x hx
  simp only [List.mem_map] at hx
  obtain ⟨d, -, rfl⟩ := hx
  omega

theorem copy_chunks_loop_crossing (MAXBUF : Nat) (CHUNK_HEAD : List Char → Bool)
    (hCH : acceptsHexLines CHUNK_HEAD) (max_size : Int) (hmax : 0 < max_size)
    (size rest : List Char) (hsne : size ≠ []) (hshex : ∀ ch ∈ size, isHexDigit ch = true)
    (hsfit : size.length + 2 < MAXBUF) (fuel : Nat) (cl : Source) (be : Sink)
    (rb : Option Int) (tot : Int) (hin : cl.inp = size ++ crlf ++ rest) (hacc : be.accepts)
    (htot : 0 ≤ tot) (hcross : max_size < tot + (hexValue size : Int))
    (hrange : tot + (hexValue size : Int) ≤ LONG_MAX) :
    copy_chunks_loop MAXBUF CHUNK_HEAD max_size false (fuel + 1) cl (some be) rb tot
      = some ⟨-4, { cl with inp := rest }, some (be.write (size ++ crlf)).2, rb⟩ := by
  have hg := BIO_gets_line MAXBUF cl size _ hin
    (fun d hd => (hexDigit_facts d (hshex d hd)).1) hsfit
  have hstrip := strip_eol_line size
    (fun d hd => ⟨(hexDigit_facts d (hshex d hd)).1, (hexDigit_facts d (hshex d hd)).2.1⟩)
  have hcont : strtol size 16 = (hexValue size : Int) := by
    rw [strtol_hex size hsne hshex]
    exact min_eq_left (by omega)
  have hp := BIO_printf_line_accepts be size
    (fun d hd => (hexDigit_facts d (hshex d hd)).2.1) hacc
  have hwrap : wrapLong (tot + (hexValue size : Int)) = tot + (hexValue size : Int) :=
    wrapLong_eq (tot + (hexValue size : Int)) (by unfold LONG_MIN; omega) hrange
  have hpos : ¬ (((size.length + 2 : Nat) : Int) ≤ 0) := by omega
  have hcap : max_size > 0 ∧ tot + (hexValue size : Int) > max_size := ⟨hmax, hcross⟩
  rw [copy_chunks_loop]
  simp only [hg, hpos, if_false, hstrip, hCH size hsne hshex, Bool.true_eq_false, hcont, hp,
    Bool.false_eq_true, hwrap, hcap, and_self, if_true]

theorem copy_chunks_loop_last (MAXBUF : Nat) (CHUNK_HEAD : List Char → Bool)
    (hCH : acceptsHexLines CHUNK_HEAD) (max_size : Int) (hmaxl : max_size ≤ LONG_MAX)
    (last : List Char) (trailers : List (List Char)) (rest : List Char)
    (hlast : last ≠ [] ∧ (∀ ch ∈ last, ch = '0') ∧ last.length + 2 < MAXBUF)
    (htr : ∀ t ∈ trailers, textLine MAXBUF t) (fuel : Nat) (cl : Source) (be : Sink)
    (rb : Option Int) (tot : Int)
    (hin : cl.inp = (last ++ crlf) ++ (trailers.map (fun t => t ++ crlf)).flatten ++ crlf ++ rest)
    (hacc : be.accepts) (htot : 0 ≤ tot) (hunder : tot ≤ max_size) :
    ∃ cl' be' rb', copy_chunks_loop MAXBUF CHUNK_HEAD max_size false (fuel + 1) cl (some be) rb tot
        = some ⟨0, cl', some be', rb'⟩
      ∧ cl'.inp = rest
      ∧ be'.out = be.out
          ++ ((last ++ crlf) ++ (trailers.map (fun t => t ++ crlf)).flatten ++ crlf) := by
  obtain ⟨hlne, hlz, hlfit⟩ := hlast
  have hlhex : ∀ ch ∈ last, isHexDigit ch = true := by
    intro ch hch; rw [hlz ch hch]; decide
  have hin' : cl.inp = last ++ crlf
      ++ ((trailers.map (fun t => t ++ crlf)).flatten ++ crlf ++ rest) := by
    rw [hin]; simp
  have hg := BIO_gets_line MAXBUF cl last _ hin'
    (fun c hc => (hexDigit_facts c (hlhex c hc)).1) hlfit
  have hstrip := strip_eol_line last
    (fun c hc => ⟨(hexDigit_facts c (hlhex c hc)).1, (hexDigit_facts c (hlhex c hc)).2.1⟩)
  have hcont : strtol last 16 = 0 := by
    rw [strtol_hex last hlne hlhex, hexValue_zeros last hlz]; decide
  have hp := BIO_printf_line_accepts be last
    (fun c hc => (hexDigit_facts c (hlhex c hc)).2.1) hacc
  obtain ⟨w1, w2, w3⟩ := Sink.write_accepts be (last ++ crlf) hacc
  obtain ⟨be', e1, e2, e3⟩ := copy_chunks_trailers_forwards MAXBUF (by omega) rest rb trailers
    (((trailers.map (fun t => t ++ crlf)).flatten ++ crlf ++ rest).length + 1)
    { cl with inp := (trailers.map (fun t => t ++ crlf)).flatten ++ crlf ++ rest }
    (be.write (last ++ crlf)).2
    (by
      have := length_le_flatten_lines trailers
      simp only [List.length_append]
      omega) rfl htr w3
  have hwrap : wrapLong (tot + 0) = tot :=
    (wrapLong_eq (tot + 0) (by unfold LONG_MIN; omega) (by omega)).trans (by omega)
  have hcap : ¬ (max_size > 0 ∧ tot > max_size) := by
    rintro ⟨-, h⟩; omega
  refine ⟨{ cl with inp := rest }, be', rb, ?_, rfl, ?_⟩
  · rw [copy_chunks_loop]
    have hpos : ¬ (((last.length + 2 : Nat) : Int) ≤ 0) := by omega
    simp only [hg, hpos, if_false, hstrip, hCH last hlne hlhex, Bool.true_eq_false, hcont, hp,
      Bool.false_eq_true, hwrap, hcap, lt_self_iff_false, gt_iff_lt]
    exact e1
  · rw [e2, w2]; simp

/-- C19, counterexample: with the cap `max_size = 3` and a first chunk that
declares 5 octets, `copy_chunks` fails with `-4`, but by then the size line
`5` and its CR LF are in the sink: the line is written before the cap is
tested.  The five octets of the chunk stay unread. -/
theorem copy_chunks_cap_after_size_line :
    copy_chunks 64 chunkHeadSample { inp := "5\r\nhello\r\n0\r\n\r\n".toList }
        (some ⟨[], [], []⟩) none false 3
      = some ⟨-4, { inp := "hello\r\n0\r\n\r\n".toList }, some ⟨"5\r\n".toList, [], []⟩, none⟩ := by
  decide

/-- C19, as amended: let `max_size` be a positive cap and let the input begin with
well-formed chunks whose sizes add up to at most `max_size`, on channels that
deliver and accept.  When the next size line brings the total (still within a
`long`) above `max_size`, `copy_chunks` returns `-4`: the chunks before are
forwarded, the size line that crosses the cap is written to the sink as
well, since the cap is tested after it is forwarded, and nothing behind that
line is read or written.  When instead the body ends there, its total being
at most `max_size` (equal included), `copy_chunks` returns 0 and the whole
body is forwarded. -/
theorem copy_chunks_cap (MAXBUF : Nat) (CHUNK_HEAD : List Char → Bool) (chunks : List Chunk)
    (cl : Source) (be : Sink) (res_bytes : Option Int) (max_size : Int)
    (hCH : acceptsHexLines CHUNK_HEAD) (hwf : ∀ c ∈ chunks, c.wellFormed MAXBUF)
    (hr : cl.readsPositive) (hacc : be.accepts) (hmax : 0 < max_size)
    (hmaxl : max_size ≤ LONG_MAX) (hunder : chunksTotal chunks ≤ max_size) :
    (∀ size rest : List Char, size ≠ [] → (∀ ch ∈ size, isHexDigit ch = true) →
      size.length + 2 < MAXBUF → max_size < chunksTotal chunks + (hexValue size : Int) →
      chunksTotal chunks + (hexValue size : Int) ≤ LONG_MAX →
      cl.inp = (chunks.map Chunk.wire).flatten ++ (size ++ crlf ++ rest) →
      ∃ cl' be' rb', copy_chunks MAXBUF CHUNK_HEAD cl (some be) res_bytes false max_size
          = some ⟨-4, cl', some be', rb'⟩
        ∧ cl'.inp = rest
        ∧ be'.out = be.out ++ (chunks.map Chunk.wire).flatten ++ (size ++ crlf)) ∧
    (∀ (last : List Char) (trailers : List (List Char)) (rest : List Char),
      (last ≠ [] ∧ (∀ ch ∈ last, ch = '0') ∧ last.length + 2 < MAXBUF) →
      (∀ t ∈ trailers, textLine MAXBUF t) →
      cl.inp = (ChunkedBody.mk chunks last trailers).wire ++ rest →
      ∃ cl' be' rb', copy_chunks MAXBUF CHUNK_HEAD cl (some be) res_bytes false max_size
          = some ⟨0, cl', some be', rb'⟩
        ∧ cl'.inp = rest
        ∧ be'.out = be.out ++ (ChunkedBody.mk chunks last trailers).wire) := by
  have hlen := length_le_flatten_chunks chunks
  have hcs := chunksTotal_nonneg chunks
  constructor
  · intro size rest hsne hshex hsfit hcross hrange hin
    obtain ⟨cl1, be1, rb1, e1, e2, e3, e4, e5⟩ :=
      copy_chunks_loop_under_cap MAXBUF CHUNK_HEAD hCH max_size hmaxl (size ++ crlf ++ rest)
        chunks (cl.inp.length + 1 - chunks.length) cl be res_bytes 0 hin hwf hr hacc
        (le_refl 0) (by omega)
    have hf : cl.inp.length + 1 - chunks.length + chunks.length = cl.inp.length + 1 := by
      rw [hin, List.length_append]; omega
    obtain ⟨m, hm⟩ : ∃ m, cl.inp.length + 1 - chunks.length = m + 1 :=
      ⟨cl.inp.length - chunks.length, by rw [hin, List.length_append]; omega⟩
    rw [hf] at e1
    refine ⟨{ cl1 with inp := rest }, (be1.write (size ++ crlf)).2, rb1, ?_, rfl, ?_⟩
    · unfold copy_chunks
      rw [e1, hm]
      exact copy_chunks_loop_crossing MAXBUF CHUNK_HEAD hCH max_size hmax size rest hsne hshex
        hsfit m cl1 be1 rb1 _ e2 e4 (by omega) (by omega) (by omega)
    · rw [(Sink.write_accepts be1 (size ++ crlf) e4).2.1, e5]
  · intro last trailers rest hlast htr hin
    have hin' : cl.inp = (chunks.map Chunk.wire).flatten
        ++ ((last ++ crlf) ++ (trailers.map (fun t => t ++ crlf)).flatten ++ crlf ++ rest) := by
      rw [hin]; simp [ChunkedBody.wire]
    obtain ⟨cl1, be1, rb1, e1, e2, e3, e4, e5⟩ :=
      copy_chunks_loop_under_cap MAXBUF CHUNK_HEAD hCH max_size hmaxl _
        chunks (cl.inp.length + 1 - chunks.length) cl be res_bytes 0 hin' hwf hr hacc
        (le_refl 0) (by omega)
    have hf : cl.inp.length + 1 - chunks.length + chunks.length = cl.inp.length + 1 := by
      rw [hin', List.length_append]; omega
    obtain ⟨m, hm⟩ : ∃ m, cl.inp.length + 1 - chunks.length = m + 1 :=
      ⟨cl.inp.length - chunks.length, by rw [hin', List.length_append]; omega⟩
    rw [hf] at e1
    obtain ⟨cl', be', rb', f1, f2, f3⟩ :=
      copy_chunks_loop_last MAXBUF CHUNK_HEAD hCH max_size hmaxl last trailers rest hlast htr
        m cl1 be1 rb1 (0 + chunksTotal chunks) e2 e4 (by omega) (by omega)
    refine ⟨cl', be', rb', ?_, f2, ?_⟩
    · unfold copy_chunks
      rw [e1, hm]
      exact f1
    · rw [f3, e5]; simp [ChunkedBody.wire]

theorem chunkHeadSample_accepts : acceptsHexLines chunkHeadSample := by
  intro l hne hl
  cases l with
  | nil => exact absurd rfl hne
  | cons c t => exact hl c (by simp)

theorem abcChunk_wellFormed : ∀ c ∈ [abcChunk], c.wellFormed 64 := by
  intro c hc
  have hc' : c = abcChunk := by simpa using hc
  subst hc'
  exact ⟨by decide, by decide, by decide, by decide, by decide, by decide⟩

theorem copy_chunks_cap_witness :
    (∃ cl' be' rb', copy_chunks 64 chunkHeadSample
          { inp := ([abcChunk].map Chunk.wire).flatten ++ (['2'] ++ crlf ++ "hi\r\n0\r\n\r\n".toList) }
          (some ⟨[], [], []⟩) none false 3
        = some ⟨-4, cl', some be', rb'⟩
      ∧ cl'.inp = "hi\r\n0\r\n\r\n".toList
      ∧ be'.out = [] ++ ([abcChunk].map Chunk.wire).flatten ++ (['2'] ++ crlf)) ∧
    (∃ cl' be' rb', copy_chunks 64 chunkHeadSample
          { inp := (ChunkedBody.mk [abcChunk] ['0'] []).wire ++ ['G', 'E', 'T'] }
          (some ⟨[], [], []⟩) none false 3
        = some ⟨0, cl', some be', rb'⟩
      ∧ cl'.inp = ['G', 'E', 'T']
      ∧ be'.out = [] ++ (ChunkedBody.mk [abcChunk] ['0'] []).wire) :=
  ⟨(copy_chunks_cap 64 chunkHeadSample [abcChunk]
      { inp := ([abcChunk].map Chunk.wire).flatten ++ (['2'] ++ crlf ++ "hi\r\n0\r\n\r\n".toList) }
      ⟨[], [], []⟩ none 3 chunkHeadSample_accepts abcChunk_wellFormed (by decide) (by decide)
      (by decide) (by decide) (by decide)).1 ['2'] "hi\r\n0\r\n\r\n".toList
      (by decide) (by decide) (by decide) (by decide) (by decide) rfl,
   (copy_chunks_cap 64 chunkHeadSample [abcChunk]
      { inp := (ChunkedBody.mk [abcChunk] ['0'] []).wire ++ ['G', 'E', 'T'] }
      ⟨[], [], []⟩ none 3 chunkHeadSample_accepts abcChunk_wellFormed (by decide) (by decide)
      (by decide) (by decide) (by decide)).2 ['0'] [] ['G', 'E', 'T']
      (by decide) (by decide) rfl⟩

/-! ### The two halves of a round -/

theorem thr_http_round_eq (env : Env) (lstn : LISTENER) (ssl : Option SSL) (renv : ReqEnv)
    (l : Locals) :
    thr_http_round env lstn ssl renv l
      = match thr_http_request env lstn ssl renv l with
        | none => none
        | some (.fin n l', _) => some (n, l')
        | some (.go _, none) => none
        | some (.go l', some backend) => thr_http_answer env lstn ssl backend l' := by
  unfold thr_http_round thr_http_request thr_http_answer
  cases thr_http_read_request env lstn l with
  | none => rfl
  | some s1 =>
    cases s1 with
    | fin n l1 => rfl
    | go l1 =>
      simp only []
      cases thr_http_classify env lstn l1 with
      | fin n l2 => rfl
      | go l2 =>
        simp only []
        rcases thr_http_backend lstn renv l2 with ⟨_ | backend, l3⟩
        · rfl
        · simp only []
          cases thr_http_send_head env lstn ssl backend l3 with
          | fin n l4 => rfl
          | go l4 =>
            simp only []
            cases thr_http_send_body env lstn backend l4 with
            | none => rfl
            | some s5 =>
              cases s5 with
              | fin n l5 => rfl
              | go l5 =>
                simp only []
                cases thr_http_redirect env backend
                    { l5 with force_10 := force_10_of lstn ssl l5.u_agent } with
                | fin n l6 => rfl
                | go l6 => rfl

/-! ### `no_cont` on the request side -/

theorem get_headers_some_cl (MAXBUF MAXHEADERS : Nat) (lstn : LISTENER) (inp : Source) (cl : Sink)
    (r : HeadersResult) (hs : List (List Char))
    (h : get_headers MAXBUF MAXHEADERS lstn inp cl = some r) (hh : r.headers = some hs) :
    r.cl = cl := by
  unfold get_headers at h
  split at h
  · exact absurd h (by simp)
  · split_ifs at h
    · cases h; simp at hh
    · cases h; simp at hh
    · split at h
      · cases h; rfl
      · cases h; simp at hh

theorem response_header_keeps (env : Env) (lstn : LISTENER) (ssl : Option SSL)
    (backend : BACKEND) (l : Locals) (h : List Char) :
    (response_header env lstn ssl backend l h).1.be = l.be ∧
      (response_header env lstn ssl backend l h).1.cl = l.cl ∧
      (response_header env lstn ssl backend l h).1.skip = l.skip ∧
      (response_header env lstn ssl backend l h).1.be_11 = l.be_11 ∧
      (response_header env lstn ssl backend l h).1.res_bytes = l.res_bytes := by
  unfold response_header
  simp only []
  cases hk : (env.check_header h).1 <;> simp only [] <;> (try split) <;> (try split) <;>
    (try split) <;> simp_all

theorem response_headers_keeps (env : Env) (lstn : LISTENER) (ssl : Option SSL)
    (backend : BACKEND) :
    ∀ (hs : List (List Char)) (l : Locals),
      (response_headers env lstn ssl backend l hs).1.be = l.be ∧
        (response_headers env lstn ssl backend l hs).1.cl = l.cl ∧
        (response_headers env lstn ssl backend l hs).1.skip = l.skip ∧
        (response_headers env lstn ssl backend l hs).1.be_11 = l.be_11 ∧
        (response_headers env lstn ssl backend l hs).1.res_bytes = l.res_bytes
  | [], l => by simp [response_headers]
  | h :: hs, l => by
    rw [response_headers]
    obtain ⟨a1, a2, a3, a4, a5⟩ := response_headers_keeps env lstn ssl backend hs
      (response_header env lstn ssl backend l h).1
    obtain ⟨b1, b2, b3, b4, b5⟩ := response_header_keeps env lstn ssl backend l h
    exact ⟨a1.trans b1, a2.trans b2, a3.trans b3, a4.trans b4, a5.trans b5⟩

theorem response_header_not_chunked (env : Env) (lstn : LISTENER) (ssl : Option SSL)
    (backend : BACKEND) (l : Locals) (h : List Char) (hte : is_chunked_encoding env h = false) :
    (response_header env lstn ssl backend l h).1.no_cont = l.no_cont ∧
      (response_header env lstn ssl backend l h).1.chunked = l.chunked := by
  unfold response_header
  unfold is_chunked_encoding at hte
  simp only []
  cases hk : (env.check_header h).1 <;> simp only [] <;> (try split) <;> (try split) <;>
    (try split) <;> simp_all

theorem response_headers_not_chunked (env : Env) (lstn : LISTENER) (ssl : Option SSL)
    (backend : BACKEND) :
    ∀ (hs : List (List Char)) (l : Locals), (∀ h ∈ hs, is_chunked_encoding env h = false) →
      (response_headers env lstn ssl backend l hs).1.no_cont = l.no_cont ∧
        (response_headers env lstn ssl backend l hs).1.chunked = l.chunked
  | [], l, _ => by simp [response_headers]
  | h :: hs, l, hall => by
    rw [response_headers]
    obtain ⟨a1, a2⟩ := response_headers_not_chunked env lstn ssl backend hs
      (response_header env lstn ssl backend l h).1 (fun x hx => hall x (by simp [hx]))
    obtain ⟨b1, b2⟩ := response_header_not_chunked env lstn ssl backend l h (hall h (by simp))
    exact ⟨a1.trans b1, a2.trans b2⟩

theorem response_head_keeps (env : Env) (lstn : LISTENER) (ssl : Option SSL) (backend : BACKEND)
    (l : Locals) (headers : List (List Char)) :
    (response_head env lstn ssl backend l headers).be = l.be ∧
      (response_head env lstn ssl backend l headers).cl = l.cl ∧
      (response_head env lstn ssl backend l headers).skip = env.RESP_SKIP (headers.headD []) ∧
      (response_head env lstn ssl backend l headers).res_bytes = l.res_bytes := by
  unfold response_head
  simp only []
  obtain ⟨a1, a2, a3, -, a5⟩ := response_headers_keeps env lstn ssl backend headers.tail
    { l with response := headers.headD [],
             be_11 := decide ((headers.headD []).get? 7 = some '1'),
             skip := env.RESP_SKIP (headers.headD []),
             no_cont := if l.no_cont = false ∧ env.RESP_IGN (headers.headD []) then true
               else l.no_cont,
             chunked := false, cont := -1 }
  exact ⟨a1, a2, a3, a5⟩

theorem response_head_no_cont (env : Env) (lstn : LISTENER) (ssl : Option SSL)
    (backend : BACKEND) (l : Locals) (headers : List (List Char))
    (hno : l.no_cont = true ∨ env.RESP_IGN (headers.headD []) = true)
    (hte : ∀ h ∈ headers.tail, is_chunked_encoding env h = false) :
    (response_head env lstn ssl backend l headers).no_cont = true := by
  unfold response_head
  simp only []
  rw [(response_headers_not_chunked env lstn ssl backend headers.tail _ hte).1]
  simp only []
  rcases hno with h | h
  · rw [h]; simp
  · cases hn : l.no_cont
    · rw [if_pos ⟨rfl, h⟩]
    · split <;> rfl

theorem write_lines_accepts :
    ∀ (lines : List (List Char)) (snk : Sink), snk.accepts → (∀ t ∈ lines, t ≠ []) →
      ∃ snk', write_lines lines (some snk) = (true, some snk') ∧
        snk'.out = snk.out ++ lines.flatten ∧ snk'.accepts
  | [], snk, hacc, _ => ⟨snk, rfl, by simp, hacc⟩
  | t :: ts, snk, hacc, hne => by
    obtain ⟨w1, w2, w3⟩ := Sink.write_accepts snk t hacc
    have ht : 0 < t.length := List.length_pos.mpr (hne t (by simp))
    obtain ⟨snk', e1, e2, e3⟩ := write_lines_accepts ts (snk.write t).2 w3
      (fun x hx => hne x (by simp [hx]))
    refine ⟨snk', ?_, ?_, e3⟩
    · rw [write_lines]
      have hpos : ¬ ((BIO_write (some snk) t).1 ≤ 0) := by
        simp only [BIO_write, w1]; omega
      rw [if_neg hpos]
      exact e1
    · rw [e2, w2]; simp

theorem send_response_head_keeps (l : Locals) :
    (send_response_head l).2.no_cont = l.no_cont ∧ (send_response_head l).2.be = l.be ∧
      (send_response_head l).2.skip = l.skip ∧ (send_response_head l).2.headers = l.headers ∧
      (send_response_head l).2.cl.src = l.cl.src ∧
      (send_response_head l).2.res_bytes = l.res_bytes := by
  unfold send_response_head
  simp only []
  split <;> (try split) <;> simp

theorem send_response_head_skip (l : Locals) (hs : l.skip = true) :
    (send_response_head l).2.cl.snk.out = l.cl.snk.out := by
  unfold send_response_head
  simp only [hs, if_true, Option.getD_some, Bool.true_eq_false, if_false]
  exact Sink.flush_out _

theorem send_response_head_accepts (l : Locals) (hacc : l.cl.snk.accepts) :
    (send_response_head l).1 = true ∧
      (send_response_head l).2.cl.snk.out
        = l.cl.snk.out ++ (if l.skip then [] else head_text l.headers) ∧
      (send_response_head l).2.cl.snk.accepts := by
  cases hs : l.skip with
  | true =>
    obtain ⟨f1, f2, f3⟩ := Sink.flush_accepts l.cl.snk hacc
    unfold send_response_head
    simp only [hs, if_true, Option.getD_some, Bool.true_eq_false, if_false, f1, decide_True,
      f2, f3, List.append_nil, and_self]
  | false =>
    obtain ⟨snk1, e1, e2, e3⟩ := write_lines_accepts (l.headers.map (fun h => cstr h ++ crlf))
      l.cl.snk hacc (by
        intro t ht
        simp only [List.mem_map] at ht
        obtain ⟨h, -, rfl⟩ := ht
        simp [crlf])
    obtain ⟨w1, w2, w3⟩ := Sink.write_accepts snk1 crlf e3
    obtain ⟨f1, f2, f3⟩ := Sink.flush_accepts (snk1.write crlf).2 w3
    unfold send_response_head
    simp only [hs, Bool.false_eq_true, if_false, e1, Option.getD_some, f1, decide_True, f2, f3,
      w2, e2, head_text, List.append_assoc, and_self, Bool.true_eq_false]

/-! ### Responses without content -/

theorem BIO_read_length_le (b : Source) (len : Int) :
    (BIO_read b len).2.2.inp.length ≤ b.inp.length := by
  obtain ⟨inp, plan, pend, polls, gerr⟩ := b
  cases plan with
  | nil => simp [BIO_read, List.length_drop]
  | cons e plan =>
    cases e with
    | none => simp [BIO_read]
    | some k => simp [BIO_read, List.length_drop]

theorem BIO_gets_length_le (inp : Source) (size : Nat) :
    (BIO_gets inp size).2.2.inp.length ≤ inp.inp.length := by
  unfold BIO_gets
  have h := congrArg List.length (getsLine_append (size - 1) inp.inp)
  simp only [List.length_append] at h
  simp only
  omega

theorem copy_bin_loop_discard (MAXBUF : Nat) :
    ∀ (fuel : Nat) (cl : Source) (s : Sink) (cont : Int) (rb : Option Int),
      cont.toNat < fuel →
      ∃ r, copy_bin_loop MAXBUF fuel cl (some s) cont rb true = some r ∧
        (∃ s', r.be = some s' ∧ s'.out = s.out) ∧ r.cl.inp.length ≤ cl.inp.length := by
  intro fuel
  induction fuel with
  | zero => intro cl s cont rb h; omega
  | succ fuel ih =>
    intro cl s cont rb hf
    rw [copy_bin_loop]
    have hlen := BIO_read_length_le cl (if cont > (MAXBUF : Int) then (MAXBUF : Int) else cont)
    by_cases hc : cont > 0
    · simp only [hc, if_true, ne_eq, not_true_eq_false, if_false, BIO_flush]
      generalize BIO_read cl (if cont > (MAXBUF : Int) then (MAXBUF : Int) else cont) = rd
        at hlen ⊢
      split_ifs with h1 h2 h3
      · exact ⟨_, rfl, ⟨s, rfl, rfl⟩, hlen⟩
      · exact ⟨_, rfl, ⟨s, rfl, rfl⟩, hlen⟩
      · obtain ⟨r, e1, ⟨s', e2, e3⟩, e4⟩ := ih rd.2.2 s.flush.2 (cont - rd.1)
          (rb.map (fun r => wrapLong (r + rd.1))) (by omega)
        exact ⟨r, e1, ⟨s', e2, e3.trans (Sink.flush_out s)⟩, by omega⟩
      · exact ⟨_, rfl, ⟨_, rfl, Sink.flush_out s⟩, hlen⟩
    · simp only [hc, if_false]
      exact ⟨_, rfl, ⟨s, rfl, rfl⟩, le_refl _⟩

theorem copy_chunks_trailers_discard (MAXBUF : Nat) :
    ∀ (fuel : Nat) (cl : Source) (be : Option Sink) (rb : Option Int),
      cl.inp.length < fuel →
      ∃ r, copy_chunks_trailers MAXBUF fuel cl be rb true = some r ∧
        r.be = be ∧ r.cl.inp.length ≤ cl.inp.length := by
  intro fuel
  induction fuel with
  | zero => intro cl be rb h; omega
  | succ fuel ih =>
    intro cl be rb hf
    rw [copy_chunks_trailers]
    have hle := BIO_gets_length_le cl MAXBUF
    simp only [if_true]
    split_ifs with h1 h2 h3 h4
    · exact ⟨_, rfl, rfl, hle⟩
    · exact ⟨_, rfl, rfl, hle⟩
    · exact absurd rfl h3
    · exact ⟨_, rfl, rfl, hle⟩
    · have hlen := BIO_gets_length cl MAXBUF (by omega)
      obtain ⟨r, e1, e2, e3⟩ := ih (BIO_gets cl MAXBUF).2.2 be rb (by omega)
      exact ⟨r, e1, e2, by omega⟩

theorem copy_chunks_loop_discard (MAXBUF : Nat) (CHUNK_HEAD : List Char → Bool) (max_size : Int) :
    ∀ (fuel : Nat) (cl : Source) (s : Sink) (rb : Option Int) (tot : Int),
      cl.inp.length < fuel →
      ∃ r, copy_chunks_loop MAXBUF CHUNK_HEAD max_size true fuel cl (some s) rb tot = some r ∧
        (∃ s', r.be = some s' ∧ s'.out = s.out) ∧ r.cl.inp.length ≤ cl.inp.length := by
  intro fuel
  induction fuel with
  | zero => intro cl s rb tot h; omega
  | succ fuel ih =>
    intro cl s rb tot hf
    rw [copy_chunks_loop]
    have hle := BIO_gets_length_le cl MAXBUF
    have h10 : ¬ ((1 : Int) ≤ 0) := by decide
    by_cases h1 : (BIO_gets cl MAXBUF).1 ≤ 0
    · simp only [h1, if_true]
      exact ⟨_, rfl, ⟨s, rfl, rfl⟩, hle⟩
    · have hlen := BIO_gets_length cl MAXBUF (by omega)
      by_cases h2 : CHUNK_HEAD (strip_eol (BIO_gets cl MAXBUF).2.1) = false
      · simp only [h1, if_false, h2, if_true]
        exact ⟨_, rfl, ⟨s, rfl, rfl⟩, hle⟩
      · by_cases h3 : max_size > 0 ∧
            wrapLong (tot + strtol (strip_eol (BIO_gets cl MAXBUF).2.1) 16) > max_size
        · simp only [h1, if_false, h2, if_true, h10, h3, and_self, Bool.true_eq_false]
          exact ⟨_, rfl, ⟨s, rfl, rfl⟩, hle⟩
        · by_cases h4 : strtol (strip_eol (BIO_gets cl MAXBUF).2.1) 16 > 0
          · obtain ⟨r, e1, ⟨s1, e2, e3⟩, e4⟩ := copy_bin_loop_discard MAXBUF
              ((strtol (strip_eol (BIO_gets cl MAXBUF).2.1) 16).toNat + 1)
              (BIO_gets cl MAXBUF).2.2 s (strtol (strip_eol (BIO_gets cl MAXBUF).2.1) 16) rb
              (by omega)
            have hle2 := BIO_gets_length_le r.cl MAXBUF
            simp only [h1, if_false, h2, if_true, h10, h3, h4, copy_bin, e1, Bool.true_eq_false]
            by_cases h5 : r.ret ≠ 0
            · rw [if_pos h5]
              exact ⟨_, rfl, ⟨s1, e2, e3⟩, by simp only []; omega⟩
            · by_cases h6 : (BIO_gets r.cl MAXBUF).1 ≤ 0
              · rw [if_neg h5, if_pos h6]
                exact ⟨_, rfl, ⟨s1, e2, e3⟩, by simp only []; omega⟩
              · rw [if_neg h5, if_neg h6, e2]
                obtain ⟨r', f1, ⟨s', f2, f3⟩, f4⟩ := ih (BIO_gets r.cl MAXBUF).2.2 s1 r.res_bytes
                  (wrapLong (tot + strtol (strip_eol (BIO_gets cl MAXBUF).2.1) 16)) (by omega)
                exact ⟨r', f1, ⟨s', f2, f3.trans e3⟩, by omega⟩
          · obtain ⟨r, e1, e2, e3⟩ := copy_chunks_trailers_discard MAXBUF
              ((BIO_gets cl MAXBUF).2.2.inp.length + 1) (BIO_gets cl MAXBUF).2.2 (some s) rb
              (by omega)
            simp only [h1, if_false, h2, if_true, h10, h3, h4, e1, Bool.true_eq_false]
            exact ⟨r, rfl, ⟨s, e2, rfl⟩, by omega⟩

theorem get_headers_start_shrinks (MAXBUF : Nat) :
    ∀ (fuel : Nat) (inp : Source) (res : Int) (buf : List Char) (inp1 : Source),
      get_headers_start MAXBUF fuel inp = some (res, buf, inp1) →
      inp1.inp.length ≤ inp.inp.length ∧ (0 < res → inp1.inp.length < inp.inp.length) := by
  intro fuel
  induction fuel with
  | zero => intro inp res buf inp1 h; simp [get_headers_start] at h
  | succ fuel ih =>
    intro inp res buf inp1 h
    rw [get_headers_start] at h
    have hle := BIO_gets_length_le inp MAXBUF
    split_ifs at h with h1 h2
    · have hlen := BIO_gets_length inp MAXBUF (by omega)
      simp only [Option.some.injEq, Prod.mk.injEq] at h
      obtain ⟨rfl, -, rfl⟩ := h
      exact ⟨hle, fun _ => by omega⟩
    · obtain ⟨a, b⟩ := ih _ _ _ _ h
      exact ⟨by omega, fun hp => by have := b hp; omega⟩
    · simp only [Option.some.injEq, Prod.mk.injEq] at h
      obtain ⟨rfl, -, rfl⟩ := h
      exact ⟨hle, fun hp => absurd hp h1⟩

theorem get_headers_lines_shrinks (MAXBUF : Nat) :
    ∀ (left : Nat) (buf : List Char) (acc : List (List Char)) (inp : Source),
      (get_headers_lines MAXBUF left buf acc inp).2.inp.length ≤ inp.inp.length := by
  intro left
  induction left with
  | zero => intro buf acc inp; simp [get_headers_lines]
  | succ left ih =>
    intro buf acc inp
    rw [get_headers_lines]
    have hle := BIO_gets_length_le inp MAXBUF
    split_ifs
    · exact hle
    · exact hle
    · exact le_trans (ih _ _ _) hle

theorem get_headers_shrinks (MAXBUF MAXHEADERS : Nat) (lstn : LISTENER) (inp : Source) (cl : Sink)
    (r : HeadersResult) (hs : List (List Char))
    (h : get_headers MAXBUF MAXHEADERS lstn inp cl = some r) (hh : r.headers = some hs) :
    r.inp.inp.length < inp.inp.length := by
  unfold get_headers at h
  split at h
  · exact absurd h (by simp)
  · next res buf inp1 hstart =>
    obtain ⟨-, hlt⟩ := get_headers_start_shrinks MAXBUF _ _ _ _ _ hstart
    split_ifs at h with c1 c2
    · cases h; simp at hh
    · cases h; simp at hh
    · have hl := get_headers_lines_shrinks MAXBUF MAXHEADERS buf [] inp1
      have := hlt (by omega)
      split at h
      · next hs' inp2 heq =>
        cases h
        rw [heq] at hl
        simp only [] at hl ⊢
        omega
      · cases h; simp at hh

theorem thr_http_response_body_skip (env : Env) (be : BIO) (l : Locals) (hskip : l.skip = true)
    (hbe : l.be = some be) :
    ∃ b l', thr_http_response_body env be l = some (b, l') ∧ l'.cl.snk.out = l.cl.snk.out ∧
      l'.skip = true ∧ ∃ be', l'.be = some be' ∧ be'.src.inp.length ≤ be.src.inp.length := by
  unfold thr_http_response_body
  simp only [hskip]
  by_cases h1 : l.be_11 = true ∧ l.chunked = true
  · obtain ⟨r, e1, ⟨s', e2, e3⟩, e4⟩ := copy_chunks_loop_discard env.MAXBUF env.CHUNK_HEAD 0
      (be.src.inp.length + 1) be.src l.cl.snk (some l.res_bytes) 0 (by omega)
    rw [if_pos h1]
    simp only [copy_chunks, e1, e2, Option.getD_some]
    split_ifs
    · exact ⟨_, _, rfl, e3, rfl, _, rfl, e4⟩
    · exact ⟨_, _, rfl, (Sink.flush_out _).trans e3, rfl, _, rfl, e4⟩
  · rw [if_neg h1]
    by_cases h2 : l.cont ≥ 0
    · obtain ⟨r, e1, ⟨s', e2, e3⟩, e4⟩ := copy_bin_loop_discard env.MAXBUF
        (l.cont.toNat + 1) be.src l.cl.snk l.cont (some l.res_bytes) (by omega)
      rw [if_pos h2]
      simp only [copy_bin, e1, e2, Option.getD_some]
      split_ifs
      · exact ⟨_, _, rfl, e3, rfl, _, rfl, e4⟩
      · exact ⟨_, _, rfl, (Sink.flush_out _).trans e3, rfl, _, rfl, e4⟩
    · rw [if_neg h2]
      simp only [Bool.true_eq_false, if_false]
      exact ⟨_, _, rfl, Sink.flush_out _, rfl, be, hbe, le_refl _⟩

theorem thr_http_response_body_keeps_skip (env : Env) (be : BIO) (l : Locals) (b : Bool)
    (l' : Locals) (h : thr_http_response_body env be l = some (b, l')) : l'.skip = l.skip := by
  unfold thr_http_response_body at h
  simp only [] at h
  repeat' split at h
  all_goals (try (simp only [Option.some.injEq, Prod.mk.injEq, reduceCtorEq] at h))
  all_goals (try (obtain ⟨-, rfl⟩ := h))
  all_goals (try rfl)

/-! ### Skipped responses -/

/-- A pass of the response loop in which `get_headers` returns the head of a
response.  When the status line matches `RESP_SKIP` the pass always comes to
an end and leaves the output of the client channel exactly as it was; when it
goes through, the loop goes on with a further `get_headers` on the back-end
channel, of which at least one octet was used up.  When the status line does
not match `RESP_SKIP`, `send_response_head` puts the head on a client channel
that accepts writes and the loop ends with this pass. -/
theorem response_pass_skipped (env : Env) (lstn : LISTENER) (ssl : Option SSL)
    (backend : BACKEND) (l0 : Locals) (be : BIO) (r : HeadersResult) (hs : List (List Char))
    (hbe : l0.be = some be)
    (hr : get_headers env.MAXBUF env.MAXHEADERS lstn be.src l0.cl.snk = some r)
    (hh : r.headers = some hs) :
    (env.RESP_SKIP (hs.headD []) = true →
      ∃ o l1, response_pass env lstn ssl backend l0 = some (o, l1) ∧
        l1.cl.snk.out = l0.cl.snk.out ∧ (o = none ∨ o = some true) ∧
        (o = some true →
          (∀ fuel, thr_http_response env lstn ssl backend (fuel + 1) l0
            = thr_http_response env lstn ssl backend fuel l1) ∧
          ∃ be1, l1.be = some be1 ∧ be1.src.inp.length < be.src.inp.length)) ∧
    (env.RESP_SKIP (hs.headD []) = false → l0.cl.snk.accepts →
      (send_response_head (response_head env lstn ssl backend
        { l0 with be := some { be with src := r.inp }, cl := { l0.cl with snk := r.cl } }
        hs)).2.cl.snk.out
        = l0.cl.snk.out ++ head_text (response_head env lstn ssl backend
          { l0 with be := some { be with src := r.inp }, cl := { l0.cl with snk := r.cl } }
          hs).headers ∧
      (response_head env lstn ssl backend
        { l0 with be := some { be with src := r.inp }, cl := { l0.cl with snk := r.cl } }
        hs).headers.head? = some (hs.headD []) ∧
      ∀ o l1, response_pass env lstn ssl backend l0 = some (o, l1) →
        o ≠ some true ∧
        ∀ fuel, thr_http_response env lstn ssl backend (fuel + 1) l0
          = some (match o with
            | none => .fin .exit l1
            | some _ => .go l1)) := by
  have hcl := get_headers_some_cl _ _ _ _ _ r hs hr hh
  have hshort := get_headers_shrinks _ _ _ _ _ r hs hr hh
  obtain ⟨k1, k2, k3, k4, k5, k6⟩ := send_response_head_keeps
    (response_head env lstn ssl backend
      { l0 with be := some { be with src := r.inp }, cl := { l0.cl with snk := r.cl } } hs)
  obtain ⟨g1, g2, g3, g4⟩ := response_head_keeps env lstn ssl backend
    { l0 with be := some { be with src := r.inp }, cl := { l0.cl with snk := r.cl } } hs
  have hpass : response_pass env lstn ssl backend l0
      = (if (send_response_head (response_head env lstn ssl backend
            { l0 with be := some { be with src := r.inp }, cl := { l0.cl with snk := r.cl } }
            hs)).1 = false then
          some (none, (send_response_head (response_head env lstn ssl backend
            { l0 with be := some { be with src := r.inp }, cl := { l0.cl with snk := r.cl } }
            hs)).2)
        else if (send_response_head (response_head env lstn ssl backend
            { l0 with be := some { be with src := r.inp }, cl := { l0.cl with snk := r.cl } }
            hs)).2.no_cont = true then
          some (some (send_response_head (response_head env lstn ssl backend
              { l0 with be := some { be with src := r.inp }, cl := { l0.cl with snk := r.cl } }
              hs)).2.skip,
            (send_response_head (response_head env lstn ssl backend
              { l0 with be := some { be with src := r.inp }, cl := { l0.cl with snk := r.cl } }
              hs)).2)
        else
          match thr_http_response_body env { be with src := r.inp }
              (send_response_head (response_head env lstn ssl backend
                { l0 with be := some { be with src := r.inp }, cl := { l0.cl with snk := r.cl } }
                hs)).2 with
          | none => none
          | some b => if b.1 = false then some (none, b.2) else some (some b.2.skip, b.2)) := by
    unfold response_pass
    rw [hbe]
    simp only [hr, hh]
  generalize hsdef : send_response_head (response_head env lstn ssl backend
      { l0 with be := some { be with src := r.inp }, cl := { l0.cl with snk := r.cl } } hs) = s
    at hpass k1 k2 k3 k4 k5 k6
  have hstep : ∀ l1, response_pass env lstn ssl backend l0 = some (some true, l1) →
      ∀ fuel, thr_http_response env lstn ssl backend (fuel + 1) l0
        = thr_http_response env lstn ssl backend fuel l1 := by
    intro l1 hp fuel
    rw [thr_http_response, hp]
  constructor
  · intro hskip
    have hsk : s.2.skip = true := by rw [k3, g3, hskip]
    have hout : s.2.cl.snk.out = l0.cl.snk.out := by
      rw [← hsdef, send_response_head_skip _ (by rw [g3, hskip]), g2]
      simp only []
      rw [hcl]
    have hsbe : s.2.be = some { be with src := r.inp } := by rw [k2, g1]
    by_cases c1 : s.1 = false
    · rw [if_pos c1] at hpass
      exact ⟨none, s.2, hpass, hout, Or.inl rfl, fun h => by cases h⟩
    · rw [if_neg c1] at hpass
      by_cases c2 : s.2.no_cont = true
      · rw [if_pos c2, hsk] at hpass
        exact ⟨some true, s.2, hpass, hout, Or.inr rfl,
          fun _ => ⟨hstep _ hpass, _, hsbe, hshort⟩⟩
      · rw [if_neg c2] at hpass
        obtain ⟨b, l', e1, e2, e3, be', e4, e5⟩ :=
          thr_http_response_body_skip env { be with src := r.inp } s.2 hsk hsbe
        rw [e1] at hpass
        simp only [] at hpass
        by_cases c3 : b = false
        · rw [if_pos c3] at hpass
          exact ⟨none, l', hpass, e2.trans hout, Or.inl rfl, fun h => by cases h⟩
        · rw [if_neg c3, e3] at hpass
          refine ⟨some true, l', hpass, e2.trans hout, Or.inr rfl,
            fun _ => ⟨hstep _ hpass, be', e4, ?_⟩⟩
          simp only [] at e5
          omega
  · intro hskip hacc
    obtain ⟨a1, a2, a3⟩ := send_response_head_accepts
      (response_head env lstn ssl backend
        { l0 with be := some { be with src := r.inp }, cl := { l0.cl with snk := r.cl } } hs)
      (by rw [g2]; simp only []; rw [hcl]; exact hacc)
    rw [hsdef] at a1 a2
    have hsk : s.2.skip = false := by rw [k3, g3, hskip]
    refine ⟨?_, ?_, ?_⟩
    · rw [a2, g2, g3, hskip]
      simp only [Bool.false_eq_true, if_false]
      rw [hcl]
    · unfold response_head
      simp
    · intro o l1 hp
      have ho : o ≠ some true := by
        rw [hpass] at hp
        have c1 : ¬ (s.1 = false) := by rw [a1]; simp
        rw [if_neg c1] at hp
        split_ifs at hp with c2
        · simp only [Option.some.injEq, Prod.mk.injEq] at hp
          rw [← hp.1, hsk]; simp
        · split at hp
          · simp at hp
          · next b hb =>
            have hbs := thr_http_response_body_keeps_skip env _ _ b.1 b.2 hb
            split_ifs at hp
            · simp only [Option.some.injEq, Prod.mk.injEq] at hp
              rw [← hp.1]; simp
            · simp only [Option.some.injEq, Prod.mk.injEq] at hp
              rw [← hp.1, hbs, hsk]; simp
      refine ⟨ho, fun fuel => ?_⟩
      rw [thr_http_response, hp]
      cases o with
      | none => rfl
      | some v =>
        cases v with
        | true => exact absurd rfl ho
        | false => rfl

/-! ### The request head and the `Destination` header -/

/-- C21: the listener has `rewr_dest` set and the request `dest_request` carries a
`Destination` header before its `Content-Length: 3`.  With a value that
`LOCATION` matches, the `Destination` line is rewritten to the address of the
back-end and every header is sent.  With the value `nowhere`, which
`LOCATION` does not match, the loop over the headers ends at that line: the
`Destination` line and the `Content-Length` line behind it, neither of them
marked as dropped, are left out, while `X-Forwarded-For`, the empty line and
the three octets of the body are still sent.  Without `rewr_dest` the same
request is sent whole. -/
theorem destination_unparsed_ends_head :
    (thr_http_round dest_env rewr_dest_lstn none (sample_renv "HTTP/1.1 204 No Content\r\n\r\n")
        (start_locals (dest_request "http://old.example/x/y"))).map
          (fun r => (r.1, r.2.be.map (fun b => b.snk.out)))
      = some (.again,
          some ("POST /a HTTP/1.1\r\nDestination: http://10.0.0.1:80/x/y\r\nContent-Length: 3\r\n"
            ++ "X-Forwarded-For: 192.0.2.7\r\n\r\nabc").toList) ∧
    (thr_http_round dest_env rewr_dest_lstn none (sample_renv "HTTP/1.1 204 No Content\r\n\r\n")
        (start_locals (dest_request "nowhere"))).map
          (fun r => (r.1, r.2.be.map (fun b => b.snk.out)))
      = some (.again,
          some "POST /a HTTP/1.1\r\nX-Forwarded-For: 192.0.2.7\r\n\r\nabc".toList) ∧
    (thr_http_round dest_env sample_lstn none (sample_renv "HTTP/1.1 204 No Content\r\n\r\n")
        (start_locals (dest_request "nowhere"))).map
          (fun r => (r.1, r.2.be.map (fun b => b.snk.out)))
      = some (.again,
          some ("POST /a HTTP/1.1\r\nDestination: nowhere\r\nContent-Length: 3\r\n"
            ++ "X-Forwarded-For: 192.0.2.7\r\n\r\nabc").toList) := by
  refine ⟨?_, ?_, ?_⟩ <;> decide

/-! ### The redirect reply -/

theorem cstr_no_nul (s : List Char) : ∀ c ∈ cstr s, c ≠ '\x00' := by
  intro c hc
  have := List.mem_takeWhile_imp hc
  simpa using this

theorem cstr_cstr (s : List Char) : cstr (cstr s) = cstr s :=
  cstr_of_no_nul _ (cstr_no_nul s)

theorem cstr_append_cstr (a b : List Char) : cstr (cstr a ++ cstr b) = cstr a ++ cstr b := by
  apply cstr_of_no_nul
  intro c hc
  rcases List.mem_append.mp hc with h | h
  · exact cstr_no_nul a c h
  · exact cstr_no_nul b c h

theorem redirect_reply_fits (MAXBUF : Nat) (c : Sink) (t : List Char) (hacc : c.accepts)
    (ht : cstr t = t)
    (hfit : (redirect_head t (redirect_cont MAXBUF t).length).length < MAXBUF) :
    (redirect_reply MAXBUF c t).out
      = c.out ++ redirect_head t (redirect_cont MAXBUF t).length ++ redirect_cont MAXBUF t := by
  have hrep : redirect_rep MAXBUF t = redirect_head t (redirect_cont MAXBUF t).length := by
    unfold redirect_rep snprintf
    rw [ht]
    exact List.take_of_length_le (by unfold redirect_head at hfit; omega)
  obtain ⟨w1, w2, w3⟩ := Sink.write_accepts c (redirect_rep MAXBUF t) hacc
  obtain ⟨v1, v2, v3⟩ := Sink.write_accepts _ (redirect_cont MAXBUF t) w3
  unfold redirect_reply
  rw [Sink.flush_out, v2, w2, hrep]

/-- C22, counterexample: with buffers of 128 octets, the redirector URL
`http://example.org` and a request URL of 42 octets, the head of the reply is
cut after `Content-L`: the reply has no `Content-Length` header and no empty
line, and the body, itself cut to 127 octets, follows right behind. -/
theorem redirect_reply_cut :
    (match thr_http_redirect small_env sample_redirector_req
        (redirect_locals "/some/long/path/of/the/request/that/goes/on") with
      | .fin _ l => l.cl.snk.out
      | .go _ => [])
      = ("HTTP/1.0 302 Found\r\nLocation: http://example.org/some/long/path/of/the/request/that/goes/on"
          ++ "\r\nContent-Type: text/html\r\nContent-L"
          ++ "<html><head><title>Redirect</title></head><body><h1>Redirect</h1><p>You should go to "
          ++ "<a href=\"http://example.org/some/long/path").toList := by
  decide

theorem thr_http_redirect_fits (env : Env) (backend : BACKEND) (l : Locals) (t : List Char)
    (hb : backend.be_type = BE_TYPE.REDIRECTOR) (hacc : l.cl.snk.accepts) (ht : cstr t = t)
    (hbuf : (if backend.redir_req then snprintf (env.MAXBUF - 1) (cstr backend.url ++ cstr l.url)
      else (cstr backend.url).take (env.MAXBUF - 1)) = t)
    (hfit : (redirect_head t (redirect_cont env.MAXBUF t).length).length < env.MAXBUF) :
    ∃ l', thr_http_redirect env backend l = .fin (keep_alive l') l' ∧
      l'.cl.snk.out = l.cl.snk.out ++ redirect_head t (redirect_cont env.MAXBUF t).length
        ++ redirect_cont env.MAXBUF t ∧
      redirect_cont env.MAXBUF t
        = ("<html><head><title>Redirect</title></head><body><h1>Redirect</h1><p>You should go to <a href=\"".toList
            ++ t ++ "\">".toList ++ t ++ "</a></p></body></html>".toList).take (env.MAXBUF - 1) := by
  refine ⟨{ l with cl := { l.cl with snk := redirect_reply env.MAXBUF l.cl.snk t } }, ?_, ?_, ?_⟩
  · unfold thr_http_redirect
    rw [if_pos hb]
    simp only [hbuf]
  · exact redirect_reply_fits env.MAXBUF l.cl.snk t hacc ht hfit
  · unfold redirect_cont snprintf
    rw [ht]

theorem redirect_head_length (t : List Char) (n : Nat) : t.length + 30 ≤ (redirect_head t n).length := by
  have h30 : "HTTP/1.0 302 Found\r\nLocation: ".toList.length = 30 := by decide
  unfold redirect_head
  simp only [List.length_append, h30]
  omega


/-- C22, as amended: for a redirector, a client channel that accepts writes and
a target (the URL of the redirector, followed by the request URL when
`redir_req` is set) with which the head of the reply fits its buffer of
`MAXBUF` octets, the round ends with the reply `HTTP/1.0 302 Found`, the
`Location` header with the whole target, `Content-Type: text/html`, a
`Content-Length` that is the length of the body that follows, the empty line
and the body.  The body is the HTML page cut to `MAXBUF - 1` octets, the whole
page when that fits. -/
theorem redirect_reply_complete (env : Env) (backend : BACKEND) (l : Locals)
    (hb : backend.be_type = BE_TYPE.REDIRECTOR) (hacc : l.cl.snk.accepts)
    (hfit : (redirect_head
        (if backend.redir_req then cstr backend.url ++ cstr l.url else cstr backend.url)
        (redirect_cont env.MAXBUF
          (if backend.redir_req then cstr backend.url ++ cstr l.url
            else cstr backend.url)).length).length < env.MAXBUF) :
    ∃ l', thr_http_redirect env backend l = .fin (keep_alive l') l' ∧
      l'.cl.snk.out = l.cl.snk.out
        ++ redirect_head
            (if backend.redir_req then cstr backend.url ++ cstr l.url else cstr backend.url)
            (redirect_cont env.MAXBUF
              (if backend.redir_req then cstr backend.url ++ cstr l.url
                else cstr backend.url)).length
        ++ redirect_cont env.MAXBUF
            (if backend.redir_req then cstr backend.url ++ cstr l.url else cstr backend.url) ∧
      redirect_cont env.MAXBUF
          (if backend.redir_req then cstr backend.url ++ cstr l.url else cstr backend.url)
        = ("<html><head><title>Redirect</title></head><body><h1>Redirect</h1><p>You should go to <a href=\"".toList
            ++ (if backend.redir_req then cstr backend.url ++ cstr l.url else cstr backend.url)
            ++ "\">".toList
            ++ (if backend.redir_req then cstr backend.url ++ cstr l.url else cstr backend.url)
            ++ "</a></p></body></html>".toList).take (env.MAXBUF - 1) := by
  cases hrr : backend.redir_req with
  | true =>
    simp only [hrr, if_true] at hfit ⊢
    have hlen := redirect_head_length (cstr backend.url ++ cstr l.url)
      (redirect_cont env.MAXBUF (cstr backend.url ++ cstr l.url)).length
    exact thr_http_redirect_fits env backend l _ hb hacc (cstr_append_cstr _ _)
      (by
        simp only [hrr, if_true]
        unfold snprintf
        exact List.take_of_length_le (by omega)) hfit
  | false =>
    simp only [hrr, Bool.false_eq_true, if_false] at hfit ⊢
    have hlen := redirect_head_length (cstr backend.url)
      (redirect_cont env.MAXBUF (cstr backend.url)).length
    exact thr_http_redirect_fits env backend l _ hb hacc (cstr_cstr _)
      (by
        simp only [hrr, Bool.false_eq_true, if_false]
        exact List.take_of_length_le (by omega)) hfit

theorem redirect_reply_complete_witness :
    ∃ l', thr_http_redirect sample_env sample_redirector_req (redirect_locals "/a")
        = .fin (keep_alive l') l' ∧
      l'.cl.snk.out = ("HTTP/1.0 302 Found\r\nLocation: http://example.org/a\r\n"
        ++ "Content-Type: text/html\r\nContent-Length: 158\r\n\r\n"
        ++ "<html><head><title>Redirect</title></head><body><h1>Redirect</h1><p>You should go to "
        ++ "<a href=\"http://example.org/a\">http://example.org/a</a></p></body></html>").toList :=
  (redirect_reply_complete sample_env sample_redirector_req (redirect_locals "/a")
    (by decide) (by decide) (by decide)).imp
    (fun _ h => ⟨h.1, h.2.1.trans (by decide)⟩)

/-! ### The channel a request is sent on -/

theorem connect_loop_ok :
    ∀ (picks : List (BACKEND × Connect)) (b0 : BACKEND) (c : Connect) (backend : BACKEND)
      (be : Option BIO),
      connect_loop b0 c picks = some (backend, be) → backend.be_type = BE_TYPE.BACK_END →
      ∃ b pre rest, be = some b ∧ (b0, c) :: picks = pre ++ (backend, Connect.ok b) :: rest := by
  intro picks
  induction picks with
  | nil =>
    intro b0 c backend be h ht
    unfold connect_loop at h
    split_ifs at h with h1
    · simp only [Option.some.injEq, Prod.mk.injEq] at h
      obtain ⟨rfl, -⟩ := h
      exact absurd ht h1
    · cases c <;> simp at h
      obtain ⟨rfl, rfl⟩ := h
      exact ⟨_, [], [], rfl, rfl⟩
  | cons p ps ih =>
    intro b0 c backend be h ht
    unfold connect_loop at h
    split_ifs at h with h1
    · simp only [Option.some.injEq, Prod.mk.injEq] at h
      obtain ⟨rfl, -⟩ := h
      exact absurd ht h1
    · cases c with
      | ok b =>
        simp only [Option.some.injEq, Prod.mk.injEq] at h
        obtain ⟨rfl, rfl⟩ := h
        exact ⟨_, [], _, rfl, rfl⟩
      | conn_fail =>
        simp only [] at h
        obtain ⟨b, pre, rest, e1, e2⟩ := ih p.1 p.2 backend be h ht
        exact ⟨b, (b0, Connect.conn_fail) :: pre, rest, e1, by
          rw [List.cons_append, ← e2]⟩
      | sock_fail => simp at h
      | bio_fail => simp at h
      | buf_fail => simp at h

theorem is_readable_false (src : Source) :
    (is_readable src).1 = false ↔
      (BIO_pending src).1 = 0 ∧ (poll_in (BIO_pending src).2).1 ≤ 0 := by
  unfold is_readable
  split_ifs with h
  · simp only [Bool.true_eq_false, false_iff, not_and]
    intro h0; omega
  · simp only [decide_eq_false_iff_not, not_lt]
    constructor
    · intro hp; exact ⟨by omega, hp⟩
    · intro hp; exact hp.2

theorem thr_http_backend_new (lstn : LISTENER) (renv : ReqEnv) (l1 : Locals) (backend : BACKEND)
    (l3 : Locals) (hnone : l1.be = none)
    (h : thr_http_backend lstn renv l1 = (some backend, l3))
    (ht : backend.be_type = BE_TYPE.BACK_END) :
    l3.cur_backend = some backend ∧
      ∃ b pre rest, l3.be = some b ∧ renv.picks = pre ++ (backend, Connect.ok b) :: rest := by
  unfold thr_http_backend at h
  simp only [hnone] at h
  split_ifs at h with hsvc
  · simp at h
  · split at h
    · simp at h
    · next backend0 c picks hp =>
      simp only [Option.isSome_none, Bool.false_eq_true, false_and, if_false, hnone] at h
      split at h
      · simp at h
      · next backend' be hc =>
        simp only [Prod.mk.injEq, Option.some.injEq] at h
        obtain ⟨rfl, rfl⟩ := h
        obtain ⟨b, pre, rest, e1, e2⟩ := connect_loop_ok picks backend0 c backend' be hc ht
        subst e1
        have hne : ¬ (backend'.be_type ≠ BE_TYPE.BACK_END) := by simp [ht]
        refine ⟨?_, b, pre, rest, ?_, by rw [hp, e2]⟩
        · split <;> rfl
        · simp [hne]

theorem thr_http_backend_discards (lstn : LISTENER) (renv : ReqEnv) (l : Locals) (b0 : BIO)
    (hbe : l.be = some b0)
    (hd : (is_readable b0.src).1 = true ∨ renv.picks.head?.map Prod.fst ≠ l.cur_backend) :
    (∃ backend, (thr_http_backend lstn renv l).1 = some backend) →
    thr_http_backend lstn renv l = thr_http_backend lstn renv { l with be := none } := by
  intro hex
  unfold thr_http_backend at hex ⊢
  simp only [hbe] at hex ⊢
  by_cases hr : (is_readable b0.src).1 = true
  · simp only [hr, if_true]
  · simp only [hr, Bool.false_eq_true, if_false] at hex ⊢
    rcases hd with hd | hd
    · exact absurd hd hr
    · split_ifs at hex ⊢ with hsvc
      · simp [Locals.reply] at hex
      · cases hp : renv.picks with
        | nil => simp [hp, Locals.reply] at hex
        | cons p ps =>
          obtain ⟨backend0, c⟩ := p
          rw [hp] at hd
          simp only [List.head?_cons, Option.map_some', ne_eq] at hd
          simp only [Option.isSome_some, true_and, ne_eq, hd, not_false_eq_true, if_true,
            Option.isSome_none, Bool.false_eq_true, false_and, if_false]

/-- C23: when the choice of the back-end ends with a back-end of type `BACK_END`,
which is when the request head is written, `cur_backend` is that back-end and
the channel in `be` is one of two.  Either it is the channel kept from the
request before, after `is_readable(be, 0)` found it not readable (nothing
pending in the `BIO` and a `poll` without wait that returned 0 or less), with
the back-end `get_backend` selected being the `cur_backend` of that channel.  Or
the old channel, if there was one, was readable or belonged to another
back-end and was dropped, and `be` is the channel that connecting to the
back-end gave during this request.  The request head is then written to that
channel and to no other. -/
theorem request_goes_to_selected_backend (env : Env) (lstn : LISTENER) (ssl : Option SSL)
    (renv : ReqEnv) (l : Locals) (backend : BACKEND) (l3 : Locals)
    (h : thr_http_backend lstn renv l = (some backend, l3))
    (ht : backend.be_type = BE_TYPE.BACK_END) :
    l3.cur_backend = some backend ∧
    ∃ b, l3.be = some b ∧
      ((∃ b0, l.be = some b0 ∧ (is_readable b0.src).1 = false ∧
          ((BIO_pending b0.src).1 = 0 ∧ (poll_in (BIO_pending b0.src).2).1 ≤ 0) ∧
          l.cur_backend = some backend ∧ renv.picks.head?.map Prod.fst = some backend ∧
          b = { b0 with src := (is_readable b0.src).2 }) ∨
        ((l.be = none ∨ ∃ b0, l.be = some b0 ∧
            ((is_readable b0.src).1 = true ∨ renv.picks.head?.map Prod.fst ≠ l.cur_backend)) ∧
          ∃ pre rest, renv.picks = pre ++ (backend, Connect.ok b) :: rest)) ∧
      ∀ l4, thr_http_send_head env lstn ssl backend l3 = .go l4 →
        ∃ snk, l4.be = some { b with snk := snk } := by
  have hsend : ∀ b, l3.be = some b → ∀ l4, thr_http_send_head env lstn ssl backend l3 = .go l4 →
      ∃ snk, l4.be = some { b with snk := snk } := by
    intro b hb l4 h4
    unfold thr_http_send_head at h4
    simp only [] at h4
    repeat' split at h4
    all_goals (try (cases h4))
    all_goals (try (exact absurd ht ‹_›))
    all_goals (simp only [Locals.setBeSink, hb, Option.map_some']; exact ⟨_, rfl⟩)
  cases hbe : l.be with
  | none =>
    obtain ⟨e1, b, pre, rest, e2, e3⟩ := thr_http_backend_new lstn renv l backend l3 hbe h ht
    exact ⟨e1, b, e2, Or.inr ⟨Or.inl rfl, pre, rest, e3⟩, hsend b e2⟩
  | some b0 =>
    by_cases hd : (is_readable b0.src).1 = true ∨ renv.picks.head?.map Prod.fst ≠ l.cur_backend
    · have heq := thr_http_backend_discards lstn renv l b0 hbe hd ⟨backend, by rw [h]⟩
      rw [heq] at h
      obtain ⟨e1, b, pre, rest, e2, e3⟩ := thr_http_backend_new lstn renv { l with be := none }
        backend l3 rfl h ht
      exact ⟨e1, b, e2, Or.inr ⟨Or.inr ⟨b0, rfl, hd⟩, pre, rest, e3⟩, hsend b e2⟩
    · simp only [not_or, Bool.not_eq_true, ne_eq, not_not] at hd
      obtain ⟨hr, hsame⟩ := hd
      unfold thr_http_backend at h
      simp only [hbe, hr, Bool.false_eq_true, if_false] at h
      split_ifs at h with hsvc
      · simp at h
      · cases hp : renv.picks with
        | nil => simp [hp] at h
        | cons p ps =>
          obtain ⟨backend0, c⟩ := p
          rw [hp] at hsame
          simp only [List.head?_cons, Option.map_some'] at hsame
          simp only [hp, Option.isSome_some, true_and, ne_eq, hsame, not_true_eq_false,
            if_false, Prod.mk.injEq, Option.some.injEq] at h
          obtain ⟨hcb, rfl⟩ := h
          have hb0 : backend0 = backend := by
            rw [hcb] at hsame
            exact Option.some.inj hsame
          subst hb0
          have hne : ¬ (¬ backend0.be_type = BE_TYPE.BACK_END) := by simp [ht]
          simp only [hne, if_false] at hsend ⊢
          exact ⟨hcb, { b0 with src := (is_readable b0.src).2 }, rfl,
            Or.inl ⟨b0, rfl, hr, (is_readable_false b0.src).mp hr, hcb, by simp, rfl⟩,
            hsend _ rfl⟩

theorem request_goes_to_selected_backend_witness :
    ((get_sent_locals "abc").cur_backend = some sample_backend ∧
      ∃ b, (get_sent_locals "abc").be = some b ∧
        ((∃ b0, (get_sent_locals "abc").be = some b0 ∧ (is_readable b0.src).1 = false ∧
            ((BIO_pending b0.src).1 = 0 ∧ (poll_in (BIO_pending b0.src).2).1 ≤ 0) ∧
            (get_sent_locals "abc").cur_backend = some sample_backend ∧
            (sample_renv "zzz").picks.head?.map Prod.fst = some sample_backend ∧
            b = { b0 with src := (is_readable b0.src).2 }) ∨
          (((get_sent_locals "abc").be = none ∨ ∃ b0, (get_sent_locals "abc").be = some b0 ∧
              ((is_readable b0.src).1 = true ∨
                (sample_renv "zzz").picks.head?.map Prod.fst
                  ≠ (get_sent_locals "abc").cur_backend)) ∧
            ∃ pre rest, (sample_renv "zzz").picks
              = pre ++ (sample_backend, Connect.ok b) :: rest)) ∧
        ∀ l4, thr_http_send_head sample_env sample_lstn none sample_backend
            (get_sent_locals "abc") = .go l4 →
          ∃ snk, l4.be = some { b with snk := snk }) ∧
    ((fresh_locals "zzz").cur_backend = some sample_backend ∧
      ∃ b, (fresh_locals "zzz").be = some b ∧
        ((∃ b0, (stale_locals "abc").be = some b0 ∧ (is_readable b0.src).1 = false ∧
            ((BIO_pending b0.src).1 = 0 ∧ (poll_in (BIO_pending b0.src).2).1 ≤ 0) ∧
            (stale_locals "abc").cur_backend = some sample_backend ∧
            (sample_renv "zzz").picks.head?.map Prod.fst = some sample_backend ∧
            b = { b0 with src := (is_readable b0.src).2 }) ∨
          (((stale_locals "abc").be = none ∨ ∃ b0, (stale_locals "abc").be = some b0 ∧
              ((is_readable b0.src).1 = true ∨
                (sample_renv "zzz").picks.head?.map Prod.fst
                  ≠ (stale_locals "abc").cur_backend)) ∧
            ∃ pre rest, (sample_renv "zzz").picks
              = pre ++ (sample_backend, Connect.ok b) :: rest)) ∧
        ∀ l4, thr_http_send_head sample_env sample_lstn none sample_backend
            (fresh_locals "zzz") = .go l4 →
          ∃ snk, l4.be = some { b with snk := snk }) :=
  ⟨request_goes_to_selected_backend sample_env sample_lstn none (sample_renv "zzz")
      (get_sent_locals "abc") sample_backend (get_sent_locals "abc") (by decide) (by decide),
   request_goes_to_selected_backend sample_env sample_lstn none (sample_renv "zzz")
      (stale_locals "abc") sample_backend (fresh_locals "zzz") (by decide) (by decide)⟩

/-! ### `no_cont` through the response loop -/

theorem get_headers_total (MAXBUF MAXHEADERS : Nat) (lstn : LISTENER) (inp : Source) (cl : Sink) :
    ∃ r, get_headers MAXBUF MAXHEADERS lstn inp cl = some r := by
  obtain ⟨res, buf, inp1, hstart, -⟩ :=
    get_headers_start_total MAXBUF (inp.inp.length + 1) inp (by omega)
  unfold get_headers
  rw [hstart]
  simp only []
  split_ifs
  · exact ⟨_, rfl⟩
  · exact ⟨_, rfl⟩
  · split <;> exact ⟨_, rfl⟩

theorem response_pass_head_only (env : Env) (lstn : LISTENER) (ssl : Option SSL)
    (backend : BACKEND) (l0 : Locals) (be : BIO) (r : HeadersResult) (hs : List (List Char))
    (hbe : l0.be = some be)
    (hr : get_headers env.MAXBUF env.MAXHEADERS lstn be.src l0.cl.snk = some r)
    (hh : r.headers = some hs)
    (hno : l0.no_cont = true ∨ env.RESP_IGN (hs.headD []) = true)
    (hte : ∀ h ∈ hs.tail, is_chunked_encoding env h = false) :
    ∃ o l', response_pass env lstn ssl backend l0 = some (o, l') ∧
      l'.no_cont = true ∧ l'.be = some { be with src := r.inp } ∧
      (o = none ∨ o = some l'.skip) ∧
      (l0.cl.snk.accepts → o = some l'.skip ∧
        l'.cl.snk.out = l0.cl.snk.out ++ (if l'.skip then [] else head_text l'.headers) ∧
        l'.cl.snk.accepts) := by
  have hcl := get_headers_some_cl _ _ _ _ _ r hs hr hh
  obtain ⟨k1, k2, k3, k4, k5, k6⟩ := send_response_head_keeps
    (response_head env lstn ssl backend
      { l0 with be := some { be with src := r.inp }, cl := { l0.cl with snk := r.cl } } hs)
  obtain ⟨g1, g2, g3, g4⟩ := response_head_keeps env lstn ssl backend
    { l0 with be := some { be with src := r.inp }, cl := { l0.cl with snk := r.cl } } hs
  have hnc := response_head_no_cont env lstn ssl backend
    { l0 with be := some { be with src := r.inp }, cl := { l0.cl with snk := r.cl } } hs hno hte
  have hpass : response_pass env lstn ssl backend l0
      = some (if (send_response_head (response_head env lstn ssl backend
            { l0 with be := some { be with src := r.inp }, cl := { l0.cl with snk := r.cl } }
            hs)).1 = false then none
          else some (send_response_head (response_head env lstn ssl backend
            { l0 with be := some { be with src := r.inp }, cl := { l0.cl with snk := r.cl } }
            hs)).2.skip,
        (send_response_head (response_head env lstn ssl backend
          { l0 with be := some { be with src := r.inp }, cl := { l0.cl with snk := r.cl } }
          hs)).2) := by
    unfold response_pass
    rw [hbe]
    simp only [hr, hh]
    split_ifs with c1 c2
    · rfl
    · rfl
    · rw [k1, hnc] at c2
      exact absurd rfl c2
  refine ⟨_, _, hpass, by rw [k1, hnc], by rw [k2, g1], ?_, ?_⟩
  · split_ifs
    · exact Or.inl rfl
    · exact Or.inr rfl
  · intro hacc
    obtain ⟨a1, a2, a3⟩ := send_response_head_accepts
      (response_head env lstn ssl backend
        { l0 with be := some { be with src := r.inp }, cl := { l0.cl with snk := r.cl } } hs)
      (by rw [g2]; simp only []; rw [hcl]; exact hacc)
    refine ⟨by simp [a1], ?_, a3⟩
    rw [a2, g2, k3, k4]
    simp only []
    rw [hcl]

/-- C24: take the response loop at any of its passes, with more fuel than the
back-end channel has octets, from locals in which `no_cont` is set (as a
`HEAD` request sets it) or such that the head read first matches `RESP_IGN`
(whether that response is skipped or not).  If none of the heads the loop
reads from there on has a `Transfer-Encoding: chunked` header, whatever
`Content-Length` they declare, then the loop ends and `no_cont` is set when it
does, also when it ends in `pthread_exit`; and when it ends with a response
that is not skipped, a client channel that accepts writes has received the
head of that response and nothing else: no octet of a body and nothing of the
skipped responses. -/
theorem no_cont_sticks (env : Env) (lstn : LISTENER) (ssl : Option SSL) (backend : BACKEND)
    (fuel : Nat) (l : Locals)
    (hfuel : (match l.be with
      | some b => b.src.inp.length
      | none => 0) < fuel)
    (hset : l.no_cont = true ∨
      ∃ hs, pass_head env lstn l = some hs ∧ env.RESP_IGN (hs.headD []) = true)
    (hte : ∀ hs ∈ loop_heads env lstn ssl backend fuel l,
      ∀ h ∈ hs.tail, is_chunked_encoding env h = false) :
    ∃ s, thr_http_response env lstn ssl backend fuel l = some s ∧
      (∀ n l', s = .fin n l' → l'.no_cont = true) ∧
      (∀ l', s = .go l' → l'.no_cont = true ∧
        (l.cl.snk.accepts → l'.cl.snk.out = l.cl.snk.out ++ head_text l'.headers)) := by
  induction fuel generalizing l with
  | zero => exact absurd hfuel (Nat.not_lt_zero _)
  | succ fuel ih =>
    rw [thr_http_response]
    cases hbe : l.be with
    | none =>
      have hph : pass_head env lstn l = none := by unfold pass_head; rw [hbe]
      have hnc : l.no_cont = true := by
        rcases hset with h | ⟨hs, h, -⟩
        · exact h
        · rw [hph] at h; cases h
      have hp : response_pass env lstn ssl backend l = some (none, l.reply h500 lstn.err500) := by
        unfold response_pass; rw [hbe]
      rw [hp]
      exact ⟨_, rfl, fun n l' e => (by cases e; exact hnc), fun l' e => (by cases e)⟩
    | some be =>
      obtain ⟨r, hr⟩ := get_headers_total env.MAXBUF env.MAXHEADERS lstn be.src l.cl.snk
      cases hh : r.headers with
      | none =>
        have hph : pass_head env lstn l = none := by
          unfold pass_head; rw [hbe]; simp only [hr, hh]
        have hnc : l.no_cont = true := by
          rcases hset with h | ⟨hs, h, -⟩
          · exact h
          · rw [hph] at h; cases h
        have hp : ∃ lx, response_pass env lstn ssl backend l = some (none, lx) ∧
            lx.no_cont = l.no_cont := by
          unfold response_pass; rw [hbe]; simp only [hr, hh]
          exact ⟨_, rfl, rfl⟩
        obtain ⟨lx, hp, hx⟩ := hp
        rw [hp]
        exact ⟨_, rfl, fun n l' e => (by cases e; rw [hx]; exact hnc), fun l' e => (by cases e)⟩
      | some hs =>
        have hph : pass_head env lstn l = some hs := by
          unfold pass_head; rw [hbe]; simp only [hr, hh]
        have hno : l.no_cont = true ∨ env.RESP_IGN (hs.headD []) = true := by
          rcases hset with h | ⟨hs', h, h'⟩
          · exact Or.inl h
          · rw [hph] at h; cases h; exact Or.inr h'
        have hmem : hs ∈ loop_heads env lstn ssl backend (fuel + 1) l := by
          rw [loop_heads, hph]; simp
        obtain ⟨o, l1, hp, n1, b1, ho, hacc1⟩ := response_pass_head_only env lstn ssl backend l be r hs
          hbe hr hh hno (hte hs hmem)
        have hshort := get_headers_shrinks _ _ _ _ _ r hs hr hh
        rw [hp]
        rcases ho with rfl | rfl
        · exact ⟨_, rfl, fun n l' e => (by cases e; exact n1), fun l' e => (by cases e)⟩
        · cases hsk : l1.skip with
          | false =>
            refine ⟨_, rfl, fun n l' e => (by cases e), fun l' e => ?_⟩
            cases e
            refine ⟨n1, fun hacc => ?_⟩
            obtain ⟨-, a2, -⟩ := hacc1 hacc
            rw [a2, hsk]
            simp
          | true =>
            rw [hsk] at hp
            have hte1 : ∀ hs' ∈ loop_heads env lstn ssl backend fuel l1,
                ∀ h ∈ hs'.tail, is_chunked_encoding env h = false := by
              intro hs' hm
              apply hte hs'
              rw [loop_heads, hp]
              simp [hm]
            obtain ⟨s, e1, e2, e3⟩ := ih l1
              (by rw [b1]; simp only []; rw [hbe] at hfuel; simp only [] at hfuel; omega)
              (Or.inl n1) hte1
            refine ⟨s, e1, e2, fun l' e => ?_⟩
            obtain ⟨f1, f2⟩ := e3 l' e
            refine ⟨f1, fun hacc => ?_⟩
            obtain ⟨-, a2, a3⟩ := hacc1 hacc
            rw [f2 a3, a2, hsk]
            simp

theorem no_cont_sticks_witness :
    (get_sent_locals interim_then_ok).no_cont = false ∧
    ∃ s, thr_http_response sample_env sample_lstn none sample_backend 80
        (get_sent_locals interim_then_ok) = some s ∧
      (∀ n l', s = .fin n l' → l'.no_cont = true) ∧
      (∀ l', s = .go l' → l'.no_cont = true ∧
        ((get_sent_locals interim_then_ok).cl.snk.accepts →
          l'.cl.snk.out = (get_sent_locals interim_then_ok).cl.snk.out ++ head_text l'.headers)) :=
  ⟨by decide,
   no_cont_sticks sample_env sample_lstn none sample_backend 80 (get_sent_locals interim_then_ok)
    (by decide) (Or.inr ⟨["HTTP/1.1 100 Continue".toList], by decide, by decide⟩) (by decide)⟩

/-! ### A start line that fills the line buffer -/

theorem getsLine_fill : ∀ (line rest : List Char) (n : Nat), line.length = n →
    (∀ c ∈ line.dropLast, c ≠ '\n') → getsLine n (line ++ rest) = (line, rest)
  | [], rest, n, hn, _ => by
    simp only [List.length_nil] at hn
    subst hn
    cases rest <;> rfl
  | [c], rest, n, hn, _ => by
    simp only [List.length_singleton] at hn
    subst hn
    have e : [c] ++ rest = c :: rest := rfl
    rw [e, getsLine]
    by_cases hc : c = '\n'
    · rw [if_pos hc]
    · rw [if_neg hc]
      cases rest <;> rfl
  | c :: d :: t, rest, n, hn, hl => by
    obtain ⟨m, rfl⟩ : ∃ m, n = m + 1 := ⟨n - 1, by simp at hn; omega⟩
    have hc : c ≠ '\n' := hl c (by simp [List.dropLast])
    have ht := getsLine_fill (d :: t) rest m (by simp at hn; simpa using hn)
      (fun x hx => hl x (by simp only [List.dropLast_cons₂, List.mem_cons]; exact Or.inr hx))
    have e : c :: d :: t ++ rest = c :: (d :: t ++ rest) := rfl
    rw [e, getsLine, if_neg hc, ht]

theorem strip_eol_fill (line : List Char) (hlen : 3 ≤ line.length)
    (hl : ∀ c ∈ line.dropLast, c ≠ '\n') (hnul : line.head? ≠ some '\x00') :
    strip_eol line ≠ [] := by
  match line, hlen, hl, hnul with
  | a :: b :: c :: t, _, hl, hnul =>
    have ha : a ≠ '\n' := hl a (by simp [List.dropLast])
    have hb : b ≠ '\n' := hl b (by simp [List.dropLast])
    have h0 : a ≠ '\x00' := by
      intro h
      exact hnul (by rw [h]; rfl)
    have hno : ¬ (a = '\n' ∨ (a = '\r' ∧ (b :: c :: t).head? = some '\n')) := by
      rintro (h1 | ⟨-, h2⟩)
      · exact ha h1
      · simp only [List.head?_cons, Option.some.injEq] at h2
        exact hb h2
    rw [strip_eol, if_neg h0, if_neg hno]
    simp

theorem get_headers_start_fill (MAXBUF : Nat) (hbuf : 3 < MAXBUF) (inp : Source)
    (line rest : List Char) (fuel : Nat) (hlen : line.length = MAXBUF - 1)
    (hl : ∀ c ∈ line.dropLast, c ≠ '\n') (hnul : line.head? ≠ some '\x00')
    (hin : inp.inp = line ++ rest) :
    get_headers_start MAXBUF (fuel + 1) inp
      = some (((MAXBUF - 1 : Nat) : Int), strip_eol line, { inp with inp := rest }) := by
  have hg : BIO_gets inp MAXBUF = (((MAXBUF - 1 : Nat) : Int), line, { inp with inp := rest }) := by
    unfold BIO_gets
    rw [hin, getsLine_fill line rest (MAXBUF - 1) hlen hl]
    have hne : ¬ (line ++ rest = [] ∧ inp.gets_err = true) := by
      rintro ⟨h, -⟩
      have h0 : line = [] := (List.append_eq_nil.mp h).1
      rw [h0] at hlen
      simp only [List.length_nil] at hlen
      omega
    simp only [hne, if_false, hlen]
  have hpos : ((MAXBUF - 1 : Nat) : Int) > 0 := by omega
  have hs := strip_eol_fill line (by omega) hl hnul
  rw [get_headers_start]
  simp only [hg, hpos, if_true, ne_eq, hs, not_false_eq_true]

/-- The first loop of `get_headers` always ends, with `res` the length read,
`MAXBUF - 1` at most; with `res` at `MAXBUF - 1` the result is `NULL` after
`err_reply` with the 414 status, with a smaller `res` the client channel never
holds the 414 reply. -/
theorem get_headers_first_read (MAXBUF MAXHEADERS : Nat) (lstn : LISTENER) (inp : Source)
    (cl : Sink) :
    ∃ res buf inp1,
      get_headers_start MAXBUF (inp.inp.length + 1) inp = some (res, buf, inp1) ∧
      (0 < res → buf ≠ [] ∧ res ≤ (MAXBUF : Int) - 1) ∧
      (0 < res → res ≥ (MAXBUF : Int) - 1 →
        get_headers MAXBUF MAXHEADERS lstn inp cl
            = some ⟨none, inp1, err_reply cl h414 lstn.err414⟩ ∧
          (cl.accepts → (err_reply cl h414 lstn.err414).out
            = cl.out ++ err_response h414 lstn.err414)) ∧
      (res < (MAXBUF : Int) - 1 →
        ∃ r, get_headers MAXBUF MAXHEADERS lstn inp cl = some r ∧
          r.cl.out ≠ cl.out ++ err_response h414 lstn.err414) := by
  obtain ⟨res, buf, inp1, hstart, hline⟩ :=
    get_headers_start_total MAXBUF (inp.inp.length + 1) inp (by omega)
  refine ⟨res, buf, inp1, hstart, hline, ?_, ?_⟩
  · intro hpos hfull
    constructor
    · unfold get_headers
      rw [hstart]
      have h1 : ¬ (res ≤ 0) := by omega
      simp only [h1, if_false, hfull, if_true]
    · exact err_reply_accepts_out cl _ _
  · intro hshort
    have hnot : ¬ (res ≥ (MAXBUF : Int) - 1) := by omega
    unfold get_headers
    rw [hstart]
    by_cases h1 : res ≤ 0
    · simp only [h1, if_true]
      exact ⟨_, rfl, out_ne_414 cl _⟩
    · simp only [h1, hnot, if_false]
      split
      · exact ⟨_, rfl, out_ne_414 cl _⟩
      · exact ⟨_, rfl, err_reply_500_ne_414 cl _ _⟩

/-- C10: `get_headers` skips empty lines and reads the first line that is not
empty with `BIO_gets` into a buffer of `MAXBUF` octets.  When that line fills
the buffer, that is when its first `MAXBUF - 1` octets hold no line feed before
the last of them, the read has length `MAXBUF - 1`, `get_headers` calls
`err_reply` with the 414 status, which puts the 414 reply on a client channel
that accepts writes, returns `NULL`, and leaves the rest of the input unread.
When the start line, terminator included, is shorter than `MAXBUF - 1`, the
read has that length and the client channel never holds the 414 reply.  For
every input whatever, the first loop ends with a read of `MAXBUF - 1` octets at
most, a read of `MAXBUF - 1` octets gives the 414 reply and `NULL`, and a
shorter read never leaves the 414 reply. -/
theorem get_headers_uri_too_long (MAXBUF MAXHEADERS : Nat) (lstn : LISTENER) (inp : Source)
    (cl : Sink) (blanks : List (List Char)) (hbuf : 3 < MAXBUF)
    (hblanks : ∀ b ∈ blanks, isEol b) :
    (∀ line rest : List Char, line.length = MAXBUF - 1 → (∀ c ∈ line.dropLast, c ≠ '\n') →
      line.head? ≠ some '\x00' → inp.inp = blanks.flatten ++ (line ++ rest) →
      get_headers_start MAXBUF (inp.inp.length + 1) inp
          = some (((MAXBUF - 1 : Nat) : Int), strip_eol line, { inp with inp := rest }) ∧
        get_headers MAXBUF MAXHEADERS lstn inp cl
          = some ⟨none, { inp with inp := rest }, err_reply cl h414 lstn.err414⟩ ∧
        (cl.accepts → (err_reply cl h414 lstn.err414).out
          = cl.out ++ err_response h414 lstn.err414)) ∧
    (∀ (first : WireLine) (rest : List Char), first.wellFormed MAXBUF →
      inp.inp = blanks.flatten ++ (first.wire ++ rest) →
      get_headers_start MAXBUF (inp.inp.length + 1) inp
          = some (((first.text.length + first.eol.length : Nat) : Int), first.text,
              { inp with inp := rest }) ∧
        ((first.text.length + first.eol.length : Nat) : Int) < (MAXBUF : Int) - 1 ∧
        ∃ r, get_headers MAXBUF MAXHEADERS lstn inp cl = some r ∧
          r.cl.out ≠ cl.out ++ err_response h414 lstn.err414) ∧
    (∃ res buf inp1,
      get_headers_start MAXBUF (inp.inp.length + 1) inp = some (res, buf, inp1) ∧
      (0 < res → buf ≠ [] ∧ res ≤ (MAXBUF : Int) - 1) ∧
      (0 < res → res ≥ (MAXBUF : Int) - 1 →
        get_headers MAXBUF MAXHEADERS lstn inp cl
            = some ⟨none, inp1, err_reply cl h414 lstn.err414⟩ ∧
          (cl.accepts → (err_reply cl h414 lstn.err414).out
            = cl.out ++ err_response h414 lstn.err414)) ∧
      (res < (MAXBUF : Int) - 1 →
        ∃ r, get_headers MAXBUF MAXHEADERS lstn inp cl = some r ∧
          r.cl.out ≠ cl.out ++ err_response h414 lstn.err414)) := by
  refine ⟨?_, ?_, get_headers_first_read MAXBUF MAXHEADERS lstn inp cl⟩
  · intro line rest hlen hl hnul hin
    have hstart := get_headers_canonical_start MAXBUF (by omega) inp blanks _ hblanks hin
    rw [get_headers_start_fill MAXBUF hbuf { inp with inp := line ++ rest } line rest _ hlen hl
      hnul rfl] at hstart
    refine ⟨hstart, ?_, err_reply_accepts_out cl _ _⟩
    unfold get_headers
    rw [hstart]
    have h1 : ¬ (((MAXBUF - 1 : Nat) : Int) ≤ 0) := by omega
    have h2 : ((MAXBUF - 1 : Nat) : Int) ≥ (MAXBUF : Int) - 1 := by omega
    simp only [h1, if_false, h2, if_true]
  · intro first rest hfirst hin
    have hfit := hfirst.2.2.2
    have hstart := get_headers_canonical_start MAXBUF (by omega) inp blanks _ hblanks hin
    rw [get_headers_start_wire MAXBUF { inp with inp := first.wire ++ rest } first rest _ hfirst
      rfl] at hstart
    have hel : 0 < first.eol.length := by
      rcases hfirst.2.2.1 with h | ⟨h, -⟩ <;> rw [h] <;> decide
    have hres1 : ¬ (((first.text.length + first.eol.length : Nat) : Int) ≤ 0) := by omega
    have hres2 : ¬ (((first.text.length + first.eol.length : Nat) : Int) ≥ (MAXBUF : Int) - 1) := by
      omega
    refine ⟨hstart, by omega, ?_⟩
    unfold get_headers
    rw [hstart]
    simp only [hres1, hres2, if_false]
    split
    · exact ⟨_, rfl, out_ne_414 cl _⟩
    · exact ⟨_, rfl, err_reply_500_ne_414 cl _ _⟩

theorem get_headers_uri_too_long_witness :
    get_headers 17 128 sample_lstn { inp := "\r\nGET / HTTP/1.1\r\nHost: x\r\n\r\n".toList }
        ⟨[], [], []⟩
      = some ⟨none, { inp := "Host: x\r\n\r\n".toList },
          err_reply ⟨[], [], []⟩ h414 sample_lstn.err414⟩ ∧
    (err_reply ⟨[], [], []⟩ h414 sample_lstn.err414).out
      = [] ++ err_response h414 sample_lstn.err414 ∧
    ∃ r, get_headers 18 128 sample_lstn
        { inp := "\r\nGET / HTTP/1.1\r\nHost: x\r\n\r\n".toList } ⟨[], [], []⟩ = some r ∧
      r.cl.out ≠ [] ++ err_response h414 sample_lstn.err414 :=
  ⟨((get_headers_uri_too_long 17 128 sample_lstn
      { inp := "\r\nGET / HTTP/1.1\r\nHost: x\r\n\r\n".toList } ⟨[], [], []⟩ [crlf]
      (by decide) (by decide)).1 "GET / HTTP/1.1\r\n".toList "Host: x\r\n\r\n".toList
      (by decide) (by decide) (by decide) (by decide)).2.1,
   ((get_headers_uri_too_long 17 128 sample_lstn
      { inp := "\r\nGET / HTTP/1.1\r\nHost: x\r\n\r\n".toList } ⟨[], [], []⟩ [crlf]
      (by decide) (by decide)).1 "GET / HTTP/1.1\r\n".toList "Host: x\r\n\r\n".toList
      (by decide) (by decide) (by decide) (by decide)).2.2 (by decide),
   ((get_headers_uri_too_long 18 128 sample_lstn
      { inp := "\r\nGET / HTTP/1.1\r\nHost: x\r\n\r\n".toList } ⟨[], [], []⟩ [crlf]
      (by decide) (by decide)).2.1 ⟨"GET / HTTP/1.1".toList, crlf⟩ "Host: x\r\n\r\n".toList
      (by decide) (by decide)).2.2⟩

/-! ### A `Content-Length` that is not the first framing header -/

/-- C4, counterexample: in the request `POST / HTTP/1.1`,
`Transfer-Encoding: chunked`, `Content-Length: 3`, `Transfer-Encoding: chunked`
a `Content-Length` of 3 stands before a `Transfer-Encoding: chunked` line, yet
the first framing header decides: the classifier sets `chunked` at the first
line, drops the `Content-Length` and the repeated `chunked` (`headers_ok` 0 for
both), the back-end receives a `Transfer-Encoding: chunked` line and the body
is relayed chunked, all of it and not three octets.  The second request,
`Content-Length: 3`, `Content-Length: 0`, `Transfer-Encoding: chunked`, shows
why the `Content-Length` has to be the only one: the second one sets `cont`
back to 0, all lines stay valid and the body is relayed chunked. -/
theorem chunked_before_content_length_wins :
    (thr_http_round sample_env sample_lstn none (sample_renv "HTTP/1.1 204 No Content\r\n\r\n")
        (start_locals ("POST / HTTP/1.1\r\nTransfer-Encoding: chunked\r\nContent-Length: 3\r\n"
          ++ "Transfer-Encoding: chunked\r\n\r\n3\r\nabc\r\n0\r\n\r\n"))).map
      (fun r => (r.1, r.2.headers_ok, r.2.cl.src.inp, r.2.be.map (fun b => b.snk.out)))
    = some (Next.again, [true, true, false, false], [],
        some ("POST / HTTP/1.1\r\nTransfer-Encoding: chunked\r\n"
          ++ "X-Forwarded-For: 192.0.2.7\r\n\r\n3\r\nabc\r\n0\r\n\r\n").toList) ∧
    (thr_http_round sample_env sample_lstn none (sample_renv "HTTP/1.1 204 No Content\r\n\r\n")
        (start_locals ("POST / HTTP/1.1\r\nContent-Length: 3\r\nContent-Length: 0\r\n"
          ++ "Transfer-Encoding: chunked\r\n\r\n3\r\nabc\r\n0\r\n\r\n"))).map
      (fun r => (r.1, r.2.headers_ok, r.2.cl.src.inp, r.2.be.map (fun b => b.snk.out)))
    = some (Next.again, [true, true, true, true], [],
        some ("POST / HTTP/1.1\r\nContent-Length: 3\r\nContent-Length: 0\r\n"
          ++ "Transfer-Encoding: chunked\r\n"
          ++ "X-Forwarded-For: 192.0.2.7\r\n\r\n3\r\nabc\r\n0\r\n\r\n").toList) := by
  constructor <;> decide

/-! ### The relay of a response body always ends and only appends -/

theorem Sink.write_prefix (s : Sink) (d : List Char) : s.out <+: (s.write d).2.out := by
  rcases Sink.write_out s d with h | h
  · rw [h]
  · rw [h]; exact List.prefix_append _ _

theorem Sink.flush_prefix (s : Sink) : s.out <+: s.flush.2.out := by
  rw [Sink.flush_out]

theorem BIO_read_pend (b : Source) (len : Int) : (BIO_read b len).2.2.pend = b.pend := by
  obtain ⟨inp, plan, pend, polls, gerr⟩ := b
  cases plan with
  | nil => rfl
  | cons e plan =>
    cases e with
    | none => rfl
    | some k => rfl

theorem BIO_read_pos_shrinks (b : Source) (len : Int) (h : 0 < (BIO_read b len).1) :
    (BIO_read b len).2.2.inp.length < b.inp.length := by
  obtain ⟨inp, plan, pend, polls, gerr⟩ := b
  cases plan with
  | nil =>
    simp only [BIO_read, List.length_take, List.length_drop] at h ⊢
    omega
  | cons e plan =>
    cases e with
    | none => simp [BIO_read] at h
    | some k =>
      simp only [BIO_read, List.length_take, List.length_drop] at h ⊢
      omega

theorem copy_bin_loop_relay (MAXBUF : Nat) (no_write : Bool) :
    ∀ (fuel : Nat) (cl : Source) (s : Sink) (cont : Int) (rb : Option Int),
      cont.toNat < fuel →
      ∃ r, copy_bin_loop MAXBUF fuel cl (some s) cont rb no_write = some r ∧
        (∃ s', r.be = some s' ∧ s.out <+: s'.out) ∧ r.cl.inp.length ≤ cl.inp.length := by
  intro fuel
  induction fuel with
  | zero => intro cl s cont rb h; omega
  | succ fuel ih =>
    intro cl s cont rb hf
    rw [copy_bin_loop]
    have hlen := BIO_read_length_le cl (if cont > (MAXBUF : Int) then (MAXBUF : Int) else cont)
    by_cases hc : cont > 0
    · simp only [hc, if_true]
      generalize BIO_read cl (if cont > (MAXBUF : Int) then (MAXBUF : Int) else cont) = rd
        at hlen ⊢
      cases no_write with
      | true =>
        simp only [if_true, ne_eq, not_true_eq_false, if_false, BIO_flush]
        split_ifs with h1 h2 h3
        · exact ⟨_, rfl, ⟨s, rfl, List.prefix_refl _⟩, hlen⟩
        · exact ⟨_, rfl, ⟨s, rfl, List.prefix_refl _⟩, hlen⟩
        · obtain ⟨r, e1, ⟨s', e2, e3⟩, e4⟩ := ih rd.2.2 s.flush.2 (cont - rd.1)
            (rb.map (fun r => wrapLong (r + rd.1))) (by omega)
          exact ⟨r, e1, ⟨s', e2, (Sink.flush_prefix s).trans e3⟩, by omega⟩
        · exact ⟨_, rfl, ⟨_, rfl, Sink.flush_prefix s⟩, hlen⟩
      | false =>
        simp only [Bool.false_eq_true, if_false, BIO_write, BIO_flush]
        split_ifs with h1 h2 h3 h4
        · exact ⟨_, rfl, ⟨s, rfl, List.prefix_refl _⟩, hlen⟩
        · exact ⟨_, rfl, ⟨s, rfl, List.prefix_refl _⟩, hlen⟩
        · exact ⟨_, rfl, ⟨_, rfl, Sink.write_prefix s _⟩, hlen⟩
        · exact ⟨_, rfl, ⟨_, rfl, (Sink.write_prefix s _).trans (Sink.flush_prefix _)⟩, hlen⟩
        · obtain ⟨r, e1, ⟨s', e2, e3⟩, e4⟩ := ih rd.2.2 (s.write rd.2.1).2.flush.2 (cont - rd.1)
            (rb.map (fun r => wrapLong (r + rd.1))) (by omega)
          exact ⟨r, e1, ⟨s', e2,
            ((Sink.write_prefix s _).trans (Sink.flush_prefix _)).trans e3⟩, by omega⟩
    · simp only [hc, if_false]
      exact ⟨_, rfl, ⟨s, rfl, List.prefix_refl _⟩, le_refl _⟩

theorem copy_chunks_trailers_relay (MAXBUF : Nat) (no_write : Bool) :
    ∀ (fuel : Nat) (cl : Source) (s : Sink) (rb : Option Int),
      cl.inp.length < fuel →
      ∃ r, copy_chunks_trailers MAXBUF fuel cl (some s) rb no_write = some r ∧
        (∃ s', r.be = some s' ∧ s.out <+: s'.out) ∧ r.cl.inp.length ≤ cl.inp.length := by
  intro fuel
  induction fuel with
  | zero => intro cl s rb h; omega
  | succ fuel ih =>
    intro cl s rb hf
    rw [copy_chunks_trailers]
    have hle := BIO_gets_length_le cl MAXBUF
    by_cases h1 : (BIO_gets cl MAXBUF).1 ≤ 0
    · simp only [h1, if_true]
      exact ⟨_, rfl, ⟨s, rfl, List.prefix_refl _⟩, hle⟩
    · have hlen := BIO_gets_length cl MAXBUF (by omega)
      simp only [h1, if_false]
      cases no_write with
      | true =>
        simp only [if_true]
        split_ifs with h2 h3 h4
        · exact ⟨_, rfl, ⟨s, rfl, List.prefix_refl _⟩, hle⟩
        · exact absurd rfl h3
        · exact ⟨_, rfl, ⟨s, rfl, List.prefix_refl _⟩, hle⟩
        · obtain ⟨r, e1, e2, e3⟩ := ih (BIO_gets cl MAXBUF).2.2 s rb (by omega)
          exact ⟨r, e1, e2, by omega⟩
      | false =>
        simp only [Bool.false_eq_true, if_false, BIO_puts, BIO_write, BIO_flush]
        split_ifs with h2 h3 h4
        · exact ⟨_, rfl, ⟨_, rfl, Sink.write_prefix s _⟩, hle⟩
        · exact ⟨_, rfl, ⟨_, rfl, (Sink.write_prefix s _).trans (Sink.flush_prefix _)⟩, hle⟩
        · exact ⟨_, rfl, ⟨_, rfl, (Sink.write_prefix s _).trans (Sink.flush_prefix _)⟩, hle⟩
        · obtain ⟨r, e1, ⟨s', e2, e3⟩, e4⟩ := ih (BIO_gets cl MAXBUF).2.2
            (s.write (cstr (BIO_gets cl MAXBUF).2.1)).2.flush.2 rb (by omega)
          exact ⟨r, e1, ⟨s', e2,
            ((Sink.write_prefix s _).trans (Sink.flush_prefix _)).trans e3⟩, by omega⟩

theorem legacy_pending_relay :
    ∀ (fuel : Nat) (be : Source) (cl : Sink) (rb : Int), be.pend.length < fuel →
      ∃ r, legacy_pending fuel be cl rb = some r ∧ cl.out <+: r.cl.out := by
  intro fuel
  induction fuel with
  | zero => intro be cl rb h; omega
  | succ fuel ih =>
    intro be cl rb hf
    rw [legacy_pending]
    by_cases h1 : (BIO_pending be).1 = 0
    · rw [if_pos h1]
      exact ⟨_, rfl, List.prefix_refl _⟩
    · rw [if_neg h1]
      have hp : (BIO_pending be).2.pend.length < be.pend.length := by
        obtain ⟨inp, plan, pend, polls, gerr⟩ := be
        cases pend with
        | nil => simp [BIO_pending] at h1
        | cons k rest => simp [BIO_pending]
      simp only []
      split_ifs with h2 h3
      · exact ⟨_, rfl, List.prefix_refl _⟩
      · exact ⟨_, rfl, Sink.write_prefix cl _⟩
      · obtain ⟨r, e1, e2⟩ := ih (BIO_read (BIO_pending be).2 1).2.2
          (cl.write (BIO_read (BIO_pending be).2 1).2.1).2 (wrapLong (rb + 1))
          (by rw [BIO_read_pend]; omega)
        exact ⟨r, e1, (Sink.write_prefix cl _).trans e2⟩

theorem legacy_copy_relay (MAXBUF : Nat) :
    ∀ (fuel : Nat) (be : Source) (cl : Sink) (rb : Int), be.inp.length < fuel →
      ∃ r, legacy_copy MAXBUF fuel be cl rb = some r ∧ cl.out <+: r.cl.out := by
  intro fuel
  induction fuel with
  | zero => intro be cl rb h; omega
  | succ fuel ih =>
    intro be cl rb hf
    rw [legacy_copy]
    by_cases h1 : (BIO_read be MAXBUF).1 > 0
    · rw [if_pos h1]
      have hs := BIO_read_pos_shrinks be MAXBUF h1
      split_ifs with h2
      · exact ⟨_, rfl, Sink.write_prefix cl _⟩
      · obtain ⟨r, e1, e2⟩ := ih (BIO_read be MAXBUF).2.2
          (cl.write (BIO_read be MAXBUF).2.1).2.flush.2
          (wrapLong (rb + (BIO_read be MAXBUF).1)) (by omega)
        exact ⟨r, e1, ((Sink.write_prefix cl _).trans (Sink.flush_prefix _)).trans e2⟩
    · rw [if_neg h1]
      exact ⟨_, rfl, List.prefix_refl _⟩

theorem printf_line_relay (no_write : Bool) (s : Sink) (buf : List Char) :
    ∃ s1, (if no_write = true then ((1 : Int), some s) else BIO_printf_line (some s) buf).2
        = some s1 ∧ s.out <+: s1.out := by
  cases no_write with
  | true => exact ⟨s, rfl, List.prefix_refl _⟩
  | false => exact ⟨_, rfl, Sink.write_prefix s _⟩

theorem copy_chunks_loop_relay (MAXBUF : Nat) (CHUNK_HEAD : List Char → Bool) (max_size : Int)
    (no_write : Bool) :
    ∀ (fuel : Nat) (cl : Source) (s : Sink) (rb : Option Int) (tot : Int),
      cl.inp.length < fuel →
      ∃ r, copy_chunks_loop MAXBUF CHUNK_HEAD max_size no_write fuel cl (some s) rb tot = some r ∧
        (∃ s', r.be = some s' ∧ s.out <+: s'.out) ∧ r.cl.inp.length ≤ cl.inp.length := by
  intro fuel
  induction fuel with
  | zero => intro cl s rb tot h; omega
  | succ fuel ih =>
    intro cl s rb tot hf
    rw [copy_chunks_loop]
    have hle := BIO_gets_length_le cl MAXBUF
    by_cases h1 : (BIO_gets cl MAXBUF).1 ≤ 0
    · simp only [h1, if_true]
      exact ⟨_, rfl, ⟨s, rfl, List.prefix_refl _⟩, hle⟩
    · have hlen := BIO_gets_length cl MAXBUF (by omega)
      by_cases h2 : CHUNK_HEAD (strip_eol (BIO_gets cl MAXBUF).2.1) = false
      · simp only [h1, if_false, h2, if_true]
        exact ⟨_, rfl, ⟨s, rfl, List.prefix_refl _⟩, hle⟩
      · obtain ⟨s1, hw, hp1⟩ := printf_line_relay no_write s (strip_eol (BIO_gets cl MAXBUF).2.1)
        simp only [h1, if_false, h2]
        generalize (if no_write = true then ((1 : Int), some s)
          else BIO_printf_line (some s) (strip_eol (BIO_gets cl MAXBUF).2.1)) = w at hw ⊢
        by_cases h3 : w.1 ≤ 0
        · rw [if_pos h3]
          exact ⟨_, rfl, ⟨s1, hw, hp1⟩, hle⟩
        · rw [if_neg h3]
          by_cases h4 : max_size > 0 ∧
              wrapLong (tot + strtol (strip_eol (BIO_gets cl MAXBUF).2.1) 16) > max_size
          · rw [if_pos h4]
            exact ⟨_, rfl, ⟨s1, hw, hp1⟩, hle⟩
          · rw [if_neg h4]
            by_cases h5 : strtol (strip_eol (BIO_gets cl MAXBUF).2.1) 16 > 0
            · rw [if_pos h5, hw]
              obtain ⟨r, e1, ⟨s2, e2, e3⟩, e4⟩ := copy_bin_loop_relay MAXBUF no_write
                ((strtol (strip_eol (BIO_gets cl MAXBUF).2.1) 16).toNat + 1)
                (BIO_gets cl MAXBUF).2.2 s1 (strtol (strip_eol (BIO_gets cl MAXBUF).2.1) 16) rb
                (by omega)
              have hle2 := BIO_gets_length_le r.cl MAXBUF
              simp only [copy_bin, e1]
              by_cases h6 : r.ret ≠ 0
              · rw [if_pos h6]
                exact ⟨_, rfl, ⟨s2, e2, hp1.trans e3⟩, by simp only []; omega⟩
              · rw [if_neg h6]
                by_cases h7 : (BIO_gets r.cl MAXBUF).1 ≤ 0
                · rw [if_pos h7]
                  exact ⟨_, rfl, ⟨s2, e2, hp1.trans e3⟩, by simp only []; omega⟩
                · rw [if_neg h7, e2]
                  have hlen2 := BIO_gets_length r.cl MAXBUF (by omega)
                  obtain ⟨s3, hw2, hp3⟩ := printf_line_relay no_write s2
                    (strip_eol (BIO_gets r.cl MAXBUF).2.1)
                  generalize (if no_write = true then ((1 : Int), some s2)
                    else BIO_printf_line (some s2) (strip_eol (BIO_gets r.cl MAXBUF).2.1)) = w2
                    at hw2 ⊢
                  by_cases h8 : w2.1 ≤ 0
                  · rw [if_pos h8]
                    exact ⟨_, rfl, ⟨s3, hw2, (hp1.trans e3).trans hp3⟩, by simp only []; omega⟩
                  · rw [if_neg h8, hw2]
                    obtain ⟨r', f1, ⟨s', f2, f3⟩, f4⟩ := ih (BIO_gets r.cl MAXBUF).2.2 s3
                      r.res_bytes
                      (wrapLong (tot + strtol (strip_eol (BIO_gets cl MAXBUF).2.1) 16)) (by omega)
                    exact ⟨r', f1, ⟨s', f2, ((hp1.trans e3).trans hp3).trans f3⟩, by omega⟩
            · rw [if_neg h5, hw]
              obtain ⟨r, e1, ⟨s2, e2, e3⟩, e4⟩ := copy_chunks_trailers_relay MAXBUF no_write
                ((BIO_gets cl MAXBUF).2.2.inp.length + 1) (BIO_gets cl MAXBUF).2.2 s1 rb
                (by omega)
              exact ⟨r, e1, ⟨s2, e2, hp1.trans e3⟩, by omega⟩

theorem thr_http_response_body_total (env : Env) (be : BIO) (l : Locals) :
    ∃ b l', thr_http_response_body env be l = some (b, l') ∧
      l.cl.snk.out <+: l'.cl.snk.out ∧ l'.skip = l.skip ∧ l'.headers = l.headers := by
  unfold thr_http_response_body
  simp only []
  by_cases h1 : l.be_11 = true ∧ l.chunked = true
  · obtain ⟨r, e1, ⟨s', e2, e3⟩, e4⟩ := copy_chunks_loop_relay env.MAXBUF env.CHUNK_HEAD 0 l.skip
      (be.src.inp.length + 1) be.src l.cl.snk (some l.res_bytes) 0 (by omega)
    rw [if_pos h1]
    simp only [copy_chunks, e1, e2, Option.getD_some]
    split_ifs
    · exact ⟨_, _, rfl, e3, rfl, rfl⟩
    · exact ⟨_, _, rfl, e3.trans (Sink.flush_prefix _), rfl, rfl⟩
  · rw [if_neg h1]
    by_cases h2 : l.cont ≥ 0
    · obtain ⟨r, e1, ⟨s', e2, e3⟩, e4⟩ := copy_bin_loop_relay env.MAXBUF l.skip
        (l.cont.toNat + 1) be.src l.cl.snk l.cont (some l.res_bytes) (by omega)
      rw [if_pos h2]
      simp only [copy_bin, e1, e2, Option.getD_some]
      split_ifs
      · exact ⟨_, _, rfl, e3, rfl, rfl⟩
      · exact ⟨_, _, rfl, e3.trans (Sink.flush_prefix _), rfl, rfl⟩
    · rw [if_neg h2]
      by_cases h3 : l.skip = false
      · rw [if_pos h3]
        by_cases h4 : (is_readable be.src).1 = true
        · rw [if_pos h4]
          obtain ⟨p, p1, p2⟩ := legacy_pending_relay ((is_readable be.src).2.pend.length + 1)
            (is_readable be.src).2 l.cl.snk l.res_bytes (by omega)
          simp only [p1]
          by_cases h5 : p.ok = false
          · rw [if_pos h5]
            exact ⟨_, _, rfl, p2, rfl, rfl⟩
          · rw [if_neg h5]
            obtain ⟨c, c1, c2⟩ := legacy_copy_relay env.MAXBUF (p.be.inp.length + 1) p.be
              p.cl.flush.2 p.res_bytes (by omega)
            simp only [c1]
            split_ifs
            · exact ⟨_, _, rfl, (p2.trans (Sink.flush_prefix _)).trans c2, rfl, rfl⟩
            · exact ⟨_, _, rfl,
                ((p2.trans (Sink.flush_prefix _)).trans c2).trans (Sink.flush_prefix _), rfl, rfl⟩
        · rw [if_neg h4]
          exact ⟨_, _, rfl, Sink.flush_prefix _, rfl, rfl⟩
      · rw [if_neg h3]
        exact ⟨_, _, rfl, Sink.flush_prefix _, rfl, rfl⟩

/-- The loop of `copy_bin` with the discard flag on a source that delivers and
a sink whose flushes succeed: the octets are read and none is written. -/
theorem copy_bin_loop_drains (MAXBUF : Nat) (hbuf : 0 < MAXBUF) :
    ∀ (fuel : Nat) (cl : Source) (be : Sink) (cont : Int) (res_bytes : Option Int),
      0 ≤ cont → cont < fuel → cont ≤ cl.inp.length → cl.readsPositive → be.accepts →
      ∃ cl' be' rb', copy_bin_loop MAXBUF fuel cl (some be) cont res_bytes true
          = some ⟨0, cl', some be', rb'⟩
        ∧ be'.out = be.out
        ∧ cl'.inp = cl.inp.drop cont.toNat
        ∧ cl'.readsPositive ∧ be'.accepts := by
  intro fuel
  induction fuel with
  | zero => intro cl be cont rb h0 hf; omega
  | succ fuel ih =>
    intro cl be cont rb h0 hf hin hr hacc
    by_cases hc : cont > 0
    · have hlen : 0 < (if cont > (MAXBUF : Int) then (MAXBUF : Int) else cont) := by
        split <;> omega
      obtain ⟨n, hn0, hnle, hnin, h1, h2, h3, h4⟩ :=
        BIO_read_spec cl _ hlen (by omega) hr
      have hncont : (n : Int) ≤ cont := by
        split at hnle <;> omega
      obtain ⟨f1, f2, f3⟩ := Sink.flush_accepts be hacc
      obtain ⟨cl', be', rb', e1, e2, e3, e4, e5⟩ :=
        ih (BIO_read cl (if cont > (MAXBUF : Int) then (MAXBUF : Int) else cont)).2.2
          be.flush.2 (cont - n)
          (rb.map (fun r => wrapLong (r + n))) (by omega) (by omega)
          (by rw [h3, List.length_drop]; omega) h4 f3
      refine ⟨cl', be', rb', ?_, ?_, ?_, e4, e5⟩
      · rw [copy_bin_loop]
        have hn1 : ¬ ((n : Int) < 0) := by omega
        have hn2 : ¬ ((n : Int) = 0) := by omega
        simp only [hc, if_true, h1, BIO_flush, hn1, hn2, if_false,
          ne_eq, not_true_eq_false, f1]
        rw [e1]
      · rw [e2, f2]
      · rw [e3, h3, List.drop_drop]
        congr 1
        omega
    · have hz : cont = 0 := by omega
      subst hz
      refine ⟨cl, be, rb, ?_, rfl, by simp, hr, hacc⟩
      rw [copy_bin_loop]
      simp

theorem response_header_cont (env : Env) (lstn : LISTENER) (ssl : Option SSL)
    (backend : BACKEND) (l : Locals) (h : List Char) :
    (response_header env lstn ssl backend l h).1.cont
      = (if (env.check_header h).1 = HEADER_CONTENT_LENGTH then atol (env.check_header h).2
         else l.cont) ∧
    (response_header env lstn ssl backend l h).1.cl_11 = l.cl_11 ∧
    (response_header env lstn ssl backend l h).1.request = l.request ∧
    (response_header env lstn ssl backend l h).1.response = l.response := by
  unfold response_header
  simp only []
  cases hk : (env.check_header h).1 <;> simp only [] <;> (try split) <;> (try split) <;>
    (try split) <;> simp_all

theorem response_headers_cont (env : Env) (lstn : LISTENER) (ssl : Option SSL)
    (backend : BACKEND) :
    ∀ (hs : List (List Char)) (l : Locals),
      (∀ h ∈ hs, (env.check_header h).1 ≠ HEADER_CONTENT_LENGTH) →
      (response_headers env lstn ssl backend l hs).1.cont = l.cont
  | [], l, _ => by simp [response_headers]
  | h :: hs, l, hall => by
    rw [response_headers]
    rw [response_headers_cont env lstn ssl backend hs _ (fun x hx => hall x (by simp [hx])),
      (response_header_cont env lstn ssl backend l h).1, if_neg (hall h (by simp))]

theorem response_headers_append (env : Env) (lstn : LISTENER) (ssl : Option SSL)
    (backend : BACKEND) :
    ∀ (a b : List (List Char)) (l : Locals),
      (response_headers env lstn ssl backend l (a ++ b)).1
        = (response_headers env lstn ssl backend
            (response_headers env lstn ssl backend l a).1 b).1
  | [], b, l => by simp [response_headers]
  | h :: a, b, l => by
    rw [List.cons_append, response_headers, response_headers]
    exact response_headers_append env lstn ssl backend a b _

theorem response_headers_length_seen (env : Env) (lstn : LISTENER) (ssl : Option SSL)
    (backend : BACKEND) (pre : List (List Char)) (clh : List Char) (post : List (List Char))
    (l : Locals) (hcl : (env.check_header clh).1 = HEADER_CONTENT_LENGTH)
    (hpost : ∀ h ∈ post, (env.check_header h).1 ≠ HEADER_CONTENT_LENGTH) :
    (response_headers env lstn ssl backend l (pre ++ clh :: post)).1.cont
      = atol (env.check_header clh).2 := by
  rw [response_headers_append, response_headers,
    response_headers_cont env lstn ssl backend post _ hpost,
    (response_header_cont env lstn ssl backend _ clh).1, if_pos hcl]

theorem response_header_verbatim (env : Env) (lstn : LISTENER) (ssl : Option SSL)
    (backend : BACKEND) (l : Locals) (h : List Char)
    (hk : (env.check_header h).1 ≠ HEADER_LOCATION ∧
      (env.check_header h).1 ≠ HEADER_CONTLOCATION) :
    (response_header env lstn ssl backend l h).2 = h := by
  unfold response_header
  simp only []
  obtain ⟨h1, h2⟩ := hk
  cases hc : (env.check_header h).1 <;> simp only [] <;> (try split) <;> (try split) <;>
    (try split) <;> simp_all

theorem response_headers_verbatim (env : Env) (lstn : LISTENER) (ssl : Option SSL)
    (backend : BACKEND) :
    ∀ (hs : List (List Char)) (l : Locals),
      (∀ h ∈ hs, (env.check_header h).1 ≠ HEADER_LOCATION ∧
        (env.check_header h).1 ≠ HEADER_CONTLOCATION) →
      (response_headers env lstn ssl backend l hs).2 = hs
  | [], l, _ => by simp [response_headers]
  | h :: hs, l, hall => by
    rw [response_headers]
    simp only []
    rw [response_headers_verbatim env lstn ssl backend hs _ (fun x hx => hall x (by simp [hx])),
      response_header_verbatim env lstn ssl backend l h (hall h (by simp))]

/-! ### A pass of the response loop, head by head -/

theorem get_headers_some_ne_nil (MAXBUF MAXHEADERS : Nat) (lstn : LISTENER) (inp : Source)
    (cl : Sink) (r : HeadersResult) (hs : List (List Char))
    (h : get_headers MAXBUF MAXHEADERS lstn inp cl = some r) (hh : r.headers = some hs) :
    hs ≠ [] := by
  unfold get_headers at h
  split at h
  · exact absurd h (by simp)
  · split_ifs at h
    · cases h; simp at hh
    · cases h; simp at hh
    · split at h
      · next hs' inp2 heq =>
        cases h
        simp only [Option.some.injEq] at hh
        subst hh
        obtain ⟨tail, ht⟩ := get_headers_lines_head MAXBUF _ _ _ _ _ _ heq
        rw [ht]
        simp
      · cases h; simp at hh

theorem send_response_head_locals (l : Locals) :
    (send_response_head l).2 = { l with cl := (send_response_head l).2.cl } := by
  unfold send_response_head
  simp only []
  split <;> (try split) <;> rfl

theorem response_pass_eq (env : Env) (lstn : LISTENER) (ssl : Option SSL)
    (backend : BACKEND) (l0 : Locals) (be : BIO) (r : HeadersResult) (hs : List (List Char))
    (hbe : l0.be = some be)
    (hr : get_headers env.MAXBUF env.MAXHEADERS lstn be.src l0.cl.snk = some r)
    (hh : r.headers = some hs) (s : Bool × Locals)
    (hs' : send_response_head (response_head env lstn ssl backend
      { l0 with be := some { be with src := r.inp }, cl := { l0.cl with snk := r.cl } } hs) = s) :
    response_pass env lstn ssl backend l0
      = (if s.1 = false then some (none, s.2)
        else if s.2.no_cont = true then some (some s.2.skip, s.2)
        else
          match thr_http_response_body env { be with src := r.inp } s.2 with
          | none => none
          | some b => if b.1 = false then some (none, b.2) else some (some b.2.skip, b.2)) := by
  subst hs'
  unfold response_pass
  rw [hbe]
  simp only [hr, hh]

theorem response_head_headers (env : Env) (lstn : LISTENER) (ssl : Option SSL)
    (backend : BACKEND) (l : Locals) (hs : List (List Char)) :
    (response_head env lstn ssl backend l hs).headers.head? = some (hs.headD []) ∧
    (hs ≠ [] → (∀ h ∈ hs.tail, (env.check_header h).1 ≠ HEADER_LOCATION ∧
        (env.check_header h).1 ≠ HEADER_CONTLOCATION) →
      (response_head env lstn ssl backend l hs).headers = hs) := by
  unfold response_head
  simp only [List.head?_cons, true_and]
  intro hne hall
  rw [response_headers_verbatim env lstn ssl backend hs.tail _ hall]
  cases hs with
  | nil => exact absurd rfl hne
  | cons a t => rfl

/-- A pass whose status line does not match `RESP_SKIP`, on a client channel
that accepts writes: the pass ends, it is the last one of the loop, and the
client channel holds what it had, then the head of this response, then
whatever the relay of the body added. -/
theorem response_pass_forwards (env : Env) (lstn : LISTENER) (ssl : Option SSL)
    (backend : BACKEND) (l0 : Locals) (be : BIO) (r : HeadersResult) (hs : List (List Char))
    (hbe : l0.be = some be)
    (hr : get_headers env.MAXBUF env.MAXHEADERS lstn be.src l0.cl.snk = some r)
    (hh : r.headers = some hs) (hskip : env.RESP_SKIP (hs.headD []) = false)
    (hacc : l0.cl.snk.accepts) :
    ∃ o l1 body, response_pass env lstn ssl backend l0 = some (o, l1) ∧ o ≠ some true ∧
      l1.cl.snk.out = l0.cl.snk.out ++ head_text l1.headers ++ body ∧
      l1.headers.head? = some (hs.headD []) ∧
      ((∀ h ∈ hs.tail, (env.check_header h).1 ≠ HEADER_LOCATION ∧
          (env.check_header h).1 ≠ HEADER_CONTLOCATION) → l1.headers = hs) ∧
      ∀ fuel, thr_http_response env lstn ssl backend (fuel + 1) l0
        = some (match o with
          | none => .fin .exit l1
          | some _ => .go l1) := by
  have hcl := get_headers_some_cl _ _ _ _ _ r hs hr hh
  have hne := get_headers_some_ne_nil _ _ _ _ _ r hs hr hh
  obtain ⟨k1, k2, k3, k4, k5, k6⟩ := send_response_head_keeps
    (response_head env lstn ssl backend
      { l0 with be := some { be with src := r.inp }, cl := { l0.cl with snk := r.cl } } hs)
  obtain ⟨g1, g2, g3, g4⟩ := response_head_keeps env lstn ssl backend
    { l0 with be := some { be with src := r.inp }, cl := { l0.cl with snk := r.cl } } hs
  obtain ⟨q1, q2⟩ := response_head_headers env lstn ssl backend
    { l0 with be := some { be with src := r.inp }, cl := { l0.cl with snk := r.cl } } hs
  obtain ⟨a1, a2, a3⟩ := send_response_head_accepts
    (response_head env lstn ssl backend
      { l0 with be := some { be with src := r.inp }, cl := { l0.cl with snk := r.cl } } hs)
    (by rw [g2]; simp only []; rw [hcl]; exact hacc)
  have hpass := response_pass_eq env lstn ssl backend l0 be r hs hbe hr hh _ rfl
  rw [← k4, g3, hskip, g2] at a2
  simp only [Bool.false_eq_true, if_false] at a2
  rw [← k4] at q1 q2
  rw [g3, hskip] at k3
  generalize send_response_head (response_head env lstn ssl backend
      { l0 with be := some { be with src := r.inp }, cl := { l0.cl with snk := r.cl } } hs) = s
    at hpass k1 k2 k3 k4 k5 k6 a1 a2 a3 q1 q2
  rw [hcl] at a2
  have c1 : ¬ (s.1 = false) := by rw [a1]; simp
  rw [if_neg c1] at hpass
  have hloop : ∀ (o : Option Bool) (l1 : Locals),
      response_pass env lstn ssl backend l0 = some (o, l1) → o ≠ some true →
      ∀ fuel, thr_http_response env lstn ssl backend (fuel + 1) l0
        = some (match o with
          | none => .fin .exit l1
          | some _ => .go l1) := by
    intro o l1 hp ho fuel
    rw [thr_http_response, hp]
    cases o with
    | none => rfl
    | some v =>
      cases v with
      | true => exact absurd rfl ho
      | false => rfl
  by_cases c2 : s.2.no_cont = true
  · rw [if_pos c2, k3] at hpass
    exact ⟨some false, s.2, [], hpass, by simp, by rw [a2]; simp, q1, fun h => q2 hne h,
      hloop _ _ hpass (by simp)⟩
  · rw [if_neg c2] at hpass
    obtain ⟨b, l', e1, ⟨body, e2⟩, e3, e4⟩ :=
      thr_http_response_body_total env { be with src := r.inp } s.2
    rw [e1] at hpass
    simp only [] at hpass
    by_cases c3 : b = false
    · rw [if_pos c3] at hpass
      exact ⟨none, l', body, hpass, by simp, by rw [← e2, a2, e4], by rw [e4]; exact q1,
        fun h => by rw [e4]; exact q2 hne h, hloop _ _ hpass (by simp)⟩
    · rw [if_neg c3, e3, k3] at hpass
      exact ⟨some false, l', body, hpass, by simp, by rw [← e2, a2, e4], by rw [e4]; exact q1,
        fun h => by rw [e4]; exact q2 hne h, hloop _ _ hpass (by simp)⟩

theorem response_head_framing (env : Env) (lstn : LISTENER) (ssl : Option SSL)
    (backend : BACKEND) (l : Locals) (hs : List (List Char))
    (hte : ∀ h ∈ hs.tail, is_chunked_encoding env h = false) :
    (response_head env lstn ssl backend l hs).chunked = false ∧
    (response_head env lstn ssl backend l hs).no_cont
      = (l.no_cont || env.RESP_IGN (hs.headD [])) ∧
    ((∀ h ∈ hs.tail, (env.check_header h).1 ≠ HEADER_CONTENT_LENGTH) →
      (response_head env lstn ssl backend l hs).cont = -1) ∧
    (∀ pre clh post, hs.tail = pre ++ clh :: post →
      (env.check_header clh).1 = HEADER_CONTENT_LENGTH →
      (∀ h ∈ post, (env.check_header h).1 ≠ HEADER_CONTENT_LENGTH) →
      (response_head env lstn ssl backend l hs).cont = atol (env.check_header clh).2) := by
  unfold response_head
  simp only []
  obtain ⟨n1, n2⟩ := response_headers_not_chunked env lstn ssl backend hs.tail
    { l with response := hs.headD [],
             be_11 := decide ((hs.headD []).get? 7 = some '1'),
             skip := env.RESP_SKIP (hs.headD []),
             no_cont := if l.no_cont = false ∧ env.RESP_IGN (hs.headD []) then true
               else l.no_cont,
             chunked := false, cont := -1 } hte
  refine ⟨n2, ?_, ?_, ?_⟩
  · rw [n1]
    simp only []
    cases l.no_cont <;> cases env.RESP_IGN (hs.headD []) <;> simp
  · intro hno
    rw [response_headers_cont env lstn ssl backend hs.tail _ hno]
  · intro pre clh post ht hcl hpost
    rw [ht, response_headers_length_seen env lstn ssl backend pre clh post _ hcl hpost]

theorem thr_http_response_body_skip_unframed (env : Env) (be : BIO) (l : Locals)
    (hskip : l.skip = true) (hch : l.chunked = false) (hcont : l.cont < 0)
    (hacc : l.cl.snk.accepts) :
    thr_http_response_body env be l
      = some (true, { l with cl := { l.cl with snk := l.cl.snk.flush.2 } }) := by
  obtain ⟨f1, f2, f3⟩ := Sink.flush_accepts l.cl.snk hacc
  have h2 : ¬ (l.cont ≥ 0) := by omega
  unfold thr_http_response_body
  simp only [hch, hskip, h2, Bool.false_eq_true, and_false, if_false, Bool.true_eq_false, f1,
    decide_True]

theorem thr_http_response_body_skip_length (env : Env) (be : BIO) (l : Locals)
    (hskip : l.skip = true) (hch : l.chunked = false) (hcont : 0 ≤ l.cont)
    (hbuf : 0 < env.MAXBUF) (hin : l.cont ≤ be.src.inp.length) (hr : be.src.readsPositive)
    (hacc : l.cl.snk.accepts) :
    ∃ l' src', thr_http_response_body env be l = some (true, l') ∧
      l'.cl.snk.out = l.cl.snk.out ∧ l'.cl.snk.accepts ∧ l'.skip = true ∧
      l'.be = some { be with src := src' } ∧ src'.inp = be.src.inp.drop l.cont.toNat := by
  obtain ⟨cl', be', rb', e1, e2, e3, e4, e5⟩ := copy_bin_loop_drains env.MAXBUF hbuf
    (l.cont.toNat + 1) be.src l.cl.snk l.cont (some l.res_bytes) hcont (by omega) hin hr hacc
  obtain ⟨f1, f2, f3⟩ := Sink.flush_accepts be' e5
  have h2 : l.cont ≥ 0 := hcont
  unfold thr_http_response_body
  simp only [hch, hskip, h2, Bool.false_eq_true, and_false, if_false, if_true, copy_bin, e1,
    ne_eq, not_true_eq_false, Option.getD_some, f1, decide_True]
  exact ⟨_, cl', rfl, by simp only []; rw [f2, e2], f3, rfl, rfl, e3⟩

/-- A pass whose status line matches `RESP_SKIP`, with no `Content-Length` and
no `Transfer-Encoding: chunked` among the headers, on a client channel that
accepts: the pass goes through with `skip` set, the client channel holds what
it had, and the back-end channel stands right behind the head that was
skipped. -/
theorem response_pass_skipped_through (env : Env) (lstn : LISTENER) (ssl : Option SSL)
    (backend : BACKEND) (l0 : Locals) (be : BIO) (r : HeadersResult) (hs : List (List Char))
    (hbe : l0.be = some be)
    (hr : get_headers env.MAXBUF env.MAXHEADERS lstn be.src l0.cl.snk = some r)
    (hh : r.headers = some hs) (hskip : env.RESP_SKIP (hs.headD []) = true)
    (hacc : l0.cl.snk.accepts)
    (hte : ∀ h ∈ hs.tail, is_chunked_encoding env h = false)
    (hno : ∀ h ∈ hs.tail, (env.check_header h).1 ≠ HEADER_CONTENT_LENGTH) :
    ∃ l1, response_pass env lstn ssl backend l0 = some (some true, l1) ∧
      l1.cl.snk.out = l0.cl.snk.out ∧ l1.cl.snk.accepts ∧
      l1.be = some { be with src := r.inp } := by
  have hcl := get_headers_some_cl _ _ _ _ _ r hs hr hh
  obtain ⟨g1, g2, g3, g4⟩ := response_head_keeps env lstn ssl backend
    { l0 with be := some { be with src := r.inp }, cl := { l0.cl with snk := r.cl } } hs
  obtain ⟨m1, m2, m3, -⟩ := response_head_framing env lstn ssl backend
    { l0 with be := some { be with src := r.inp }, cl := { l0.cl with snk := r.cl } } hs hte
  have m3 := m3 hno
  obtain ⟨a1, a2, a3⟩ := send_response_head_accepts
    (response_head env lstn ssl backend
      { l0 with be := some { be with src := r.inp }, cl := { l0.cl with snk := r.cl } } hs)
    (by rw [g2]; simp only []; rw [hcl]; exact hacc)
  have hloc := send_response_head_locals (response_head env lstn ssl backend
      { l0 with be := some { be with src := r.inp }, cl := { l0.cl with snk := r.cl } } hs)
  have hpass := response_pass_eq env lstn ssl backend l0 be r hs hbe hr hh _ rfl
  rw [g3, hskip, g2] at a2
  simp only [if_true, List.append_nil] at a2
  generalize send_response_head (response_head env lstn ssl backend
      { l0 with be := some { be with src := r.inp }, cl := { l0.cl with snk := r.cl } } hs) = s
    at hpass a1 a2 a3 hloc
  rw [hcl] at a2
  have hsk : s.2.skip = true := by rw [hloc]; simp only []; rw [g3, hskip]
  have hsbe : s.2.be = some { be with src := r.inp } := by rw [hloc]; simp only []; rw [g1]
  have hsch : s.2.chunked = false := by rw [hloc]; exact m1
  have hsco : s.2.cont < 0 := by
    have : s.2.cont = -1 := by rw [hloc]; exact m3
    omega
  have c1 : ¬ (s.1 = false) := by rw [a1]; simp
  rw [if_neg c1] at hpass
  by_cases c2 : s.2.no_cont = true
  · rw [if_pos c2, hsk] at hpass
    exact ⟨s.2, hpass, a2, a3, hsbe⟩
  · rw [if_neg c2, thr_http_response_body_skip_unframed env _ s.2 hsk hsch hsco a3] at hpass
    simp only [Bool.true_eq_false, if_false, hsk] at hpass
    obtain ⟨f1, f2, f3⟩ := Sink.flush_accepts s.2.cl.snk a3
    exact ⟨_, hpass, by simp only []; rw [f2, a2], f3, hsbe⟩

/-- A pass whose status line matches `RESP_SKIP`, with a `Content-Length` of
`N` octets and no `Transfer-Encoding: chunked`, `no_cont` clear, on a back-end
channel that delivers `N` octets behind the head and a client channel that
accepts: the pass goes through with `skip` set, the `N` octets of the body are
read, none of them is written, and the back-end channel stands behind them. -/
theorem response_pass_skipped_body (env : Env) (lstn : LISTENER) (ssl : Option SSL)
    (backend : BACKEND) (l0 : Locals) (be : BIO) (r : HeadersResult) (hs : List (List Char))
    (pre : List (List Char)) (clh : List Char) (post : List (List Char)) (N : Int)
    (hbe : l0.be = some be)
    (hr : get_headers env.MAXBUF env.MAXHEADERS lstn be.src l0.cl.snk = some r)
    (hh : r.headers = some hs) (hskip : env.RESP_SKIP (hs.headD []) = true)
    (hacc : l0.cl.snk.accepts)
    (hte : ∀ h ∈ hs.tail, is_chunked_encoding env h = false)
    (htail : hs.tail = pre ++ clh :: post)
    (hcl : (env.check_header clh).1 = HEADER_CONTENT_LENGTH)
    (hN : atol (env.check_header clh).2 = N) (hpos : 0 ≤ N)
    (hpost : ∀ h ∈ post, (env.check_header h).1 ≠ HEADER_CONTENT_LENGTH)
    (hnc : l0.no_cont = false) (hign : env.RESP_IGN (hs.headD []) = false)
    (hbuf : 0 < env.MAXBUF) (hin : N ≤ r.inp.inp.length) (hrp : r.inp.readsPositive) :
    ∃ l1 src1, response_pass env lstn ssl backend l0 = some (some true, l1) ∧
      l1.cl.snk.out = l0.cl.snk.out ∧ l1.cl.snk.accepts ∧
      l1.be = some { be with src := src1 } ∧ src1.inp = r.inp.inp.drop N.toNat := by
  have hcl' := get_headers_some_cl _ _ _ _ _ r hs hr hh
  obtain ⟨g1, g2, g3, g4⟩ := response_head_keeps env lstn ssl backend
    { l0 with be := some { be with src := r.inp }, cl := { l0.cl with snk := r.cl } } hs
  obtain ⟨m1, m2, -, m4⟩ := response_head_framing env lstn ssl backend
    { l0 with be := some { be with src := r.inp }, cl := { l0.cl with snk := r.cl } } hs hte
  have m4 := m4 pre clh post htail hcl hpost
  rw [hN] at m4
  have m2' : (response_head env lstn ssl backend
      { l0 with be := some { be with src := r.inp }, cl := { l0.cl with snk := r.cl } }
      hs).no_cont = false := by
    rw [m2]
    show (l0.no_cont || env.RESP_IGN (hs.headD [])) = false
    rw [hnc, hign]
    rfl
  obtain ⟨a1, a2, a3⟩ := send_response_head_accepts
    (response_head env lstn ssl backend
      { l0 with be := some { be with src := r.inp }, cl := { l0.cl with snk := r.cl } } hs)
    (by rw [g2]; simp only []; rw [hcl']; exact hacc)
  have hloc := send_response_head_locals (response_head env lstn ssl backend
      { l0 with be := some { be with src := r.inp }, cl := { l0.cl with snk := r.cl } } hs)
  have hpass := response_pass_eq env lstn ssl backend l0 be r hs hbe hr hh _ rfl
  rw [g3, hskip, g2] at a2
  simp only [if_true, List.append_nil] at a2
  generalize send_response_head (response_head env lstn ssl backend
      { l0 with be := some { be with src := r.inp }, cl := { l0.cl with snk := r.cl } } hs) = s
    at hpass a1 a2 a3 hloc
  rw [hcl'] at a2
  have hsk : s.2.skip = true := by rw [hloc]; simp only []; rw [g3, hskip]
  have hsch : s.2.chunked = false := by rw [hloc]; exact m1
  have hsco : s.2.cont = N := by rw [hloc]; exact m4
  have hsnc : s.2.no_cont = false := by rw [hloc]; exact m2'
  have c1 : ¬ (s.1 = false) := by rw [a1]; simp
  have c2 : ¬ (s.2.no_cont = true) := by rw [hsnc]; simp
  rw [if_neg c1, if_neg c2] at hpass
  obtain ⟨l', src', e1, e2, e3, e4, e5, e6⟩ := thr_http_response_body_skip_length env
    { be with src := r.inp } s.2 hsk hsch (by rw [hsco]; exact hpos) hbuf
    (by rw [hsco]; exact hin) hrp a3
  rw [e1] at hpass
  simp only [Bool.true_eq_false, if_false, e4] at hpass
  rw [hsco] at e6
  exact ⟨l', src', hpass, e2.trans a2, e3, e5, e6⟩

/-- The loop after a pass that went through with `skip` set: when the next
`get_headers` on the back-end channel returns a head whose status line does
not match `RESP_SKIP`, the loop ends with that pass, and the client channel
holds what it had before the skipped pass, then the head of this response,
then whatever the relay of its body added. -/
theorem thr_http_response_after_skip (env : Env) (lstn : LISTENER) (ssl : Option SSL)
    (backend : BACKEND) (l0 l1 : Locals) (be1 : BIO) (r2 : HeadersResult)
    (hs2 : List (List Char))
    (hpass : response_pass env lstn ssl backend l0 = some (some true, l1))
    (hout : l1.cl.snk.out = l0.cl.snk.out) (hacc : l1.cl.snk.accepts)
    (hbe1 : l1.be = some be1)
    (hr2 : get_headers env.MAXBUF env.MAXHEADERS lstn be1.src l1.cl.snk = some r2)
    (hh2 : r2.headers = some hs2) (hskip2 : env.RESP_SKIP (hs2.headD []) = false) :
    ∃ (o : Option Bool) (l2 : Locals) (body : List Char),
      (∀ fuel, thr_http_response env lstn ssl backend (fuel + 2) l0
        = some (match o with
          | none => .fin .exit l2
          | some _ => .go l2)) ∧
      l2.cl.snk.out = l0.cl.snk.out ++ head_text l2.headers ++ body ∧
      l2.headers.head? = some (hs2.headD []) ∧
      ((∀ h ∈ hs2.tail, (env.check_header h).1 ≠ HEADER_LOCATION ∧
          (env.check_header h).1 ≠ HEADER_CONTLOCATION) → l2.headers = hs2) := by
  obtain ⟨o, l2, body, e1, e2, e3, e4, e5, e6⟩ :=
    response_pass_forwards env lstn ssl backend l1 be1 r2 hs2 hbe1 hr2 hh2 hskip2 hacc
  refine ⟨o, l2, body, ?_, by rw [e3, hout], e4, e5⟩
  intro fuel
  rw [thr_http_response, hpass]
  exact e6 fuel

/-! ### The response loop as a whole -/

theorem copy_bin_loop_discard_accepts (MAXBUF : Nat) :
    ∀ (fuel : Nat) (cl : Source) (s : Sink) (cont : Int) (rb : Option Int) (r : CopyResult),
      copy_bin_loop MAXBUF fuel cl (some s) cont rb true = some r → s.accepts →
      ∃ s', r.be = some s' ∧ s'.accepts := by
  intro fuel
  induction fuel with
  | zero => intro cl s cont rb r h; simp [copy_bin_loop] at h
  | succ fuel ih =>
    intro cl s cont rb r h hacc
    rw [copy_bin_loop] at h
    obtain ⟨f1, f2, f3⟩ := Sink.flush_accepts s hacc
    by_cases hc : cont > 0
    · simp only [hc, if_true, ne_eq, not_true_eq_false, if_false, BIO_flush, f1] at h
      generalize BIO_read cl (if cont > (MAXBUF : Int) then (MAXBUF : Int) else cont) = rd at h
      split_ifs at h with h1 h2
      · cases h; exact ⟨s, rfl, hacc⟩
      · cases h; exact ⟨s, rfl, hacc⟩
      · exact ih _ _ _ _ r h f3
    · simp only [hc, if_false, Option.some.injEq] at h
      subst h
      exact ⟨s, rfl, hacc⟩

theorem copy_chunks_trailers_discard_be (MAXBUF : Nat) :
    ∀ (fuel : Nat) (cl : Source) (be : Option Sink) (rb : Option Int) (r : CopyResult),
      copy_chunks_trailers MAXBUF fuel cl be rb true = some r → r.be = be := by
  intro fuel
  induction fuel with
  | zero => intro cl be rb r h; simp [copy_chunks_trailers] at h
  | succ fuel ih =>
    intro cl be rb r h
    rw [copy_chunks_trailers] at h
    simp only [if_true] at h
    split_ifs at h with h1 h2 h3 h4
    · cases h; rfl
    · cases h; rfl
    · exact absurd rfl h3
    · cases h; rfl
    · exact ih _ _ _ r h

theorem copy_chunks_loop_discard_accepts (MAXBUF : Nat) (CHUNK_HEAD : List Char → Bool)
    (max_size : Int) :
    ∀ (fuel : Nat) (cl : Source) (s : Sink) (rb : Option Int) (tot : Int) (r : CopyResult),
      copy_chunks_loop MAXBUF CHUNK_HEAD max_size true fuel cl (some s) rb tot = some r →
      s.accepts → ∃ s', r.be = some s' ∧ s'.accepts := by
  intro fuel
  induction fuel with
  | zero => intro cl s rb tot r h; simp [copy_chunks_loop] at h
  | succ fuel ih =>
    intro cl s rb tot r h hacc
    rw [copy_chunks_loop] at h
    have h10 : ¬ ((1 : Int) ≤ 0) := by decide
    by_cases h1 : (BIO_gets cl MAXBUF).1 ≤ 0
    · simp only [h1, if_true, Option.some.injEq] at h
      subst h
      exact ⟨s, rfl, hacc⟩
    · by_cases h2 : CHUNK_HEAD (strip_eol (BIO_gets cl MAXBUF).2.1) = false
      · simp only [h1, if_false, h2, if_true, Option.some.injEq] at h
        subst h
        exact ⟨s, rfl, hacc⟩
      · by_cases h3 : max_size > 0 ∧
            wrapLong (tot + strtol (strip_eol (BIO_gets cl MAXBUF).2.1) 16) > max_size
        · simp only [h1, if_false, h2, if_true, h10, h3, and_self, Bool.true_eq_false,
            Option.some.injEq] at h
          subst h
          exact ⟨s, rfl, hacc⟩
        · by_cases h4 : strtol (strip_eol (BIO_gets cl MAXBUF).2.1) 16 > 0
          · simp only [h1, if_false, h2, if_true, h10, h3, h4, copy_bin, Bool.true_eq_false] at h
            split at h
            · exact absurd h (by simp)
            · next r1 e1 =>
              obtain ⟨s1, e2, e3⟩ := copy_bin_loop_discard_accepts MAXBUF _ _ s _ _ r1 e1 hacc
              split_ifs at h with h5 h6
              · cases h; exact ⟨s1, e2, e3⟩
              · cases h; exact ⟨s1, e2, e3⟩
              · rw [e2] at h
                exact ih _ s1 _ _ r h e3
          · simp only [h1, if_false, h2, if_true, h10, h3, h4, Bool.true_eq_false] at h
            have := copy_chunks_trailers_discard_be MAXBUF _ _ _ _ r h
            exact ⟨s, this, hacc⟩

theorem thr_http_response_body_skip_accepts (env : Env) (be : BIO) (l : Locals) (b : Bool)
    (l' : Locals) (h : thr_http_response_body env be l = some (b, l')) (hskip : l.skip = true)
    (hacc : l.cl.snk.accepts) : l'.cl.snk.accepts := by
  unfold thr_http_response_body at h
  simp only [hskip] at h
  by_cases h1 : l.be_11 = true ∧ l.chunked = true
  · rw [if_pos h1] at h
    simp only [copy_chunks] at h
    split at h
    · exact absurd h (by simp)
    · next r e1 =>
      obtain ⟨s', e2, e3⟩ := copy_chunks_loop_discard_accepts env.MAXBUF env.CHUNK_HEAD 0 _ _
        l.cl.snk _ _ r e1 hacc
      rw [e2] at h
      simp only [Option.getD_some] at h
      split_ifs at h
      · simp only [Option.some.injEq, Prod.mk.injEq] at h
        obtain ⟨-, rfl⟩ := h
        exact e3
      · simp only [Option.some.injEq, Prod.mk.injEq] at h
        obtain ⟨-, rfl⟩ := h
        exact (Sink.flush_accepts _ e3).2.2
  · rw [if_neg h1] at h
    by_cases h2 : l.cont ≥ 0
    · rw [if_pos h2] at h
      simp only [copy_bin] at h
      split at h
      · exact absurd h (by simp)
      · next r e1 =>
        obtain ⟨s', e2, e3⟩ := copy_bin_loop_discard_accepts env.MAXBUF _ _ l.cl.snk _ _ r e1 hacc
        rw [e2] at h
        simp only [Option.getD_some] at h
        split_ifs at h
        · simp only [Option.some.injEq, Prod.mk.injEq] at h
          obtain ⟨-, rfl⟩ := h
          exact e3
        · simp only [Option.some.injEq, Prod.mk.injEq] at h
          obtain ⟨-, rfl⟩ := h
          exact (Sink.flush_accepts _ e3).2.2
    · rw [if_neg h2] at h
      simp only [Bool.true_eq_false, if_false, Option.some.injEq, Prod.mk.injEq] at h
      obtain ⟨-, rfl⟩ := h
      exact (Sink.flush_accepts _ hacc).2.2

/-- A pass that goes through: it has read a head, `skip` says whether the
status line matches `RESP_SKIP`, and the back-end channel got shorter. -/
theorem response_pass_some (env : Env) (lstn : LISTENER) (ssl : Option SSL)
    (backend : BACKEND) (l : Locals) (v : Bool) (l1 : Locals)
    (h : response_pass env lstn ssl backend l = some (some v, l1)) :
    ∃ be r hs, l.be = some be ∧
      get_headers env.MAXBUF env.MAXHEADERS lstn be.src l.cl.snk = some r ∧
      r.headers = some hs ∧ pass_head env lstn l = some hs ∧
      v = env.RESP_SKIP (hs.headD []) ∧
      (l.cl.snk.accepts → v = true → l1.cl.snk.accepts) := by
  cases hbe : l.be with
  | none =>
    unfold response_pass at h
    rw [hbe] at h
    simp at h
  | some be =>
    cases hr : get_headers env.MAXBUF env.MAXHEADERS lstn be.src l.cl.snk with
    | none =>
      unfold response_pass at h
      rw [hbe] at h
      simp only [hr] at h
      exact absurd h (by simp)
    | some r =>
      cases hh : r.headers with
      | none =>
        unfold response_pass at h
        rw [hbe] at h
        simp only [hr, hh] at h
        simp at h
      | some hs =>
        have hph : pass_head env lstn l = some hs := by
          unfold pass_head
          rw [hbe]
          simp only [hr, hh]
        have hcl := get_headers_some_cl _ _ _ _ _ r hs hr hh
        obtain ⟨g1, g2, g3, g4⟩ := response_head_keeps env lstn ssl backend
          { l with be := some { be with src := r.inp }, cl := { l.cl with snk := r.cl } } hs
        have hloc := send_response_head_locals (response_head env lstn ssl backend
          { l with be := some { be with src := r.inp }, cl := { l.cl with snk := r.cl } } hs)
        have hsa : l.cl.snk.accepts → (send_response_head (response_head env lstn ssl backend
            { l with be := some { be with src := r.inp }, cl := { l.cl with snk := r.cl } }
            hs)).2.cl.snk.accepts :=
          fun hacc => (send_response_head_accepts _
            (by rw [g2]; simp only []; rw [hcl]; exact hacc)).2.2
        rw [response_pass_eq env lstn ssl backend l be r hs hbe hr hh _ rfl] at h
        generalize send_response_head (response_head env lstn ssl backend
          { l with be := some { be with src := r.inp }, cl := { l.cl with snk := r.cl } } hs) = s
          at h hloc hsa
        have hsk : s.2.skip = env.RESP_SKIP (hs.headD []) := by
          rw [hloc]; exact g3
        have hres : v = s.2.skip ∧ (l.cl.snk.accepts → v = true → l1.cl.snk.accepts) := by
          by_cases c1 : s.1 = false
          · rw [if_pos c1] at h
            simp at h
          · rw [if_neg c1] at h
            by_cases c2 : s.2.no_cont = true
            · rw [if_pos c2] at h
              simp only [Option.some.injEq, Prod.mk.injEq] at h
              obtain ⟨h1, h2⟩ := h
              exact ⟨h1.symm, fun hacc _ => by rw [← h2]; exact hsa hacc⟩
            · rw [if_neg c2] at h
              split at h
              · exact absurd h (by simp)
              · next b hb =>
                have e3 := thr_http_response_body_keeps_skip env _ s.2 b.1 b.2 hb
                by_cases c3 : b.1 = false
                · rw [if_pos c3] at h
                  simp at h
                · rw [if_neg c3] at h
                  simp only [Option.some.injEq, Prod.mk.injEq] at h
                  obtain ⟨h1, h2⟩ := h
                  refine ⟨by rw [← h1, e3], fun hacc hv => ?_⟩
                  rw [← h2]
                  refine thr_http_response_body_skip_accepts env _ s.2 b.1 b.2 hb ?_
                    (hsa hacc)
                  rw [← e3, h1, hv]
        exact ⟨be, r, hs, rfl, hr, hh, hph, by rw [hres.1, hsk], hres.2⟩

theorem response_pass_total (env : Env) (lstn : LISTENER) (ssl : Option SSL)
    (backend : BACKEND) (l : Locals) :
    ∃ p, response_pass env lstn ssl backend l = some p := by
  cases hbe : l.be with
  | none =>
    unfold response_pass
    rw [hbe]
    exact ⟨_, rfl⟩
  | some be =>
    obtain ⟨r, hr⟩ := get_headers_total env.MAXBUF env.MAXHEADERS lstn be.src l.cl.snk
    cases hh : r.headers with
    | none =>
      unfold response_pass
      rw [hbe]
      simp only [hr, hh]
      exact ⟨_, rfl⟩
    | some hs =>
      rw [response_pass_eq env lstn ssl backend l be r hs hbe hr hh _ rfl]
      split_ifs
      · exact ⟨_, rfl⟩
      · exact ⟨_, rfl⟩
      · obtain ⟨b, l', e1, -⟩ := thr_http_response_body_total env { be with src := r.inp }
          (send_response_head (response_head env lstn ssl backend
            { l with be := some { be with src := r.inp }, cl := { l.cl with snk := r.cl } }
            hs)).2
        rw [e1]
        simp only []
        split_ifs <;> exact ⟨_, rfl⟩

/-- The response loop always ends: every pass that goes through with `skip`
set has used up at least one octet of the back-end channel, so one unit of
fuel per octet and one more are never used up. -/
theorem thr_http_response_total (env : Env) (lstn : LISTENER) (ssl : Option SSL)
    (backend : BACKEND) :
    ∀ (fuel : Nat) (l : Locals), 0 < fuel →
      (∀ be, l.be = some be → be.src.inp.length < fuel) →
      ∃ s, thr_http_response env lstn ssl backend fuel l = some s := by
  intro fuel
  induction fuel with
  | zero => intro l h; omega
  | succ fuel ih =>
    intro l _ hlen
    obtain ⟨p, hp⟩ := response_pass_total env lstn ssl backend l
    obtain ⟨o, l1⟩ := p
    rw [thr_http_response, hp]
    cases o with
    | none => exact ⟨_, rfl⟩
    | some v =>
      cases v with
      | false => exact ⟨_, rfl⟩
      | true =>
        simp only []
        obtain ⟨be, r, hs, hbe, hr, hh, -, hv, -⟩ :=
          response_pass_some env lstn ssl backend l true l1 hp
        obtain ⟨o', l1', e1, -, -, e4⟩ :=
          (response_pass_skipped env lstn ssl backend l be r hs hbe hr hh).1 hv.symm
        rw [hp] at e1
        simp only [Option.some.injEq, Prod.mk.injEq] at e1
        obtain ⟨rfl, rfl⟩ := e1
        obtain ⟨-, be1, hbe1, hlt⟩ := e4 rfl
        have hl := hlen be hbe
        refine ih l1 (by omega) ?_
        intro b hb
        rw [hbe1] at hb
        cases hb
        omega

/-- The response loop from a client channel that accepts, when it ends with the
round going on: the heads it read are heads whose status line matches
`RESP_SKIP` and then one whose status line does not; the client channel holds
what it had, then that last head, then what the relay of its body added, and
nothing of the heads and bodies that were skipped. -/
theorem thr_http_response_forwards_last (env : Env) (lstn : LISTENER) (ssl : Option SSL)
    (backend : BACKEND) :
    ∀ (fuel : Nat) (l l' : Locals),
      thr_http_response env lstn ssl backend fuel l = some (.go l') → l.cl.snk.accepts →
      ∃ (skipped : List (List (List Char))) (last : List (List Char)) (body : List Char),
        loop_heads env lstn ssl backend fuel l = skipped ++ [last] ∧
        (∀ hs ∈ skipped, env.RESP_SKIP (hs.headD []) = true) ∧
        env.RESP_SKIP (last.headD []) = false ∧
        l'.cl.snk.out = l.cl.snk.out ++ head_text l'.headers ++ body ∧
        l'.headers.head? = some (last.headD []) ∧
        ((∀ h ∈ last.tail, (env.check_header h).1 ≠ HEADER_LOCATION ∧
            (env.check_header h).1 ≠ HEADER_CONTLOCATION) → l'.headers = last) := by
  intro fuel
  induction fuel with
  | zero => intro l l' h; simp [thr_http_response] at h
  | succ fuel ih =>
    intro l l' h hacc
    rw [thr_http_response] at h
    rw [loop_heads]
    cases hp : response_pass env lstn ssl backend l with
    | none => rw [hp] at h; exact absurd h (by simp)
    | some p =>
      obtain ⟨o, l1⟩ := p
      rw [hp] at h
      cases o with
      | none => simp at h
      | some v =>
        obtain ⟨be, r, hs, hbe, hr, hh, hph, hv, hacc1⟩ :=
          response_pass_some env lstn ssl backend l v l1 hp
        rw [hph]
        cases v with
        | false =>
          simp only [Option.some.injEq, Step.go.injEq] at h
          subst h
          obtain ⟨o', l1', body, e1, -, e3, e4, e5, -⟩ :=
            response_pass_forwards env lstn ssl backend l be r hs hbe hr hh hv.symm hacc
          rw [hp] at e1
          simp only [Option.some.injEq, Prod.mk.injEq] at e1
          obtain ⟨-, rfl⟩ := e1
          exact ⟨[], hs, body, by simp, by simp, hv.symm, e3, e4, e5⟩
        | true =>
          simp only [] at h ⊢
          obtain ⟨o', l1', e1, e2, -, -⟩ :=
            (response_pass_skipped env lstn ssl backend l be r hs hbe hr hh).1 hv.symm
          rw [hp] at e1
          simp only [Option.some.injEq, Prod.mk.injEq] at e1
          obtain ⟨-, rfl⟩ := e1
          obtain ⟨skipped, last, body, i1, i2, i3, i4, i5, i6⟩ := ih l1 l' h (hacc1 hacc rfl)
          refine ⟨hs :: skipped, last, body, ?_, ?_, i3, by rw [i4, e2], i5, i6⟩
          · rw [i1]
            simp
          · intro x hx
            rcases List.mem_cons.mp hx with rfl | hx
            · exact hv.symm
            · exact i2 x hx

/-- C16: take a pass of the response loop in which `get_headers` returns the
head of a response.

When the status line matches `RESP_SKIP` (100 Continue) the pass always comes
to an end and leaves the output of the client channel exactly as it was,
whatever the head and the body are and however the pass ends: no head line is
written and what is read as body is read with the discard flag.

When moreover the client channel accepts what is done to it and the head has
no `Content-Length` and no `Transfer-Encoding: chunked`, as an interim
response has none, the pass goes through: the loop goes on with a further
`get_headers` on the back-end channel right behind the skipped head.  With a
`Content-Length` of `N` octets, `no_cont` clear and a back-end channel that
delivers the `N` octets, the pass goes through as well, with the back-end
channel behind the body, of which nothing is written.  In both cases, when that
further `get_headers` returns a head whose status line does not match
`RESP_SKIP`, the loop ends with it: the client channel holds what it had
before the skipped response, then this head, status line first (line for
line the head that was read when no header is a `Location` or
`Content-Location`), then what the relay of the body added.

When the status line of the first head already does not match `RESP_SKIP`, a
client channel that accepts gets that head in the same way and the loop ends
with this pass.

The loop as a whole always ends, given one unit of fuel per octet of the
back-end channel and one more.  When it ends with the round going on, from a
client channel that accepts, the heads it read, this head first, are heads
whose status line matches `RESP_SKIP`, any number of them, and then one whose
status line does not; the client channel holds what it had, then that last
head, then what the relay of its body added. -/
theorem skipped_response_not_forwarded (env : Env) (lstn : LISTENER) (ssl : Option SSL)
    (backend : BACKEND) (l0 : Locals) (be : BIO) (r : HeadersResult) (hs : List (List Char))
    (hbe : l0.be = some be)
    (hr : get_headers env.MAXBUF env.MAXHEADERS lstn be.src l0.cl.snk = some r)
    (hh : r.headers = some hs) :
    (env.RESP_SKIP (hs.headD []) = true →
      ∃ o l1, response_pass env lstn ssl backend l0 = some (o, l1) ∧
        l1.cl.snk.out = l0.cl.snk.out ∧ (o = none ∨ o = some true) ∧
        (o = some true →
          (∀ fuel, thr_http_response env lstn ssl backend (fuel + 1) l0
            = thr_http_response env lstn ssl backend fuel l1) ∧
          ∃ be1, l1.be = some be1 ∧ be1.src.inp.length < be.src.inp.length)) ∧
    (env.RESP_SKIP (hs.headD []) = true → l0.cl.snk.accepts →
      (∀ h ∈ hs.tail, is_chunked_encoding env h = false) →
      (∀ h ∈ hs.tail, (env.check_header h).1 ≠ HEADER_CONTENT_LENGTH) →
      ∃ l1, response_pass env lstn ssl backend l0 = some (some true, l1) ∧
        l1.cl.snk.out = l0.cl.snk.out ∧ l1.cl.snk.accepts ∧
        l1.be = some { be with src := r.inp } ∧
        (∀ fuel, thr_http_response env lstn ssl backend (fuel + 1) l0
          = thr_http_response env lstn ssl backend fuel l1) ∧
        ∀ r2 hs2, get_headers env.MAXBUF env.MAXHEADERS lstn r.inp l1.cl.snk = some r2 →
          r2.headers = some hs2 → env.RESP_SKIP (hs2.headD []) = false →
          ∃ (o : Option Bool) (l2 : Locals) (body : List Char),
            (∀ fuel, thr_http_response env lstn ssl backend (fuel + 2) l0
              = some (match o with
                | none => .fin .exit l2
                | some _ => .go l2)) ∧
            l2.cl.snk.out = l0.cl.snk.out ++ head_text l2.headers ++ body ∧
            l2.headers.head? = some (hs2.headD []) ∧
            ((∀ h ∈ hs2.tail, (env.check_header h).1 ≠ HEADER_LOCATION ∧
                (env.check_header h).1 ≠ HEADER_CONTLOCATION) → l2.headers = hs2)) ∧
    (∀ (pre : List (List Char)) (clh : List Char) (post : List (List Char)) (N : Int),
      env.RESP_SKIP (hs.headD []) = true → l0.cl.snk.accepts →
      (∀ h ∈ hs.tail, is_chunked_encoding env h = false) →
      hs.tail = pre ++ clh :: post → (env.check_header clh).1 = HEADER_CONTENT_LENGTH →
      atol (env.check_header clh).2 = N → 0 ≤ N →
      (∀ h ∈ post, (env.check_header h).1 ≠ HEADER_CONTENT_LENGTH) →
      l0.no_cont = false → env.RESP_IGN (hs.headD []) = false → 0 < env.MAXBUF →
      N ≤ r.inp.inp.length → r.inp.readsPositive →
      ∃ l1 src1, response_pass env lstn ssl backend l0 = some (some true, l1) ∧
        l1.cl.snk.out = l0.cl.snk.out ∧ l1.cl.snk.accepts ∧
        l1.be = some { be with src := src1 } ∧
        src1.inp = r.inp.inp.drop N.toNat ∧
        (∀ fuel, thr_http_response env lstn ssl backend (fuel + 1) l0
          = thr_http_response env lstn ssl backend fuel l1) ∧
        ∀ r2 hs2, get_headers env.MAXBUF env.MAXHEADERS lstn src1 l1.cl.snk = some r2 →
          r2.headers = some hs2 → env.RESP_SKIP (hs2.headD []) = false →
          ∃ (o : Option Bool) (l2 : Locals) (body : List Char),
            (∀ fuel, thr_http_response env lstn ssl backend (fuel + 2) l0
              = some (match o with
                | none => .fin .exit l2
                | some _ => .go l2)) ∧
            l2.cl.snk.out = l0.cl.snk.out ++ head_text l2.headers ++ body ∧
            l2.headers.head? = some (hs2.headD []) ∧
            ((∀ h ∈ hs2.tail, (env.check_header h).1 ≠ HEADER_LOCATION ∧
                (env.check_header h).1 ≠ HEADER_CONTLOCATION) → l2.headers = hs2)) ∧
    (env.RESP_SKIP (hs.headD []) = false → l0.cl.snk.accepts →
      ∃ (o : Option Bool) (l1 : Locals) (body : List Char),
        response_pass env lstn ssl backend l0 = some (o, l1) ∧ o ≠ some true ∧
        l1.cl.snk.out = l0.cl.snk.out ++ head_text l1.headers ++ body ∧
        l1.headers.head? = some (hs.headD []) ∧
        ((∀ h ∈ hs.tail, (env.check_header h).1 ≠ HEADER_LOCATION ∧
            (env.check_header h).1 ≠ HEADER_CONTLOCATION) → l1.headers = hs) ∧
        ∀ fuel, thr_http_response env lstn ssl backend (fuel + 1) l0
          = some (match o with
            | none => .fin .exit l1
            | some _ => .go l1)) ∧
    (∀ fuel, be.src.inp.length < fuel →
      ∃ s, thr_http_response env lstn ssl backend fuel l0 = some s) ∧
    (∀ fuel l', thr_http_response env lstn ssl backend fuel l0 = some (.go l') →
      l0.cl.snk.accepts →
      ∃ (skipped : List (List (List Char))) (last : List (List Char)) (body : List Char),
        loop_heads env lstn ssl backend fuel l0 = skipped ++ [last] ∧
        (skipped ++ [last]).head? = some hs ∧
        (∀ hs1 ∈ skipped, env.RESP_SKIP (hs1.headD []) = true) ∧
        env.RESP_SKIP (last.headD []) = false ∧
        l'.cl.snk.out = l0.cl.snk.out ++ head_text l'.headers ++ body ∧
        l'.headers.head? = some (last.headD []) ∧
        ((∀ h ∈ last.tail, (env.check_header h).1 ≠ HEADER_LOCATION ∧
            (env.check_header h).1 ≠ HEADER_CONTLOCATION) → l'.headers = last)) := by
  have hstep : ∀ l1, response_pass env lstn ssl backend l0 = some (some true, l1) →
      ∀ fuel, thr_http_response env lstn ssl backend (fuel + 1) l0
        = thr_http_response env lstn ssl backend fuel l1 := by
    intro l1 hp fuel
    rw [thr_http_response, hp]
  refine ⟨(response_pass_skipped env lstn ssl backend l0 be r hs hbe hr hh).1, ?_, ?_,
    response_pass_forwards env lstn ssl backend l0 be r hs hbe hr hh, ?_, ?_⟩
  · intro hskip hacc hte hno
    obtain ⟨l1, e1, e2, e3, e4⟩ := response_pass_skipped_through env lstn ssl backend l0 be r hs
      hbe hr hh hskip hacc hte hno
    refine ⟨l1, e1, e2, e3, e4, hstep l1 e1, ?_⟩
    intro r2 hs2 hr2 hh2 hskip2
    exact thr_http_response_after_skip env lstn ssl backend l0 l1 { be with src := r.inp } r2 hs2
      e1 e2 e3 e4 hr2 hh2 hskip2
  · intro pre clh post N hskip hacc hte htail hcl hN hpos hpost hnc hign hbuf hin hrp
    obtain ⟨l1, src1, e1, e2, e3, e4, e5⟩ := response_pass_skipped_body env lstn ssl backend l0
      be r hs pre clh post N hbe hr hh hskip hacc hte htail hcl hN hpos hpost hnc hign hbuf hin hrp
    refine ⟨l1, src1, e1, e2, e3, e4, e5, hstep l1 e1, ?_⟩
    intro r2 hs2 hr2 hh2 hskip2
    exact thr_http_response_after_skip env lstn ssl backend l0 l1 { be with src := src1 } r2 hs2
      e1 e2 e3 e4 hr2 hh2 hskip2
  · intro fuel hlen
    refine thr_http_response_total env lstn ssl backend fuel l0 (by omega) ?_
    intro b hb
    rw [hbe] at hb
    cases hb
    exact hlen
  · intro fuel l' hloop hacc
    obtain ⟨skipped, last, body, i1, i2, i3, i4, i5, i6⟩ :=
      thr_http_response_forwards_last env lstn ssl backend fuel l0 l' hloop hacc
    refine ⟨skipped, last, body, i1, ?_, i2, i3, i4, i5, i6⟩
    rw [← i1]
    cases fuel with
    | zero => simp [thr_http_response] at hloop
    | succ fuel =>
      have hph : pass_head env lstn l0 = some hs := by
        unfold pass_head
        rw [hbe]
        simp only [hr, hh]
      rw [loop_heads, hph]
      rfl

/-- The theorem above on concrete responses.  In `sample_env` the status 100
also matches `RESP_IGN`, so `no_cont` is set when the 200 is read and the
octets `hi` stay on the back-end channel; in `body_env` the three octets
behind the skipped head are read as its body and dropped. -/
theorem skipped_response_not_forwarded_witness :
    (∃ l1, response_pass sample_env sample_lstn none sample_backend
          (get_sent_locals interim_server_then_ok) = some (some true, l1) ∧
        l1.cl.snk.out = (get_sent_locals interim_server_then_ok).cl.snk.out ∧
        l1.cl.snk.accepts ∧
        l1.be = some { src := { inp := "HTTP/1.1 200 OK\r\nContent-Length: 2\r\n\r\nhi".toList },
                       snk := get_sent_sink } ∧
        (∀ fuel, thr_http_response sample_env sample_lstn none sample_backend (fuel + 1)
            (get_sent_locals interim_server_then_ok)
          = thr_http_response sample_env sample_lstn none sample_backend fuel l1) ∧
        ∀ r2 hs2, get_headers sample_env.MAXBUF sample_env.MAXHEADERS sample_lstn
            { inp := "HTTP/1.1 200 OK\r\nContent-Length: 2\r\n\r\nhi".toList } l1.cl.snk = some r2 →
          r2.headers = some hs2 → sample_env.RESP_SKIP (hs2.headD []) = false →
          ∃ (o : Option Bool) (l2 : Locals) (body : List Char),
            (∀ fuel, thr_http_response sample_env sample_lstn none sample_backend (fuel + 2)
                (get_sent_locals interim_server_then_ok)
              = some (match o with
                | none => .fin .exit l2
                | some _ => .go l2)) ∧
            l2.cl.snk.out = (get_sent_locals interim_server_then_ok).cl.snk.out
              ++ head_text l2.headers ++ body ∧
            l2.headers.head? = some (hs2.headD []) ∧
            ((∀ h ∈ hs2.tail, (sample_env.check_header h).1 ≠ HEADER_LOCATION ∧
                (sample_env.check_header h).1 ≠ HEADER_CONTLOCATION) → l2.headers = hs2)) ∧
    (thr_http_response sample_env sample_lstn none sample_backend 3
        (get_sent_locals interim_server_then_ok)).map
      (fun s => match s with
        | .go l => some (l.headers, l.cl.snk.out)
        | .fin _ _ => none)
      = some (some (["HTTP/1.1 200 OK".toList, "Content-Length: 2".toList],
          "HTTP/1.1 200 OK\r\nContent-Length: 2\r\n\r\n".toList)) ∧
    loop_heads sample_env sample_lstn none sample_backend 3
        (get_sent_locals interim_server_then_ok)
      = [["HTTP/1.1 100 Continue".toList, "Server: x".toList],
         ["HTTP/1.1 200 OK".toList, "Content-Length: 2".toList]] ∧
    (∃ l1 src1, response_pass body_env sample_lstn none sample_backend
          (get_sent_locals interim_body_then_ok) = some (some true, l1) ∧
        l1.cl.snk.out = (get_sent_locals interim_body_then_ok).cl.snk.out ∧
        l1.cl.snk.accepts ∧
        l1.be = some { src := src1, snk := get_sent_sink } ∧
        src1.inp = ("abcHTTP/1.1 200 OK\r\nContent-Length: 2\r\n\r\nhi".toList).drop (3 : Int).toNat) ∧
    (thr_http_response body_env sample_lstn none sample_backend 3
        (get_sent_locals interim_body_then_ok)).map
      (fun s => match s with
        | .go l => some (l.headers, l.cl.snk.out)
        | .fin _ _ => none)
      = some (some (["HTTP/1.1 200 OK".toList, "Content-Length: 2".toList],
          "HTTP/1.1 200 OK\r\nContent-Length: 2\r\n\r\nhi".toList)) ∧
    (∃ (o : Option Bool) (l1 : Locals) (body : List Char),
        response_pass sample_env sample_lstn none sample_backend
          (get_sent_locals "HTTP/1.1 200 OK\r\nContent-Length: 2\r\n\r\nhi") = some (o, l1) ∧
        o ≠ some true ∧
        l1.cl.snk.out = (get_sent_locals "HTTP/1.1 200 OK\r\nContent-Length: 2\r\n\r\nhi").cl.snk.out
          ++ head_text l1.headers ++ body ∧
        l1.headers.head? = some "HTTP/1.1 200 OK".toList) :=
  ⟨(skipped_response_not_forwarded sample_env sample_lstn none sample_backend
      (get_sent_locals interim_server_then_ok)
      { src := { inp := interim_server_then_ok.toList }, snk := get_sent_sink }
      ⟨some ["HTTP/1.1 100 Continue".toList, "Server: x".toList],
        { inp := "HTTP/1.1 200 OK\r\nContent-Length: 2\r\n\r\nhi".toList }, ⟨[], [], []⟩⟩
      ["HTTP/1.1 100 Continue".toList, "Server: x".toList] rfl (by decide) rfl).2.1
      (by decide) (by decide) (by decide) (by decide),
   by decide,
   by decide,
   (fun ⟨l1, src1, e1, e2, e3, e4, e5, _⟩ => ⟨l1, src1, e1, e2, e3, e4, e5⟩)
    ((skipped_response_not_forwarded body_env sample_lstn none sample_backend
      (get_sent_locals interim_body_then_ok)
      { src := { inp := interim_body_then_ok.toList }, snk := get_sent_sink }
      ⟨some ["HTTP/1.1 100 Continue".toList, "Content-Length: 3".toList],
        { inp := "abcHTTP/1.1 200 OK\r\nContent-Length: 2\r\n\r\nhi".toList }, ⟨[], [], []⟩⟩
      ["HTTP/1.1 100 Continue".toList, "Content-Length: 3".toList] rfl (by decide) rfl).2.2.1
      [] "Content-Length: 3".toList [] 3
      (by decide) (by decide) (by decide) (by decide) (by decide) (by decide) (by decide)
      (by decide) (by decide) (by decide) (by decide) (by decide) (by decide)),
   by decide,
   (fun ⟨o, l1, body, e1, e2, e3, e4, _⟩ => ⟨o, l1, body, e1, e2, e3, e4⟩)
    ((skipped_response_not_forwarded sample_env sample_lstn none sample_backend
      (get_sent_locals "HTTP/1.1 200 OK\r\nContent-Length: 2\r\n\r\nhi")
      { src := { inp := "HTTP/1.1 200 OK\r\nContent-Length: 2\r\n\r\nhi".toList },
        snk := get_sent_sink }
      ⟨some ["HTTP/1.1 200 OK".toList, "Content-Length: 2".toList], { inp := "hi".toList },
        ⟨[], [], []⟩⟩
      ["HTTP/1.1 200 OK".toList, "Content-Length: 2".toList] rfl (by decide) rfl).2.2.2.1
      (by decide) (by decide))⟩

/-! ### `cl_11` and the request line through a round -/

theorem request_header_client (env : Env) (lstn : LISTENER) (l : Locals) (h : List Char) :
    (request_header env lstn l h).1.cl_11 = l.cl_11 ∧
      (request_header env lstn l h).1.request = l.request := by
  unfold request_header
  simp only []
  cases hk : (env.check_header h).1 <;> simp only [] <;> (try split) <;> (try split) <;>
    (try split) <;> simp_all

theorem request_headers_client (env : Env) (lstn : LISTENER) :
    ∀ (hs : List (List Char)) (l : Locals),
      (request_headers env lstn l hs).1.cl_11 = l.cl_11 ∧
        (request_headers env lstn l hs).1.request = l.request
  | [], l => by simp [request_headers]
  | h :: hs, l => by
    rw [request_headers]
    obtain ⟨a1, a2⟩ := request_headers_client env lstn hs (request_header env lstn l h).1
    obtain ⟨b1, b2⟩ := request_header_client env lstn l h
    exact ⟨a1.trans b1, a2.trans b2⟩

theorem thr_http_classify_client (env : Env) (lstn : LISTENER) (l l2 : Locals)
    (h : thr_http_classify env lstn l = .go l2) :
    l2.cl_11 = l.cl_11 ∧ l2.request = l.request := by
  unfold thr_http_classify at h
  simp only [] at h
  split at h
  · cases h
  · cases h
    exact request_headers_client env lstn _ _

theorem thr_http_backend_client (lstn : LISTENER) (renv : ReqEnv) (l : Locals)
    (backend : BACKEND) (l3 : Locals) (h : thr_http_backend lstn renv l = (some backend, l3)) :
    l3.cl_11 = l.cl_11 ∧ l3.request = l.request := by
  unfold thr_http_backend at h
  simp only [] at h
  repeat' split at h
  all_goals (try (simp only [Prod.mk.injEq, Option.some.injEq, reduceCtorEq, false_and] at h))
  all_goals (try (obtain ⟨rfl, rfl⟩ := h))
  all_goals (try exact ⟨rfl, rfl⟩)

theorem thr_http_send_head_client (env : Env) (lstn : LISTENER) (ssl : Option SSL)
    (backend : BACKEND) (l l' : Locals)
    (h : thr_http_send_head env lstn ssl backend l = .go l') :
    l'.cl_11 = l.cl_11 ∧ l'.request = l.request ∧ l'.conn_closed = l.conn_closed := by
  unfold thr_http_send_head at h
  simp only [] at h
  repeat' split at h
  all_goals (try (cases h))
  all_goals (try exact ⟨rfl, rfl, rfl⟩)

theorem thr_http_send_body_client (env : Env) (lstn : LISTENER) (backend : BACKEND)
    (l l' : Locals) (h : thr_http_send_body env lstn backend l = some (.go l')) :
    l'.cl_11 = l.cl_11 ∧ l'.request = l.request ∧ l'.conn_closed = l.conn_closed := by
  unfold thr_http_send_body at h
  simp only [] at h
  split at h
  · exact absurd h (by simp)
  · repeat' split at h
    all_goals (simp only [Option.some.injEq] at h)
    all_goals (try (cases h))
    all_goals (try exact ⟨rfl, rfl, rfl⟩)

theorem thr_http_read_request_client (env : Env) (lstn : LISTENER) (l l1 : Locals)
    (h : thr_http_read_request env lstn l = some (.go l1)) :
    l1.cl_11 = decide (l1.request.getLast? = some '1') ∧
      l1.request = l1.headers.headD [] := by
  unfold thr_http_read_request at h
  simp only [] at h
  split at h
  · exact absurd h (by simp)
  · split at h
    · simp at h
    · split at h
      · simp at h
      · split at h
        · simp at h
        · simp only [Option.some.injEq, Step.go.injEq] at h
          subst h
          exact ⟨rfl, rfl⟩

/-- The request side of a round: when it ends the round without
`pthread_exit`, the back-end is a redirector; when it goes on to the response,
`cl_11` says whether the request line, the first line `get_headers` returned,
ends in `1`, `conn_closed` says whether one of the request headers is
`Connection: close`, and `force_10` is the value computed from the listener,
the SSL session and the `User-Agent`. -/
theorem thr_http_request_spec (env : Env) (lstn : LISTENER) (ssl : Option SSL)
    (renv : ReqEnv) (l : Locals) (s : Step) (ob : Option BACKEND)
    (h : thr_http_request env lstn ssl renv l = some (s, ob)) :
    (∀ n l', s = .fin n l' → n ≠ .exit →
      ∃ b0, l'.cur_backend = some b0 ∧ b0.be_type = BE_TYPE.REDIRECTOR) ∧
    (∀ l6, s = .go l6 →
      ∃ b0, ob = some b0 ∧ l6.cur_backend = some b0 ∧
        l6.cl_11 = decide (l6.request.getLast? = some '1') ∧
        l6.force_10 = force_10_of lstn ssl l6.u_agent ∧
        ∃ r hs, get_headers env.MAXBUF env.MAXHEADERS lstn l.cl.src l.cl.snk = some r ∧
          r.headers = some hs ∧ l6.request = hs.headD [] ∧
          l6.conn_closed = hs.tail.any (is_connection_close env)) := by
  unfold thr_http_request at h
  split at h
  · exact absurd h (by simp)
  · next n1 l1 h1 =>
    simp only [Option.some.injEq, Prod.mk.injEq] at h
    obtain ⟨rfl, rfl⟩ := h
    refine ⟨fun n l' e hn => ?_, fun l6 e => (by cases e)⟩
    cases e
    exact absurd ((thr_http_read_request_spec env lstn l _ h1).1 _ _ rfl) hn
  · next l1 h1 =>
    obtain ⟨d1, r1, hr1, hh1⟩ := (thr_http_read_request_spec env lstn l _ h1).2 l1 rfl
    obtain ⟨c1, q1⟩ := thr_http_read_request_client env lstn l l1 h1
    split at h
    · next n2 l2 h2 =>
      simp only [Option.some.injEq, Prod.mk.injEq] at h
      obtain ⟨rfl, rfl⟩ := h
      refine ⟨fun n l' e hn => ?_, fun l6 e => (by cases e)⟩
      cases e
      exact absurd ((thr_http_classify_spec env lstn l1).1 _ _ h2) hn
    · next l2 h2 =>
      obtain ⟨c2, q2⟩ := thr_http_classify_client env lstn l1 l2 h2
      have d2 := (thr_http_classify_spec env lstn l1).2 l2 h2
      split at h
      · next l3 h3 =>
        simp only [Option.some.injEq, Prod.mk.injEq] at h
        obtain ⟨rfl, rfl⟩ := h
        refine ⟨fun n l' e hn => ?_, fun l6 e => (by cases e)⟩
        cases e
        exact absurd rfl hn
      · next backend l3 h3 =>
        obtain ⟨d3, -, hcb3⟩ := thr_http_backend_spec lstn renv l2 backend l3 h3
        obtain ⟨c3, q3⟩ := thr_http_backend_client lstn renv l2 backend l3 h3
        split at h
        · next n4 l4 h4 =>
          simp only [Option.some.injEq, Prod.mk.injEq] at h
          obtain ⟨rfl, rfl⟩ := h
          refine ⟨fun n l' e hn => ?_, fun l6 e => (by cases e)⟩
          cases e
          exact absurd ((thr_http_send_head_spec env lstn ssl backend l3).1 _ _ h4) hn
        · next l4 h4 =>
          have hf4 := (thr_http_send_head_spec env lstn ssl backend l3).2 l4 h4
          obtain ⟨c4, q4, d4⟩ := thr_http_send_head_client env lstn ssl backend l3 l4 h4
          split at h
          · exact absurd h (by simp)
          · next n5 l5 h5 =>
            simp only [Option.some.injEq, Prod.mk.injEq] at h
            obtain ⟨rfl, rfl⟩ := h
            refine ⟨fun n l' e hn => ?_, fun l6 e => (by cases e)⟩
            cases e
            exact absurd ((thr_http_send_body_spec env lstn backend l4 _ h5).1 _ _ rfl) hn
          · next l5 h5 =>
            have hf5 := hf4.trans ((thr_http_send_body_spec env lstn backend l4 _ h5).2 l5 rfl)
            obtain ⟨c5, q5, d5⟩ := thr_http_send_body_client env lstn backend l4 l5 h5
            split at h
            · next n6 l6 h6 =>
              simp only [Option.some.injEq, Prod.mk.injEq] at h
              obtain ⟨rfl, rfl⟩ := h
              refine ⟨fun n l' e hn => ?_, fun l6 e => (by cases e)⟩
              cases e
              obtain ⟨-, e2, e3⟩ := (thr_http_redirect_spec env backend _).1 _ _ h6
              refine ⟨backend, ?_, e3⟩
              rw [e2.2.2.1]
              simp only []
              rw [hf5.2.2.1, hcb3]
            · next l6 h6 =>
              obtain ⟨e1, -⟩ := (thr_http_redirect_spec env backend _).2 _ h6
              simp only [Option.some.injEq, Prod.mk.injEq] at h
              obtain ⟨rfl, rfl⟩ := h
              refine ⟨fun n l' e hn => (by cases e), fun l6' e => ?_⟩
              cases e
              subst e1
              refine ⟨backend, rfl, ?_, ?_, rfl, r1, l1.headers, hr1, hh1, ?_, ?_⟩
              · simp only []
                rw [hf5.2.2.1, hcb3]
              · simp only []
                rw [c5, c4, c3, c2, c1, q5, q4, q3, q2]
              · simp only []
                rw [q5, q4, q3, q2, q1]
              · simp only []
                rw [d5, d4, d3, d2, d1]
                simp

theorem response_headers_client (env : Env) (lstn : LISTENER) (ssl : Option SSL)
    (backend : BACKEND) :
    ∀ (hs : List (List Char)) (l : Locals),
      (response_headers env lstn ssl backend l hs).1.cl_11 = l.cl_11 ∧
        (response_headers env lstn ssl backend l hs).1.request = l.request
  | [], l => by simp [response_headers]
  | h :: hs, l => by
    rw [response_headers]
    obtain ⟨a1, a2⟩ := response_headers_client env lstn ssl backend hs
      (response_header env lstn ssl backend l h).1
    obtain ⟨-, b1, b2, -⟩ := response_header_cont env lstn ssl backend l h
    exact ⟨a1.trans b1, a2.trans b2⟩

theorem response_head_client (env : Env) (lstn : LISTENER) (ssl : Option SSL)
    (backend : BACKEND) (l : Locals) (headers : List (List Char)) :
    (response_head env lstn ssl backend l headers).cl_11 = l.cl_11 ∧
      (response_head env lstn ssl backend l headers).request = l.request := by
  unfold response_head
  simp only []
  exact response_headers_client env lstn ssl backend headers.tail _

theorem thr_http_response_body_client (env : Env) (be : BIO) (l : Locals) (b : Bool)
    (l' : Locals) (h : thr_http_response_body env be l = some (b, l')) :
    l'.cl_11 = (l.cl_11 && !old_style be l) ∧ l'.request = l.request ∧
      l'.conn_closed = l.conn_closed := by
  unfold thr_http_response_body at h
  simp only [] at h
  by_cases h1 : l.be_11 = true ∧ l.chunked = true
  · have ho : old_style be l = false := by
      unfold old_style
      rw [h1.1, h1.2]
      rfl
    rw [if_pos h1] at h
    rw [ho]
    split at h
    · exact absurd h (by simp)
    · split_ifs at h <;>
        (simp only [Option.some.injEq, Prod.mk.injEq] at h; obtain ⟨-, rfl⟩ := h; simp)
  · rw [if_neg h1] at h
    by_cases h2 : l.cont ≥ 0
    · have ho : old_style be l = false := by
        unfold old_style
        have : ¬ (l.cont < 0) := by omega
        simp [this]
      rw [if_pos h2] at h
      rw [ho]
      split at h
      · exact absurd h (by simp)
      · split_ifs at h <;>
          (simp only [Option.some.injEq, Prod.mk.injEq] at h; obtain ⟨-, rfl⟩ := h; simp)
    · rw [if_neg h2] at h
      have hlt : l.cont < 0 := by omega
      have hfr : (!(l.be_11 && l.chunked)) = true := by
        cases hb : l.be_11 <;> cases hc : l.chunked <;> simp_all
      by_cases h3 : l.skip = false
      · rw [if_pos h3] at h
        by_cases h4 : (is_readable be.src).1 = true
        · have ho : old_style be l = true := by
            unfold old_style
            rw [hfr, h3, h4]
            simp [hlt]
          rw [if_pos h4] at h
          rw [ho]
          split at h
          · exact absurd h (by simp)
          · split_ifs at h
            · simp only [Option.some.injEq, Prod.mk.injEq] at h
              obtain ⟨-, rfl⟩ := h
              simp
            · split at h
              · exact absurd h (by simp)
              · split_ifs at h <;>
                  (simp only [Option.some.injEq, Prod.mk.injEq] at h; obtain ⟨-, rfl⟩ := h; simp)
        · have ho : old_style be l = false := by
            unfold old_style
            simp [h4]
          rw [if_neg h4] at h
          rw [ho]
          simp only [Option.some.injEq, Prod.mk.injEq] at h
          obtain ⟨-, rfl⟩ := h
          simp
      · have ho : old_style be l = false := by
          unfold old_style
          simp [h3]
        rw [if_neg h3] at h
        rw [ho]
        simp only [Option.some.injEq, Prod.mk.injEq] at h
        obtain ⟨-, rfl⟩ := h
        simp

theorem response_pass_client (env : Env) (lstn : LISTENER) (ssl : Option SSL)
    (backend : BACKEND) (l : Locals) (o : Option Bool) (l' : Locals)
    (h : response_pass env lstn ssl backend l = some (o, l')) :
    l'.cl_11 = (l.cl_11 && !pass_old_style env lstn ssl backend l) ∧ l'.request = l.request ∧
      (pass_old_style env lstn ssl backend l = true → o ≠ some true) ∧
      l'.conn_closed = (l.conn_closed ||
        (pass_head env lstn l).toList.any (fun hs => hs.tail.any (is_connection_close env))) := by
  unfold response_pass at h
  unfold pass_old_style pass_head
  cases hbe : l.be with
  | none =>
    rw [hbe] at h
    simp only [Option.some.injEq, Prod.mk.injEq] at h
    obtain ⟨-, rfl⟩ := h
    simp [Locals.reply]
  | some be =>
    rw [hbe] at h
    simp only [] at h ⊢
    cases hr : get_headers env.MAXBUF env.MAXHEADERS lstn be.src l.cl.snk with
    | none => rw [hr] at h; exact absurd h (by simp)
    | some r =>
      rw [hr] at h
      simp only [] at h ⊢
      cases hh : r.headers with
      | none =>
        rw [hh] at h
        simp only [Option.some.injEq, Prod.mk.injEq] at h
        obtain ⟨-, rfl⟩ := h
        simp [Locals.reply]
      | some hs =>
        rw [hh] at h
        simp only [] at h ⊢
        obtain ⟨g1, g2⟩ := response_head_client env lstn ssl backend
          { l with be := some { be with src := r.inp }, cl := { l.cl with snk := r.cl } } hs
        have g3 := response_head_conn_closed env lstn ssl backend
          { l with be := some { be with src := r.inp }, cl := { l.cl with snk := r.cl } } hs
        have hloc := send_response_head_locals (response_head env lstn ssl backend
          { l with be := some { be with src := r.inp }, cl := { l.cl with snk := r.cl } } hs)
        generalize send_response_head (response_head env lstn ssl backend
          { l with be := some { be with src := r.inp }, cl := { l.cl with snk := r.cl } } hs) = s
          at h hloc ⊢
        have hc : s.2.cl_11 = l.cl_11 := by rw [hloc]; exact g1
        have hq : s.2.request = l.request := by rw [hloc]; exact g2
        have hd : s.2.conn_closed
            = (l.conn_closed || hs.tail.any (is_connection_close env)) := by
          rw [hloc]; exact g3
        have hlist : (some hs).toList.any (fun hs => hs.tail.any (is_connection_close env))
            = hs.tail.any (is_connection_close env) := by
          simp
        rw [hlist]
        by_cases c1 : s.1 = false
        · rw [if_pos c1] at h
          simp only [Option.some.injEq, Prod.mk.injEq] at h
          obtain ⟨-, rfl⟩ := h
          rw [c1]
          simp [hc, hq, hd]
        · rw [if_neg c1] at h
          have c1' : s.1 = true := by simpa using c1
          by_cases c2 : s.2.no_cont = true
          · rw [if_pos c2] at h
            simp only [Option.some.injEq, Prod.mk.injEq] at h
            obtain ⟨-, rfl⟩ := h
            rw [c2]
            simp [hc, hq, hd]
          · rw [if_neg c2] at h
            have c2' : s.2.no_cont = false := by simpa using c2
            split at h
            · exact absurd h (by simp)
            · next b hb =>
              obtain ⟨e1, e2, e4⟩ := thr_http_response_body_client env _ s.2 b.1 b.2 hb
              have e3 := thr_http_response_body_keeps_skip env _ s.2 b.1 b.2 hb
              have hsk : old_style { be with src := r.inp } s.2 = true → s.2.skip = false := by
                intro ho
                unfold old_style at ho
                cases hs2 : s.2.skip
                · rfl
                · rw [hs2] at ho
                  simp at ho
              rw [c1', c2']
              simp only [Bool.true_and, Bool.not_false]
              split_ifs at h
              · simp only [Option.some.injEq, Prod.mk.injEq] at h
                obtain ⟨rfl, rfl⟩ := h
                exact ⟨by rw [e1, hc], by rw [e2, hq], fun _ => by simp, by rw [e4, hd]⟩
              · simp only [Option.some.injEq, Prod.mk.injEq] at h
                obtain ⟨rfl, rfl⟩ := h
                refine ⟨by rw [e1, hc], by rw [e2, hq], fun ho => ?_, by rw [e4, hd]⟩
                rw [e3, hsk ho]
                simp

theorem thr_http_response_client (env : Env) (lstn : LISTENER) (ssl : Option SSL)
    (backend : BACKEND) :
    ∀ (fuel : Nat) (l : Locals) (s : Step),
      thr_http_response env lstn ssl backend fuel l = some s →
      ∀ n l', (s = .go l' ∨ s = .fin n l') →
        l'.cl_11 = (l.cl_11 && !loop_old_style env lstn ssl backend fuel l) ∧
          l'.request = l.request ∧
          l'.conn_closed = (l.conn_closed ||
            (loop_heads env lstn ssl backend fuel l).any
              (fun hs => hs.tail.any (is_connection_close env))) := by
  intro fuel
  induction fuel with
  | zero => intro l s h; simp [thr_http_response] at h
  | succ fuel ih =>
    intro l s h n l' hs
    rw [thr_http_response] at h
    rw [loop_old_style, loop_heads]
    cases hp : response_pass env lstn ssl backend l with
    | none => rw [hp] at h; exact absurd h (by simp)
    | some p =>
      obtain ⟨o, l1⟩ := p
      obtain ⟨p1, p2, p3, p4⟩ := response_pass_client env lstn ssl backend l o l1 hp
      rw [hp] at h
      cases o with
      | none =>
        simp only [Option.some.injEq] at h
        subst h
        rcases hs with hs | hs
        · cases hs
        · cases hs
          simp only [Bool.or_false, List.append_nil]
          exact ⟨p1, p2, p4⟩
      | some v =>
        cases v with
        | false =>
          simp only [Option.some.injEq] at h
          subst h
          rcases hs with hs | hs
          · cases hs
            simp only [Bool.or_false, List.append_nil]
            exact ⟨p1, p2, p4⟩
          · cases hs
        | true =>
          simp only [] at h
          obtain ⟨q1, q2, q3⟩ := ih l1 s h n l' hs
          have hno : pass_old_style env lstn ssl backend l = false := by
            cases hpo : pass_old_style env lstn ssl backend l
            · rfl
            · exact absurd rfl (p3 hpo)
          simp only [hno, Bool.false_or]
          rw [hno] at p1
          simp only [Bool.not_false, Bool.and_true] at p1
          refine ⟨by rw [q1, p1], by rw [q2, p2], ?_⟩
          rw [q3, p4, List.any_append, Bool.or_assoc]

theorem thr_http_finish_client (l : Locals) :
    (thr_http_finish l).2.cl_11 = l.cl_11 ∧ (thr_http_finish l).2.request = l.request ∧
      (thr_http_finish l).2.conn_closed = l.conn_closed := by
  unfold thr_http_finish
  simp only []
  split <;> exact ⟨rfl, rfl, rfl⟩

/-- C5, as amended: a round that goes to a back-end of type `BACK_END` and does
not end in `pthread_exit` goes on to the next request exactly when at its end
`cl_11` is set and neither `conn_closed` nor `force_10` is; `be_11` is not
part of the decision: when it is 0 the channel to the back-end has been
closed, and the decision is the same.  At the end of the round `cl_11` is set
exactly when the request line, the first line `get_headers` returned for the
request, ends in `1` and no pass of the response loop relayed a body on the
old-style path, the one taken for a response without chunked encoding and
without `Content-Length` on a readable back-end channel; `conn_closed` is set
exactly when a header of the request or of one of the response heads the loop
read is `Connection: close`; and `force_10` is the value computed from the
listener, the SSL session and the `User-Agent`. -/
theorem keep_alive_proxied (env : Env) (lstn : LISTENER) (ssl : Option SSL) (renv : ReqEnv)
    (l : Locals) (n : Next) (l' : Locals) (backend : BACKEND)
    (h : thr_http_round env lstn ssl renv l = some (n, l')) (hn : n ≠ .exit)
    (hb : l'.cur_backend = some backend) (hbt : backend.be_type = BE_TYPE.BACK_END) :
    (n = .again ↔ (l'.cl_11 = true ∧ l'.conn_closed = false ∧ l'.force_10 = false)) ∧
    (l'.be_11 = false → l'.be = none) ∧
    keep_alive { l' with be_11 := !l'.be_11 } = n ∧
    l'.force_10 = force_10_of lstn ssl l'.u_agent ∧
    ∃ r hs l6, get_headers env.MAXBUF env.MAXHEADERS lstn l.cl.src l.cl.snk = some r ∧
      r.headers = some hs ∧
      thr_http_request env lstn ssl renv l = some (.go l6, some backend) ∧
      l'.request = hs.headD [] ∧
      l'.cl_11 = (decide ((hs.headD []).getLast? = some '1') &&
        !loop_old_style env lstn ssl backend
          ((match l6.be with
            | some b => b.src.inp.length
            | none => 0) + 1) l6) ∧
      l'.conn_closed = (hs.tail.any (is_connection_close env) ||
        (loop_heads env lstn ssl backend
          ((match l6.be with
            | some b => b.src.inp.length
            | none => 0) + 1) l6).any (fun hs2 => hs2.tail.any (is_connection_close env))) := by
  obtain ⟨h1, hforce, -, b, hb', hclose⟩ := thr_http_round_spec env lstn ssl renv l n l' h hn
  rw [hb] at hb'
  cases hb'
  refine ⟨?_, hclose hbt, ?_, hforce, ?_⟩
  · rw [h1]; exact keep_alive_again l'
  · rw [h1]; rfl
  rw [thr_http_round_eq] at h
  cases hreq : thr_http_request env lstn ssl renv l with
  | none => rw [hreq] at h; exact absurd h (by simp)
  | some p =>
    obtain ⟨s, ob⟩ := p
    obtain ⟨sp1, sp2⟩ := thr_http_request_spec env lstn ssl renv l s ob hreq
    rw [hreq] at h
    cases s with
    | fin n1 l1 =>
      simp only [Option.some.injEq, Prod.mk.injEq] at h
      obtain ⟨rfl, rfl⟩ := h
      obtain ⟨b0, e1, e2⟩ := sp1 _ _ rfl hn
      rw [hb] at e1
      cases e1
      rw [hbt] at e2
      cases e2
    | go l6 =>
      obtain ⟨b0, rfl, hcb, hc11, -, r, hs, hr, hh, hq, hd⟩ := sp2 l6 rfl
      simp only [] at h
      unfold thr_http_answer at h
      split at h
      · exact absurd h (by simp)
      · next n7 l7 hresp =>
        obtain ⟨-, fr2⟩ := thr_http_response_frame env lstn ssl b0 _ l6 _ hresp
        simp only [Option.some.injEq, Prod.mk.injEq] at h
        obtain ⟨rfl, rfl⟩ := h
        exact absurd (fr2 _ _ rfl).1 hn
      · next l7 hresp =>
        obtain ⟨fr1, -⟩ := thr_http_response_frame env lstn ssl b0 _ l6 _ hresp
        simp only [Option.some.injEq] at h
        obtain ⟨k1, k2, k3⟩ := thr_http_response_client env lstn ssl b0 _ l6 _ hresp Next.exit l7
          (Or.inl rfl)
        obtain ⟨f1, f2, f3⟩ := thr_http_finish_client l7
        obtain ⟨-, ff, -⟩ := thr_http_finish_spec l7
        rw [h] at f1 f2 f3 ff
        simp only [] at f1 f2 f3 ff
        have hcur : l'.cur_backend = some b0 := by
          rw [ff.2.2.1, (fr1 l7 rfl).2.2.1, hcb]
        rw [hb] at hcur
        cases hcur
        rw [hc11, hq] at k1
        rw [hd] at k3
        exact ⟨r, hs, l6, hr, hh, rfl, by rw [f2, k2, hq], f1.trans k1, f3.trans k3⟩

/-- The theorem above on three rounds: an HTTP/1.1 request answered with
`HTTP/1.0 200 OK` and a `Content-Length` (the loop goes on), an HTTP/1.1
request answered with `HTTP/1.1 200 OK` without framing on a readable channel
(the old-style path clears `cl_11` and the loop ends), and an HTTP/1.0 request
(the loop ends). -/
theorem keep_alive_proxied_witness :
    ((Next.again = .again ↔ (http10_round_locals.cl_11 = true ∧
          http10_round_locals.conn_closed = false ∧ http10_round_locals.force_10 = false)) ∧
      (http10_round_locals.be_11 = false → http10_round_locals.be = none) ∧
      keep_alive { http10_round_locals with be_11 := !http10_round_locals.be_11 } = .again ∧
      http10_round_locals.force_10
        = force_10_of sample_lstn none http10_round_locals.u_agent ∧
      ∃ r hs l6, get_headers sample_env.MAXBUF sample_env.MAXHEADERS sample_lstn
          (start_locals "GET /a HTTP/1.1\r\nHost: x\r\n\r\n").cl.src
          (start_locals "GET /a HTTP/1.1\r\nHost: x\r\n\r\n").cl.snk = some r ∧
        r.headers = some hs ∧
        thr_http_request sample_env sample_lstn none
            (sample_renv "HTTP/1.0 200 OK\r\nContent-Length: 2\r\n\r\nhi")
            (start_locals "GET /a HTTP/1.1\r\nHost: x\r\n\r\n")
          = some (.go l6, some sample_backend) ∧
        http10_round_locals.request = hs.headD [] ∧
        http10_round_locals.cl_11
          = (decide ((hs.headD []).getLast? = some '1') &&
            !loop_old_style sample_env sample_lstn none sample_backend
              ((match l6.be with
                | some b => b.src.inp.length
                | none => 0) + 1) l6) ∧
        http10_round_locals.conn_closed = (hs.tail.any (is_connection_close sample_env) ||
          (loop_heads sample_env sample_lstn none sample_backend
            ((match l6.be with
              | some b => b.src.inp.length
              | none => 0) + 1) l6).any
              (fun hs2 => hs2.tail.any (is_connection_close sample_env)))) ∧
    ((Next.stop = .again ↔ (old_style_round_locals.cl_11 = true ∧
          old_style_round_locals.conn_closed = false ∧
          old_style_round_locals.force_10 = false)) ∧
      ∃ r hs l6, get_headers sample_env.MAXBUF sample_env.MAXHEADERS sample_lstn
          (start_locals "GET /a HTTP/1.1\r\nHost: x\r\n\r\n").cl.src
          (start_locals "GET /a HTTP/1.1\r\nHost: x\r\n\r\n").cl.snk = some r ∧
        r.headers = some hs ∧
        thr_http_request sample_env sample_lstn none
            (readable_renv "HTTP/1.1 200 OK\r\n\r\nhello")
            (start_locals "GET /a HTTP/1.1\r\nHost: x\r\n\r\n")
          = some (.go l6, some sample_backend) ∧
        old_style_round_locals.request = hs.headD [] ∧
        old_style_round_locals.cl_11
          = (decide ((hs.headD []).getLast? = some '1') &&
            !loop_old_style sample_env sample_lstn none sample_backend
              ((match l6.be with
                | some b => b.src.inp.length
                | none => 0) + 1) l6)) ∧
    ((Next.stop = .again ↔ (http10_client_round_locals.cl_11 = true ∧
          http10_client_round_locals.conn_closed = false ∧
          http10_client_round_locals.force_10 = false)) ∧
      ∃ r hs l6, get_headers sample_env.MAXBUF sample_env.MAXHEADERS sample_lstn
          (start_locals "GET /a HTTP/1.0\r\nHost: x\r\n\r\n").cl.src
          (start_locals "GET /a HTTP/1.0\r\nHost: x\r\n\r\n").cl.snk = some r ∧
        r.headers = some hs ∧
        thr_http_request sample_env sample_lstn none
            (sample_renv "HTTP/1.0 200 OK\r\nContent-Length: 2\r\n\r\nhi")
            (start_locals "GET /a HTTP/1.0\r\nHost: x\r\n\r\n")
          = some (.go l6, some sample_backend) ∧
        http10_client_round_locals.request = hs.headD [] ∧
        http10_client_round_locals.cl_11
          = (decide ((hs.headD []).getLast? = some '1') &&
            !loop_old_style sample_env sample_lstn none sample_backend
              ((match l6.be with
                | some b => b.src.inp.length
                | none => 0) + 1) l6)) ∧
    [http10_round_locals.cl_11, old_style_round_locals.cl_11,
      decide (old_style_round_locals.request.getLast? = some '1'),
      decide (http10_client_round_locals.request.getLast? = some '1')]
      = [true, false, true, false] :=
  ⟨keep_alive_proxied sample_env sample_lstn none
      (sample_renv "HTTP/1.0 200 OK\r\nContent-Length: 2\r\n\r\nhi")
      (start_locals "GET /a HTTP/1.1\r\nHost: x\r\n\r\n") .again http10_round_locals sample_backend
      (by decide) (by decide) (by decide) (by decide),
   (fun p => ⟨p.1, (fun ⟨r, hs, l6, e1, e2, e3, e4, e5, _⟩ => ⟨r, hs, l6, e1, e2, e3, e4, e5⟩)
      p.2.2.2.2⟩)
    (keep_alive_proxied sample_env sample_lstn none
      (readable_renv "HTTP/1.1 200 OK\r\n\r\nhello")
      (start_locals "GET /a HTTP/1.1\r\nHost: x\r\n\r\n") .stop old_style_round_locals
      sample_backend (by decide) (by decide) (by decide) (by decide)),
   (fun p => ⟨p.1, (fun ⟨r, hs, l6, e1, e2, e3, e4, e5, _⟩ => ⟨r, hs, l6, e1, e2, e3, e4, e5⟩)
      p.2.2.2.2⟩)
    (keep_alive_proxied sample_env sample_lstn none
      (sample_renv "HTTP/1.0 200 OK\r\nContent-Length: 2\r\n\r\nhi")
      (start_locals "GET /a HTTP/1.0\r\nHost: x\r\n\r\n") .stop http10_client_round_locals
      sample_backend (by decide) (by decide) (by decide) (by decide)),
   by decide⟩

end Pound
